import Mathlib

/-! # `GClasses::GFunctionParser` (waffles, `src/GClasses/GFunction.cpp`)

A shallow embedding of the expression language of `GFunction.cpp`: the
tokenizer, the parser that turns a token vector into trees of
`GFunctionNode`s, the registry `m_functions` with its unlink-on-redefinition
protocol, and the evaluator with its lazily filled `m_pFunction` pointers.

Conventions of the embedding.

* `double` is an abstract carrier `α` together with a record `DoubleOps α` of
  the operations the code applies to it (`+`, `pow`, `atof`, `sin`, ...).
  Every theorem stated for all `DoubleOps α` holds for IEEE doubles in
  particular.  `exactOps` interprets the arithmetic over `ℚ`, for the
  statements that name a concrete number.
* The C++ `int`s that index the token vector are never negative and are
  natural numbers here; the nesting counters, which the code decrements
  without a floor, and the result of `findOperatorWithLowestPrecidence`
  (`-1` for "none") are integers.
* A thrown `Ex(...)` is a value of the type `Ex`; reading a `vector` past its
  end and following a pointer to a deleted node (undefined behaviour in C++),
  and recursion deeper than the supplied stack budget, are further values of
  that type so that no definition has to invent a result for them.
* Source text is ASCII, one `Char` per byte.
* The trees are owned values.  `m_pFunction`, the only non-owning pointer, is
  a `NodePtr`: one of the parser's seven operator nodes, or the root of the
  `GFunction` with a given allocation number.
-/

namespace GClasses

/-! ## Errors -/

/-- Every `throw Ex(...)` of the file, with the pieces of its message, and the
three outcomes that are not exceptions in C++. -/
inductive Ex where
  /-- `No identifier named "name" is currently defined`. -/
  | noIdentifier (name : String)
  /-- `The function name expects n parameters. (Trying to call it with k).` -/
  | expectsExactly (name : String) (expected : Int) (got : Nat)
  /-- `The function name expects at least n parameters. (Trying to call it with k.)` -/
  | expectsAtLeast (name : String) (expected : Int) (got : Nat)
  /-- `Unbalanced parentheses`. -/
  | unbalancedParentheses
  /-- `Unrecognized operator: c`. -/
  | unrecognizedOperator (c : Char)
  /-- `Expected something before the operator: tok`. -/
  | expectedBefore (tok : String)
  /-- `Expected something after the operator: tok`. -/
  | expectedAfter (tok : String)
  /-- `Empty expression following ...`. -/
  | emptyExpression (following : String)
  /-- `Pathologically deep nesting`. -/
  | deepNesting
  /-- `Cannot parse symbol: tok`. -/
  | cannotParseSymbol (tok : String)
  /-- `Cannot parse this portion of the expression: s`. -/
  | cannotParsePortion (s : String)
  /-- `Expected a variable name to start with a letter or '_'`. -/
  | expectedVariableName
  /-- `Expected a comma between variable declarations`. -/
  | expectedComma
  /-- `All functions must contain an '='`. -/
  | noEquals
  /-- `All functions must have a name`. -/
  | noName
  /-- `Expected a '(' after name`. -/
  | expectedOpenParen (name : String)
  /-- `Expected a ')' before the '='`. -/
  | expectedCloseParen
  /-- Not an exception: `params[i]` with `i` past the end of the vector. -/
  | outOfRange
  /-- Not an exception: `m_pFunction` points to a root that was deleted. -/
  | dangling
  /-- Not an exception: the recursion went deeper than the stack budget. -/
  | stackExhausted
  deriving DecidableEq, Repr

/-- The two messages of `GFunctionCall::eval` about the number of parameters. -/
def Ex.isArityMismatch : Ex → Bool
  | .expectsExactly _ _ _ => true
  | .expectsAtLeast _ _ _ => true
  | _ => false

/-! ## Doubles -/

/-- The `<math.h>` and `GMath` functions of one argument that the built-ins call. -/
inductive LibmFn where
  | abs | acos | acosh | asin | asinh | atan | atanh | ceil | cos | cosh | erf
  | exp | floor | gamma | logGamma | log | sin | sinh | sqrt | tan | tanh
  deriving DecidableEq, Repr

/-- The operations on `double` that `GFunction.cpp` uses. -/
structure DoubleOps (α : Type) where
  /-- `a + b` -/
  add : α → α → α
  /-- `a - b` -/
  sub : α → α → α
  /-- `a * b` -/
  mul : α → α → α
  /-- `a / b` -/
  div : α → α → α
  /-- `fmod(a, b)` -/
  fmod : α → α → α
  /-- `pow(a, b)` -/
  pow : α → α → α
  /-- `-a` -/
  neg : α → α
  /-- `a < b` -/
  lt : α → α → Bool
  /-- `a >= b` -/
  ge : α → α → Bool
  /-- The value of a decimal literal of the source text (`0.5`, `-1.0`, ...). -/
  lit : ℚ → α
  /-- `atof` of a token. -/
  atof : String → α
  /-- `M_E` -/
  M_E : α
  /-- `M_PI` -/
  M_PI : α
  /-- The one-argument library functions. -/
  libm : LibmFn → α → α
  /-- `GMath::logExp(a, b)` -/
  logExp : α → α → α

/-! ## Nodes -/

/-- The values a `MathFuncFunc` pointer takes: the static members of
`GFunctionBuiltIn`. -/
inductive MathFuncFunc where
  | plus | minus | times | divide | modulus | exponent | negate
  | _abs | _acos | _acosh | _asin | _asinh | _atan | _atanh | _ceil | _cos | _cosh
  | _erf | _floor | _gamma | _ifzero | _ifnegative | _lgamma | _log | _logexp
  | _max | _min | _normal | _sign | _sin | _sinh | _sqrt | _tan | _tanh
  deriving DecidableEq, Repr

/-- A non-null value of `GFunctionCall::m_pFunction`. -/
inductive NodePtr where
  /-- One of `m_pNegate`, `m_pPlus`, ..., the operator nodes the parser owns. -/
  | operator (f : MathFuncFunc)
  /-- The root node of the `GFunction` that was allocated as number `addr`. -/
  | root (addr : Nat)
  deriving DecidableEq, Repr

/-- The four subclasses of `GFunctionNode`.  `m_pFunction = none` is `NULL`. -/
inductive GFunctionNode (α : Type) where
  | GFunctionBuiltIn (m_pFunc : MathFuncFunc)
  | GFunctionCall (m_name : String) (m_pFunction : Option NodePtr)
      (m_children : List (GFunctionNode α))
  | GFunctionVariable (m_index : Nat)
  | GFunctionConstant (m_value : α)
  deriving Repr

/-- A registry entry.  `addr` is the identity of the heap object: every
`new GFunction` gets the next number, so a pointer to a deleted root is never
mistaken for a pointer to a live one. -/
structure GFunction (α : Type) where
  m_pRoot : GFunctionNode α
  m_expectedParams : Int
  addr : Nat
  deriving Repr

/-- The parser object: the `std::map` `m_functions` as an association list with
at most one entry per name, and the allocation counter. -/
structure GFunctionParser (α : Type) where
  m_functions : List (String × GFunction α)
  heapNext : Nat
  deriving Repr

/-! ## The tokenizer -/

namespace GFunctionTokenizer

/-- `GFunctionTokenizer::token_type`. -/
inductive token_type where
  | name | number | symbol
  deriving DecidableEq, Repr

/-- `GFunctionTokenizer::IsNameChar`. -/
def IsNameChar (c : Char) : Bool :=
  ('a'.toNat ≤ c.toNat && c.toNat ≤ 'z'.toNat) || c == '_' ||
    ('A'.toNat ≤ c.toNat && c.toNat ≤ 'Z'.toNat)

/-- `GFunctionTokenizer::IsDigit`. -/
def IsDigit (c : Char) : Bool :=
  '0'.toNat ≤ c.toNat && c.toNat ≤ '9'.toNat

/-- The character at `p[0]` of a C string given as the list of its characters:
the terminating NUL when the list is empty. -/
def peek (p : List Char) : Char := p.headD (Char.ofNat 0)

/-- The `for` loop of `MeasureTokenLength` for a name, started at `m_len = 1`:
how many further characters belong to the token. -/
def measureName : List Char → Nat
  | [] => 0
  | c :: p => if IsNameChar c || IsDigit c then measureName p + 1 else 0

/-- The `for` loop of `MeasureTokenLength` for a number, started at `m_len = 1`
on the characters from `m_pNext[1]` on: how many further characters belong to
the token. -/
def measureNumber : List Char → Nat → Nat → Nat
  | [], _, _ => 0
  | c :: p, decimals, exps =>
    if IsDigit c then measureNumber p decimals exps + 1
    else if c == '.' && decimals == 0 && exps == 0 then measureNumber p (decimals + 1) exps + 1
    else if c == 'e' && IsDigit (peek p) && exps == 0 then measureNumber p decimals (exps + 1) + 1
    else 0

/-- `MeasureTokenLength`, on the characters from `m_pNext` on (not empty):
`m_len` and `m_type`. -/
def MeasureTokenLength : List Char → Nat × token_type
  | [] => (1, token_type.symbol)
  | c :: p =>
    if IsNameChar c then (measureName p + 1, token_type.name)
    else if IsDigit c || c == '.' then
      (measureNumber p (if c == '.' then 1 else 0) 0 + 1, token_type.number)
    else (1, token_type.symbol)

/-- The `while` loop of `Next` that skips the bytes `<= ' '`. -/
def skipSpace : List Char → List Char
  | [] => []
  | c :: p => if c.toNat ≤ ' '.toNat then skipSpace p else c :: p

/-- `Next`, on the characters that follow the previous token: `none` when the
input is exhausted, else the token (`string(m_pNext, m_len)`), its type and
the characters that follow it. -/
def Next (p : List Char) : Option (String × token_type × List Char) :=
  match skipSpace p with
  | [] => none
  | q =>
    let m := MeasureTokenLength q
    some (String.mk (q.take m.1), m.2, q.drop m.1)

end GFunctionTokenizer

open GFunctionTokenizer

/-- The `while(tokenizer.Next())` loop of `GFunctionParser::add`.  Every token
has at least one character, so `n` iterations suffice for `n` characters. -/
def tokenizeLoop : Nat → List Char → List String → List String
  | 0, _, tokens => tokens
  | n + 1, p, tokens =>
    match Next p with
    | none => tokens
    | some (tok, _, rest) => tokenizeLoop n rest (tokens ++ [tok])

/-- The token vector `GFunctionParser::add` builds from `szEquations`, a C
string: the text up to its first NUL. -/
def tokenize (szEquations : String) : List String :=
  let p := szEquations.data.takeWhile (fun c => c != Char.ofNat 0)
  tokenizeLoop p.length p []

/-! ## The registry -/

/-- `GFunctionCall::unlink`, `GFunctionBuiltIn::unlink`,
`GFunctionVariable::unlink` and `GFunctionConstant::unlink`: the tree after
`unlink(szName)`. -/
def GFunctionNode.unlink {α : Type} (szName : String) : GFunctionNode α → GFunctionNode α
  | .GFunctionCall m_name m_pFunction m_children =>
    .GFunctionCall m_name (if m_name == szName then none else m_pFunction)
      (unlinkChildren szName m_children)
  | n => n
where
  /-- The loop of `GFunctionCall::unlink` over `m_children`. -/
  unlinkChildren {α : Type} (szName : String) : List (GFunctionNode α) → List (GFunctionNode α)
    | [] => []
    | c :: cs => GFunctionNode.unlink szName c :: unlinkChildren szName cs

/-- The tree with every pointer to a root cleared and the pointers to the
operator nodes kept: what the tree is apart from its cache. -/
def GFunctionNode.skeleton {α : Type} : GFunctionNode α → GFunctionNode α
  | .GFunctionCall m_name m_pFunction m_children =>
    .GFunctionCall m_name
      (match m_pFunction with
        | some (.operator f) => some (.operator f)
        | _ => none)
      (skeletonChildren m_children)
  | n => n
where
  /-- The skeletons of the children. -/
  skeletonChildren {α : Type} : List (GFunctionNode α) → List (GFunctionNode α)
    | [] => []
    | c :: cs => GFunctionNode.skeleton c :: skeletonChildren cs

/-- What an entry of the registry is apart from the cache in its tree: its
name, number of parameters, identity and the skeleton of its tree. -/
def GFunction.signature {α : Type} (e : String × GFunction α) :
    String × Int × Nat × GFunctionNode α :=
  (e.1, e.2.m_expectedParams, e.2.addr, e.2.m_pRoot.skeleton)

/-- What the registry is apart from the caches in its trees. -/
def GFunctionParser.signature {α : Type} (P : GFunctionParser α) :
    List (String × Int × Nat × GFunctionNode α) × Nat :=
  (P.m_functions.map GFunction.signature, P.heapNext)

namespace GFunctionParser

variable {α : Type}

/-- `GFunctionParser::getFunctionNoThrow`. -/
def getFunctionNoThrow (P : GFunctionParser α) (name : String) : Option (GFunction α) :=
  P.m_functions.lookup name

/-- `GFunctionParser::getFunction`. -/
def getFunction (P : GFunctionParser α) (name : String) : Except Ex (GFunction α) :=
  match P.getFunctionNoThrow name with
  | none => .error (.noIdentifier name)
  | some pFunc => .ok pFunc

/-- The assignment `m_functions[name] = pFunc` of a `std::map`. -/
def mapSet (fs : List (String × GFunction α)) (name : String) (pFunc : GFunction α) :
    List (String × GFunction α) :=
  match fs with
  | [] => [(name, pFunc)]
  | (k, v) :: rest => if k == name then (name, pFunc) :: rest else (k, v) :: mapSet rest name pFunc

/-- `GFunctionParser::addFunction`.  (`onOverride` is a hook of the class
declaration with nothing to do here.) -/
def addFunction (P : GFunctionParser α) (name : String) (pRoot : GFunctionNode α)
    (expectedParams : Int) : GFunctionParser α :=
  let fs :=
    match P.getFunctionNoThrow name with
    | some _ => P.m_functions.map (fun e => (e.1, { e.2 with m_pRoot := e.2.m_pRoot.unlink name }))
    | none => P.m_functions
  { m_functions := mapSet fs name
      { m_pRoot := pRoot, m_expectedParams := expectedParams, addr := P.heapNext },
    heapNext := P.heapNext + 1 }

/-- The `GFunction` a root pointer points to, if it is still allocated. -/
def deref (P : GFunctionParser α) (addr : Nat) : Option (GFunction α) :=
  (P.m_functions.find? (fun e => e.2.addr == addr)).map (fun e => e.2)

/-- The registry with `pRoot` as the root of the `GFunction` number `addr`
(the one `deref` finds). -/
def storeRootIn : List (String × GFunction α) → Nat → GFunctionNode α →
    List (String × GFunction α)
  | [], _, _ => []
  | e :: es, addr, pRoot =>
    if e.2.addr == addr then (e.1, { e.2 with m_pRoot := pRoot }) :: es
    else e :: storeRootIn es addr pRoot

/-- Store a tree back as the root of the `GFunction` number `addr`: the effect
on the registry of the assignments to `m_pFunction` made inside that tree. -/
def storeRoot (P : GFunctionParser α) (addr : Nat) (pRoot : GFunctionNode α) :
    GFunctionParser α :=
  { P with m_functions := storeRootIn P.m_functions addr pRoot }

end GFunctionParser

/-! ## Evaluation -/

section Eval

variable {α : Type} (A : DoubleOps α)

/-- `params[i]`. -/
def param (params : List α) (i : Nat) : Except Ex α :=
  match params.get? i with
  | some v => .ok v
  | none => .error .outOfRange

/-- The loop of `_max` and `_min` over the parameters after the first. -/
def foldParams (f : α → α → α) : α → List α → α
  | d, [] => d
  | d, x :: xs => foldParams f (f d x) xs

/-- `std::max(a, b)`. -/
def DoubleOps.max (a b : α) : α := if A.lt a b then b else a

/-- `std::min(a, b)`. -/
def DoubleOps.min (a b : α) : α := if A.lt b a then b else a

/-- A static member that reads `params[0]` only. -/
def unary (g : α → α) (params : List α) : Except Ex α :=
  match param params 0 with
  | .error e => .error e
  | .ok a => .ok (g a)

/-- A static member that reads `params[0]` and `params[1]`. -/
def binary (g : α → α → α) (params : List α) : Except Ex α :=
  match param params 0 with
  | .error e => .error e
  | .ok a =>
    match param params 1 with
    | .error e => .error e
    | .ok b => .ok (g a b)

/-- A static member `c(params[0]) ? params[1] : params[2]`. -/
def ternary (c : α → Bool) (params : List α) : Except Ex α :=
  match param params 0 with
  | .error e => .error e
  | .ok a => if c a then param params 1 else param params 2

/-- `GFunctionBuiltIn::eval`: the static member `f` applied to `params`. -/
def GFunctionBuiltIn.eval (f : MathFuncFunc) (params : List α) : Except Ex α :=
  match f with
  | .plus => binary A.add params
  | .minus => binary A.sub params
  | .times => binary A.mul params
  | .divide => binary A.div params
  | .modulus => binary A.fmod params
  | .exponent => binary A.pow params
  | .negate => unary A.neg params
  | ._abs => unary (A.libm .abs) params
  | ._acos => unary (A.libm .acos) params
  | ._acosh => unary (A.libm .acosh) params
  | ._asin => unary (A.libm .asin) params
  | ._asinh => unary (A.libm .asinh) params
  | ._atan => unary (A.libm .atan) params
  | ._atanh => unary (A.libm .atanh) params
  | ._ceil => unary (A.libm .ceil) params
  | ._cos => unary (A.libm .cos) params
  | ._cosh => unary (A.libm .cosh) params
  | ._erf => unary (A.libm .erf) params
  | ._floor => unary (A.libm .floor) params
  | ._gamma => unary (A.libm .gamma) params
  | ._ifzero => ternary (fun a => A.lt (A.libm .abs a) (A.lit (1 / 2))) params
  | ._ifnegative => ternary (fun a => A.lt a (A.lit 0)) params
  | ._lgamma => unary (A.libm .logGamma) params
  | ._log => unary (A.libm .log) params
  | ._logexp => binary A.logExp params
  | ._max =>
    match params with
    | [] => .error .outOfRange
    | d :: rest => .ok (foldParams A.max d rest)
  | ._min =>
    match params with
    | [] => .error .outOfRange
    | d :: rest => .ok (foldParams A.min d rest)
  | ._normal =>
    unary (fun a =>
      A.mul (A.lit (39894228 / 100000000)) (A.libm .exp (A.mul (A.mul (A.lit (-1 / 2)) a) a)))
      params
  | ._sign => unary (fun a => if A.ge a (A.lit 0) then A.lit 1 else A.lit (-1)) params
  | ._sin => unary (A.libm .sin) params
  | ._sinh => unary (A.libm .sinh) params
  | ._sqrt => unary (A.libm .sqrt) params
  | ._tan => unary (A.libm .tan) params
  | ._tanh => unary (A.libm .tanh) params

/-- The test of `GFunctionCall::eval` on the number of children against
`pFunc->m_expectedParams`. -/
def checkParams (m_name : String) (children : Nat) (m_expectedParams : Int) : Except Ex Unit :=
  if m_expectedParams ≥ 0 then
    if (children : Int) ≠ m_expectedParams then
      .error (.expectsExactly m_name m_expectedParams children)
    else .ok ()
  else
    if (children : Int) < -m_expectedParams - 1 then
      .error (.expectsAtLeast m_name (-m_expectedParams - 1) children)
    else .ok ()

/-- The body of `if(!m_pFunction)` in `GFunctionCall::eval`: look the name up,
check the number of children, and give the pointer to store in `m_pFunction`. -/
def bind (P : GFunctionParser α) (m_name : String) (children : Nat) : Except Ex NodePtr :=
  match P.getFunction m_name with
  | .error e => .error e
  | .ok pFunc =>
    match checkParams m_name children pFunc.m_expectedParams with
    | .error e => .error e
    | .ok _ => .ok (.root pFunc.addr)

/-- What one evaluation leaves behind: the result or the exception, the node
with the pointers it has stored, and the parser with the pointers stored in
the trees it owns. -/
abbrev Outcome (α : Type) (ρ : Type) (β : Type) := Except Ex ρ × β × GFunctionParser α

/-- The first loop of `GFunctionCall::eval`: evaluate the children in order
into `m_params`; an exception leaves the later children untouched. -/
def evalChildren (ev : GFunctionParser α → GFunctionNode α → Outcome α α (GFunctionNode α)) :
    GFunctionParser α → List (GFunctionNode α) → Outcome α (List α) (List (GFunctionNode α))
  | P, [] => (.ok [], [], P)
  | P, c :: cs =>
    match ev P c with
    | (.error e, c', P') => (.error e, c' :: cs, P')
    | (.ok v, c', P') =>
      match evalChildren ev P' cs with
      | (.error e, cs', P'') => (.error e, c' :: cs', P'')
      | (.ok vs, cs', P'') => (.ok (v :: vs), c' :: cs', P'')

/-- The virtual `eval(params, parser)` of the four node classes.

The node is passed by value and comes back with the pointers that the
evaluation stored in it; a root that is entered through a pointer is taken
from the registry and stored back.  The first argument bounds the depth of
the recursion (the C++ stack).  A tree that is entered again while one of its
own nodes is still being evaluated recurses without end in the source, since
every child and the callee are always evaluated; such a run ends here with
`stackExhausted` for every bound. -/
def GFunctionNode.eval : Nat → GFunctionParser α → GFunctionNode α → List α →
    Outcome α α (GFunctionNode α)
  | 0, P, n, _ => (.error .stackExhausted, n, P)
  | depth + 1, P, n, params =>
    match n with
    | .GFunctionBuiltIn m_pFunc => (GFunctionBuiltIn.eval A m_pFunc params, n, P)
    | .GFunctionVariable m_index => (param params m_index, n, P)
    | .GFunctionConstant m_value => (.ok m_value, n, P)
    | .GFunctionCall m_name m_pFunction m_children =>
      match evalChildren (fun P c => GFunctionNode.eval depth P c params) P m_children with
      | (.error e, cs, P1) => (.error e, .GFunctionCall m_name m_pFunction cs, P1)
      | (.ok m_params, cs, P1) =>
        let bound : Except Ex NodePtr :=
          match m_pFunction with
          | some p => .ok p
          | none => bind P1 m_name m_children.length
        match bound with
        | .error e => (.error e, .GFunctionCall m_name m_pFunction cs, P1)
        | .ok p =>
          let this := GFunctionNode.GFunctionCall m_name (some p) cs
          match p with
          | .operator f => (GFunctionBuiltIn.eval A f m_params, this, P1)
          | .root addr =>
            match P1.deref addr with
            | none => (.error .dangling, this, P1)
            | some pFunc =>
              match GFunctionNode.eval depth P1 pFunc.m_pRoot m_params with
              | (r, pRoot, P2) => (r, this, P2.storeRoot addr pRoot)

/-- `GFunction::call`, for the `GFunction` `pFunc` of the registry of `P`. -/
def GFunction.call (depth : Nat) (pFunc : GFunction α) (params : List α)
    (P : GFunctionParser α) : Except Ex α × GFunctionParser α :=
  match GFunctionNode.eval A depth P pFunc.m_pRoot params with
  | (r, pRoot, P') => (r, P'.storeRoot pFunc.addr pRoot)

/-- The sequence `parser.getFunction(name)->call(params, parser)` of the
callers of the class. -/
def GFunctionParser.call (depth : Nat) (P : GFunctionParser α) (name : String)
    (params : List α) : Except Ex α × GFunctionParser α :=
  match P.getFunction name with
  | .error e => (.error e, P)
  | .ok pFunc => GFunction.call A depth pFunc params P

end Eval

/-! ## The parser -/

/-- `tokens[i]` of the token vector. -/
def tokenAt (tokens : List String) (i : Nat) : String := tokens.getD i ""

/-- `tok[0]` of a `std::string`: its first character, NUL when it is empty. -/
def firstChar (tok : String) : Char := peek tok.data

section Parse

variable {α : Type} (A : DoubleOps α)

/-- The `for` loop of `findOperatorWithLowestPrecidence`: `n` iterations are
left, `i` is the loop variable. -/
def findOperatorLoop (tokens : List String) (start : Nat) :
    Nat → Nat → Int → Int → Int → Except Ex Int
  | 0, _, _, token, _ => .ok token
  | n + 1, i, priority, token, nests =>
    let tok := tokenAt tokens (start + i)
    if tok == "(" then findOperatorLoop tokens start n (i + 1) priority token (nests + 1)
    else if tok == ")" then
      if (i : Int) < 0 then .error .unbalancedParentheses
      else findOperatorLoop tokens start n (i + 1) priority token (nests - 1)
    else if nests == 0 then
      let c := firstChar tok
      if IsNameChar c then findOperatorLoop tokens start n (i + 1) priority token nests
      else if IsDigit c || c == '.' then findOperatorLoop tokens start n (i + 1) priority token nests
      else
        let before := firstChar (tokenAt tokens (start + i - 1))
        if c == '-' && (i == 0 ||
            (!IsDigit before && !IsNameChar before && before != ')' && before != '.')) then
          if priority ≥ 16 then findOperatorLoop tokens start n (i + 1) 16 (start + i : Nat) nests
          else findOperatorLoop tokens start n (i + 1) priority token nests
        else if c == '^' then
          if priority ≥ 12 then findOperatorLoop tokens start n (i + 1) 12 (start + i : Nat) nests
          else findOperatorLoop tokens start n (i + 1) priority token nests
        else if c == '*' || c == '/' || c == '%' then
          if priority ≥ 8 then findOperatorLoop tokens start n (i + 1) 8 (start + i : Nat) nests
          else findOperatorLoop tokens start n (i + 1) priority token nests
        else if c == '+' || c == '-' then
          if priority ≥ 4 then findOperatorLoop tokens start n (i + 1) 4 (start + i : Nat) nests
          else findOperatorLoop tokens start n (i + 1) priority token nests
        else .error (.unrecognizedOperator c)
    else findOperatorLoop tokens start n (i + 1) priority token nests

/-- `GFunctionParser::findOperatorWithLowestPrecidence`. -/
def findOperatorWithLowestPrecidence (tokens : List String) (start count : Nat) :
    Except Ex Int :=
  findOperatorLoop tokens start count 0 100 (-1) 0

/-- A `GFunctionCall` constructed on one of the parser's operator nodes, with
the children added by `AddChild`.  Its `m_name` is the empty string. -/
def operatorCall (f : MathFuncFunc) (children : List (GFunctionNode α)) : GFunctionNode α :=
  .GFunctionCall "" (some (.operator f)) children

/-- `GFunctionParser::parseMathOperator`; `parseFunctionBody start count depth`
is the recursive call. -/
def parseMathOperator
    (parseFunctionBody : Nat → Nat → Nat → Except Ex (GFunctionNode α))
    (tokens : List String) (start count index depth : Nat) : Except Ex (GFunctionNode α) := do
  let pLeft ←
    if index > start then (parseFunctionBody start (index - start) depth).map some
    else pure none
  let pRight ←
    if index < start + count - 1 then
      (parseFunctionBody (index + 1) (start + count - index - 1) depth).map some
    else pure none
  match pLeft, pRight with
  | none, some r =>
    if tokenAt tokens index == "-" then pure (operatorCall .negate [r])
    else throw (.expectedBefore (tokenAt tokens index))
  | none, none => throw (.expectedBefore (tokenAt tokens index))
  | some _, none => throw (.expectedAfter (tokenAt tokens index))
  | some l, some r =>
    let c := firstChar (tokenAt tokens index)
    if c == '^' then pure (operatorCall .exponent [l, r])
    else if c == '*' then pure (operatorCall .times [l, r])
    else if c == '/' then pure (operatorCall .divide [l, r])
    else if c == '%' then pure (operatorCall .modulus [l, r])
    else if c == '+' then pure (operatorCall .plus [l, r])
    else if c == '-' then pure (operatorCall .minus [l, r])
    else throw (.unrecognizedOperator c)

/-- The `for` loop of `parseCommaSeparatedChildren`: `n` iterations are left,
`i` is the loop variable, `children` what `AddChild` has collected. -/
def commaLoop
    (parseFunctionBody : Nat → Nat → Nat → Except Ex (GFunctionNode α))
    (tokens : List String) (start depth : Nat) :
    Nat → Nat → Nat → Int → List (GFunctionNode α) → Except Ex (Nat × List (GFunctionNode α))
  | 0, _, childBegin, _, children => .ok (childBegin, children)
  | n + 1, i, childBegin, nests, children =>
    let tok := tokenAt tokens (start + i)
    if tok == "(" then
      commaLoop parseFunctionBody tokens start depth n (i + 1) childBegin (nests + 1) children
    else if tok == ")" then
      if (i : Int) < 0 then .error .unbalancedParentheses
      else commaLoop parseFunctionBody tokens start depth n (i + 1) childBegin (nests - 1) children
    else if nests == 0 && tok == "," then
      match parseFunctionBody childBegin (start + i - childBegin) depth with
      | .error e => .error e
      | .ok child =>
        commaLoop parseFunctionBody tokens start depth n (i + 1) (start + i + 1) nests
          (children ++ [child])
    else commaLoop parseFunctionBody tokens start depth n (i + 1) childBegin nests children

/-- `GFunctionParser::parseCommaSeparatedChildren`: the children added to
`pFunc`. -/
def parseCommaSeparatedChildren
    (parseFunctionBody : Nat → Nat → Nat → Except Ex (GFunctionNode α))
    (tokens : List String) (start count depth : Nat) : Except Ex (List (GFunctionNode α)) := do
  let (childBegin, children) ← commaLoop parseFunctionBody tokens start depth count 0 start 0 []
  let last ← parseFunctionBody childBegin (start + count - childBegin) depth
  pure (children ++ [last])

/-- `GFunctionParser_joinTokens`. -/
def GFunctionParser_joinTokens (tokens : List String) (start : Nat) : String :=
  (tokens.take start).foldl (fun s tok => s ++ tok) ""

/-- The loop of `parseFunctionBody` that looks for the parenthesis closing the
one at `tokens[start]`: `n` iterations are left; the result is the value of
`i` when the loop ends. -/
def enclosingLoop (tokens : List String) (start : Nat) : Nat → Nat → Int → Nat
  | 0, i, _ => i
  | n + 1, i, dep =>
    if tokenAt tokens (start + i) == "(" then enclosingLoop tokens start n (i + 1) (dep + 1)
    else if tokenAt tokens (start + i) == ")" then
      if dep - 1 == 0 then i else enclosingLoop tokens start n (i + 1) (dep - 1)
    else enclosingLoop tokens start n (i + 1) dep

/-- The loop of `parseFunctionBody` over the vector `variables` (here `vars`):
the index of the first variable equal to `tok`. -/
def findVariable (vars : List String) (tok : String) : Option Nat :=
  match vars.indexOf? tok with
  | some i => some i
  | none => none

/-- `GFunctionParser::parseFunctionBody`.  Every recursive call is made with a
larger `depth` and `depth > 10000` throws, so the calls nest at most 10002
deep (the depths 0 to 10001, the last one throwing); the first argument is
that bound, and `stackExhausted` cannot be the result when it is at least
`10002 - depth`. -/
def parseFunctionBody (vars : List String) (tokens : List String) :
    Nat → Nat → Nat → Nat → Except Ex (GFunctionNode α)
  | 0, _, _, _ => .error .stackExhausted
  | bound + 1, start, count, depth =>
    if depth > 10000 then .error .deepNesting
    else if count ≤ 0 then .error (.emptyExpression (GFunctionParser_joinTokens tokens start))
    else if tokenAt tokens start == "(" && tokenAt tokens (start + count - 1) == ")" &&
        enclosingLoop tokens start (count - 2) 1 1 ≥ count - 1 then
      parseFunctionBody vars tokens bound (start + 1) (count - 2) (depth + 1)
    else if count == 1 then
      let c := firstChar (tokenAt tokens start)
      if IsNameChar c then
        match findVariable vars (tokenAt tokens start) with
        | some i => .ok (.GFunctionVariable i)
        | none => .ok (.GFunctionCall (tokenAt tokens start) none [])
      else
        if !IsDigit c && c != '.' then .error (.cannotParseSymbol (tokenAt tokens start))
        else .ok (.GFunctionConstant (A.atof (tokenAt tokens start)))
    else
      match findOperatorWithLowestPrecidence tokens start count with
      | .error e => .error e
      | .ok index =>
        if index ≥ 0 then
          parseMathOperator (parseFunctionBody vars tokens bound) tokens start count
            index.toNat (depth + 1)
        else
          if count < 3 || tokenAt tokens (start + 1) != "(" ||
              tokenAt tokens (start + count - 1) != ")" then
            .error (.cannotParsePortion
              (((tokens.drop start).take count).foldl (fun s tok => s ++ tok) ""))
          else
            match parseCommaSeparatedChildren (parseFunctionBody vars tokens bound) tokens
                (start + 2) (count - 3) (depth + 1) with
            | .error e => .error e
            | .ok children => .ok (.GFunctionCall (tokenAt tokens start) none children)

/-- The depth bound with which `parseFunction` enters `parseFunctionBody` at
`depth = 0`: one call for each of the depths 0 to 10001. -/
def bodyBound : Nat := 10002

/-- `parseFunctionBody` as the recursion that `parseFunction` starts reaches
it at `depth`: with the depth bound that is left there. -/
def parseWindow (vars : List String) (tokens : List String) (start count depth : Nat) :
    Except Ex (GFunctionNode α) :=
  parseFunctionBody A vars tokens (bodyBound - depth) start count depth

/-- The `for` loop of `parseVariableNames`, whose body increments `i` a second
time: `n` bounds the iterations that are left. -/
def variableLoop (tokens : List String) (start count : Nat) :
    Nat → Nat → List String → Except Ex (List String)
  | 0, _, vars => .ok vars
  | n + 1, i, vars =>
    if i < count then
      if !IsNameChar (firstChar (tokenAt tokens (start + i))) then .error .expectedVariableName
      else if i + 1 < count && tokenAt tokens (start + i + 1) != "," then .error .expectedComma
      else variableLoop tokens start count n (i + 2) (vars ++ [tokenAt tokens (start + i)])
    else .ok vars

/-- `GFunctionParser::parseVariableNames`, on the empty vector `variables` of
`parseFunction`. -/
def parseVariableNames (tokens : List String) (start count : Nat) : Except Ex (List String) :=
  variableLoop tokens start count count 0 []

/-- The loop of `parseFunction` that finds the `=`: `n` iterations are left;
the result is `equalPos`. -/
def equalLoop (tokens : List String) (start : Nat) : Nat → Nat → Nat
  | 0, equalPos => equalPos
  | n + 1, equalPos =>
    if tokenAt tokens (start + equalPos) == "=" then equalPos
    else equalLoop tokens start n (equalPos + 1)

/-- `GFunctionParser::parseFunction`: the parser after the statement, or the
exception; an exception is thrown before the registry is touched. -/
def GFunctionParser.parseFunction (P : GFunctionParser α) (tokens : List String)
    (start count : Nat) : Except Ex (GFunctionParser α) :=
  if count == 0 then .ok P
  else
    let equalPos := equalLoop tokens start count 0
    if equalPos ≥ count then .error .noEquals
    else if equalPos == 0 then .error .noName
    else
      let szFunctionName := tokenAt tokens start
      let parsed : Except Ex (List String) :=
        if equalPos > 1 then
          if tokenAt tokens (start + 1) != "(" then .error (.expectedOpenParen szFunctionName)
          else if tokenAt tokens (start + equalPos - 1) != ")" then .error .expectedCloseParen
          else parseVariableNames tokens (start + 2) (equalPos - 3)
        else .ok []
      match parsed with
      | .error e => .error e
      | .ok vars =>
        match parseFunctionBody A vars tokens bodyBound (start + equalPos + 1)
            (count - (equalPos + 1)) 0 with
        | .error e => .error e
        | .ok pRoot => .ok (P.addFunction szFunctionName pRoot vars.length)

/-- The `for` loop of `parseFunctionList`: `n` iterations are left, `i` is the
loop variable.  An exception leaves the parser as the statements before it
made it. -/
def functionListLoop (tokens : List String) :
    Nat → Nat → Nat → GFunctionParser α → Except Ex Nat × GFunctionParser α
  | 0, _, start, P => (.ok start, P)
  | n + 1, i, start, P =>
    if tokenAt tokens i == ";" then
      match P.parseFunction A tokens start (i - start) with
      | .error e => (.error e, P)
      | .ok P' => functionListLoop tokens n (i + 1) (i + 1) P'
    else functionListLoop tokens n (i + 1) start P

/-- `GFunctionParser::parseFunctionList`. -/
def GFunctionParser.parseFunctionList (P : GFunctionParser α) (tokens : List String) :
    Except Ex Unit × GFunctionParser α :=
  match functionListLoop A tokens tokens.length 0 0 P with
  | (.error e, P') => (.error e, P')
  | (.ok start, P') =>
    match P'.parseFunction A tokens start (tokens.length - start) with
    | .error e => (.error e, P')
    | .ok P'' => (.ok (), P'')

/-- `GFunctionParser::add`: whether it returned or threw, and the parser it
leaves. -/
def GFunctionParser.add (P : GFunctionParser α) (szEquations : String) :
    Except Ex Unit × GFunctionParser α :=
  P.parseFunctionList A (tokenize szEquations)

/-- The constructor `GFunctionParser::GFunctionParser()`: the calls of
`addFunction` in their order; `windows` is whether `WINDOWS` is defined. -/
def GFunctionParser.ctor ( windows : Bool) : GFunctionParser α :=
  let b (f : MathFuncFunc) : GFunctionNode α := .GFunctionBuiltIn f
  let posix (P : GFunctionParser α) (name : String) (f : MathFuncFunc) : GFunctionParser α :=
    if windows then P else P.addFunction name (b f) 1
  let P : GFunctionParser α := { m_functions := [], heapNext := 0 }
  let P := P.addFunction "e" (.GFunctionConstant A.M_E) 0
  let P := P.addFunction "pi" (.GFunctionConstant A.M_PI) 0
  let P := P.addFunction "abs" (b ._abs) 1
  let P := P.addFunction "acos" (b ._acos) 1
  let P := posix P "acosh" ._acosh
  let P := P.addFunction "asin" (b ._asin) 1
  let P := posix P "asinh" ._asinh
  let P := P.addFunction "atan" (b ._atan) 1
  let P := posix P "atanh" ._atanh
  let P := P.addFunction "ceil" (b ._ceil) 1
  let P := P.addFunction "cos" (b ._cos) 1
  let P := P.addFunction "cosh" (b ._cosh) 1
  let P := posix P "erf" ._erf
  let P := P.addFunction "floor" (b ._floor) 1
  let P := P.addFunction "ifzero" (b ._ifzero) 3
  let P := P.addFunction "ifnegative" (b ._ifnegative) 3
  let P := P.addFunction "gamma" (b ._gamma) 1
  let P := P.addFunction "lgamma" (b ._lgamma) 1
  let P := P.addFunction "log" (b ._log) 1
  let P := P.addFunction "logexp" (b ._logexp) 2
  let P := P.addFunction "max" (b ._max) (-2)
  let P := P.addFunction "min" (b ._min) (-2)
  let P := P.addFunction "normal" (b ._normal) 1
  let P := P.addFunction "sign" (b ._sign) 1
  let P := P.addFunction "sin" (b ._sin) 1
  let P := P.addFunction "sinh" (b ._sinh) 1
  let P := P.addFunction "sqrt" (b ._sqrt) 1
  let P := P.addFunction "tan" (b ._tan) 1
  let P := P.addFunction "tanh" (b ._tanh) 1
  P

end Parse

/-! ## Exact arithmetic

The operators `+ - * /`, `fmod`, `pow` with an integer exponent, `abs`, `ceil`,
`floor`, the comparisons and `atof` have values in `ℚ` on arguments in `ℚ`
(division and `fmod` by a non-zero number).  `exactOps` computes them; what
has no value in `ℚ` is taken from a record `Inexact`. -/

/-- The operations of `DoubleOps` that leave `ℚ`. -/
structure Inexact where
  pow : ℚ → ℚ → ℚ
  M_E : ℚ
  M_PI : ℚ
  libm : LibmFn → ℚ → ℚ
  logExp : ℚ → ℚ → ℚ

/-- The number a run of decimal digits denotes after the digits read so far,
the count of digits read, and the characters after the run. -/
def readDigits : List Char → Nat → Nat → Nat × Nat × List Char
  | [], acc, n => (acc, n, [])
  | c :: p, acc, n =>
    if IsDigit c then readDigits p (acc * 10 + (c.toNat - '0'.toNat)) (n + 1)
    else (acc, n, c :: p)

/-- `atof` on a token of the shape the tokenizer gives a number: digits, then
optionally `.` and digits, then optionally `e` and at least one digit. -/
def atofExact (tok : String) : ℚ :=
  let (ip, _, r1) := readDigits tok.data 0 0
  let (fp, fl, r2) :=
    match r1 with
    | '.' :: p => readDigits p 0 0
    | _ => (0, 0, r1)
  let ex :=
    match r2 with
    | 'e' :: p => (readDigits p 0 0).1
    | _ => 0
  ((ip : ℚ) + (fp : ℚ) / (10 : ℚ) ^ fl) * (10 : ℚ) ^ ex

/-- Truncation toward zero. -/
def truncExact (q : ℚ) : ℤ := if 0 ≤ q then ⌊q⌋ else ⌈q⌉

/-- Exact arithmetic over `ℚ`. -/
def exactOps (T : Inexact) : DoubleOps ℚ where
  add a b := a + b
  sub a b := a - b
  mul a b := a * b
  div a b := a / b
  fmod a b := a - b * truncExact (a / b)
  pow a b :=
    if b.den = 1 then (if 0 ≤ b.num then a ^ b.num.toNat else (a ^ (-b.num).toNat)⁻¹)
    else T.pow a b
  neg a := -a
  lt a b := decide (a < b)
  ge a b := decide (a ≥ b)
  lit q := q
  atof := atofExact
  M_E := T.M_E
  M_PI := T.M_PI
  libm f a :=
    match f with
    | .abs => |a|
    | .ceil => ⌈a⌉
    | .floor => ⌊a⌋
    | g => T.libm g a
  logExp := T.logExp

/-- A record for the runs that call none of the functions that leave `ℚ`:
every field is `0`, and no such run depends on it. -/
def noInexact : Inexact where
  pow _ _ := 0
  M_E := 0
  M_PI := 0
  libm _ _ := 0
  logExp _ _ := 0

/-- Equality of results is decidable. -/
instance instDecidableEqExcept {ε β : Type} [DecidableEq ε] [DecidableEq β] :
    DecidableEq (Except ε β)
  | .ok a, .ok b =>
    if h : a = b then isTrue (by rw [h]) else isFalse (by intro h'; cases h'; exact h rfl)
  | .error a, .error b =>
    if h : a = b then isTrue (by rw [h]) else isFalse (by intro h'; cases h'; exact h rfl)
  | .ok _, .error _ => isFalse (by intro h; cases h)
  | .error _, .ok _ => isFalse (by intro h; cases h)

/-! ## The registry of a new parser, written out -/

section Fresh

variable {α : Type} (A : DoubleOps α)

/-- The registry entry `name ↦ new GFunction(pRoot, expectedParams)` allocated
as number `addr`. -/
def entry (name : String) (pRoot : GFunctionNode α) (expectedParams : Int) (addr : Nat) :
    String × GFunction α :=
  (name, { m_pRoot := pRoot, m_expectedParams := expectedParams, addr := addr })

/-- The registry the constructor builds when `WINDOWS` is not defined
(`ctor_posix` proves it). -/
def posixFunctions : List (String × GFunction α) :=
  [ entry "e" (.GFunctionConstant A.M_E) 0 0,
    entry "pi" (.GFunctionConstant A.M_PI) 0 1,
    entry "abs" (.GFunctionBuiltIn ._abs) 1 2,
    entry "acos" (.GFunctionBuiltIn ._acos) 1 3,
    entry "acosh" (.GFunctionBuiltIn ._acosh) 1 4,
    entry "asin" (.GFunctionBuiltIn ._asin) 1 5,
    entry "asinh" (.GFunctionBuiltIn ._asinh) 1 6,
    entry "atan" (.GFunctionBuiltIn ._atan) 1 7,
    entry "atanh" (.GFunctionBuiltIn ._atanh) 1 8,
    entry "ceil" (.GFunctionBuiltIn ._ceil) 1 9,
    entry "cos" (.GFunctionBuiltIn ._cos) 1 10,
    entry "cosh" (.GFunctionBuiltIn ._cosh) 1 11,
    entry "erf" (.GFunctionBuiltIn ._erf) 1 12,
    entry "floor" (.GFunctionBuiltIn ._floor) 1 13,
    entry "ifzero" (.GFunctionBuiltIn ._ifzero) 3 14,
    entry "ifnegative" (.GFunctionBuiltIn ._ifnegative) 3 15,
    entry "gamma" (.GFunctionBuiltIn ._gamma) 1 16,
    entry "lgamma" (.GFunctionBuiltIn ._lgamma) 1 17,
    entry "log" (.GFunctionBuiltIn ._log) 1 18,
    entry "logexp" (.GFunctionBuiltIn ._logexp) 2 19,
    entry "max" (.GFunctionBuiltIn ._max) (-2) 20,
    entry "min" (.GFunctionBuiltIn ._min) (-2) 21,
    entry "normal" (.GFunctionBuiltIn ._normal) 1 22,
    entry "sign" (.GFunctionBuiltIn ._sign) 1 23,
    entry "sin" (.GFunctionBuiltIn ._sin) 1 24,
    entry "sinh" (.GFunctionBuiltIn ._sinh) 1 25,
    entry "sqrt" (.GFunctionBuiltIn ._sqrt) 1 26,
    entry "tan" (.GFunctionBuiltIn ._tan) 1 27,
    entry "tanh" (.GFunctionBuiltIn ._tanh) 1 28 ]

/-- The registry the constructor builds when `WINDOWS` is defined
(`ctor_windows` proves it). -/
def windowsFunctions : List (String × GFunction α) :=
  [ entry "e" (.GFunctionConstant A.M_E) 0 0,
    entry "pi" (.GFunctionConstant A.M_PI) 0 1,
    entry "abs" (.GFunctionBuiltIn ._abs) 1 2,
    entry "acos" (.GFunctionBuiltIn ._acos) 1 3,
    entry "asin" (.GFunctionBuiltIn ._asin) 1 4,
    entry "atan" (.GFunctionBuiltIn ._atan) 1 5,
    entry "ceil" (.GFunctionBuiltIn ._ceil) 1 6,
    entry "cos" (.GFunctionBuiltIn ._cos) 1 7,
    entry "cosh" (.GFunctionBuiltIn ._cosh) 1 8,
    entry "floor" (.GFunctionBuiltIn ._floor) 1 9,
    entry "ifzero" (.GFunctionBuiltIn ._ifzero) 3 10,
    entry "ifnegative" (.GFunctionBuiltIn ._ifnegative) 3 11,
    entry "gamma" (.GFunctionBuiltIn ._gamma) 1 12,
    entry "lgamma" (.GFunctionBuiltIn ._lgamma) 1 13,
    entry "log" (.GFunctionBuiltIn ._log) 1 14,
    entry "logexp" (.GFunctionBuiltIn ._logexp) 2 15,
    entry "max" (.GFunctionBuiltIn ._max) (-2) 16,
    entry "min" (.GFunctionBuiltIn ._min) (-2) 17,
    entry "normal" (.GFunctionBuiltIn ._normal) 1 18,
    entry "sign" (.GFunctionBuiltIn ._sign) 1 19,
    entry "sin" (.GFunctionBuiltIn ._sin) 1 20,
    entry "sinh" (.GFunctionBuiltIn ._sinh) 1 21,
    entry "sqrt" (.GFunctionBuiltIn ._sqrt) 1 22,
    entry "tan" (.GFunctionBuiltIn ._tan) 1 23,
    entry "tanh" (.GFunctionBuiltIn ._tanh) 1 24 ]

/-- A parser whose registry is the new one followed by `user`, the entries of
the names defined since, with `user.length` allocations made since. -/
def extended (user : List (String × GFunction α)) (allocated : Nat) : GFunctionParser α :=
  { m_functions := posixFunctions A ++ user, heapNext := 29 + allocated }

end Fresh

/-! ## What a message may say

An exception of the evaluator names a function and, for the two messages
about the number of parameters, the numbers involved.  `Ex.justified P e`
says that the registry of `P` supports what `e` reports. -/

/-- The registry of `P` supports the report `e`: an unknown identifier is not
registered, and a parameter-count message names a registered function whose
`m_expectedParams` the reported number of children fails. -/
def Ex.justified {α : Type} (P : GFunctionParser α) : Ex → Prop
  | .noIdentifier name => P.getFunctionNoThrow name = none
  | .expectsExactly name expected got =>
    ∃ pFunc, P.getFunctionNoThrow name = some pFunc ∧ pFunc.m_expectedParams = expected ∧
      0 ≤ expected ∧ (got : Int) ≠ expected
  | .expectsAtLeast name expected got =>
    ∃ pFunc, P.getFunctionNoThrow name = some pFunc ∧ pFunc.m_expectedParams < 0 ∧
      expected = -pFunc.m_expectedParams - 1 ∧ (got : Int) < expected
  | _ => True

/-- The allocation counter is ahead of every allocated `GFunction`. -/
def GFunctionParser.heapOk {α : Type} (P : GFunctionParser α) : Prop :=
  ∀ e ∈ P.m_functions, e.2.addr < P.heapNext

/-! ## Operands

The windows between which the scan of `findOperatorWithLowestPrecidence` finds
its operators. -/

/-- The nesting count of the scans after the tokens `w`, started at `nests`:
`(` adds one and `)` takes one off. -/
def nestsAfter : List String → Int → Int
  | [], nests => nests
  | tok :: w, nests =>
    if tok == "(" then nestsAfter w (nests + 1)
    else if tok == ")" then nestsAfter w (nests - 1)
    else nestsAfter w nests

/-- Every token of `w` that the scan meets at nesting count 0, the scan having
started at `nests`, is a name or a number (it starts with a letter, `_`, a
digit or `.`). -/
def operandFrom : List String → Int → Bool
  | [], _ => true
  | tok :: w, nests =>
    if tok == "(" then operandFrom w (nests + 1)
    else if tok == ")" then operandFrom w (nests - 1)
    else if nests == 0 then
      (IsNameChar (firstChar tok) || IsDigit (firstChar tok) || firstChar tok == '.') &&
        operandFrom w nests
    else operandFrom w nests

/-- An operand: a window that is not empty, closes every parenthesis it opens,
and has no operator or other symbol outside parentheses.  Numbers, names,
calls `name(...)` and parenthesised expressions `(...)` are operands. -/
def isOperand (w : List String) : Bool :=
  !w.isEmpty && operandFrom w 0 && nestsAfter w 0 == 0

/-- The test of `findOperatorWithLowestPrecidence` on the token before a `-`
(`tokens[start + i - 1][0]` is a digit, a name character, `)` or `.`): the
token ends an operand, and the `-` after it is a subtraction. -/
def isOperandEnd (tok : String) : Bool :=
  IsDigit (firstChar tok) || IsNameChar (firstChar tok) || firstChar tok == ')' ||
    firstChar tok == '.'

/-! ## Inputs with nested parentheses -/

/-- The tokens `w` inside `n` pairs of parentheses: `( ( ... w ... ) )`. -/
def nested : Nat → List String → List String
  | 0, w => w
  | n + 1, w => "(" :: (nested n w ++ [")"])

/-- The characters `w` inside `n` pairs of parentheses. -/
def nestedChars : Nat → List Char → List Char
  | 0, w => w
  | n + 1, w => '(' :: (nestedChars n w ++ [')'])

/-- The text `f=((...(1)...))` with `n` pairs of parentheses. -/
def nestedText (n : Nat) : String := String.mk ('f' :: '=' :: nestedChars n ['1'])

/-! ## Batches of statements

A batch is a token vector in which `;` tokens separate the statements.  What
`parseFunctionList` does with it is compared with the statements taken one at
a time. -/

/-- The token vector of the statements `stmts` separated by `;` tokens. -/
def batch : List (List String) → List String
  | [] => []
  | [s] => s
  | s :: rest => s ++ ";" :: batch rest

/-- The windows `(start, count)` that the statements `stmts` occupy in a token
vector in which the first of them begins at `start`. -/
def statementWindows : List (List String) → Nat → List (Nat × Nat)
  | [], _ => []
  | s :: rest, start => (start, s.length) :: statementWindows rest (start + s.length + 1)

/-- The statements in the windows `ws` taken one at a time: `parseFunction` on
each in turn, until one throws; the parser is then what the statements before
it made it. -/
def installEach {α : Type} (A : DoubleOps α) (tokens : List String) :
    List (Nat × Nat) → GFunctionParser α → Except Ex Unit × GFunctionParser α
  | [], P => (.ok (), P)
  | w :: ws, P =>
    match P.parseFunction A tokens w.1 w.2 with
    | .error e => (.error e, P)
    | .ok P' => installEach A tokens ws P'

/-- No two `GFunction`s of the registry have the same allocation number: a
root pointer identifies one entry. -/
def GFunctionParser.addrsDistinct {α : Type} (P : GFunctionParser α) : Prop :=
  (P.m_functions.map (fun e => e.2.addr)).Nodup

/-! ## The call nodes of a tree -/

/-- The call nodes of a tree in the order of its traversal, each as its
`m_name` and its `m_pFunction`. -/
def GFunctionNode.calls {α : Type} : GFunctionNode α → List (String × Option NodePtr)
  | .GFunctionCall m_name m_pFunction m_children => (m_name, m_pFunction) :: callsChildren m_children
  | _ => []
where
  /-- The call nodes of the children. -/
  callsChildren {α : Type} : List (GFunctionNode α) → List (String × Option NodePtr)
    | [] => []
    | c :: cs => GFunctionNode.calls c ++ callsChildren cs

/-- The tree with every `m_pFunction` cleared: all of the tree but the
pointers. -/
def GFunctionNode.shape {α : Type} : GFunctionNode α → GFunctionNode α
  | .GFunctionCall m_name _ m_children => .GFunctionCall m_name none (shapeChildren m_children)
  | n => n
where
  /-- The shapes of the children. -/
  shapeChildren {α : Type} : List (GFunctionNode α) → List (GFunctionNode α)
    | [] => []
    | c :: cs => GFunctionNode.shape c :: shapeChildren cs

/-! ## The shape of a number token -/

/-- An exponent part: nothing, or `e` and at least one digit. -/
def isExponent : List Char → Bool
  | [] => true
  | c :: ds => c == 'e' && !ds.isEmpty && ds.all IsDigit

/-- The shape `digits ['.' digits] ['e' digits]` of the data model, each
`digits` at least one digit. -/
def specNumberShape (tok : List Char) : Bool :=
  let r1 := tok.dropWhile IsDigit
  !(tok.takeWhile IsDigit).isEmpty &&
    (match r1 with
      | '.' :: r => !(r.takeWhile IsDigit).isEmpty && isExponent (r.dropWhile IsDigit)
      | _ => isExponent r1)

/-- The shape of the tokens `MeasureTokenLength` measures as numbers: a run,
not empty, of digits and at most one `.`, which may stand anywhere in it, and
then an exponent part. -/
def numberShape (tok : List Char) : Bool :=
  let m := tok.takeWhile (fun c => IsDigit c || c == '.')
  !m.isEmpty && decide (m.count '.' ≤ 1) &&
    isExponent (tok.dropWhile (fun c => IsDigit c || c == '.'))

/-! ## The reference definition of the operator search -/

/-- The nesting depth in front of position `i` of the window at `start`: the
opening parentheses among the `i` tokens before it, less the closing ones. -/
def nestingBefore (tokens : List String) (start i : Nat) : Int :=
  (((List.range i).filter (fun j => tokenAt tokens (start + j) == "(")).length : Int) -
    (((List.range i).filter (fun j => tokenAt tokens (start + j) == ")")).length : Int)

/-- A symbol token: neither a parenthesis, nor a name, nor a number. -/
def isSymbolToken (tok : String) : Bool :=
  tok != "(" && tok != ")" && !IsNameChar (firstChar tok) && !IsDigit (firstChar tok) &&
    firstChar tok != '.'

/-- A `-` at position `i` of the window counts as unary when it is the first
token of the window or the token before it starts with none of a digit, a
letter or underscore, `)` and `.`. -/
def isUnaryMinus (tokens : List String) (start i : Nat) : Bool :=
  firstChar (tokenAt tokens (start + i)) == '-' &&
    (i == 0 ||
      (!IsDigit (firstChar (tokenAt tokens (start + i - 1))) &&
        !IsNameChar (firstChar (tokenAt tokens (start + i - 1))) &&
        firstChar (tokenAt tokens (start + i - 1)) != ')' &&
        firstChar (tokenAt tokens (start + i - 1)) != '.'))

/-- The precedence level of the symbol token at position `i` of the window:
unary minus 16, `^` 12, `* / %` 8, binary `+ -` 4; `none` when the token is
not an operator. -/
def operatorLevel (tokens : List String) (start i : Nat) : Option Int :=
  if isUnaryMinus tokens start i then some 16
  else if firstChar (tokenAt tokens (start + i)) == '^' then some 12
  else if firstChar (tokenAt tokens (start + i)) == '*' ||
      firstChar (tokenAt tokens (start + i)) == '/' ||
      firstChar (tokenAt tokens (start + i)) == '%' then some 8
  else if firstChar (tokenAt tokens (start + i)) == '+' ||
      firstChar (tokenAt tokens (start + i)) == '-' then some 4
  else none

/-- The positions of the window of `count` tokens at `start` that hold a
symbol token at nesting depth 0, in ascending order. -/
def depthZeroSymbols (tokens : List String) (start count : Nat) : List Nat :=
  (List.range count).filter
    (fun i => nestingBefore tokens start i == 0 && isSymbolToken (tokenAt tokens (start + i)))

/-- The right-most of the positions `S` whose level is the lowest of all. -/
def rightmostLowest (lv : Nat → Int) (S : List Nat) : Option Nat :=
  (S.filter (fun i => S.all (fun j => decide (lv i ≤ lv j)))).getLast?

/-- The reference definition of `findOperatorWithLowestPrecidence`: the first
symbol token at depth 0 that is not an operator is an error; otherwise the
result is the index of the right-most depth-0 operator token among those of
lowest precedence, and `-1` when there is none. -/
def findOperatorReference (tokens : List String) (start count : Nat) : Except Ex Int :=
  match (depthZeroSymbols tokens start count).find?
      (fun i => (operatorLevel tokens start i).isNone) with
  | some i => .error (.unrecognizedOperator (firstChar (tokenAt tokens (start + i))))
  | none =>
    match rightmostLowest (fun i => (operatorLevel tokens start i).getD 0)
        (depthZeroSymbols tokens start count) with
    | some i => .ok ((start + i : Nat) : Int)
    | none => .ok (-1)

/-! ## Well-nested parentheses -/

/-- The parentheses of `w` are well nested, `w` being entered with `d`
parentheses open: no `)` comes without an open `(` before it, and no `(` is
left open at the end. -/
def wellNestedFrom : List String → Nat → Bool
  | [], d => d == 0
  | tok :: w, d =>
    if tok == "(" then wellNestedFrom w (d + 1)
    else if tok == ")" then decide (0 < d) && wellNestedFrom w (d - 1)
    else wellNestedFrom w d

/-- The parentheses of the window `w` are well nested. -/
def wellNested (w : List String) : Bool := wellNestedFrom w 0

/-! ## The argument windows of a call -/

/-- The windows `(begin, count)` that the loop of
`parseCommaSeparatedChildren` hands to `parseFunctionBody`, one for each comma
met at nesting count 0, and then the window after the last of them: `n`
iterations are left, `i` is the loop variable. -/
def slotLoop (tokens : List String) (start : Nat) : Nat → Nat → Nat → Int → List (Nat × Nat)
  | 0, i, childBegin, _ => [(childBegin, start + i - childBegin)]
  | n + 1, i, childBegin, nests =>
    if tokenAt tokens (start + i) == "(" then
      slotLoop tokens start n (i + 1) childBegin (nests + 1)
    else if tokenAt tokens (start + i) == ")" then
      slotLoop tokens start n (i + 1) childBegin (nests - 1)
    else if nests == 0 && tokenAt tokens (start + i) == "," then
      (childBegin, start + i - childBegin) ::
        slotLoop tokens start n (i + 1) (start + i + 1) nests
    else slotLoop tokens start n (i + 1) childBegin nests

/-- The argument windows of the call whose arguments are the `count` tokens
at `start`. -/
def argumentSlots (tokens : List String) (start count : Nat) : List (Nat × Nat) :=
  slotLoop tokens start count 0 start 0

/-! ## Chains of binary operators -/

/-- The tokens of the chain `a0 op1 a1 op2 a2 ...` without parentheses:
`links` holds each operator with the operand after it. -/
def chain (a0 : String) (links : List (String × String)) : List String :=
  a0 :: (links.map (fun q => [q.1, q.2])).flatten

/-- The node `parseFunctionBody` makes of a window of one token that starts
with a letter, `_`, a digit or `.`. -/
def atomNode {α : Type} (A : DoubleOps α) (vars : List String) (tok : String) :
    GFunctionNode α :=
  if IsNameChar (firstChar tok) then
    match vars.indexOf? tok with
    | some i => .GFunctionVariable i
    | none => .GFunctionCall tok none []
  else .GFunctionConstant (A.atof tok)

/-- The operator node `parseMathOperator` takes for a binary operator token. -/
def operatorOf (tok : String) : MathFuncFunc :=
  if firstChar tok == '^' then .exponent
  else if firstChar tok == '*' then .times
  else if firstChar tok == '/' then .divide
  else if firstChar tok == '%' then .modulus
  else if firstChar tok == '+' then .plus
  else .minus

/-- The tree of a chain read from the left: `((a0 op1 a1) op2 a2) ...`. -/
def chainTree {α : Type} (A : DoubleOps α) (vars : List String) (a0 : String)
    (links : List (String × String)) : GFunctionNode α :=
  links.foldl (fun t q => operatorCall (operatorOf q.1) [t, atomNode A vars q.2])
    (atomNode A vars a0)

/-- The text `f=1+1+...+1` with `k` operators. -/
def chainText (k : Nat) : String :=
  String.mk ('f' :: '=' :: '1' :: (List.replicate k ['+', '1']).flatten)

/-! ## The states of a parser and what holds in all of them -/

/-- The states of a parser object: the one its constructor makes, and those
that calls of `add` and evaluations `getFunction(name)->call(params, parser)`
make of it, whether they return or throw. -/
inductive Reachable {α : Type} (A : DoubleOps α) : GFunctionParser α → Prop
  | ctor ( windows : Bool) : Reachable A (GFunctionParser.ctor A windows)
  | add {P : GFunctionParser α} (szEquations : String) :
    Reachable A P → Reachable A (P.add A szEquations).2
  | call {P : GFunctionParser α} (depth : Nat) (name : String) (params : List α) :
    Reachable A P → Reachable A (P.call A depth name params).2

/-- The call nodes of a tree in the order of its traversal, each as its
`m_name`, its `m_pFunction` and the number of its children. -/
def GFunctionNode.callSites {α : Type} : GFunctionNode α → List (String × Option NodePtr × Nat)
  | .GFunctionCall m_name m_pFunction m_children =>
    (m_name, m_pFunction, m_children.length) :: callSitesChildren m_children
  | _ => []
where
  /-- The call nodes of the children. -/
  callSitesChildren {α : Type} : List (GFunctionNode α) → List (String × Option NodePtr × Nat)
    | [] => []
    | c :: cs => GFunctionNode.callSites c ++ callSitesChildren cs

/-- What the registry asks of a call node `(m_name, m_pFunction, children)`:
when `m_pFunction` points to a root, it is the root of the `GFunction`
registered now under `m_name`, and the number of children passes the test of
`GFunctionCall::eval` against its `m_expectedParams`. -/
def GFunctionParser.siteOk {α : Type} (P : GFunctionParser α)
    (s : String × Option NodePtr × Nat) : Prop :=
  ∀ a, s.2.1 = some (.root a) →
    ∃ pFunc, P.getFunctionNoThrow s.1 = some pFunc ∧ pFunc.addr = a ∧
      checkParams s.1 s.2.2 pFunc.m_expectedParams = .ok ()

/-- Every call node of the tree is as the registry asks. -/
def GFunctionParser.treeOk {α : Type} (P : GFunctionParser α) (t : GFunctionNode α) : Prop :=
  ∀ s ∈ t.callSites, P.siteOk s

/-- Every call node of every registered tree is as the registry asks. -/
def GFunctionParser.cacheOk {α : Type} (P : GFunctionParser α) : Prop :=
  ∀ e ∈ P.m_functions, P.treeOk e.2.m_pRoot

/-- The number of children `parseMathOperator` gives the call node of an
operator node: two for `+ - * / % ^`, one for the negation. -/
def operatorArity : MathFuncFunc → Option Nat
  | .plus | .minus | .times | .divide | .modulus | .exponent => some 2
  | .negate => some 1
  | _ => none

/-- The trees `parseFunctionBody` builds for a function of `nvars` variables:
variable nodes of an index below `nvars`, constants, call nodes with a name
and no pointer, and call nodes without a name that point to an operator node
and have its number of children. -/
def GFunctionNode.parsed {α : Type} (nvars : Nat) : GFunctionNode α → Bool
  | .GFunctionBuiltIn _ => false
  | .GFunctionVariable m_index => decide (m_index < nvars)
  | .GFunctionConstant _ => true
  | .GFunctionCall m_name m_pFunction m_children =>
    (match m_pFunction with
      | none => true
      | some (.operator f) => m_name == "" && operatorArity f == some m_children.length
      | some (.root _) => false) &&
      parsedChildren nvars m_children
where
  /-- The children are such trees. -/
  parsedChildren {α : Type} (nvars : Nat) : List (GFunctionNode α) → Bool
    | [] => true
    | c :: cs => GFunctionNode.parsed nvars c && parsedChildren nvars cs

/-- The number of leading elements of `params` a static member of
`GFunctionBuiltIn` reads (`_max` and `_min` read the first, and then what
there is). -/
def paramsRead : MathFuncFunc → Nat
  | .plus | .minus | .times | .divide | .modulus | .exponent | ._logexp => 2
  | ._ifzero | ._ifnegative => 3
  | _ => 1

/-- The least number of children the test of `GFunctionCall::eval` lets pass
for `m_expectedParams = n`: `n` itself, or `-n - 1` when `n` is negative. -/
def minParams (n : Int) : Nat := if n ≥ 0 then n.toNat else (-n - 1).toNat

/-- The root of a registered `GFunction` fits its `m_expectedParams`: a
built-in reads no more parameters than the test lets pass, and any other
root is, apart from its cached pointers, a tree `parseFunctionBody` builds
for that many variables. -/
def GFunction.shapeOk {α : Type} (pFunc : GFunction α) : Bool :=
  match pFunc.m_pRoot.skeleton with
  | .GFunctionBuiltIn f => decide (paramsRead f ≤ minParams pFunc.m_expectedParams)
  | t => decide (0 ≤ pFunc.m_expectedParams) && t.parsed pFunc.m_expectedParams.toNat

/-- What holds of the registry in every state of the parser. -/
structure GFunctionParser.Inv {α : Type} (P : GFunctionParser α) : Prop where
  /-- The allocation counter is ahead of every `GFunction`. -/
  heap : P.heapOk
  /-- No two `GFunction`s have the same allocation number. -/
  distinct : P.addrsDistinct
  /-- Every root fits its `m_expectedParams`. -/
  shape : ∀ e ∈ P.m_functions, e.2.shapeOk = true
  /-- Every cached pointer is current. -/
  cache : P.cacheOk
  /-- Every registered name is a token: it is not the empty string. -/
  names : ∀ e ∈ P.m_functions, e.1 ≠ ""

/-- The `GFunction`s of `P` that `P'` still holds have, apart from the cached
pointers, the trees they had: no call node of an operator has lost its
pointer.  (Allocation numbers are not used again, so a `GFunction` of `P'`
with a number below the counter of `P` is one of `P`.) -/
def GFunctionParser.keeps {α : Type} (P P' : GFunctionParser α) : Prop :=
  P.heapNext ≤ P'.heapNext ∧
    ∀ e' ∈ P'.m_functions, e'.2.addr < P.heapNext →
      ∃ e ∈ P.m_functions, e.2.addr = e'.2.addr ∧ e.1 = e'.1 ∧
        e'.2.m_pRoot.skeleton = e.2.m_pRoot.skeleton

/-- The indices of the variable nodes of a tree. -/
def GFunctionNode.paramRefs {α : Type} : GFunctionNode α → List Nat
  | .GFunctionVariable m_index => [m_index]
  | .GFunctionCall _ _ m_children => paramRefsChildren m_children
  | _ => []
where
  /-- The indices of the variable nodes of the children. -/
  paramRefsChildren {α : Type} : List (GFunctionNode α) → List Nat
    | [] => []
    | c :: cs => GFunctionNode.paramRefs c ++ paramRefsChildren cs

/-- The ways an evaluation ends that reads no vector out of range: a value,
the exception of an unknown identifier, one of the two about the number of
parameters, or, in this model, the end of the depth bound, which stands for a
recursion without end. -/
def safeOutcome {α : Type} (r : Except Ex α) : Prop :=
  ∀ e, r = .error e → e.isArityMismatch = true ∨ (∃ name, e = .noIdentifier name) ∨
    e = .stackExhausted

/-! ## An evaluator without the cache -/

section Free
variable {α : Type} (A : DoubleOps α)

/-- The loop over the children of the evaluator without the cache. -/
def evalFreeChildren (ev : GFunctionNode α → Except Ex α) :
    List (GFunctionNode α) → Except Ex (List α)
  | [] => .ok []
  | c :: cs =>
    match ev c with
    | .error e => .error e
    | .ok v =>
      match evalFreeChildren ev cs with
      | .error e => .error e
      | .ok vs => .ok (v :: vs)

/-- An evaluator without the cache: at every call node with a name it looks
the name up and tests the number of children, whatever `m_pFunction` holds;
only the pointers to the operator nodes are followed.  It stores nothing. -/
def GFunctionNode.evalFree : Nat → GFunctionParser α → GFunctionNode α → List α → Except Ex α
  | 0, _, _, _ => .error .stackExhausted
  | depth + 1, P, n, params =>
    match n with
    | .GFunctionBuiltIn m_pFunc => GFunctionBuiltIn.eval A m_pFunc params
    | .GFunctionVariable m_index => param params m_index
    | .GFunctionConstant m_value => .ok m_value
    | .GFunctionCall m_name m_pFunction m_children =>
      match evalFreeChildren (fun c => GFunctionNode.evalFree depth P c params) m_children with
      | .error e => .error e
      | .ok m_params =>
        match m_pFunction with
        | some (.operator f) => GFunctionBuiltIn.eval A f m_params
        | _ =>
          match P.getFunction m_name with
          | .error e => .error e
          | .ok pFunc =>
            match checkParams m_name m_children.length pFunc.m_expectedParams with
            | .error e => .error e
            | .ok _ => GFunctionNode.evalFree depth P pFunc.m_pRoot m_params

/-- The sequence `parser.getFunction(name)->call(params, parser)` with the
evaluation that looks every name up. -/
def GFunctionParser.callFree (depth : Nat) (P : GFunctionParser α) (name : String)
    (params : List α) : Except Ex α :=
  match P.getFunction name with
  | .error e => .error e
  | .ok pFunc => GFunctionNode.evalFree A depth P pFunc.m_pRoot params

end Free

/-! # Theorems -/

/-! ## Evaluation changes nothing but the cache -/

section Frame
variable {α : Type} (A : DoubleOps α)

theorem skeletonChildren_length : ∀ cs : List (GFunctionNode α),
    (GFunctionNode.skeleton.skeletonChildren cs).length = cs.length
  | [] => rfl
  | _ :: cs => by simp [GFunctionNode.skeleton.skeletonChildren, skeletonChildren_length cs]

theorem skeleton_call (name : String) (pf : Option NodePtr) (cs : List (GFunctionNode α)) :
    (GFunctionNode.GFunctionCall name pf cs).skeleton =
      .GFunctionCall name (match pf with | some (.operator f) => some (.operator f) | _ => none)
        (GFunctionNode.skeleton.skeletonChildren cs) := by
  simp [GFunctionNode.skeleton]

theorem storeRootIn_signature (addr : Nat) (r : GFunctionNode α) :
    ∀ fs : List (String × GFunction α),
      (∀ e, fs.find? (fun e => e.2.addr == addr) = some e → e.2.m_pRoot.skeleton = r.skeleton) →
      (GFunctionParser.storeRootIn fs addr r).map GFunction.signature = fs.map GFunction.signature
  | [], _ => rfl
  | e :: es, h => by
    by_cases he : (e.2.addr == addr) = true
    · have := h e (by simp [List.find?, he])
      simp [GFunctionParser.storeRootIn, he, GFunction.signature, this]
    · have he' : (e.2.addr == addr) = false := by simpa using he
      have ih := storeRootIn_signature addr r es (fun e' h' => h e' (by simp [List.find?, he', h']))
      simp [GFunctionParser.storeRootIn, he', ih]

theorem find_signature (addr : Nat) :
    ∀ fs1 fs2 : List (String × GFunction α),
      fs1.map GFunction.signature = fs2.map GFunction.signature →
      ∀ e1, fs1.find? (fun e => e.2.addr == addr) = some e1 →
        ∃ e2, fs2.find? (fun e => e.2.addr == addr) = some e2 ∧
          GFunction.signature e1 = GFunction.signature e2
  | [], _, _, e1, h1 => by simp at h1
  | a :: as, [], h, _, _ => by simp at h
  | a :: as, b :: bs, h, e1, h1 => by
    simp only [List.map_cons, List.cons.injEq] at h
    obtain ⟨hab, hrest⟩ := h
    have haddr : a.2.addr = b.2.addr := by
      have := congrArg (fun s => s.2.2.1) hab
      simpa [GFunction.signature] using this
    by_cases ha : (a.2.addr == addr) = true
    · simp only [List.find?, ha] at h1
      refine ⟨b, ?_, ?_⟩
      · simp [List.find?, ← haddr, ha]
      · cases h1; exact hab
    · have ha' : (a.2.addr == addr) = false := by simpa using ha
      simp only [List.find?, ha'] at h1
      obtain ⟨e2, h2, hs⟩ := find_signature addr as bs hrest e1 h1
      exact ⟨e2, by simp [List.find?, ← haddr, ha', h2], hs⟩

theorem lookup_signature (name : String) :
    ∀ fs1 fs2 : List (String × GFunction α),
      fs1.map GFunction.signature = fs2.map GFunction.signature →
      (fs1.lookup name).map (fun f => GFunction.signature (name, f)) =
        (fs2.lookup name).map (fun f => GFunction.signature (name, f))
  | [], [], _ => rfl
  | [], _ :: _, h => by simp at h
  | _ :: _, [], h => by simp at h
  | (k1, v1) :: as, (k2, v2) :: bs, h => by
    simp only [List.map_cons, List.cons.injEq] at h
    obtain ⟨hab, hrest⟩ := h
    have hk : k1 = k2 := by
      have := congrArg (fun s => s.1) hab
      simpa [GFunction.signature] using this
    subst hk
    by_cases hn : (name == k1) = true
    · simp only [List.lookup, hn, Option.map_some']
      simp only [GFunction.signature, Prod.mk.injEq, true_and] at hab ⊢
      simpa using hab
    · have hn' : (name == k1) = false := by simpa using hn
      simp only [List.lookup, hn']
      exact lookup_signature name as bs hrest


theorem getFunction_signature {P P' : GFunctionParser α} (h : P.signature = P'.signature)
    (name : String) (pFunc : GFunction α) (hf : P.getFunctionNoThrow name = some pFunc) :
    ∃ pFunc', P'.getFunctionNoThrow name = some pFunc' ∧
      pFunc'.m_expectedParams = pFunc.m_expectedParams ∧ pFunc'.addr = pFunc.addr ∧
      pFunc'.m_pRoot.skeleton = pFunc.m_pRoot.skeleton := by
  have hl := lookup_signature name P.m_functions P'.m_functions (congrArg Prod.fst h)
  simp only [GFunctionParser.getFunctionNoThrow] at hf ⊢
  rw [hf] at hl
  cases hl' : P'.m_functions.lookup name with
  | none => rw [hl'] at hl; simp at hl
  | some pFunc' =>
    rw [hl'] at hl
    simp only [Option.map_some', Option.some.injEq, GFunction.signature, Prod.mk.injEq,
      true_and] at hl
    exact ⟨pFunc', rfl, hl.1.symm, hl.2.1.symm, hl.2.2.symm⟩

theorem getFunction_none_signature {P P' : GFunctionParser α} (h : P.signature = P'.signature)
    (name : String) (hf : P.getFunctionNoThrow name = none) :
    P'.getFunctionNoThrow name = none := by
  have hl := lookup_signature name P.m_functions P'.m_functions (congrArg Prod.fst h)
  simp only [GFunctionParser.getFunctionNoThrow] at hf ⊢
  rw [hf] at hl
  cases hl' : P'.m_functions.lookup name with
  | none => rfl
  | some pFunc' => rw [hl'] at hl; simp at hl

theorem justified_signature {P P' : GFunctionParser α} (h : P.signature = P'.signature)
    (e : Ex) (he : e.justified P) : e.justified P' := by
  cases e with
  | noIdentifier name => exact getFunction_none_signature h name he
  | expectsExactly name expected got =>
    obtain ⟨pFunc, hf, h1, h2, h3⟩ := he
    obtain ⟨pFunc', hf', ha, _, _⟩ := getFunction_signature h name pFunc hf
    exact ⟨pFunc', hf', ha.trans h1, h2, h3⟩
  | expectsAtLeast name expected got =>
    obtain ⟨pFunc, hf, h1, h2, h3⟩ := he
    obtain ⟨pFunc', hf', ha, _, _⟩ := getFunction_signature h name pFunc hf
    exact ⟨pFunc', hf', by rw [ha]; exact h1, by rw [ha]; exact h2, h3⟩
  | _ => trivial

theorem evalChildren_signature
    (ev : GFunctionParser α → GFunctionNode α → Outcome α α (GFunctionNode α))
    (h : ∀ P c, (ev P c).2.2.signature = P.signature ∧ (ev P c).2.1.skeleton = c.skeleton) :
    ∀ (cs : List (GFunctionNode α)) (P : GFunctionParser α),
      (evalChildren ev P cs).2.2.signature = P.signature ∧
        GFunctionNode.skeleton.skeletonChildren (evalChildren ev P cs).2.1 =
          GFunctionNode.skeleton.skeletonChildren cs
  | [], P => ⟨rfl, rfl⟩
  | c :: cs, P => by
    have hc := h P c
    simp only [evalChildren]
    rcases hev : ev P c with ⟨r, c', P'⟩
    rw [hev] at hc
    cases r with
    | error e => exact ⟨hc.1, by simp [GFunctionNode.skeleton.skeletonChildren, hc.2]⟩
    | ok v =>
      have ih := evalChildren_signature ev h cs P'
      rcases hcs : evalChildren ev P' cs with ⟨r2, cs', P''⟩
      rw [hcs] at ih
      simp only [hcs]
      cases r2 with
      | error e =>
        exact ⟨ih.1.trans hc.1, by simp [GFunctionNode.skeleton.skeletonChildren, hc.2, ih.2]⟩
      | ok vs =>
        exact ⟨ih.1.trans hc.1, by simp [GFunctionNode.skeleton.skeletonChildren, hc.2, ih.2]⟩

theorem bind_root (P : GFunctionParser α) (name : String) (k : Nat) (p : NodePtr)
    (h : bind P name k = .ok p) :
    ∃ pFunc, P.getFunctionNoThrow name = some pFunc ∧ p = .root pFunc.addr ∧
      checkParams name k pFunc.m_expectedParams = .ok () := by
  simp only [bind, GFunctionParser.getFunction] at h
  cases hf : P.getFunctionNoThrow name with
  | none => rw [hf] at h; cases h
  | some pFunc =>
    rw [hf] at h
    cases hc : checkParams name k pFunc.m_expectedParams with
    | error e => simp [hc] at h
    | ok u =>
      simp only [hc, Except.ok.injEq] at h
      exact ⟨pFunc, rfl, h.symm, hc⟩

theorem eval_signature : ∀ (depth : Nat) (P : GFunctionParser α) (n : GFunctionNode α)
    (params : List α),
    (GFunctionNode.eval A depth P n params).2.2.signature = P.signature ∧
      (GFunctionNode.eval A depth P n params).2.1.skeleton = n.skeleton
  | 0, P, n, params => ⟨rfl, rfl⟩
  | depth + 1, P, n, params => by
    cases n with
    | GFunctionBuiltIn f => exact ⟨rfl, rfl⟩
    | GFunctionVariable i => exact ⟨rfl, rfl⟩
    | GFunctionConstant v => exact ⟨rfl, rfl⟩
    | GFunctionCall name pf cs =>
      have hch := evalChildren_signature (fun P c => GFunctionNode.eval A depth P c params)
        (fun P c => eval_signature depth P c params) cs P
      simp only [GFunctionNode.eval]
      rcases hev : evalChildren (fun P c => GFunctionNode.eval A depth P c params) P cs
        with ⟨r, cs', P1⟩
      rw [hev] at hch
      obtain ⟨hP1, hcs⟩ := hch
      simp only at hP1 hcs
      cases r with
      | error e => exact ⟨hP1, by simp [skeleton_call, hcs]⟩
      | ok m_params =>
        simp only
        cases hb : (match pf with
            | some p => (Except.ok p : Except Ex NodePtr)
            | none => bind P1 name cs.length) with
        | error e => exact ⟨hP1, by simp [skeleton_call, hcs]⟩
        | ok p =>
          have hsk : (GFunctionNode.GFunctionCall name (some p) cs').skeleton =
              (GFunctionNode.GFunctionCall name pf cs).skeleton := by
            cases pf with
            | some q => simp only [Except.ok.injEq] at hb; subst hb; simp [skeleton_call, hcs]
            | none =>
              obtain ⟨pFunc, _, hp, _⟩ := bind_root P1 name cs.length p hb
              subst hp
              simp [skeleton_call, hcs]
          cases p with
          | operator f => exact ⟨hP1, hsk⟩
          | root addr =>
            simp only
            cases hd : P1.deref addr with
            | none => exact ⟨hP1, hsk⟩
            | some pFunc =>
              simp only
              have ih := eval_signature depth P1 pFunc.m_pRoot m_params
              rcases he : GFunctionNode.eval A depth P1 pFunc.m_pRoot m_params with ⟨r2, pRoot, P2⟩
              rw [he] at ih
              obtain ⟨hP2, hroot⟩ := ih
              simp only at hP2 hroot
              refine ⟨?_, hsk⟩
              rw [← hP1, ← hP2]
              simp only [GFunctionParser.signature, GFunctionParser.storeRoot, Prod.mk.injEq,
                and_true]
              apply storeRootIn_signature
              intro e2 he2
              simp only [GFunctionParser.deref] at hd
              cases hfind : P1.m_functions.find? (fun e => e.2.addr == addr) with
              | none => rw [hfind] at hd; cases hd
              | some e1 =>
                rw [hfind] at hd
                simp only [Option.map_some', Option.some.injEq] at hd
                obtain ⟨e2', he2', hs⟩ := find_signature addr P1.m_functions P2.m_functions
                  (congrArg Prod.fst hP2).symm e1 hfind
                rw [he2] at he2'
                cases he2'
                have := congrArg (fun s => s.2.2.2) hs
                simp only [GFunction.signature] at this
                rw [← this, hd, hroot]

theorem mapSet_new (name : String) (e : GFunction α) :
    ∀ fs : List (String × GFunction α), fs.lookup name = none →
      GFunctionParser.mapSet fs name e = fs ++ [(name, e)]
  | [], _ => rfl
  | (k, v) :: rest, hl => by
    by_cases hk : name = k
    · subst hk; simp [List.lookup] at hl
    · have hk' : (name == k) = false := by simpa using hk
      have hk2 : (k == name) = false := by simpa using (fun h => hk h.symm)
      simp only [List.lookup, hk'] at hl
      simp [GFunctionParser.mapSet, hk2, mapSet_new name e rest hl]

theorem addFunction_new (fs : List (String × GFunction α)) (k : Nat) (name : String)
    (r : GFunctionNode α) (n : Int) (h : fs.lookup name = none) :
    GFunctionParser.addFunction ⟨fs, k⟩ name r n = ⟨fs ++ [entry name r n k], k + 1⟩ := by
  simp only [GFunctionParser.addFunction, GFunctionParser.getFunctionNoThrow, h, entry]
  rw [mapSet_new _ _ _ h]

theorem ctor_posix : GFunctionParser.ctor A false = extended A [] 0 := by
  simp only [GFunctionParser.ctor, Bool.false_eq_true, ↓reduceIte]
  simp (disch := with_unfolding_all rfl) only [addFunction_new, List.nil_append,
    List.cons_append, Nat.reduceAdd]
  rfl

theorem ctor_windows :
    GFunctionParser.ctor A true = { m_functions := windowsFunctions A, heapNext := 25 } := by
  simp only [GFunctionParser.ctor, ↓reduceIte]
  simp (disch := with_unfolding_all rfl) only [addFunction_new, List.nil_append,
    List.cons_append, Nat.reduceAdd]
  rfl

end Frame

/-! ## Every message of the evaluator is supported by the registry -/

section Justified
variable {α : Type} (A : DoubleOps α)

theorem param_error (params : List α) (i : Nat) (e : Ex) (h : param params i = .error e) :
    e = .outOfRange := by
  unfold param at h
  split at h
  · cases h
  · cases h; rfl

theorem unary_error (g : α → α) (params : List α) (e : Ex) (h : unary g params = .error e) :
    e = .outOfRange := by
  unfold unary at h
  split at h
  · next e0 h0 => cases h; exact param_error _ _ _ h0
  · cases h

theorem binary_error (g : α → α → α) (params : List α) (e : Ex)
    (h : binary g params = .error e) : e = .outOfRange := by
  unfold binary at h
  split at h
  · next e0 h0 => cases h; exact param_error _ _ _ h0
  · split at h
    · next e1 h1 => cases h; exact param_error _ _ _ h1
    · cases h

theorem ternary_error (c : α → Bool) (params : List α) (e : Ex)
    (h : ternary c params = .error e) : e = .outOfRange := by
  unfold ternary at h
  split at h
  · next e0 h0 => cases h; exact param_error _ _ _ h0
  · split at h <;> exact param_error _ _ _ h

theorem builtIn_error (f : MathFuncFunc) (params : List α) (e : Ex)
    (h : GFunctionBuiltIn.eval A f params = .error e) : e = .outOfRange := by
  cases f <;> simp only [GFunctionBuiltIn.eval] at h <;>
    first
    | exact unary_error _ _ _ h
    | exact binary_error _ _ _ h
    | exact ternary_error _ _ _ h
    | (cases params <;> simp at h; exact h.symm)


theorem checkParams_error (name : String) (k : Nat) (n : Int) (e : Ex)
    (h : checkParams name k n = .error e) :
    (0 ≤ n ∧ (k : Int) ≠ n ∧ e = .expectsExactly name n k) ∨
      (n < 0 ∧ (k : Int) < -n - 1 ∧ e = .expectsAtLeast name (-n - 1) k) := by
  unfold checkParams at h
  split at h
  · next hn =>
    split at h
    · next hk =>
      simp only [Except.error.injEq] at h
      exact Or.inl ⟨hn, hk, h.symm⟩
    · cases h
  · next hn =>
    split at h
    · next hk =>
      simp only [Except.error.injEq] at h
      exact Or.inr ⟨by omega, hk, h.symm⟩
    · cases h

theorem bind_justified (P : GFunctionParser α) (name : String) (k : Nat) (e : Ex)
    (h : bind P name k = .error e) : e.justified P := by
  simp only [bind, GFunctionParser.getFunction] at h
  cases hf : P.getFunctionNoThrow name with
  | none =>
    rw [hf] at h
    simp only [Except.error.injEq] at h
    subst h
    exact hf
  | some pFunc =>
    rw [hf] at h
    cases hc : checkParams name k pFunc.m_expectedParams with
    | ok u => simp [hc] at h
    | error e' =>
      simp only [hc, Except.error.injEq] at h
      subst h
      rcases checkParams_error name k _ _ hc with ⟨h1, h2, h3⟩ | ⟨h1, h2, h3⟩
      · subst h3; exact ⟨pFunc, hf, rfl, h1, h2⟩
      · subst h3; exact ⟨pFunc, hf, h1, rfl, h2⟩

theorem evalChildren_justified
    (ev : GFunctionParser α → GFunctionNode α → Outcome α α (GFunctionNode α))
    (hs : ∀ P c, (ev P c).2.2.signature = P.signature ∧ (ev P c).2.1.skeleton = c.skeleton)
    (hj : ∀ P c e, (ev P c).1 = .error e → e.justified P) :
    ∀ (cs : List (GFunctionNode α)) (P : GFunctionParser α) (e : Ex),
      (evalChildren ev P cs).1 = .error e → e.justified P
  | [], P, e, h => by simp [evalChildren] at h
  | c :: cs, P, e, h => by
    have hc := hs P c
    have hjc := hj P c
    simp only [evalChildren] at h
    rcases hev : ev P c with ⟨r, c', P'⟩
    rw [hev] at hc hjc h
    cases r with
    | error e0 =>
      simp only [Except.error.injEq] at h
      exact hjc e (by rw [h])
    | ok v =>
      simp only at h
      have ih := evalChildren_justified ev hs hj cs P' e
      rcases hcs : evalChildren ev P' cs with ⟨r2, cs', P''⟩
      rw [hcs] at ih h
      cases r2 with
      | error e1 =>
        simp only [Except.error.injEq] at h
        exact justified_signature hc.1 e (ih (by rw [h]))
      | ok vs => simp at h

theorem eval_justified : ∀ (depth : Nat) (P : GFunctionParser α) (n : GFunctionNode α)
    (params : List α) (e : Ex),
    (GFunctionNode.eval A depth P n params).1 = .error e → e.justified P
  | 0, P, n, params, e, h => by
    simp only [GFunctionNode.eval, Except.error.injEq] at h
    subst h; trivial
  | depth + 1, P, n, params, e, h => by
    cases n with
    | GFunctionBuiltIn f =>
      simp only [GFunctionNode.eval] at h
      rw [builtIn_error A f params e h]; trivial
    | GFunctionVariable i =>
      simp only [GFunctionNode.eval] at h
      rw [param_error params i e h]; trivial
    | GFunctionConstant v => simp [GFunctionNode.eval] at h
    | GFunctionCall name pf cs =>
      have hch := evalChildren_signature (fun P c => GFunctionNode.eval A depth P c params)
        (fun P c => eval_signature A depth P c params) cs P
      have hcj := evalChildren_justified (fun P c => GFunctionNode.eval A depth P c params)
        (fun P c => eval_signature A depth P c params)
        (fun P c e => eval_justified depth P c params e) cs P
      simp only [GFunctionNode.eval] at h
      rcases hev : evalChildren (fun P c => GFunctionNode.eval A depth P c params) P cs
        with ⟨r, cs', P1⟩
      rw [hev] at hch hcj h
      obtain ⟨hP1, -⟩ := hch
      simp only at hP1
      cases r with
      | error e0 =>
        simp only [Except.error.injEq] at h
        exact hcj e (by rw [h])
      | ok m_params =>
        simp only at h
        cases hb : (match pf with
            | some p => (Except.ok p : Except Ex NodePtr)
            | none => bind P1 name cs.length) with
        | error e0 =>
          rw [hb] at h
          simp only [Except.error.injEq] at h
          subst h
          cases pf with
          | some q => simp at hb
          | none => exact justified_signature hP1 _ (bind_justified P1 name cs.length _ hb)
        | ok p =>
          rw [hb] at h
          cases p with
          | operator f =>
            simp only at h
            rw [builtIn_error A f m_params e h]; trivial
          | root addr =>
            simp only at h
            cases hd : P1.deref addr with
            | none =>
              rw [hd] at h
              simp only [Except.error.injEq] at h
              subst h; trivial
            | some pFunc =>
              rw [hd] at h
              simp only at h
              exact justified_signature hP1 _
                (eval_justified depth P1 pFunc.m_pRoot m_params e h)

end Justified

/-! ## Definition and redefinition of a name -/

section Registry
variable {α : Type} (A : DoubleOps α)

theorem lookup_mapSet_self (name : String) (pFunc : GFunction α) :
    ∀ fs : List (String × GFunction α),
      (GFunctionParser.mapSet fs name pFunc).lookup name = some pFunc
  | [] => by simp [GFunctionParser.mapSet, List.lookup]
  | (k, v) :: rest => by
    by_cases hk : (k == name) = true
    · simp [GFunctionParser.mapSet, hk, List.lookup]
    · have hk' : (k == name) = false := by simpa using hk
      have hk2 : (name == k) = false := by
        simp only [beq_eq_false_iff_ne, ne_eq] at hk' ⊢
        exact fun h => hk' h.symm
      simp [GFunctionParser.mapSet, hk', List.lookup, hk2, lookup_mapSet_self name pFunc rest]

theorem mem_mapSet (name : String) (pFunc : GFunction α) :
    ∀ (fs : List (String × GFunction α)) (e : String × GFunction α),
      e ∈ GFunctionParser.mapSet fs name pFunc → e = (name, pFunc) ∨ e ∈ fs
  | [], e, h => by simp [GFunctionParser.mapSet] at h; exact Or.inl h
  | (k, v) :: rest, e, h => by
    by_cases hk : (k == name) = true
    · simp only [GFunctionParser.mapSet, hk, ↓reduceIte, List.mem_cons] at h
      rcases h with h | h
      · exact Or.inl h
      · exact Or.inr (List.mem_cons_of_mem _ h)
    · have hk' : (k == name) = false := by simpa using hk
      simp only [GFunctionParser.mapSet, hk', Bool.false_eq_true, ↓reduceIte,
        List.mem_cons] at h
      rcases h with h | h
      · exact Or.inr (by rw [h]; exact List.mem_cons_self _ _)
      · rcases mem_mapSet name pFunc rest e h with h' | h'
        · exact Or.inl h'
        · exact Or.inr (List.mem_cons_of_mem _ h')

theorem mem_mapSet_of_ne (name : String) (pFunc : GFunction α) :
    ∀ (fs : List (String × GFunction α)) (e : String × GFunction α),
      e ∈ fs → e.1 ≠ name → e ∈ GFunctionParser.mapSet fs name pFunc
  | [], e, h, _ => by simp at h
  | (k, v) :: rest, e, h, hne => by
    simp only [List.mem_cons] at h
    by_cases hk : (k == name) = true
    · simp only [GFunctionParser.mapSet, hk, ↓reduceIte, List.mem_cons]
      rcases h with h | h
      · subst h; simp at hk; exact absurd hk hne
      · exact Or.inr h
    · have hk' : (k == name) = false := by simpa using hk
      simp only [GFunctionParser.mapSet, hk', Bool.false_eq_true, ↓reduceIte, List.mem_cons]
      rcases h with h | h
      · exact Or.inl h
      · exact Or.inr (mem_mapSet_of_ne name pFunc rest e h hne)

theorem getFunctionNoThrow_addFunction (P : GFunctionParser α) (name : String)
    (pRoot : GFunctionNode α) (n : Int) :
    (P.addFunction name pRoot n).getFunctionNoThrow name =
      some { m_pRoot := pRoot, m_expectedParams := n, addr := P.heapNext } := by
  simp only [GFunctionParser.addFunction, GFunctionParser.getFunctionNoThrow]
  exact lookup_mapSet_self _ _ _

theorem addFunction_addr (P : GFunctionParser α) (hP : P.heapOk) (name : String)
    (pRoot : GFunctionNode α) (n : Int) :
    ∀ e ∈ (P.addFunction name pRoot n).m_functions, e.2.addr = P.heapNext → e.1 = name := by
  intro e he ha
  simp only [GFunctionParser.addFunction] at he
  rcases mem_mapSet _ _ _ e he with h | h
  · rw [h]
  · exfalso
    have hlt : e.2.addr < P.heapNext := by
      cases hf : P.getFunctionNoThrow name with
      | none => rw [hf] at h; exact hP e h
      | some old =>
        rw [hf] at h
        simp only [List.mem_map] at h
        obtain ⟨e0, he0, rfl⟩ := h
        exact hP e0 he0
    omega

theorem addFunction_heapOk (P : GFunctionParser α) (hP : P.heapOk) (name : String)
    (pRoot : GFunctionNode α) (n : Int) : (P.addFunction name pRoot n).heapOk := by
  intro e he
  simp only [GFunctionParser.addFunction] at he ⊢
  rcases mem_mapSet _ _ _ e he with h | h
  · rw [h]; simp
  · have hlt : e.2.addr < P.heapNext := by
      cases hf : P.getFunctionNoThrow name with
      | none => rw [hf] at h; exact hP e h
      | some old =>
        rw [hf] at h
        simp only [List.mem_map] at h
        obtain ⟨e0, he0, rfl⟩ := h
        exact hP e0 he0
    omega

theorem addr_name_signature {P Q : GFunctionParser α} (h : Q.signature = P.signature)
    (a : Nat) (name : String)
    (hP : ∀ e ∈ P.m_functions, e.2.addr = a → e.1 = name) :
    ∀ e ∈ Q.m_functions, e.2.addr = a → e.1 = name := by
  intro e he ha
  have hm : GFunction.signature e ∈ Q.m_functions.map GFunction.signature :=
    List.mem_map_of_mem _ he
  have hq : Q.m_functions.map GFunction.signature = P.m_functions.map GFunction.signature :=
    congrArg Prod.fst h
  rw [hq] at hm
  obtain ⟨e', he', hs⟩ := List.mem_map.mp hm
  simp only [GFunction.signature, Prod.mk.injEq] at hs
  rw [← hs.1]
  exact hP e' he' (by rw [hs.2.2.1]; exact ha)

theorem deref_of_lookup (name : String) (pFunc : GFunction α) :
    ∀ fs : List (String × GFunction α),
      fs.lookup name = some pFunc →
      (∀ e ∈ fs, e.2.addr = pFunc.addr → e.1 = name) →
      (fs.find? (fun e => e.2.addr == pFunc.addr)).map (fun e => e.2) = some pFunc
  | [], h, _ => by simp at h
  | (k, v) :: rest, h, h2 => by
    by_cases hk : (name == k) = true
    · simp only [List.lookup, hk, Option.some.injEq] at h
      subst h
      simp [List.find?]
    · have hk' : (name == k) = false := by simpa using hk
      simp only [List.lookup, hk'] at h
      by_cases hv : (v.addr == pFunc.addr) = true
      · have := h2 (k, v) (List.mem_cons_self _ _) (by simpa using hv)
        simp only at this
        subst this
        simp at hk'
      · have hv' : (v.addr == pFunc.addr) = false := by simpa using hv
        simp only [List.find?, hv']
        exact deref_of_lookup name pFunc rest h
          (fun e he => h2 e (List.mem_cons_of_mem _ he))


theorem eval_unbound_call (depth : Nat) (Q : GFunctionParser α) (name : String)
    (cs : List (GFunctionNode α)) (params vals : List α) (cs' : List (GFunctionNode α))
    (Q1 : GFunctionParser α) (pFunc : GFunction α)
    (hc : evalChildren (fun P c => GFunctionNode.eval A depth P c params) Q cs =
      (.ok vals, cs', Q1))
    (hb : bind Q1 name cs.length = .ok (.root pFunc.addr))
    (hd : Q1.deref pFunc.addr = some pFunc) :
    GFunctionNode.eval A (depth + 1) Q (.GFunctionCall name none cs) params =
      ((GFunctionNode.eval A depth Q1 pFunc.m_pRoot vals).1,
        .GFunctionCall name (some (.root pFunc.addr)) cs',
        (GFunctionNode.eval A depth Q1 pFunc.m_pRoot vals).2.2.storeRoot pFunc.addr
          (GFunctionNode.eval A depth Q1 pFunc.m_pRoot vals).2.1) := by
  simp only [GFunctionNode.eval, hc, hb, hd]

theorem eval_unbound_call_error (depth : Nat) (Q : GFunctionParser α) (name : String)
    (cs : List (GFunctionNode α)) (params vals : List α) (cs' : List (GFunctionNode α))
    (Q1 : GFunctionParser α) (e : Ex)
    (hc : evalChildren (fun P c => GFunctionNode.eval A depth P c params) Q cs =
      (.ok vals, cs', Q1))
    (hb : bind Q1 name cs.length = .error e) :
    GFunctionNode.eval A (depth + 1) Q (.GFunctionCall name none cs) params =
      (.error e, .GFunctionCall name none cs', Q1) := by
  simp only [GFunctionNode.eval, hc, hb]

theorem evalChildren_frame (depth : Nat) (Q : GFunctionParser α)
    (cs : List (GFunctionNode α)) (params : List α) :
    (evalChildren (fun P c => GFunctionNode.eval A depth P c params) Q cs).2.2.signature =
      Q.signature :=
  (evalChildren_signature (fun P c => GFunctionNode.eval A depth P c params)
    (fun P c => eval_signature A depth P c params) cs Q).1

theorem call_after_addFunction (P : GFunctionParser α) (hP : P.heapOk) (name : String)
    (newRoot : GFunctionNode α) (n : Int) (Q : GFunctionParser α)
    (hQ : Q.signature = (P.addFunction name newRoot n).signature)
    (depth : Nat) (params : List α) (cs : List (GFunctionNode α)) (vals : List α)
    (cs' : List (GFunctionNode α)) (Q1 : GFunctionParser α)
    (hc : evalChildren (fun P c => GFunctionNode.eval A depth P c params) Q cs =
      (.ok vals, cs', Q1))
    (hk : checkParams name cs.length n = .ok ()) :
    ∃ pFunc, Q1.getFunctionNoThrow name = some pFunc ∧ Q1.deref P.heapNext = some pFunc ∧
      pFunc.m_expectedParams = n ∧ pFunc.addr = P.heapNext ∧
      pFunc.m_pRoot.skeleton = newRoot.skeleton ∧
      GFunctionNode.eval A (depth + 1) Q (.GFunctionCall name none cs) params =
        ((GFunctionNode.eval A depth Q1 pFunc.m_pRoot vals).1,
          .GFunctionCall name (some (.root P.heapNext)) cs',
          (GFunctionNode.eval A depth Q1 pFunc.m_pRoot vals).2.2.storeRoot P.heapNext
            (GFunctionNode.eval A depth Q1 pFunc.m_pRoot vals).2.1) := by
  have hQ1 : Q1.signature = (P.addFunction name newRoot n).signature := by
    have := evalChildren_frame A depth Q cs params
    rw [hc] at this
    exact this.trans hQ
  obtain ⟨pFunc, hf, harity, haddr, hskel⟩ :=
    getFunction_signature hQ1.symm name _ (getFunctionNoThrow_addFunction P name newRoot n)
  simp only at harity haddr hskel
  have hd : Q1.deref pFunc.addr = some pFunc := by
    simp only [GFunctionParser.deref]
    apply deref_of_lookup name pFunc _ hf
    rw [haddr]
    exact addr_name_signature hQ1 _ _ (addFunction_addr P hP name newRoot n)
  have hb : bind Q1 name cs.length = .ok (.root pFunc.addr) := by
    simp only [bind, GFunctionParser.getFunction, hf, harity, hk]
  have := eval_unbound_call A depth Q name cs params vals cs' Q1 pFunc hc hb hd
  rw [haddr] at this hd
  exact ⟨pFunc, hf, hd, harity, haddr, hskel, this⟩

end Registry

theorem posixFunctions_addr {α : Type} (A : DoubleOps α) :
    ∀ e ∈ posixFunctions A, e.2.addr < 29 := by
  intro e he
  simp only [posixFunctions, entry, List.mem_cons, List.mem_singleton, List.not_mem_nil,
    or_false] at he
  rcases he with h | h | h | h | h | h | h | h | h | h | h | h | h | h | h | h | h | h | h |
    h | h | h | h | h | h | h | h | h | h <;> subst h <;> simp

theorem extended_heapOk {α : Type} (A : DoubleOps α) (user : List (String × GFunction α))
    (allocated : Nat) (h : ∀ e ∈ user, e.2.addr < 29 + allocated) :
    (extended A user allocated).heapOk := by
  intro e he
  simp only [extended, List.mem_append] at he ⊢
  rcases he with he | he
  · have := posixFunctions_addr A e he
    omega
  · exact h e he

/-! ## C1: redefinition -/

section Scenario1
variable {α : Type} (A : DoubleOps α)

theorem scenario_f2 :
    (extended A [] 0).add A "f(x)=x*2" =
      (.ok (), extended A
        [entry "f" (operatorCall .times [.GFunctionVariable 0, .GFunctionConstant (A.atof "2")]) 1 29] 1) := by
  rfl

theorem scenario_f2_g :
    (extended A
        [entry "f" (operatorCall .times [.GFunctionVariable 0, .GFunctionConstant (A.atof "2")]) 1 29] 1).add A
        "g(x)=f(x)+1" =
      (.ok (), extended A
        [entry "f" (operatorCall .times [.GFunctionVariable 0, .GFunctionConstant (A.atof "2")]) 1 29,
         entry "g" (operatorCall .plus [.GFunctionCall "f" none [.GFunctionVariable 0],
           .GFunctionConstant (A.atof "1")]) 1 30] 2) := by
  rfl

theorem scenario_f2_g_call (x : α) (d : Nat) :
    (extended A
        [entry "f" (operatorCall .times [.GFunctionVariable 0, .GFunctionConstant (A.atof "2")]) 1 29,
         entry "g" (operatorCall .plus [.GFunctionCall "f" none [.GFunctionVariable 0],
           .GFunctionConstant (A.atof "1")]) 1 30] 2).call A (d + 4) "g" [x] =
      (.ok (A.add (A.mul x (A.atof "2")) (A.atof "1")), extended A
        [entry "f" (operatorCall .times [.GFunctionVariable 0, .GFunctionConstant (A.atof "2")]) 1 29,
         entry "g" (operatorCall .plus [.GFunctionCall "f" (some (.root 29)) [.GFunctionVariable 0],
           .GFunctionConstant (A.atof "1")]) 1 30] 2) := by
  rfl

theorem scenario_f3 :
    (extended A
        [entry "f" (operatorCall .times [.GFunctionVariable 0, .GFunctionConstant (A.atof "2")]) 1 29,
         entry "g" (operatorCall .plus [.GFunctionCall "f" (some (.root 29)) [.GFunctionVariable 0],
           .GFunctionConstant (A.atof "1")]) 1 30] 2).add A "f(x)=x*3" =
      (.ok (), extended A
        [entry "f" (operatorCall .times [.GFunctionVariable 0, .GFunctionConstant (A.atof "3")]) 1 31,
         entry "g" (operatorCall .plus [.GFunctionCall "f" none [.GFunctionVariable 0],
           .GFunctionConstant (A.atof "1")]) 1 30] 3) := by
  rfl

theorem scenario_f3_g_call (x : α) (d : Nat) :
    (extended A
        [entry "f" (operatorCall .times [.GFunctionVariable 0, .GFunctionConstant (A.atof "3")]) 1 31,
         entry "g" (operatorCall .plus [.GFunctionCall "f" none [.GFunctionVariable 0],
           .GFunctionConstant (A.atof "1")]) 1 30] 3).call A (d + 4) "g" [x] =
      (.ok (A.add (A.mul x (A.atof "3")) (A.atof "1")), extended A
        [entry "f" (operatorCall .times [.GFunctionVariable 0, .GFunctionConstant (A.atof "3")]) 1 31,
         entry "g" (operatorCall .plus [.GFunctionCall "f" (some (.root 31)) [.GFunctionVariable 0],
           .GFunctionConstant (A.atof "1")]) 1 30] 3) := by
  rfl

theorem atof_1 : atofExact "1" = 1 := by decide!
theorem atof_2 : atofExact "2" = 2 := by decide!
theorem atof_3 : atofExact "3" = 3 := by decide!

theorem unlinkChildren_length (name : String) : ∀ cs : List (GFunctionNode α),
    (GFunctionNode.unlink.unlinkChildren name cs).length = cs.length
  | [] => rfl
  | _ :: cs => by simp [GFunctionNode.unlink.unlinkChildren, unlinkChildren_length name cs]

theorem unlink_call (name : String) (pf : Option NodePtr) (cs : List (GFunctionNode α)) :
    (GFunctionNode.GFunctionCall name pf cs).unlink name =
      .GFunctionCall name none (GFunctionNode.unlink.unlinkChildren name cs) := by
  simp [GFunctionNode.unlink]

theorem addFunction_unlinks (P : GFunctionParser α) (name : String) (old : GFunction α)
    (hf : P.getFunctionNoThrow name = some old) (newRoot : GFunctionNode α) (n : Int)
    (k : String) (pFunc : GFunction α) (hk : (k, pFunc) ∈ P.m_functions) (hne : k ≠ name) :
    (k, { pFunc with m_pRoot := pFunc.m_pRoot.unlink name }) ∈
      (P.addFunction name newRoot n).m_functions := by
  simp only [GFunctionParser.addFunction, hf]
  apply mem_mapSet_of_ne
  · exact List.mem_map.mpr ⟨(k, pFunc), hk, rfl⟩
  · exact hne

end Scenario1

/-- C1. Redefinition rebinds the callers.  On a new parser, after
`add("f(x)=x*2")` and `add("g(x)=f(x)+1")` the call of `g` with `[3]` returns
7 (in exact arithmetic, with any stack of at least 4 frames); after
`add("f(x)=x*3")` the same `GFunction` `g`, which was not defined again,
returns 10.  In general, when `addFunction(name, newRoot, n)` replaces a
registered name in a parser with a sound allocation counter, every other
registered tree is stored unlinked, and in every state that differs from the
new one by cached pointers only, a call node of `name`, whatever pointer it
had cached before, whose children evaluate to `vals` and are as many as the
new definition expects, returns what the body stored under the new
allocation returns on `vals`; that body is `newRoot` apart from its cache. -/
theorem C1_redefinition_rebinds_callers :
    (∀ (T : Inexact) (d : Nat),
      let E := exactOps T
      let P2 := (((GFunctionParser.ctor E false).add E "f(x)=x*2").2.add E "g(x)=f(x)+1").2
      let r1 := P2.call E (d + 4) "g" [3]
      let P3 := (r1.2.add E "f(x)=x*3").2
      let r2 := P3.call E (d + 4) "g" [3]
      r1.1 = .ok 7 ∧ r2.1 = .ok 10 ∧
        (P3.getFunctionNoThrow "g").map (fun g => g.addr) =
          (P2.getFunctionNoThrow "g").map (fun g => g.addr)) ∧
    (∀ (α : Type) (A : DoubleOps α) (P : GFunctionParser α) (name : String)
      (old : GFunction α) (newRoot : GFunctionNode α) (n : Int) (pf : Option NodePtr)
      (cs : List (GFunctionNode α)) (Q : GFunctionParser α) (depth : Nat) (params vals : List α)
      (cs' : List (GFunctionNode α)) (Q1 : GFunctionParser α),
      P.heapOk →
      P.getFunctionNoThrow name = some old →
      Q.signature = (P.addFunction name newRoot n).signature →
      evalChildren (fun P c => GFunctionNode.eval A depth P c params) Q
        (GFunctionNode.unlink.unlinkChildren name cs) = (.ok vals, cs', Q1) →
      checkParams name cs.length n = .ok () →
      (∀ k pFunc, (k, pFunc) ∈ P.m_functions → k ≠ name →
        (k, { pFunc with m_pRoot := pFunc.m_pRoot.unlink name }) ∈
          (P.addFunction name newRoot n).m_functions) ∧
      ∃ pFunc, Q1.deref P.heapNext = some pFunc ∧
        pFunc.m_pRoot.skeleton = newRoot.skeleton ∧
        (GFunctionNode.eval A (depth + 1) Q ((GFunctionNode.GFunctionCall name pf cs).unlink name)
          params).1 = (GFunctionNode.eval A depth Q1 pFunc.m_pRoot vals).1) := by
  refine ⟨?_, ?_⟩
  · intro T d
    simp only [ctor_posix, scenario_f2, scenario_f2_g, scenario_f2_g_call, scenario_f3,
      scenario_f3_g_call]
    refine ⟨?_, ?_, rfl⟩
    · simp only [exactOps, atof_1, atof_2]; norm_num
    · simp only [exactOps, atof_1, atof_3]; norm_num
  · intro α A P name old newRoot n pf cs Q depth params vals cs' Q1 hP hf hQ hc hk
    refine ⟨fun k pFunc hmem hne => addFunction_unlinks P name old hf newRoot n k pFunc hmem hne,
      ?_⟩
    rw [← unlinkChildren_length name cs] at hk
    obtain ⟨pFunc, -, hd, -, -, hskel, he⟩ :=
      call_after_addFunction A P hP name newRoot n Q hQ depth params _ vals cs' Q1 hc hk
    exact ⟨pFunc, hd, hskel, by rw [unlink_call, he]⟩

/-- C1, at an input: in the parser in which `g` has cached the root of
`f(x)=x*2`, `addFunction("f", x*3, 1)` makes the call `f(x)` inside `g`
return `3*3` on `[3]`. -/
theorem C1_redefinition_rebinds_callers_witness :
    let E := exactOps noInexact
    let f2 : GFunctionNode ℚ := operatorCall .times [.GFunctionVariable 0, .GFunctionConstant 2]
    let f3 : GFunctionNode ℚ := operatorCall .times [.GFunctionVariable 0, .GFunctionConstant 3]
    let g : GFunctionNode ℚ :=
      operatorCall .plus [.GFunctionCall "f" (some (.root 29)) [.GFunctionVariable 0],
        .GFunctionConstant 1]
    let P : GFunctionParser ℚ := extended E [entry "f" f2 1 29, entry "g" g 1 30] 2
    P.heapOk ∧
      P.getFunctionNoThrow "f" = some { m_pRoot := f2, m_expectedParams := 1, addr := 29 } ∧
      ∃ pFunc, (P.addFunction "f" f3 1).deref 31 = some pFunc ∧
        pFunc.m_pRoot.skeleton = f3.skeleton ∧
        (GFunctionNode.eval E 3 (P.addFunction "f" f3 1)
          ((GFunctionNode.GFunctionCall "f" (some (.root 29)) [.GFunctionVariable 0]).unlink "f")
          [3]).1 = (GFunctionNode.eval E 2 (P.addFunction "f" f3 1) pFunc.m_pRoot [3]).1 := by
  intro E f2 f3 g P
  have hP : P.heapOk := by
    apply extended_heapOk
    intro e he
    simp only [List.mem_cons, List.mem_singleton, List.not_mem_nil, or_false] at he
    rcases he with h | h <;> subst h <;> simp [entry]
  have hf : P.getFunctionNoThrow "f" = some { m_pRoot := f2, m_expectedParams := 1, addr := 29 } :=
    rfl
  exact ⟨hP, hf,
    (C1_redefinition_rebinds_callers.2 ℚ E P "f" _ f3 1 (some (.root 29))
      [.GFunctionVariable 0] (P.addFunction "f" f3 1) 2 [3] [3] [.GFunctionVariable 0]
      (P.addFunction "f" f3 1) hP hf rfl rfl rfl).2⟩

/-! ## C2: forward references -/

section Independent
variable {α : Type} (A : DoubleOps α)

theorem parseFunction_independent (P P' : GFunctionParser α) (tokens : List String)
    (start count : Nat) :
    (P.parseFunction A tokens start count).map (fun _ => ()) =
      (P'.parseFunction A tokens start count).map (fun _ => ()) := by
  simp only [GFunctionParser.parseFunction]
  split_ifs <;> try rfl
  · cases parseVariableNames tokens (start + 2) (equalLoop tokens start count 0 - 3) with
    | error e => rfl
    | ok vars =>
      simp only
      cases parseFunctionBody A vars tokens bodyBound (start + equalLoop tokens start count 0 + 1)
        (count - (equalLoop tokens start count 0 + 1)) 0 <;> rfl
  · simp only
    cases parseFunctionBody A [] tokens bodyBound (start + equalLoop tokens start count 0 + 1)
      (count - (equalLoop tokens start count 0 + 1)) 0 <;> rfl

theorem functionListLoop_independent (tokens : List String) :
    ∀ (n i start : Nat) (P P' : GFunctionParser α),
      (functionListLoop A tokens n i start P).1 = (functionListLoop A tokens n i start P').1
  | 0, _, _, _, _ => rfl
  | n + 1, i, start, P, P' => by
    simp only [functionListLoop]
    split
    · have h := parseFunction_independent A P P' tokens start (i - start)
      cases h1 : P.parseFunction A tokens start (i - start) with
      | error e =>
        cases h2 : P'.parseFunction A tokens start (i - start) with
        | error e' => rw [h1, h2] at h; simp [Except.map] at h; simp [h]
        | ok Q' => rw [h1, h2] at h; simp [Except.map] at h
      | ok Q =>
        cases h2 : P'.parseFunction A tokens start (i - start) with
        | error e' => rw [h1, h2] at h; simp [Except.map] at h
        | ok Q' => exact functionListLoop_independent tokens n (i + 1) (i + 1) Q Q'
    · exact functionListLoop_independent tokens n (i + 1) start P P'

theorem add_independent (P P' : GFunctionParser α) (szEquations : String) :
    (P.add A szEquations).1 = (P'.add A szEquations).1 := by
  simp only [GFunctionParser.add, GFunctionParser.parseFunctionList]
  have h := functionListLoop_independent A (tokenize szEquations)
    (tokenize szEquations).length 0 0 P P'
  rcases h1 : functionListLoop A (tokenize szEquations) (tokenize szEquations).length 0 0 P
    with ⟨r, Q⟩
  rcases h2 : functionListLoop A (tokenize szEquations) (tokenize szEquations).length 0 0 P'
    with ⟨r', Q'⟩
  rw [h1, h2] at h
  simp only at h
  subst h
  cases r with
  | error e => rfl
  | ok start =>
    simp only
    have h := parseFunction_independent A Q Q' (tokenize szEquations) start
      ((tokenize szEquations).length - start)
    cases h3 : Q.parseFunction A (tokenize szEquations) start
        ((tokenize szEquations).length - start) with
    | error e =>
      cases h4 : Q'.parseFunction A (tokenize szEquations) start
          ((tokenize szEquations).length - start) with
      | error e' => rw [h3, h4] at h; simp [Except.map] at h; simp [h]
      | ok Q2 => rw [h3, h4] at h; simp [Except.map] at h
    | ok Q1 =>
      cases h4 : Q'.parseFunction A (tokenize szEquations) start
          ((tokenize szEquations).length - start) with
      | error e' => rw [h3, h4] at h; simp [Except.map] at h
      | ok Q2 => rfl

end Independent

section Scenario2
variable {α : Type} (A : DoubleOps α)

theorem scenario_forward :
    (extended A [] 0).add A "g(x)=f(x);f(x)=x*x" =
      (.ok (), extended A
        [entry "g" (.GFunctionCall "f" none [.GFunctionVariable 0]) 1 29,
         entry "f" (operatorCall .times [.GFunctionVariable 0, .GFunctionVariable 0]) 1 30] 2) := by
  rfl

theorem scenario_forward_call (x : α) (d : Nat) :
    (extended A
        [entry "g" (.GFunctionCall "f" none [.GFunctionVariable 0]) 1 29,
         entry "f" (operatorCall .times [.GFunctionVariable 0, .GFunctionVariable 0]) 1 30]
        2).call A (d + 3) "g" [x] =
      (.ok (A.mul x x), extended A
        [entry "g" (.GFunctionCall "f" (some (.root 30)) [.GFunctionVariable 0]) 1 29,
         entry "f" (operatorCall .times [.GFunctionVariable 0, .GFunctionVariable 0]) 1 30]
        2) := by
  rfl

end Scenario2

/-- C2. Forward reference.  Whether `add` returns or throws does not depend
on the registry, so a body may call a name that is not registered.  On a new
parser `add("g(x)=f(x);f(x)=x*x")` returns; it leaves in `g` a call node of
`f` with `m_pFunction == NULL`; the call of `g` with `[x]` returns `x*x` for
every `x` (with any stack of at least 3 frames), 16 for `x = 4` in exact
arithmetic, and leaves the call node pointing to the root of `f`. -/
theorem C2_forward_reference :
    (∀ (α : Type) (A : DoubleOps α) (P P' : GFunctionParser α) (szEquations : String),
      (P.add A szEquations).1 = (P'.add A szEquations).1) ∧
    (∀ (α : Type) (A : DoubleOps α) (x : α) (d : Nat),
      let S := (GFunctionParser.ctor A false).add A "g(x)=f(x);f(x)=x*x"
      let r := S.2.call A (d + 3) "g" [x]
      S.1 = .ok () ∧
        (S.2.getFunctionNoThrow "g").map (fun g => g.m_pRoot) =
          some (.GFunctionCall "f" none [.GFunctionVariable 0]) ∧
        r.1 = .ok (A.mul x x) ∧
        (r.2.getFunctionNoThrow "g").map (fun g => g.m_pRoot) =
          (r.2.getFunctionNoThrow "f").map
            (fun f => .GFunctionCall "f" (some (.root f.addr)) [.GFunctionVariable 0])) ∧
    (∀ (T : Inexact) (d : Nat),
      (((GFunctionParser.ctor (exactOps T) false).add (exactOps T) "g(x)=f(x);f(x)=x*x").2.call
        (exactOps T) (d + 3) "g" [4]).1 = .ok 16) := by
  refine ⟨fun α A P P' s => add_independent A P P' s, ?_, ?_⟩
  · intro α A x d
    simp only [ctor_posix, scenario_forward, scenario_forward_call]
    refine ⟨?_, ?_, ?_, ?_⟩ <;> first | rfl | trivial
  · intro T d
    simp only [ctor_posix, scenario_forward, scenario_forward_call]
    simp only [exactOps]; norm_num

/-! ## C3: the second scenario of `GFunctionParser::test` -/

section Scenario3
variable {α : Type} (A : DoubleOps α)

theorem scenario_somefunc :
    (extended A [] 0).add A
        "h(bob)=bob^2;somefunc(x)=3+blah(x,5)*h(x)-(x/foo);blah(a,b)=a*b-b;foo=3.2" =
      (.ok (), extended A
        [entry "h" (operatorCall .exponent [.GFunctionVariable 0,
            .GFunctionConstant (A.atof "2")]) 1 29,
         entry "somefunc" (operatorCall .minus
            [operatorCall .plus [.GFunctionConstant (A.atof "3"),
              operatorCall .times
                [.GFunctionCall "blah" none [.GFunctionVariable 0, .GFunctionConstant (A.atof "5")],
                 .GFunctionCall "h" none [.GFunctionVariable 0]]],
             operatorCall .divide [.GFunctionVariable 0, .GFunctionCall "foo" none []]]) 1 30,
         entry "blah" (operatorCall .minus
            [operatorCall .times [.GFunctionVariable 0, .GFunctionVariable 1],
             .GFunctionVariable 1]) 2 31,
         entry "foo" (.GFunctionConstant (A.atof "3.2")) 0 32] 4) := by
  rfl

theorem scenario_somefunc_call (x : α) (d : Nat) :
    ((extended A
        [entry "h" (operatorCall .exponent [.GFunctionVariable 0,
            .GFunctionConstant (A.atof "2")]) 1 29,
         entry "somefunc" (operatorCall .minus
            [operatorCall .plus [.GFunctionConstant (A.atof "3"),
              operatorCall .times
                [.GFunctionCall "blah" none [.GFunctionVariable 0, .GFunctionConstant (A.atof "5")],
                 .GFunctionCall "h" none [.GFunctionVariable 0]]],
             operatorCall .divide [.GFunctionVariable 0, .GFunctionCall "foo" none []]]) 1 30,
         entry "blah" (operatorCall .minus
            [operatorCall .times [.GFunctionVariable 0, .GFunctionVariable 1],
             .GFunctionVariable 1]) 2 31,
         entry "foo" (.GFunctionConstant (A.atof "3.2")) 0 32] 4).call A (d + 7) "somefunc" [x]).1 =
      .ok (A.sub
        (A.add (A.atof "3")
          (A.mul (A.sub (A.mul x (A.atof "5")) (A.atof "5")) (A.pow x (A.atof "2"))))
        (A.div x (A.atof "3.2"))) := by
  rfl

theorem atof_5 : atofExact "5" = 5 := by decide!
theorem atof_3_2 : atofExact "3.2" = 16 / 5 := by decide!

end Scenario3

/-- C3. On a new parser, after
`add("h(bob)=bob^2;somefunc(x)=3+blah(x,5)*h(x)-(x/foo);blah(a,b)=a*b-b;foo=3.2")`,
which returns, `somefunc` is registered with `m_expectedParams == 1`, and the
call of `somefunc` with `[x]` returns `3 + (x*5 - 5)*pow(x,2) - x/3.2` for
every `x` (with any stack of at least 7 frames), although `blah` and `foo`
are defined after `somefunc`; in exact arithmetic that is
`3 + (x*5 - 5)*x^2 - x/3.2`, and 3.26125 at `x = 1.1`. -/
theorem C3_somefunc :
    (∀ (α : Type) (A : DoubleOps α) (x : α) (d : Nat),
      let S := (GFunctionParser.ctor A false).add A
        "h(bob)=bob^2;somefunc(x)=3+blah(x,5)*h(x)-(x/foo);blah(a,b)=a*b-b;foo=3.2"
      S.1 = .ok () ∧
        (S.2.getFunctionNoThrow "somefunc").map (fun f => f.m_expectedParams) = some 1 ∧
        (S.2.call A (d + 7) "somefunc" [x]).1 =
          .ok (A.sub
            (A.add (A.atof "3")
              (A.mul (A.sub (A.mul x (A.atof "5")) (A.atof "5")) (A.pow x (A.atof "2"))))
            (A.div x (A.atof "3.2")))) ∧
    (∀ (T : Inexact) (x : ℚ) (d : Nat),
      (((GFunctionParser.ctor (exactOps T) false).add (exactOps T)
        "h(bob)=bob^2;somefunc(x)=3+blah(x,5)*h(x)-(x/foo);blah(a,b)=a*b-b;foo=3.2").2.call
        (exactOps T) (d + 7) "somefunc" [x]).1 = .ok (3 + (x * 5 - 5) * x ^ 2 - x / (32 / 10))) ∧
    (∀ (T : Inexact) (d : Nat),
      (((GFunctionParser.ctor (exactOps T) false).add (exactOps T)
        "h(bob)=bob^2;somefunc(x)=3+blah(x,5)*h(x)-(x/foo);blah(a,b)=a*b-b;foo=3.2").2.call
        (exactOps T) (d + 7) "somefunc" [11 / 10]).1 = .ok (326125 / 100000)) := by
  have exact : ∀ (T : Inexact) (x : ℚ) (d : Nat),
      (((GFunctionParser.ctor (exactOps T) false).add (exactOps T)
        "h(bob)=bob^2;somefunc(x)=3+blah(x,5)*h(x)-(x/foo);blah(a,b)=a*b-b;foo=3.2").2.call
        (exactOps T) (d + 7) "somefunc" [x]).1 = .ok (3 + (x * 5 - 5) * x ^ 2 - x / (32 / 10)) := by
    intro T x d
    simp only [ctor_posix, scenario_somefunc, scenario_somefunc_call]
    simp only [exactOps, atof_2, atof_3, atof_5, atof_3_2]
    norm_num [show Int.toNat 2 = 2 from rfl]
  refine ⟨?_, exact, ?_⟩
  · intro α A x d
    simp only [ctor_posix, scenario_somefunc, scenario_somefunc_call]
    refine ⟨?_, ?_, ?_⟩ <;> first | rfl | trivial
  · intro T d
    rw [exact T (11 / 10) d]
    norm_num

/-! ## C4: the first scenario of `GFunctionParser::test` -/

section Scenario4
variable {α : Type} (A : DoubleOps α)

theorem scenario_logistic :
    (extended A [] 0).add A "f(x)=1/(1+e^-x)" =
      (.ok (), extended A
        [entry "f" (operatorCall .divide [.GFunctionConstant (A.atof "1"),
          operatorCall .plus [.GFunctionConstant (A.atof "1"),
            operatorCall .exponent [.GFunctionCall "e" none [],
              operatorCall .negate [.GFunctionVariable 0]]]]) 1 29] 1) := by
  rfl

theorem scenario_logistic_call (x : α) (d : Nat) :
    ((extended A
        [entry "f" (operatorCall .divide [.GFunctionConstant (A.atof "1"),
          operatorCall .plus [.GFunctionConstant (A.atof "1"),
            operatorCall .exponent [.GFunctionCall "e" none [],
              operatorCall .negate [.GFunctionVariable 0]]]]) 1 29] 1).call A (d + 5) "f" [x]).1 =
      .ok (A.div (A.atof "1") (A.add (A.atof "1") (A.pow A.M_E (A.neg x)))) := by
  rfl

end Scenario4

/-- C4. On a new parser, after `add("f(x)=1/(1+e^-x)")`, which returns, `f` is
registered with `m_expectedParams == 1`, its tree is
`divide(1, plus(1, exponent(e, negate(x))))`, where `e` is a call node of the
name `e` without children and `x` the variable 0, and the call of `f` with
`[x]` returns `1 / (1 + pow(M_E, -x))`, the logistic function of `x`, for
every `x` (with any stack of at least 5 frames). -/
theorem C4_logistic (α : Type) (A : DoubleOps α) (x : α) (d : Nat) :
    let S := (GFunctionParser.ctor A false).add A "f(x)=1/(1+e^-x)"
    S.1 = .ok () ∧
      (S.2.getFunctionNoThrow "f").map (fun f => f.m_expectedParams) = some 1 ∧
      (S.2.getFunctionNoThrow "f").map (fun f => f.m_pRoot) =
        some (operatorCall .divide [.GFunctionConstant (A.atof "1"),
          operatorCall .plus [.GFunctionConstant (A.atof "1"),
            operatorCall .exponent [.GFunctionCall "e" none [],
              operatorCall .negate [.GFunctionVariable 0]]]]) ∧
      (S.2.call A (d + 5) "f" [x]).1 =
        .ok (A.div (A.atof "1") (A.add (A.atof "1") (A.pow A.M_E (A.neg x)))) := by
  simp only [ctor_posix, scenario_logistic, scenario_logistic_call]
  refine ⟨?_, ?_, ?_, ?_⟩ <;> first | rfl | trivial

/-! ## C5: the header of a statement -/

section Header
variable {α : Type} (A : DoubleOps α)

theorem tokenAt_of_drop (tokens : List String) (k : Nat) (x : String) (l : List String)
    (h : tokens.drop k = x :: l) : tokenAt tokens k = x := by
  have : tokens[k]? = some x := by
    rw [← List.head?_drop, h]; rfl
  simp [tokenAt, this]

theorem drop_succ_of_drop (tokens : List String) (k : Nat) (x : String) (l : List String)
    (h : tokens.drop k = x :: l) : tokens.drop (k + 1) = l := by
  have : tokens.drop (k + 1) = (tokens.drop k).drop 1 := by
    rw [List.drop_drop, Nat.add_comm]
  rw [this, h]; rfl

theorem variableLoop_intersperse (tokens : List String) (s count : Nat) :
    ∀ (vs acc : List String) (i n : Nat) (rest r : List String),
      tokens.drop (s + i) = vs.intersperse "," ++ rest →
      count = i + (vs.intersperse ",").length →
      (vs.intersperse ",").length ≤ n →
      variableLoop tokens s count n i acc = .ok r → r = acc ++ vs
  | [], acc, i, n, rest, r, _, hc, _, h => by
    simp only [List.intersperse_nil, List.length_nil, Nat.add_zero] at hc
    cases n with
    | zero => simp only [variableLoop, Except.ok.injEq] at h; simp [← h]
    | succ n =>
      simp only [variableLoop, hc, Nat.lt_irrefl, ↓reduceIte, Except.ok.injEq] at h
      simp [← h]
  | [v], acc, i, n, rest, r, hd, hc, hn, h => by
    simp only [List.intersperse_single, List.length_singleton, List.singleton_append] at hd hc hn
    cases n with
    | zero => omega
    | succ n =>
      have ht := tokenAt_of_drop tokens (s + i) v rest hd
      have hi : i < count := by omega
      have hi1 : ¬ (i + 1 < count) := by omega
      simp only [variableLoop, hi, ↓reduceIte, ht, hi1, decide_False, Bool.false_and,
        Bool.false_eq_true] at h
      split at h
      · cases h
      · cases n with
        | zero => simp only [variableLoop, Except.ok.injEq] at h; simp [← h]
        | succ n =>
          have hi2 : ¬ (i + 2 < count) := by omega
          simp only [variableLoop, hi2, ↓reduceIte, Except.ok.injEq] at h
          simp [← h]
  | v :: v' :: tl, acc, i, n, rest, r, hd, hc, hn, h => by
    simp only [List.intersperse_cons₂, List.length_cons, List.cons_append] at hd hc hn
    cases n with
    | zero => omega
    | succ n =>
      have ht := tokenAt_of_drop tokens (s + i) v _ hd
      have hd1 := drop_succ_of_drop tokens (s + i) v _ hd
      have ht1 := tokenAt_of_drop tokens (s + i + 1) "," _ hd1
      have hd2 := drop_succ_of_drop tokens (s + i + 1) "," _ hd1
      have hi : i < count := by omega
      have hi1 : i + 1 < count := by omega
      simp only [variableLoop, hi, ↓reduceIte, ht, hi1, decide_True, Bool.true_and, ht1,
        bne_self_eq_false, Bool.false_eq_true] at h
      split at h
      · cases h
      · have := variableLoop_intersperse tokens s count (v' :: tl) (acc ++ [v]) (i + 2) n rest r
          (by rw [← hd2]; congr 1) (by omega) (by omega) h
        simp [this]

theorem equalLoop_found (tokens : List String) (start : Nat) :
    ∀ (k n equalPos : Nat),
      (∀ j, j < k → tokenAt tokens (start + equalPos + j) ≠ "=") →
      tokenAt tokens (start + equalPos + k) = "=" → k < n →
      equalLoop tokens start n equalPos = equalPos + k
  | 0, n, e, _, heq, hn => by
    cases n with
    | zero => omega
    | succ n => simp only [Nat.add_zero] at heq; simp [equalLoop, heq]
  | k + 1, n, e, hne, heq, hn => by
    cases n with
    | zero => omega
    | succ n =>
      have h0 : tokenAt tokens (start + e) ≠ "=" := by
        have := hne 0 (by omega)
        simpa using this
      have ih := equalLoop_found tokens start k n (e + 1)
        (fun j hj => by
          have := hne (j + 1) (by omega)
          rw [show start + (e + 1) + j = start + e + (j + 1) by omega]; exact this)
        (by rw [show start + (e + 1) + k = start + e + (k + 1) by omega]; exact heq)
        (by omega)
      simp only [equalLoop, beq_iff_eq, h0, ↓reduceIte, ih]
      omega

end Header

section Header2
variable {α : Type} (A : DoubleOps α)

theorem tokenAt_append_right (pre l : List String) (i : Nat) :
    tokenAt (pre ++ l) (pre.length + i) = tokenAt l i := by
  unfold tokenAt
  rw [List.getD_append_right _ _ _ _ (Nat.le_add_right _ _), Nat.add_sub_cancel_left]

theorem tokenAt_intersperse_ne (vs rest : List String) (hvs : ∀ v ∈ vs, v ≠ "=") :
    ∀ j, j < (vs.intersperse ",").length → tokenAt (vs.intersperse "," ++ rest) j ≠ "=" := by
  intro j hj
  have hmem : tokenAt (vs.intersperse "," ++ rest) j ∈ vs.intersperse "," := by
    simp only [tokenAt]
    rw [List.getD_append _ _ _ _ hj, List.getD_eq_getElem _ _ hj]
    exact List.getElem_mem _
  intro h
  rw [h] at hmem
  have : ∀ (l : List String), "=" ∈ l.intersperse "," → "=" ∈ l := by
    intro l
    induction l with
    | nil => simp
    | cons a tl ih =>
      cases tl with
      | nil => simp
      | cons b tl' =>
        simp only [List.intersperse_cons₂, List.mem_cons]
        intro h
        rcases h with h | h | h
        · exact Or.inl h
        · exact absurd h (by decide)
        · exact Or.inr (by simpa using ih h)
  exact hvs "=" (this vs hmem) rfl

/-- The tokens of a statement `name(v1,...,vn)=body`. -/
theorem header_equalPos (pre post body vs : List String) (name : String)
    (hname : name ≠ "=") (hvs : ∀ v ∈ vs, v ≠ "=") :
    equalLoop (pre ++ (name :: "(" :: (vs.intersperse "," ++ ")" :: "=" :: (body ++ post))))
      pre.length ((vs.intersperse ",").length + 4 + body.length) 0 =
        (vs.intersperse ",").length + 3 := by
  have := equalLoop_found
    (pre ++ (name :: "(" :: (vs.intersperse "," ++ ")" :: "=" :: (body ++ post)))) pre.length
    ((vs.intersperse ",").length + 3) ((vs.intersperse ",").length + 4 + body.length) 0
    (by
      intro j hj
      rw [Nat.add_zero, tokenAt_append_right]
      match j, hj with
      | 0, _ => simpa [tokenAt] using hname
      | 1, _ => simp only [tokenAt, List.getD_cons_succ, List.getD_cons_zero]; decide
      | j + 2, hj =>
        have hj' : j < (vs.intersperse ",").length + 1 := by omega
        simp only [tokenAt, List.getD_cons_succ]
        by_cases hlt : j < (vs.intersperse ",").length
        · exact tokenAt_intersperse_ne vs _ hvs j hlt
        · have : j = (vs.intersperse ",").length := by omega
          subst this
          rw [List.getD_append_right _ _ _ _ (le_refl _)]
          simp only [Nat.sub_self, List.getD_cons_zero]
          decide)
    (by
      rw [Nat.add_zero, tokenAt_append_right]
      simp only [tokenAt]
      rw [show (vs.intersperse ",").length + 3 = ((vs.intersperse ",").length + 1) + 2 by omega]
      simp only [List.getD_cons_succ]
      rw [List.getD_append_right _ _ _ _ (by omega)]
      simp)
    (by omega)
  simpa using this

theorem parseFunction_header (P P' : GFunctionParser α) (pre post body vs : List String)
    (name : String) (hname : name ≠ "=") (hvs : ∀ v ∈ vs, v ≠ "=")
    (h : P.parseFunction A
      (pre ++ (name :: "(" :: (vs.intersperse "," ++ ")" :: "=" :: (body ++ post))))
      pre.length ((vs.intersperse ",").length + 4 + body.length) = .ok P') :
    ∃ pRoot,
      parseFunctionBody A vs
        (pre ++ (name :: "(" :: (vs.intersperse "," ++ ")" :: "=" :: (body ++ post))))
        bodyBound (pre.length + ((vs.intersperse ",").length + 3) + 1) body.length 0 =
          .ok pRoot ∧
      P' = P.addFunction name pRoot vs.length := by
  have hcount : ((vs.intersperse ",").length + 4 + body.length == 0) = false := by
    simp only [beq_eq_false_iff_ne, ne_eq]; omega
  have h1 : tokenAt (pre ++ (name :: "(" :: (vs.intersperse "," ++ ")" :: "=" :: (body ++ post))))
      (pre.length + 1) = "(" := by
    rw [tokenAt_append_right]; rfl
  have h2 : tokenAt (pre ++ (name :: "(" :: (vs.intersperse "," ++ ")" :: "=" :: (body ++ post))))
      (pre.length + ((vs.intersperse ",").length + 3) - 1) = ")" := by
    rw [show pre.length + ((vs.intersperse ",").length + 3) - 1 =
      pre.length + (((vs.intersperse ",").length) + 2) by omega, tokenAt_append_right]
    simp only [tokenAt, List.getD_cons_succ]
    rw [List.getD_append_right _ _ _ _ (le_refl _)]
    simp
  have h0 : tokenAt (pre ++ (name :: "(" :: (vs.intersperse "," ++ ")" :: "=" :: (body ++ post))))
      pre.length = name := by
    have := tokenAt_append_right pre
      (name :: "(" :: (vs.intersperse "," ++ ")" :: "=" :: (body ++ post))) 0
    simpa [tokenAt] using this
  have hdrop : (pre ++ (name :: "(" :: (vs.intersperse "," ++ ")" :: "=" :: (body ++ post)))).drop
      (pre.length + 2 + 0) = vs.intersperse "," ++ ")" :: "=" :: (body ++ post) := by
    rw [Nat.add_zero, List.drop_append]; rfl
  simp only [GFunctionParser.parseFunction, hcount, Bool.false_eq_true, ↓reduceIte,
    header_equalPos pre post body vs name hname hvs, h0, h1, h2] at h
  have e1 : ¬ ((vs.intersperse ",").length + 3 ≥ (vs.intersperse ",").length + 4 + body.length) := by
    omega
  have e2 : ((vs.intersperse ",").length + 3 == 0) = false := by
    simp only [beq_eq_false_iff_ne, ne_eq]; omega
  have e3 : (vs.intersperse ",").length + 3 > 1 := by omega
  have e4 : (vs.intersperse ",").length + 4 + body.length - ((vs.intersperse ",").length + 3 + 1) =
      body.length := by omega
  simp only [e1, e2, e3, e4, ↓reduceIte, bne_self_eq_false, Bool.false_eq_true,
    Nat.add_sub_cancel] at h
  cases hv : parseVariableNames
      (pre ++ (name :: "(" :: (vs.intersperse "," ++ ")" :: "=" :: (body ++ post))))
      (pre.length + 2) (vs.intersperse ",").length with
  | error e => rw [hv] at h; cases h
  | ok vars =>
    rw [hv] at h
    have hvars : vars = vs := by
      have := variableLoop_intersperse _ (pre.length + 2) (vs.intersperse ",").length vs [] 0
        (vs.intersperse ",").length _ vars hdrop (by omega) (le_refl _) hv
      simpa using this
    subst hvars
    simp only at h
    cases hb : parseFunctionBody A vars
        (pre ++ (name :: "(" :: (vars.intersperse "," ++ ")" :: "=" :: (body ++ post))))
        bodyBound (pre.length + ((vars.intersperse ",").length + 3) + 1) body.length 0 with
    | error e => rw [hb] at h; cases h
    | ok pRoot =>
      rw [hb] at h
      simp only [Except.ok.injEq] at h
      exact ⟨pRoot, rfl, h.symm⟩

theorem parseFunction_constant (P P' : GFunctionParser α) (pre post body : List String)
    (name : String) (hname : name ≠ "=")
    (h : P.parseFunction A (pre ++ (name :: "=" :: (body ++ post))) pre.length
      (2 + body.length) = .ok P') :
    ∃ pRoot,
      parseFunctionBody A [] (pre ++ (name :: "=" :: (body ++ post))) bodyBound
        (pre.length + 1 + 1) body.length 0 = .ok pRoot ∧
      P' = P.addFunction name pRoot 0 := by
  have heq : equalLoop (pre ++ (name :: "=" :: (body ++ post))) pre.length (2 + body.length) 0 =
      1 := by
    have := equalLoop_found (pre ++ (name :: "=" :: (body ++ post))) pre.length 1
      (2 + body.length) 0
      (by
        intro j hj
        have : j = 0 := by omega
        subst this
        have := tokenAt_append_right pre (name :: "=" :: (body ++ post)) 0
        simp only [Nat.add_zero] at this ⊢
        rw [this]
        simpa [tokenAt] using hname)
      (by rw [Nat.add_zero, tokenAt_append_right]; rfl)
      (by omega)
    simpa using this
  have hcount : (2 + body.length == 0) = false := by
    simp only [beq_eq_false_iff_ne, ne_eq]; omega
  have h0 : tokenAt (pre ++ (name :: "=" :: (body ++ post))) pre.length = name := by
    have := tokenAt_append_right pre (name :: "=" :: (body ++ post)) 0
    simpa [tokenAt] using this
  simp only [GFunctionParser.parseFunction, hcount, Bool.false_eq_true, ↓reduceIte, heq,
    h0] at h
  have e1 : ¬ (1 ≥ 2 + body.length) := by omega
  have e4 : 2 + body.length - (1 + 1) = body.length := by omega
  simp only [e1, ↓reduceIte, e4, gt_iff_lt, Nat.lt_irrefl, Nat.one_ne_zero, beq_iff_eq,
    List.length_nil, Nat.cast_zero] at h
  cases hb : parseFunctionBody A [] (pre ++ (name :: "=" :: (body ++ post))) bodyBound
      (pre.length + 1 + 1) body.length 0 with
  | error e => rw [hb] at h; cases h
  | ok pRoot =>
    rw [hb] at h
    simp only [Except.ok.injEq] at h
    exact ⟨pRoot, rfl, h.symm⟩

end Header2

/-- C5. A statement `name(v1,...,vn)=body` that `parseFunction` accepts,
wherever it stands in the token vector, is installed by
`addFunction(name, pRoot, n)`, where `pRoot` is the parse of `body` over the
variables `v1,...,vn`, so that the entry found under `name` afterwards has
`m_expectedParams == n`; a statement `name=body` that it accepts is installed
with `m_expectedParams == 0`.  (`name` and the `vi` are tokens other than
`=`.) -/
theorem C5_expected_params (α : Type) (A : DoubleOps α) (P P' : GFunctionParser α)
    (pre post body : List String) (name : String) (hname : name ≠ "=") :
    (∀ vs : List String, (∀ v ∈ vs, v ≠ "=") →
      P.parseFunction A
        (pre ++ (name :: "(" :: (vs.intersperse "," ++ ")" :: "=" :: (body ++ post))))
        pre.length ((vs.intersperse ",").length + 4 + body.length) = .ok P' →
      ∃ pRoot, P' = P.addFunction name pRoot vs.length ∧
        P'.getFunctionNoThrow name =
          some { m_pRoot := pRoot, m_expectedParams := vs.length, addr := P.heapNext }) ∧
    (P.parseFunction A (pre ++ (name :: "=" :: (body ++ post))) pre.length
        (2 + body.length) = .ok P' →
      ∃ pRoot, P' = P.addFunction name pRoot 0 ∧
        P'.getFunctionNoThrow name =
          some { m_pRoot := pRoot, m_expectedParams := 0, addr := P.heapNext }) := by
  refine ⟨?_, ?_⟩
  · intro vs hvs h
    obtain ⟨pRoot, -, hP'⟩ := parseFunction_header A P P' pre post body vs name hname hvs h
    exact ⟨pRoot, hP', by rw [hP']; exact getFunctionNoThrow_addFunction P name pRoot _⟩
  · intro h
    obtain ⟨pRoot, -, hP'⟩ := parseFunction_constant A P P' pre post body name hname h
    exact ⟨pRoot, hP', by rw [hP']; exact getFunctionNoThrow_addFunction P name pRoot _⟩

/-- C5, at an input: the statements `blah(a,b)=a*b-b` and `foo=3.2`, each as
the second statement of a batch, are accepted on a new parser and installed
with 2 and with 0 expected parameters. -/
theorem C5_expected_params_witness :
    let E := exactOps noInexact
    let P : GFunctionParser ℚ := GFunctionParser.ctor E false
    let blah : GFunctionNode ℚ :=
      operatorCall .minus [operatorCall .times [.GFunctionVariable 0, .GFunctionVariable 1],
        .GFunctionVariable 1]
    let P1 := P.addFunction "blah" blah 2
    let P2 := P.addFunction "foo" (.GFunctionConstant (16 / 5)) 0
    P.parseFunction E (["h", "=", "1", ";"] ++
        ("blah" :: "(" :: (["a", "b"].intersperse "," ++ ")" :: "=" ::
          (["a", "*", "b", "-", "b"] ++ [])))) 4 (3 + 4 + 5) = .ok P1 ∧
      (∃ pRoot, P1 = P.addFunction "blah" pRoot 2 ∧
        P1.getFunctionNoThrow "blah" =
          some { m_pRoot := pRoot, m_expectedParams := 2, addr := 29 }) ∧
      P.parseFunction E (["h", "=", "1", ";"] ++ ("foo" :: "=" :: (["3.2"] ++ []))) 4 (2 + 1) =
        .ok P2 ∧
      (∃ pRoot, P2 = P.addFunction "foo" pRoot 0 ∧
        P2.getFunctionNoThrow "foo" =
          some { m_pRoot := pRoot, m_expectedParams := 0, addr := 29 }) := by
  intro E P blah P1 P2
  have hP : P = extended E [] 0 := ctor_posix E
  have hn : P.heapNext = 29 := by rw [hP]; rfl
  have hb : P.parseFunction E (["h", "=", "1", ";"] ++
        ("blah" :: "(" :: (["a", "b"].intersperse "," ++ ")" :: "=" ::
          (["a", "*", "b", "-", "b"] ++ [])))) 4 (3 + 4 + 5) = .ok P1 := by
    simp only [P1, hP]; rfl
  have hf : P.parseFunction E (["h", "=", "1", ";"] ++ ("foo" :: "=" :: (["3.2"] ++ []))) 4
      (2 + 1) = .ok P2 := by
    simp only [P2, hP]
    have : atofExact "3.2" = 16 / 5 := atof_3_2
    simp only [GFunctionParser.parseFunction, ← this]
    rfl
  have h1 := (C5_expected_params ℚ E P P1 ["h", "=", "1", ";"] [] ["a", "*", "b", "-", "b"]
    "blah" (by decide)).1 ["a", "b"] (by decide) hb
  have h2 := (C5_expected_params ℚ E P P2 ["h", "=", "1", ";"] [] ["3.2"] "foo" (by decide)).2 hf
  rw [hn] at h1 h2
  exact ⟨hb, h1, hf, h2⟩

/-! ## C6: the number of parameters at a call node -/

section Arity
variable {α : Type} (A : DoubleOps α)

theorem bind_exact (P : GFunctionParser α) (name : String) (k : Nat) (pFunc : GFunction α)
    (hf : P.getFunctionNoThrow name = some pFunc) (h0 : 0 ≤ pFunc.m_expectedParams)
    (hk : (k : Int) ≠ pFunc.m_expectedParams) :
    bind P name k = .error (.expectsExactly name pFunc.m_expectedParams k) := by
  simp only [bind, GFunctionParser.getFunction, hf, checkParams, ge_iff_le, h0, ↓reduceIte,
    ne_eq, hk, not_false_eq_true]

theorem bind_atLeast (P : GFunctionParser α) (name : String) (k : Nat) (pFunc : GFunction α)
    (hf : P.getFunctionNoThrow name = some pFunc) (h0 : pFunc.m_expectedParams < 0)
    (hk : (k : Int) < -pFunc.m_expectedParams - 1) :
    bind P name k = .error (.expectsAtLeast name (-pFunc.m_expectedParams - 1) k) := by
  have h0' : ¬ (0 ≤ pFunc.m_expectedParams) := by omega
  simp only [bind, GFunctionParser.getFunction, hf, checkParams, ge_iff_le, h0', ↓reduceIte, hk]

theorem max_registered ( windows : Bool) :
    ∃ pFunc, (GFunctionParser.ctor A windows).getFunctionNoThrow "max" = some pFunc ∧
      pFunc.m_expectedParams = -2 := by
  cases windows
  · rw [ctor_posix]; exact ⟨_, rfl, rfl⟩
  · rw [ctor_windows]; exact ⟨_, rfl, rfl⟩

theorem min_registered ( windows : Bool) :
    ∃ pFunc, (GFunctionParser.ctor A windows).getFunctionNoThrow "min" = some pFunc ∧
      pFunc.m_expectedParams = -2 := by
  cases windows
  · rw [ctor_posix]; exact ⟨_, rfl, rfl⟩
  · rw [ctor_windows]; exact ⟨_, rfl, rfl⟩

theorem scenario_bare_max :
    (extended A [] 0).add A "f=max;g=min" =
      (.ok (), extended A
        [entry "f" (.GFunctionCall "max" none []) 0 29,
         entry "g" (.GFunctionCall "min" none []) 0 30] 2) := by
  rfl

theorem scenario_bare_max_call (params : List α) (d : Nat) :
    ((extended A
        [entry "f" (.GFunctionCall "max" none []) 0 29,
         entry "g" (.GFunctionCall "min" none []) 0 30] 2).call A (d + 1) "f" params).1 =
      .error (.expectsAtLeast "max" 1 0) := by
  rfl

theorem scenario_bare_min_call (params : List α) (d : Nat) :
    ((extended A
        [entry "f" (.GFunctionCall "max" none []) 0 29,
         entry "g" (.GFunctionCall "min" none []) 0 30] 2).call A (d + 1) "g" params).1 =
      .error (.expectsAtLeast "min" 1 0) := by
  rfl

end Arity

/-! ## C7 and C8: what a call with the declared number of arguments can throw -/

/-- C7, as stated, fails: on a new parser `add("f(x)=sin(x,x)")` returns and
registers `f` with one expected parameter, and the call of `f` with exactly
one argument throws "sin expects 1 parameters (trying to call it with 2)". -/
theorem C7_counterexample :
    ((GFunctionParser.ctor (exactOps noInexact) false).add (exactOps noInexact)
        "f(x)=sin(x,x)").1 = .ok () ∧
      (((GFunctionParser.ctor (exactOps noInexact) false).add (exactOps noInexact)
        "f(x)=sin(x,x)").2.getFunctionNoThrow "f").map (fun f => f.m_expectedParams) = some 1 ∧
      (((GFunctionParser.ctor (exactOps noInexact) false).add (exactOps noInexact)
        "f(x)=sin(x,x)").2.call (exactOps noInexact) 3 "f" [1]).1 =
          .error (.expectsExactly "sin" 1 2) ∧
      (Ex.expectsExactly "sin" 1 2).isArityMismatch = true := by
  decide!

/-- C7, amended.  While `name` is registered with `m_expectedParams = n >= 0`
(what `add` installs for `n` declared parameters), no evaluation of any node
and no call of any function throws a parameter-count message about a call of
`name` with `n` arguments: neither "`name` expects `m` parameters (trying to
call it with `n`)" nor "`name` expects at least `m` parameters (trying to
call it with `n`)", for any `m`. -/
theorem C7_no_mismatch_for_matching_call (α : Type) (A : DoubleOps α) (P : GFunctionParser α)
    (name : String) (pFunc : GFunction α) (n : Nat)
    (hf : P.getFunctionNoThrow name = some pFunc) (hn : pFunc.m_expectedParams = n) :
    (∀ (depth : Nat) (node : GFunctionNode α) (params : List α) (m : Int),
      (GFunctionNode.eval A depth P node params).1 ≠ .error (.expectsExactly name m n) ∧
      (GFunctionNode.eval A depth P node params).1 ≠ .error (.expectsAtLeast name m n)) ∧
    (∀ (depth : Nat) (callee : String) (params : List α) (m : Int),
      (P.call A depth callee params).1 ≠ .error (.expectsExactly name m n) ∧
      (P.call A depth callee params).1 ≠ .error (.expectsAtLeast name m n)) := by
  have key : ∀ (depth : Nat) (node : GFunctionNode α) (params : List α) (m : Int),
      (GFunctionNode.eval A depth P node params).1 ≠ .error (.expectsExactly name m n) ∧
      (GFunctionNode.eval A depth P node params).1 ≠ .error (.expectsAtLeast name m n) := by
    intro depth node params m
    constructor
    · intro h
      obtain ⟨pFunc', hf', hm, -, hk⟩ := eval_justified A depth P node params _ h
      rw [hf] at hf'
      cases hf'
      exact hk (hn.symm.trans hm)
    · intro h
      obtain ⟨pFunc', hf', hneg, -, -⟩ := eval_justified A depth P node params _ h
      rw [hf] at hf'
      cases hf'
      omega
  refine ⟨key, ?_⟩
  intro depth callee params m
  simp only [GFunctionParser.call, GFunctionParser.getFunction]
  cases hc : P.getFunctionNoThrow callee with
  | none => simp
  | some g => exact key depth g.m_pRoot params m

/-- C7, amended, at an input: after `add("f(x)=sin(x,x)")`, `f` is registered
with one expected parameter, and the call of `f` with one argument does not
throw a message about `f`. -/
theorem C7_no_mismatch_for_matching_call_witness :
    let E := exactOps noInexact
    let P := ((GFunctionParser.ctor E false).add E "f(x)=sin(x,x)").2
    let f : GFunctionNode ℚ :=
      .GFunctionCall "sin" none [.GFunctionVariable 0, .GFunctionVariable 0]
    P.getFunctionNoThrow "f" = some { m_pRoot := f, m_expectedParams := 1, addr := 29 } ∧
      (P.call E 3 "f" [1]).1 ≠ .error (.expectsExactly "f" 1 1) ∧
      (P.call E 3 "f" [1]).1 ≠ .error (.expectsAtLeast "f" 1 1) := by
  intro E P f
  have hf : P.getFunctionNoThrow "f" = some { m_pRoot := f, m_expectedParams := 1, addr := 29 } := by
    simp only [P, ctor_posix]
    rfl
  exact ⟨hf, (C7_no_mismatch_for_matching_call ℚ E P "f" _ 1 hf rfl).2 3 "f" [1] 1⟩

/-- C8, as stated, fails: `GFunction::call` does not check the length of the
vector.  After `add("f(x)=x;c(x)=5")` on a new parser, the call of `f` with an
empty vector reads `params[0]` past the end of the vector, which is not the
parameter-count exception, and the call of `c` with an empty vector evaluates
the body and returns 5. -/
theorem C8_counterexample :
    (((GFunctionParser.ctor (exactOps noInexact) false).add (exactOps noInexact)
        "f(x)=x;c(x)=5").2.getFunctionNoThrow "f").map (fun f => f.m_expectedParams) = some 1 ∧
      (((GFunctionParser.ctor (exactOps noInexact) false).add (exactOps noInexact)
        "f(x)=x;c(x)=5").2.call (exactOps noInexact) 1 "f" []).1 = .error .outOfRange ∧
      Ex.outOfRange.isArityMismatch = false ∧
      (((GFunctionParser.ctor (exactOps noInexact) false).add (exactOps noInexact)
        "f(x)=x;c(x)=5").2.getFunctionNoThrow "c").map (fun f => f.m_expectedParams) = some 1 ∧
      (((GFunctionParser.ctor (exactOps noInexact) false).add (exactOps noInexact)
        "f(x)=x;c(x)=5").2.call (exactOps noInexact) 1 "c" []).1 = .ok 5 := by
  decide!

section Call
variable {α : Type} (A : DoubleOps α)

theorem scenario_identity :
    (extended A [] 0).add A "f(x)=x" =
      (.ok (), extended A [entry "f" (.GFunctionVariable 0) 1 29] 1) := by
  rfl

theorem scenario_identity_call (params : List α) (d : Nat) :
    ((extended A [entry "f" (.GFunctionVariable 0) 1 29] 1).call A (d + 1) "f" params).1 =
      param params 0 := by
  rfl

end Call

/-- C8, amended.  `GFunction::call` does not check the length of the vector it
is given: its result is the result of evaluating the root of the function on
that vector, whatever the number of expected parameters.  A root that is the
variable `i` returns `params[i]`, and reads past the end of the vector when
the vector has no element `i`.  So after `add("f(x)=x")` on a new parser the
call of `f` returns the first element of every vector that has one, also of a
vector with more elements than `f` has parameters, and on the empty vector it
reads out of range; it throws no exception about the number of parameters. -/
theorem C8_call_evaluates_the_root (α : Type) (A : DoubleOps α) :
    (∀ (depth : Nat) (pFunc : GFunction α) (params : List α) (P : GFunctionParser α),
      (GFunction.call A depth pFunc params P).1 =
        (GFunctionNode.eval A depth P pFunc.m_pRoot params).1) ∧
    (∀ (d i a : Nat) (n : Int) (params : List α) (P : GFunctionParser α),
      (GFunction.call A (d + 1) { m_pRoot := .GFunctionVariable i, m_expectedParams := n, addr := a }
        params P).1 = param params i) ∧
    (∀ (d : Nat) (params : List α),
      let S := (GFunctionParser.ctor A false).add A "f(x)=x"
      S.1 = .ok () ∧
        (S.2.getFunctionNoThrow "f").map (fun f => f.m_expectedParams) = some 1 ∧
        (S.2.call A (d + 1) "f" params).1 =
          match params with
          | [] => .error .outOfRange
          | v :: _ => .ok v) := by
  refine ⟨?_, ?_, ?_⟩
  · intro depth pFunc params P
    simp only [GFunction.call]
  · intro d i a n params P
    simp only [GFunction.call, GFunctionNode.eval]
  · intro d params
    simp only [ctor_posix, scenario_identity, scenario_identity_call]
    refine ⟨?_, ?_, ?_⟩
    · trivial
    · rfl
    · cases params <;> rfl

/-! ## C9: a name that is not registered -/

section Undefined
variable {α : Type} (A : DoubleOps α)

end Undefined

/-! ## C10: precedence -/

section Scan
variable {α : Type} (A : DoubleOps α)

theorem drop_after (tokens : List String) (k : Nat) (w rest : List String)
    (h : tokens.drop k = w ++ rest) : tokens.drop (k + w.length) = rest := by
  rw [← List.drop_drop, h, List.drop_left]

theorem findOperatorLoop_operand (tokens : List String) (start : Nat) :
    ∀ (w rest : List String) (i n : Nat) (p t nests : Int),
      tokens.drop (start + i) = w ++ rest → operandFrom w nests = true →
      findOperatorLoop tokens start (w.length + n) i p t nests =
        findOperatorLoop tokens start n (i + w.length) p t (nestsAfter w nests)
  | [], rest, i, n, p, t, nests, _, _ => by simp [nestsAfter]
  | tok :: w, rest, i, n, p, t, nests, hd, ho => by
    have ht := tokenAt_of_drop tokens (start + i) tok _ hd
    have hd' : tokens.drop (start + (i + 1)) = w ++ rest :=
      drop_succ_of_drop tokens (start + i) tok _ hd
    have hlen : (tok :: w).length + n = (w.length + n) + 1 := by simp; omega
    rw [hlen]
    simp only [findOperatorLoop, ht]
    simp only [operandFrom] at ho
    by_cases h1 : (tok == "(") = true
    · simp only [h1, ↓reduceIte] at ho ⊢
      rw [findOperatorLoop_operand tokens start w rest (i + 1) n p t (nests + 1) hd' ho]
      simp only [nestsAfter, h1, ↓reduceIte, List.length_cons]
      congr 1; omega
    · simp only [h1, Bool.false_eq_true, ↓reduceIte] at ho ⊢
      by_cases h2 : (tok == ")") = true
      · simp only [h2, ↓reduceIte] at ho ⊢
        have hi : ¬ ((i : Int) < 0) := by omega
        simp only [hi, ↓reduceIte]
        rw [findOperatorLoop_operand tokens start w rest (i + 1) n p t (nests - 1) hd' ho]
        simp only [nestsAfter, h1, h2, Bool.false_eq_true, ↓reduceIte, List.length_cons]
        congr 1; omega
      · simp only [h2, Bool.false_eq_true, ↓reduceIte] at ho ⊢
        by_cases h3 : (nests == 0) = true
        · simp only [h3, ↓reduceIte, Bool.and_eq_true, Bool.or_eq_true] at ho ⊢
          obtain ⟨hc, ho'⟩ := ho
          have ih := findOperatorLoop_operand tokens start w rest (i + 1) n p t nests hd' ho'
          have hn : nestsAfter (tok :: w) nests = nestsAfter w nests := by
            simp only [nestsAfter, h1, h2, Bool.false_eq_true, ↓reduceIte]
          have hl : i + (tok :: w).length = i + 1 + w.length := by simp; omega
          rw [hn, hl, ← ih]
          rcases hc with (hc | hc) | hc
          · simp only [hc, ↓reduceIte]
          · by_cases hname : IsNameChar (firstChar tok) = true
            · simp only [hname, ↓reduceIte]
            · simp [hname, hc]
          · by_cases hname : IsNameChar (firstChar tok) = true
            · simp only [hname, ↓reduceIte]
            · simp [hname, hc]
        · simp only [h3, Bool.false_eq_true, ↓reduceIte] at ho ⊢
          rw [findOperatorLoop_operand tokens start w rest (i + 1) n p t nests hd' ho]
          simp only [nestsAfter, h1, h2, Bool.false_eq_true, ↓reduceIte, List.length_cons]
          congr 1; omega

theorem enclosingLoop_operand (tokens : List String) (start : Nat) :
    ∀ (l rest : List String) (i n : Nat) (dep : Int),
      tokens.drop (start + i) = l ++ rest → 1 ≤ dep → nestsAfter l dep = 0 → l.length ≤ n →
      enclosingLoop tokens start n i dep < i + l.length
  | [], rest, i, n, dep, _, hdep, hn, _ => by
    simp only [nestsAfter] at hn; omega
  | tok :: l, rest, i, n, dep, hd, hdep, hn, hlen => by
    have ht := tokenAt_of_drop tokens (start + i) tok _ hd
    have hd' : tokens.drop (start + (i + 1)) = l ++ rest :=
      drop_succ_of_drop tokens (start + i) tok _ hd
    cases n with
    | zero => simp at hlen
    | succ n =>
      simp only [List.length_cons] at hlen ⊢
      simp only [enclosingLoop, ht]
      simp only [nestsAfter] at hn
      by_cases h1 : (tok == "(") = true
      · simp only [h1, ↓reduceIte] at hn ⊢
        have := enclosingLoop_operand tokens start l rest (i + 1) n (dep + 1) hd' (by omega) hn
          (by omega)
        omega
      · simp only [h1, Bool.false_eq_true, ↓reduceIte] at hn ⊢
        by_cases h2 : (tok == ")") = true
        · simp only [h2, ↓reduceIte] at hn ⊢
          by_cases h3 : (dep - 1 == 0) = true
          · simp only [h3, ↓reduceIte]; omega
          · simp only [h3, Bool.false_eq_true, ↓reduceIte]
            have h3' : dep - 1 ≠ 0 := by simpa using h3
            have := enclosingLoop_operand tokens start l rest (i + 1) n (dep - 1) hd' (by omega)
              hn (by omega)
            omega
        · simp only [h2, Bool.false_eq_true, ↓reduceIte] at hn ⊢
          have := enclosingLoop_operand tokens start l rest (i + 1) n dep hd' hdep hn (by omega)
          omega

theorem findOperatorLoop_plus (tokens : List String) (start n i : Nat) (p t : Int)
    (ht : tokenAt tokens (start + i) = "+") :
    findOperatorLoop tokens start (n + 1) i p t 0 =
      if p ≥ 4 then findOperatorLoop tokens start n (i + 1) 4 (start + i : Nat) 0
      else findOperatorLoop tokens start n (i + 1) p t 0 := by
  have h1 : ("+" == "(") = false := by decide
  have h2 : ("+" == ")") = false := by decide
  have h3 : firstChar "+" = '+' := by decide
  simp only [findOperatorLoop, ht, h1, h2, h3, Bool.false_eq_true, ↓reduceIte, beq_self_eq_true]
  simp [IsNameChar, IsDigit]

theorem findOperatorLoop_times (tokens : List String) (start n i : Nat) (p t : Int)
    (ht : tokenAt tokens (start + i) = "*") :
    findOperatorLoop tokens start (n + 1) i p t 0 =
      if p ≥ 8 then findOperatorLoop tokens start n (i + 1) 8 (start + i : Nat) 0
      else findOperatorLoop tokens start n (i + 1) p t 0 := by
  have h1 : ("*" == "(") = false := by decide
  have h2 : ("*" == ")") = false := by decide
  have h3 : firstChar "*" = '*' := by decide
  simp only [findOperatorLoop, ht, h1, h2, h3, Bool.false_eq_true, ↓reduceIte, beq_self_eq_true]
  simp [IsNameChar, IsDigit]

theorem findOperatorLoop_caret (tokens : List String) (start n i : Nat) (p t : Int)
    (ht : tokenAt tokens (start + i) = "^") :
    findOperatorLoop tokens start (n + 1) i p t 0 =
      if p ≥ 12 then findOperatorLoop tokens start n (i + 1) 12 (start + i : Nat) 0
      else findOperatorLoop tokens start n (i + 1) p t 0 := by
  have h1 : ("^" == "(") = false := by decide
  have h2 : ("^" == ")") = false := by decide
  have h3 : firstChar "^" = '^' := by decide
  simp only [findOperatorLoop, ht, h1, h2, h3, Bool.false_eq_true, ↓reduceIte, beq_self_eq_true]
  simp [IsNameChar, IsDigit]

/-- A window that begins with an operand and goes on after it is not a pair
of enclosing parentheses. -/
theorem not_enclosed (tokens : List String) (start count : Nat) (w rest : List String)
    (hd : tokens.drop start = w ++ rest) (hw : isOperand w = true)
    (hcount : w.length + 2 ≤ count) :
    (tokenAt tokens start == "(" && tokenAt tokens (start + count - 1) == ")" &&
      decide (enclosingLoop tokens start (count - 2) 1 1 ≥ count - 1)) = false := by
  simp only [isOperand, Bool.and_eq_true, Bool.not_eq_true', beq_iff_eq] at hw
  obtain ⟨⟨hne, -⟩, hn⟩ := hw
  cases w with
  | nil => simp at hne
  | cons tok l =>
    have ht := tokenAt_of_drop tokens start tok _ hd
    by_cases h1 : (tok == "(") = true
    · have hd' : tokens.drop (start + 1) = l ++ rest := drop_succ_of_drop tokens start tok _ hd
      simp only [nestsAfter, h1, ↓reduceIte, Int.zero_add] at hn
      have := enclosingLoop_operand tokens start l rest 1 (count - 2) 1 hd' (le_refl _) hn
        (by simp only [List.length_cons] at hcount; omega)
      simp only [List.length_cons] at hcount
      have hlt : ¬ (enclosingLoop tokens start (count - 2) 1 1 ≥ count - 1) := by omega
      simp [hlt]
    · have : (tok == "(") = false := by simpa using h1
      simp [ht, this]

theorem parseFunctionBody_operator (vars tokens : List String) (bound start count depth : Nat)
    (index : Nat) (hdepth : depth ≤ 10000) (hcount : 2 ≤ count)
    (hne : (tokenAt tokens start == "(" && tokenAt tokens (start + count - 1) == ")" &&
      decide (enclosingLoop tokens start (count - 2) 1 1 ≥ count - 1)) = false)
    (hidx : findOperatorWithLowestPrecidence tokens start count = .ok (index : Int)) :
    parseFunctionBody A vars tokens (bound + 1) start count depth =
      parseMathOperator (parseFunctionBody A vars tokens bound) tokens start count index
        (depth + 1) := by
  have h1 : ¬ (depth > 10000) := by omega
  have h2 : ¬ (count ≤ 0) := by omega
  have h3 : (count == 1) = false := by simp only [beq_eq_false_iff_ne, ne_eq]; omega
  simp only [parseFunctionBody, h1, ↓reduceIte, h2, hne, Bool.false_eq_true, h3, hidx,
    ge_iff_le, Int.ofNat_zero_le, Int.toNat_ofNat]

theorem parseMathOperator_binary
    (parse : Nat → Nat → Nat → Except Ex (GFunctionNode α)) (tokens : List String)
    (start count index depth : Nat) (l r : GFunctionNode α)
    (h1 : index > start) (h2 : index < start + count - 1)
    (hl : parse start (index - start) depth = .ok l)
    (hr : parse (index + 1) (start + count - index - 1) depth = .ok r) :
    parseMathOperator parse tokens start count index depth =
      (let c := firstChar (tokenAt tokens index)
       if c == '^' then .ok (operatorCall .exponent [l, r])
       else if c == '*' then .ok (operatorCall .times [l, r])
       else if c == '/' then .ok (operatorCall .divide [l, r])
       else if c == '%' then .ok (operatorCall .modulus [l, r])
       else if c == '+' then .ok (operatorCall .plus [l, r])
       else if c == '-' then .ok (operatorCall .minus [l, r])
       else .error (.unrecognizedOperator c)) := by
  simp only [parseMathOperator, h1, ↓reduceIte, hl, h2, hr, Except.map, bind, Except.bind, pure,
    Except.pure, throw, throwThe, MonadExceptOf.throw]
  rfl

end Scan

section Shapes
variable {α : Type} (A : DoubleOps α)

theorem findOperatorLoop_isOperand (tokens : List String) (start : Nat) (w rest : List String)
    (i n : Nat) (p t : Int) (hd : tokens.drop (start + i) = w ++ rest)
    (hw : isOperand w = true) :
    findOperatorLoop tokens start (w.length + n) i p t 0 =
      findOperatorLoop tokens start n (i + w.length) p t 0 := by
  simp only [isOperand, Bool.and_eq_true, beq_iff_eq] at hw
  rw [findOperatorLoop_operand tokens start w rest i n p t 0 hd hw.1.2, hw.2]

theorem findOperatorLoop_isOperand_end (tokens : List String) (start : Nat)
    (w rest : List String) (i : Nat) (p t : Int) (hd : tokens.drop (start + i) = w ++ rest)
    (hw : isOperand w = true) :
    findOperatorLoop tokens start w.length i p t 0 = .ok t := by
  have := findOperatorLoop_isOperand tokens start w rest i 0 p t hd hw
  rw [Nat.add_zero] at this
  rw [this]
  rfl

theorem parseFunctionBody_depth (vars tokens : List String) (bound start count depth : Nat)
    (t : GFunctionNode α) (h : parseFunctionBody A vars tokens bound start count depth = .ok t) :
    depth ≤ 10000 ∧ 0 < bound := by
  cases bound with
  | zero => simp [parseFunctionBody] at h
  | succ b =>
    by_cases hd : depth > 10000
    · simp [parseFunctionBody, hd] at h
    · exact ⟨by omega, by omega⟩

theorem isOperand_length (w : List String) (hw : isOperand w = true) : 1 ≤ w.length := by
  cases w with
  | nil => simp [isOperand] at hw
  | cons _ _ => simp

/-- The scan of `wa op wb`, `op` one of `*` and `^`. -/
theorem findOperator_single (tokens : List String) (start : Nat) (wa wb rest : List String)
    (op : String) (hop : op = "*" ∨ op = "^")
    (hd : tokens.drop start = wa ++ op :: (wb ++ rest))
    (ha : isOperand wa = true) (hb : isOperand wb = true) :
    findOperatorWithLowestPrecidence tokens start (wa.length + 1 + wb.length) =
      .ok ((start + wa.length : Nat) : Int) := by
  have d0 : tokens.drop (start + 0) = wa ++ op :: (wb ++ rest) := hd
  have d1 : tokens.drop (start + (0 + wa.length)) = op :: (wb ++ rest) := by
    rw [Nat.zero_add]; exact drop_after tokens start wa _ hd
  have t1 := tokenAt_of_drop tokens _ op _ d1
  have d2 : tokens.drop (start + (0 + wa.length + 1)) = wb ++ rest :=
    drop_succ_of_drop tokens _ op _ d1
  have hc : wa.length + 1 + wb.length = wa.length + ((wb.length + 0) + 1) := by omega
  rw [findOperatorWithLowestPrecidence, hc, findOperatorLoop_isOperand tokens start wa _ 0 _ _ _ d0 ha]
  rcases hop with hop | hop <;> subst hop
  · rw [findOperatorLoop_times tokens start _ _ _ _ t1]
    simp only [ge_iff_le, show (8 : Int) ≤ 100 by decide, ↓reduceIte]
    rw [findOperatorLoop_isOperand_end tokens start wb _ _ _ _ d2 hb]
    simp
  · rw [findOperatorLoop_caret tokens start _ _ _ _ t1]
    simp only [ge_iff_le, show (12 : Int) ≤ 100 by decide, ↓reduceIte]
    rw [findOperatorLoop_isOperand_end tokens start wb _ _ _ _ d2 hb]
    simp

/-- The scan of `wa + wb * wc`: the `+`. -/
theorem findOperator_plus_times (tokens : List String) (start : Nat)
    (wa wb wc rest : List String)
    (hd : tokens.drop start = wa ++ "+" :: (wb ++ "*" :: (wc ++ rest)))
    (ha : isOperand wa = true) (hb : isOperand wb = true) (hc : isOperand wc = true) :
    findOperatorWithLowestPrecidence tokens start
        (wa.length + 1 + (wb.length + 1 + wc.length)) = .ok ((start + wa.length : Nat) : Int) := by
  have d0 : tokens.drop (start + 0) = wa ++ "+" :: (wb ++ "*" :: (wc ++ rest)) := hd
  have d1 : tokens.drop (start + (0 + wa.length)) = "+" :: (wb ++ "*" :: (wc ++ rest)) := by
    rw [Nat.zero_add]; exact drop_after tokens start wa _ hd
  have t1 := tokenAt_of_drop tokens _ "+" _ d1
  have d2 : tokens.drop (start + (0 + wa.length + 1)) = wb ++ "*" :: (wc ++ rest) :=
    drop_succ_of_drop tokens _ "+" _ d1
  have d3 : tokens.drop (start + (0 + wa.length + 1 + wb.length)) = "*" :: (wc ++ rest) := by
    have := drop_after tokens _ wb _ d2
    rw [Nat.add_assoc start] at this
    exact this
  have t3 := tokenAt_of_drop tokens _ "*" _ d3
  have d4 : tokens.drop (start + (0 + wa.length + 1 + wb.length + 1)) = wc ++ rest :=
    drop_succ_of_drop tokens _ "*" _ d3
  have hcount : wa.length + 1 + (wb.length + 1 + wc.length) =
      wa.length + ((wb.length + ((wc.length + 0) + 1)) + 1) := by omega
  rw [findOperatorWithLowestPrecidence, hcount,
    findOperatorLoop_isOperand tokens start wa _ 0 _ _ _ d0 ha,
    findOperatorLoop_plus tokens start _ _ _ _ t1]
  simp only [ge_iff_le, show (4 : Int) ≤ 100 by decide, ↓reduceIte]
  rw [findOperatorLoop_isOperand tokens start wb _ _ _ _ _ d2 hb,
    findOperatorLoop_times tokens start _ _ _ _ t3]
  simp only [ge_iff_le, show ¬ ((8 : Int) ≤ 4) by decide, ↓reduceIte]
  rw [findOperatorLoop_isOperand_end tokens start wc _ _ _ _ d4 hc]
  simp

/-- The scan of `wa * wb + wc`: the `+`. -/
theorem findOperator_times_plus (tokens : List String) (start : Nat)
    (wa wb wc rest : List String)
    (hd : tokens.drop start = wa ++ "*" :: (wb ++ "+" :: (wc ++ rest)))
    (ha : isOperand wa = true) (hb : isOperand wb = true) (hc : isOperand wc = true) :
    findOperatorWithLowestPrecidence tokens start
        (wa.length + 1 + wb.length + 1 + wc.length) =
      .ok ((start + (wa.length + 1 + wb.length) : Nat) : Int) := by
  have d0 : tokens.drop (start + 0) = wa ++ "*" :: (wb ++ "+" :: (wc ++ rest)) := hd
  have d1 : tokens.drop (start + (0 + wa.length)) = "*" :: (wb ++ "+" :: (wc ++ rest)) := by
    rw [Nat.zero_add]; exact drop_after tokens start wa _ hd
  have t1 := tokenAt_of_drop tokens _ "*" _ d1
  have d2 : tokens.drop (start + (0 + wa.length + 1)) = wb ++ "+" :: (wc ++ rest) :=
    drop_succ_of_drop tokens _ "*" _ d1
  have d3 : tokens.drop (start + (0 + wa.length + 1 + wb.length)) = "+" :: (wc ++ rest) := by
    have := drop_after tokens _ wb _ d2
    rw [Nat.add_assoc start] at this
    exact this
  have t3 := tokenAt_of_drop tokens _ "+" _ d3
  have d4 : tokens.drop (start + (0 + wa.length + 1 + wb.length + 1)) = wc ++ rest :=
    drop_succ_of_drop tokens _ "+" _ d3
  have hcount : wa.length + 1 + wb.length + 1 + wc.length =
      wa.length + ((wb.length + ((wc.length + 0) + 1)) + 1) := by omega
  rw [findOperatorWithLowestPrecidence, hcount,
    findOperatorLoop_isOperand tokens start wa _ 0 _ _ _ d0 ha,
    findOperatorLoop_times tokens start _ _ _ _ t1]
  simp only [ge_iff_le, show (8 : Int) ≤ 100 by decide, ↓reduceIte]
  rw [findOperatorLoop_isOperand tokens start wb _ _ _ _ _ d2 hb,
    findOperatorLoop_plus tokens start _ _ _ _ t3]
  simp only [ge_iff_le, show (4 : Int) ≤ 8 by decide, ↓reduceIte]
  rw [findOperatorLoop_isOperand_end tokens start wc _ _ _ _ d4 hc]
  simp

/-- The scan of `wa * wb ^ wc`: the `*`. -/
theorem findOperator_times_caret (tokens : List String) (start : Nat)
    (wa wb wc rest : List String)
    (hd : tokens.drop start = wa ++ "*" :: (wb ++ "^" :: (wc ++ rest)))
    (ha : isOperand wa = true) (hb : isOperand wb = true) (hc : isOperand wc = true) :
    findOperatorWithLowestPrecidence tokens start
        (wa.length + 1 + (wb.length + 1 + wc.length)) = .ok ((start + wa.length : Nat) : Int) := by
  have d0 : tokens.drop (start + 0) = wa ++ "*" :: (wb ++ "^" :: (wc ++ rest)) := hd
  have d1 : tokens.drop (start + (0 + wa.length)) = "*" :: (wb ++ "^" :: (wc ++ rest)) := by
    rw [Nat.zero_add]; exact drop_after tokens start wa _ hd
  have t1 := tokenAt_of_drop tokens _ "*" _ d1
  have d2 : tokens.drop (start + (0 + wa.length + 1)) = wb ++ "^" :: (wc ++ rest) :=
    drop_succ_of_drop tokens _ "*" _ d1
  have d3 : tokens.drop (start + (0 + wa.length + 1 + wb.length)) = "^" :: (wc ++ rest) := by
    have := drop_after tokens _ wb _ d2
    rw [Nat.add_assoc start] at this
    exact this
  have t3 := tokenAt_of_drop tokens _ "^" _ d3
  have d4 : tokens.drop (start + (0 + wa.length + 1 + wb.length + 1)) = wc ++ rest :=
    drop_succ_of_drop tokens _ "^" _ d3
  have hcount : wa.length + 1 + (wb.length + 1 + wc.length) =
      wa.length + ((wb.length + ((wc.length + 0) + 1)) + 1) := by omega
  rw [findOperatorWithLowestPrecidence, hcount,
    findOperatorLoop_isOperand tokens start wa _ 0 _ _ _ d0 ha,
    findOperatorLoop_times tokens start _ _ _ _ t1]
  simp only [ge_iff_le, show (8 : Int) ≤ 100 by decide, ↓reduceIte]
  rw [findOperatorLoop_isOperand tokens start wb _ _ _ _ _ d2 hb,
    findOperatorLoop_caret tokens start _ _ _ _ t3]
  simp only [ge_iff_le, show ¬ ((12 : Int) ≤ 8) by decide, ↓reduceIte]
  rw [findOperatorLoop_isOperand_end tokens start wc _ _ _ _ d4 hc]
  simp

end Shapes

section Binary
variable {α : Type} (A : DoubleOps α)

theorem parseFunctionBody_binary (vars tokens : List String) (bound start depth ll m : Nat)
    (w0 rest0 : List String) (op : String) (f : MathFuncFunc) (l r : GFunctionNode α)
    (hd0 : tokens.drop start = w0 ++ rest0) (hw0 : isOperand w0 = true) (h0 : w0.length ≤ ll)
    (htok : tokenAt tokens (start + ll) = op) (hm : 1 ≤ m)
    (hidx : findOperatorWithLowestPrecidence tokens start (ll + 1 + m) =
      .ok ((start + ll : Nat) : Int))
    (hl : parseFunctionBody A vars tokens bound start ll (depth + 1) = .ok l)
    (hr : parseFunctionBody A vars tokens bound (start + ll + 1) m (depth + 1) = .ok r)
    (hop : (op = "+" ∧ f = .plus) ∨ (op = "*" ∧ f = .times) ∨ (op = "^" ∧ f = .exponent)) :
    parseFunctionBody A vars tokens (bound + 1) start (ll + 1 + m) depth =
      .ok (operatorCall f [l, r]) := by
  have hdepth := (parseFunctionBody_depth A vars tokens bound start ll (depth + 1) l hl).1
  have hlen := isOperand_length w0 hw0
  have hne := not_enclosed tokens start (ll + 1 + m) w0 _ hd0 hw0 (by omega)
  rw [parseFunctionBody_operator A vars tokens bound start (ll + 1 + m) depth
    (start + ll) (by omega) (by omega) hne hidx]
  rw [parseMathOperator_binary (parseFunctionBody A vars tokens bound) tokens start
    (ll + 1 + m) (start + ll) (depth + 1) l r (by omega) (by omega)
    (by rw [Nat.add_sub_cancel_left]; exact hl)
    (by
      rw [show start + (ll + 1 + m) - (start + ll) - 1 = m by omega]
      exact hr), htok]
  rcases hop with ⟨h1, h2⟩ | ⟨h1, h2⟩ | ⟨h1, h2⟩ <;> subst h1 <;> subst h2 <;> rfl

theorem scenario_precedence :
    (extended A [] 0).add A "f=2+3*4" =
      (.ok (), extended A
        [entry "f" (operatorCall .plus [.GFunctionConstant (A.atof "2"),
          operatorCall .times [.GFunctionConstant (A.atof "3"),
            .GFunctionConstant (A.atof "4")]]) 0 29] 1) := by
  rfl

theorem scenario_precedence_call (params : List α) (d : Nat) :
    ((extended A
        [entry "f" (operatorCall .plus [.GFunctionConstant (A.atof "2"),
          operatorCall .times [.GFunctionConstant (A.atof "3"),
            .GFunctionConstant (A.atof "4")]]) 0 29] 1).call A (d + 3) "f" params).1 =
      .ok (A.add (A.atof "2") (A.mul (A.atof "3") (A.atof "4"))) := by
  rfl

theorem atof_4 : atofExact "4" = 4 := by decide!

end Binary

/-- C10. Precedence.  Let `a`, `b`, `c` be operands (numbers, names, calls
`name(...)`, parenthesised expressions) that stand in the token vector as
`a + b * c`, as `a * b + c` or as `a * b ^ c`, and let them parse, where the
recursion of `parseFunctionBody` reaches them, to the trees `ta`, `tb`, `tc`.
Then the window parses at `depth` to `plus(ta, times(tb, tc))`, to
`plus(times(ta, tb), tc)` and to `times(ta, exponent(tb, tc))`.  On a new
parser, after `add("f=2+3*4")` the tree of `f` is `plus(2, times(3, 4))` and
the call of `f` returns 14 in exact arithmetic. -/
theorem C10_precedence :
    (∀ (α : Type) (A : DoubleOps α) (vars pre post a b c : List String) (depth : Nat)
      (ta tb tc : GFunctionNode α),
      isOperand a = true → isOperand b = true → isOperand c = true →
      (parseWindow A vars (pre ++ (a ++ "+" :: (b ++ "*" :: (c ++ post))))
          pre.length a.length (depth + 1) = .ok ta →
        parseWindow A vars (pre ++ (a ++ "+" :: (b ++ "*" :: (c ++ post))))
          (pre.length + a.length + 1) b.length (depth + 2) = .ok tb →
        parseWindow A vars (pre ++ (a ++ "+" :: (b ++ "*" :: (c ++ post))))
          (pre.length + a.length + 1 + b.length + 1) c.length (depth + 2) = .ok tc →
        parseWindow A vars (pre ++ (a ++ "+" :: (b ++ "*" :: (c ++ post))))
          pre.length (a.length + 1 + (b.length + 1 + c.length)) depth =
            .ok (operatorCall .plus [ta, operatorCall .times [tb, tc]])) ∧
      (parseWindow A vars (pre ++ (a ++ "*" :: (b ++ "+" :: (c ++ post))))
          pre.length a.length (depth + 2) = .ok ta →
        parseWindow A vars (pre ++ (a ++ "*" :: (b ++ "+" :: (c ++ post))))
          (pre.length + a.length + 1) b.length (depth + 2) = .ok tb →
        parseWindow A vars (pre ++ (a ++ "*" :: (b ++ "+" :: (c ++ post))))
          (pre.length + (a.length + 1 + b.length) + 1) c.length (depth + 1) = .ok tc →
        parseWindow A vars (pre ++ (a ++ "*" :: (b ++ "+" :: (c ++ post))))
          pre.length (a.length + 1 + b.length + 1 + c.length) depth =
            .ok (operatorCall .plus [operatorCall .times [ta, tb], tc])) ∧
      (parseWindow A vars (pre ++ (a ++ "*" :: (b ++ "^" :: (c ++ post))))
          pre.length a.length (depth + 1) = .ok ta →
        parseWindow A vars (pre ++ (a ++ "*" :: (b ++ "^" :: (c ++ post))))
          (pre.length + a.length + 1) b.length (depth + 2) = .ok tb →
        parseWindow A vars (pre ++ (a ++ "*" :: (b ++ "^" :: (c ++ post))))
          (pre.length + a.length + 1 + b.length + 1) c.length (depth + 2) = .ok tc →
        parseWindow A vars (pre ++ (a ++ "*" :: (b ++ "^" :: (c ++ post))))
          pre.length (a.length + 1 + (b.length + 1 + c.length)) depth =
            .ok (operatorCall .times [ta, operatorCall .exponent [tb, tc]]))) ∧
    (∀ (α : Type) (A : DoubleOps α),
      (((GFunctionParser.ctor A false).add A "f=2+3*4").2.getFunctionNoThrow "f").map
          (fun f => f.m_pRoot) =
        some (operatorCall .plus [.GFunctionConstant (A.atof "2"),
          operatorCall .times [.GFunctionConstant (A.atof "3"),
            .GFunctionConstant (A.atof "4")]])) ∧
    (∀ (T : Inexact) (d : Nat) (params : List ℚ),
      (((GFunctionParser.ctor (exactOps T) false).add (exactOps T) "f=2+3*4").2.call
        (exactOps T) (d + 3) "f" params).1 = .ok 14) := by
  refine ⟨?_, ?_, ?_⟩
  · intro α A vars pre post a b c depth ta tb tc ha hb hc
    have hlb := isOperand_length b hb
    have hlc := isOperand_length c hc
    refine ⟨?_, ?_, ?_⟩
    · intro pa pb pc
      simp only [parseWindow, bodyBound] at pa pb pc ⊢
      have hdep := (parseFunctionBody_depth A _ _ _ _ _ _ _ pb).1
      have hd : (pre ++ (a ++ "+" :: (b ++ "*" :: (c ++ post)))).drop pre.length =
          a ++ "+" :: (b ++ "*" :: (c ++ post)) := List.drop_left _ _
      have hd2 : (pre ++ (a ++ "+" :: (b ++ "*" :: (c ++ post)))).drop
          (pre.length + a.length + 1) = b ++ "*" :: (c ++ post) :=
        drop_succ_of_drop _ _ "+" _ (drop_after _ _ a _ hd)
      have e1 : 10002 - depth = (10002 - (depth + 1)) + 1 := by omega
      have e2 : 10002 - (depth + 1) = (10002 - (depth + 2)) + 1 := by omega
      rw [e1]
      refine parseFunctionBody_binary A vars _ _ _ depth _ _ a _ "+" .plus ta _ hd ha (le_refl _)
        (tokenAt_of_drop _ _ _ _ (drop_after _ _ a _ hd)) (by omega)
        (findOperator_plus_times _ _ a b c post hd ha hb hc) pa ?_ (Or.inl ⟨rfl, rfl⟩)
      rw [e2]
      exact parseFunctionBody_binary A vars _ _ _ (depth + 1) _ _ b _ "*" .times tb tc hd2 hb
        (le_refl _) (tokenAt_of_drop _ _ _ _ (drop_after _ _ b _ hd2)) hlc
        (findOperator_single _ _ b c post "*" (Or.inl rfl) hd2 hb hc) pb pc
        (Or.inr (Or.inl ⟨rfl, rfl⟩))
    · intro pa pb pc
      simp only [parseWindow, bodyBound] at pa pb pc ⊢
      have hdep := (parseFunctionBody_depth A _ _ _ _ _ _ _ pb).1
      have hd : (pre ++ (a ++ "*" :: (b ++ "+" :: (c ++ post)))).drop pre.length =
          a ++ "*" :: (b ++ "+" :: (c ++ post)) := List.drop_left _ _
      have hd1 : (pre ++ (a ++ "*" :: (b ++ "+" :: (c ++ post)))).drop (pre.length + a.length) =
          "*" :: (b ++ "+" :: (c ++ post)) := drop_after _ _ a _ hd
      have hd2 : (pre ++ (a ++ "*" :: (b ++ "+" :: (c ++ post)))).drop
          (pre.length + a.length + 1) = b ++ "+" :: (c ++ post) := drop_succ_of_drop _ _ "*" _ hd1
      have hd3 : (pre ++ (a ++ "*" :: (b ++ "+" :: (c ++ post)))).drop
          (pre.length + (a.length + 1 + b.length)) = "+" :: (c ++ post) := by
        have := drop_after _ _ b _ hd2
        rw [show pre.length + a.length + 1 + b.length = pre.length + (a.length + 1 + b.length)
          by omega] at this
        exact this
      have e1 : 10002 - depth = (10002 - (depth + 1)) + 1 := by omega
      have e2 : 10002 - (depth + 1) = (10002 - (depth + 2)) + 1 := by omega
      rw [e1]
      refine parseFunctionBody_binary A vars _ _ _ depth (a.length + 1 + b.length) _ a _ "+" .plus
        _ tc hd ha (by omega) (tokenAt_of_drop _ _ _ _ hd3) hlc
        (findOperator_times_plus _ _ a b c post hd ha hb hc) ?_ pc (Or.inl ⟨rfl, rfl⟩)
      rw [e2]
      exact parseFunctionBody_binary A vars _ _ _ (depth + 1) _ _ a _ "*" .times ta tb hd ha
        (le_refl _) (tokenAt_of_drop _ _ _ _ hd1) hlb
        (findOperator_single _ _ a b _ "*" (Or.inl rfl) hd ha hb) pa pb
        (Or.inr (Or.inl ⟨rfl, rfl⟩))
    · intro pa pb pc
      simp only [parseWindow, bodyBound] at pa pb pc ⊢
      have hdep := (parseFunctionBody_depth A _ _ _ _ _ _ _ pb).1
      have hd : (pre ++ (a ++ "*" :: (b ++ "^" :: (c ++ post)))).drop pre.length =
          a ++ "*" :: (b ++ "^" :: (c ++ post)) := List.drop_left _ _
      have hd2 : (pre ++ (a ++ "*" :: (b ++ "^" :: (c ++ post)))).drop
          (pre.length + a.length + 1) = b ++ "^" :: (c ++ post) :=
        drop_succ_of_drop _ _ "*" _ (drop_after _ _ a _ hd)
      have e1 : 10002 - depth = (10002 - (depth + 1)) + 1 := by omega
      have e2 : 10002 - (depth + 1) = (10002 - (depth + 2)) + 1 := by omega
      rw [e1]
      refine parseFunctionBody_binary A vars _ _ _ depth _ _ a _ "*" .times ta _ hd ha (le_refl _)
        (tokenAt_of_drop _ _ _ _ (drop_after _ _ a _ hd)) (by omega)
        (findOperator_times_caret _ _ a b c post hd ha hb hc) pa ?_ (Or.inr (Or.inl ⟨rfl, rfl⟩))
      rw [e2]
      exact parseFunctionBody_binary A vars _ _ _ (depth + 1) _ _ b _ "^" .exponent tb tc hd2 hb
        (le_refl _) (tokenAt_of_drop _ _ _ _ (drop_after _ _ b _ hd2)) hlc
        (findOperator_single _ _ b c post "^" (Or.inr rfl) hd2 hb hc) pb pc
        (Or.inr (Or.inr ⟨rfl, rfl⟩))
  · intro α A
    simp only [ctor_posix, scenario_precedence]
    rfl
  · intro T d params
    simp only [ctor_posix, scenario_precedence, scenario_precedence_call]
    simp only [exactOps, atof_2, atof_3, atof_4]
    norm_num

/-- C10, at an input: with the variable `x`, in the statements
`f(x)=x+sin(x)*(2)`, `f(x)=x*sin(x)+(2)` and `f(x)=x*sin(x)^(2)` the operands
`x`, `sin(x)` and `(2)` parse to the variable 0, a call node of `sin` and the
constant 2, and the bodies to `plus(x, times(sin(x), 2))`,
`plus(times(x, sin(x)), 2)` and `times(x, exponent(sin(x), 2))`. -/
theorem C10_precedence_witness :
    let E := exactOps noInexact
    let pre := ["f", "(", "x", ")", "="]
    let a := ["x"]
    let b := ["sin", "(", "x", ")"]
    let c := ["(", "2", ")"]
    let ta : GFunctionNode ℚ := .GFunctionVariable 0
    let tb : GFunctionNode ℚ := .GFunctionCall "sin" none [.GFunctionVariable 0]
    let tc : GFunctionNode ℚ := .GFunctionConstant (E.atof "2")
    isOperand a = true ∧ isOperand b = true ∧ isOperand c = true ∧
      parseWindow E ["x"] (pre ++ (a ++ "+" :: (b ++ "*" :: (c ++ []))))
          pre.length (a.length + 1 + (b.length + 1 + c.length)) 0 =
        .ok (operatorCall .plus [ta, operatorCall .times [tb, tc]]) ∧
      parseWindow E ["x"] (pre ++ (a ++ "*" :: (b ++ "+" :: (c ++ []))))
          pre.length (a.length + 1 + b.length + 1 + c.length) 0 =
        .ok (operatorCall .plus [operatorCall .times [ta, tb], tc]) ∧
      parseWindow E ["x"] (pre ++ (a ++ "*" :: (b ++ "^" :: (c ++ []))))
          pre.length (a.length + 1 + (b.length + 1 + c.length)) 0 =
        .ok (operatorCall .times [ta, operatorCall .exponent [tb, tc]]) := by
  intro E pre a b c ta tb tc
  have ha : isOperand a = true := by decide
  have hb : isOperand b = true := by decide
  have hc : isOperand c = true := by decide
  have h := C10_precedence.1 ℚ E ["x"] pre [] a b c 0 ta tb tc ha hb hc
  have a1 : parseWindow E ["x"] (pre ++ (a ++ "+" :: (b ++ "*" :: (c ++ []))))
      pre.length a.length (0 + 1) = .ok ta := rfl
  have b1 : parseWindow E ["x"] (pre ++ (a ++ "+" :: (b ++ "*" :: (c ++ []))))
      (pre.length + a.length + 1) b.length (0 + 2) = .ok tb := rfl
  have c1 : parseWindow E ["x"] (pre ++ (a ++ "+" :: (b ++ "*" :: (c ++ []))))
      (pre.length + a.length + 1 + b.length + 1) c.length (0 + 2) = .ok tc := rfl
  have a2 : parseWindow E ["x"] (pre ++ (a ++ "*" :: (b ++ "+" :: (c ++ []))))
      pre.length a.length (0 + 2) = .ok ta := rfl
  have b2 : parseWindow E ["x"] (pre ++ (a ++ "*" :: (b ++ "+" :: (c ++ []))))
      (pre.length + a.length + 1) b.length (0 + 2) = .ok tb := rfl
  have c2 : parseWindow E ["x"] (pre ++ (a ++ "*" :: (b ++ "+" :: (c ++ []))))
      (pre.length + (a.length + 1 + b.length) + 1) c.length (0 + 1) = .ok tc := rfl
  have a3 : parseWindow E ["x"] (pre ++ (a ++ "*" :: (b ++ "^" :: (c ++ []))))
      pre.length a.length (0 + 1) = .ok ta := rfl
  have b3 : parseWindow E ["x"] (pre ++ (a ++ "*" :: (b ++ "^" :: (c ++ []))))
      (pre.length + a.length + 1) b.length (0 + 2) = .ok tb := rfl
  have c3 : parseWindow E ["x"] (pre ++ (a ++ "*" :: (b ++ "^" :: (c ++ []))))
      (pre.length + a.length + 1 + b.length + 1) c.length (0 + 2) = .ok tc := rfl
  exact ⟨ha, hb, hc, h.1 a1 b1 c1, h.2.1 a2 b2 c2, h.2.2 a3 b3 c3⟩

/-! ## C11: associativity -/

section Assoc
variable {α : Type} (A : DoubleOps α)

theorem parseMathOperator_ok_right
    (parse : Nat → Nat → Nat → Except Ex (GFunctionNode α)) (tokens : List String)
    (start count index depth : Nat) (t : GFunctionNode α)
    (h : parseMathOperator parse tokens start count index depth = .ok t) :
    index < start + count - 1 ∧ ∃ r, parse (index + 1) (start + count - index - 1) depth = .ok r := by
  by_cases h2 : index < start + count - 1
  · refine ⟨h2, ?_⟩
    cases hr : parse (index + 1) (start + count - index - 1) depth with
    | ok r => exact ⟨r, rfl⟩
    | error e =>
      exfalso
      by_cases h1 : index > start
      · cases hl : parse start (index - start) depth <;>
          simp [parseMathOperator, h1, h2, hl, hr, Except.map, Bind.bind, Except.bind, pure,
            Except.pure] at h
      · simp [parseMathOperator, h1, h2, hr, Except.map, Bind.bind, Except.bind, pure,
          Except.pure] at h
  · exfalso
    by_cases h1 : index > start
    · cases hl : parse start (index - start) depth <;>
        simp [parseMathOperator, h1, h2, hl, Except.map, Bind.bind, Except.bind, pure,
          Except.pure, throw, throwThe, MonadExceptOf.throw] at h
    · simp [parseMathOperator, h1, h2, Except.map, Bind.bind, Except.bind, pure,
        Except.pure, throw, throwThe, MonadExceptOf.throw] at h

/-- A window that parses ends in a name, a number or `)`. -/
theorem parseFunctionBody_last (vars tokens : List String) :
    ∀ (bound start count depth : Nat) (t : GFunctionNode α),
      parseFunctionBody A vars tokens bound start count depth = .ok t →
      isOperandEnd (tokenAt tokens (start + count - 1)) = true
  | 0, _, _, _, _, h => by simp [parseFunctionBody] at h
  | bound + 1, start, count, depth, t, h => by
    simp only [parseFunctionBody] at h
    by_cases h1 : depth > 10000
    · simp [h1] at h
    by_cases h2 : count ≤ 0
    · simp [h1, h2] at h
    simp only [h1, h2, ↓reduceIte] at h
    by_cases h3 : (tokenAt tokens start == "(" && tokenAt tokens (start + count - 1) == ")" &&
        decide (enclosingLoop tokens start (count - 2) 1 1 ≥ count - 1)) = true
    · simp only [Bool.and_eq_true, beq_iff_eq] at h3
      rw [isOperandEnd, h3.1.2]
      decide
    simp only [h3, Bool.false_eq_true, ↓reduceIte] at h
    by_cases h4 : (count == 1) = true
    · simp only [h4, ↓reduceIte] at h
      simp only [beq_iff_eq] at h4
      subst h4
      simp only [Nat.add_sub_cancel, isOperandEnd]
      by_cases h5 : IsNameChar (firstChar (tokenAt tokens start)) = true
      · simp [h5]
      · simp only [h5, Bool.false_eq_true, ↓reduceIte] at h
        by_cases h6 : (!IsDigit (firstChar (tokenAt tokens start)) &&
            firstChar (tokenAt tokens start) != '.') = true
        · simp [h6] at h
        · simp only [Bool.and_eq_true, Bool.not_eq_true', bne_iff_ne, ne_eq, not_and,
            Bool.not_eq_false, Decidable.not_not] at h6
          by_cases hd : IsDigit (firstChar (tokenAt tokens start)) = true
          · simp [hd]
          · simp [h6 (by simpa using hd)]
    simp only [h4, Bool.false_eq_true, ↓reduceIte] at h
    cases hf : findOperatorWithLowestPrecidence tokens start count with
    | error e => simp [hf] at h
    | ok index =>
      simp only [hf] at h
      by_cases h7 : index ≥ 0
      · simp only [h7, ↓reduceIte] at h
        obtain ⟨hlt, r, hr⟩ := parseMathOperator_ok_right _ tokens start count index.toNat
          (depth + 1) t h
        have := parseFunctionBody_last vars tokens bound _ _ _ r hr
        rw [show index.toNat + 1 + (start + count - index.toNat - 1) - 1 = start + count - 1
          by omega] at this
        exact this
      · simp only [h7, ↓reduceIte] at h
        by_cases h8 : (decide (count < 3) || tokenAt tokens (start + 1) != "(" ||
            tokenAt tokens (start + count - 1) != ")") = true
        · simp [h8] at h
        · simp only [Bool.or_eq_true, decide_eq_true_eq, bne_iff_ne, ne_eq, not_or, not_lt,
            Decidable.not_not] at h8
          rw [isOperandEnd, h8.2]
          decide
end Assoc

section Assoc2
variable {α : Type} (A : DoubleOps α)

/-- One iteration of the scan on a binary operator that follows an operand. -/
theorem findOperatorLoop_binop (tokens : List String) (start n i : Nat) (p t : Int)
    (op : String) (lvl : Int)
    (hop : (op, lvl) ∈ [("+", (4 : Int)), ("-", 4), ("*", 8), ("/", 8), ("%", 8), ("^", 12)])
    (ht : tokenAt tokens (start + i) = op) (hi : i ≠ 0)
    (hb : isOperandEnd (tokenAt tokens (start + i - 1)) = true) :
    findOperatorLoop tokens start (n + 1) i p t 0 =
      if p ≥ lvl then findOperatorLoop tokens start n (i + 1) lvl (start + i : Nat) 0
      else findOperatorLoop tokens start n (i + 1) p t 0 := by
  have hi' : (i == 0) = false := by simpa using hi
  have hu : (!IsDigit (firstChar (tokenAt tokens (start + i - 1))) &&
      !IsNameChar (firstChar (tokenAt tokens (start + i - 1))) &&
      firstChar (tokenAt tokens (start + i - 1)) != ')' &&
      firstChar (tokenAt tokens (start + i - 1)) != '.') = false := by
    simp only [isOperandEnd, Bool.or_eq_true, beq_iff_eq] at hb
    rcases hb with ((hb | hb) | hb) | hb <;> simp [hb]
  simp only [List.mem_cons, Prod.mk.injEq, List.mem_singleton, List.not_mem_nil, or_false] at hop
  rcases hop with ⟨h1, h2⟩ | ⟨h1, h2⟩ | ⟨h1, h2⟩ | ⟨h1, h2⟩ | ⟨h1, h2⟩ | ⟨h1, h2⟩ <;>
    subst h1 <;> subst h2
  · have e1 : ("+" == "(") = false := by decide
    have e2 : ("+" == ")") = false := by decide
    have e3 : firstChar "+" = '+' := by decide
    simp only [findOperatorLoop, ht, e1, e2, e3, Bool.false_eq_true, ↓reduceIte, beq_self_eq_true]
    simp [IsNameChar, IsDigit]
  · have e1 : ("-" == "(") = false := by decide
    have e2 : ("-" == ")") = false := by decide
    have e3 : firstChar "-" = '-' := by decide
    simp only [findOperatorLoop, ht, e1, e2, e3, Bool.false_eq_true, ↓reduceIte, beq_self_eq_true,
      hi', hu, Bool.or_false, Bool.and_false]
    simp [IsNameChar, IsDigit]
  · have e1 : ("*" == "(") = false := by decide
    have e2 : ("*" == ")") = false := by decide
    have e3 : firstChar "*" = '*' := by decide
    simp only [findOperatorLoop, ht, e1, e2, e3, Bool.false_eq_true, ↓reduceIte, beq_self_eq_true]
    simp [IsNameChar, IsDigit]
  · have e1 : ("/" == "(") = false := by decide
    have e2 : ("/" == ")") = false := by decide
    have e3 : firstChar "/" = '/' := by decide
    simp only [findOperatorLoop, ht, e1, e2, e3, Bool.false_eq_true, ↓reduceIte, beq_self_eq_true]
    simp [IsNameChar, IsDigit]
  · have e1 : ("%" == "(") = false := by decide
    have e2 : ("%" == ")") = false := by decide
    have e3 : firstChar "%" = '%' := by decide
    simp only [findOperatorLoop, ht, e1, e2, e3, Bool.false_eq_true, ↓reduceIte, beq_self_eq_true]
    simp [IsNameChar, IsDigit]
  · have e1 : ("^" == "(") = false := by decide
    have e2 : ("^" == ")") = false := by decide
    have e3 : firstChar "^" = '^' := by decide
    simp only [findOperatorLoop, ht, e1, e2, e3, Bool.false_eq_true, ↓reduceIte, beq_self_eq_true]
    simp [IsNameChar, IsDigit]

/-- One iteration of the scan on a `-` that opens the window or follows a
token that does not end an operand. -/
theorem findOperatorLoop_negate (tokens : List String) (start n i : Nat) (p t : Int)
    (ht : tokenAt tokens (start + i) = "-")
    (hb : i = 0 ∨ isOperandEnd (tokenAt tokens (start + i - 1)) = false) :
    findOperatorLoop tokens start (n + 1) i p t 0 =
      if p ≥ 16 then findOperatorLoop tokens start n (i + 1) 16 (start + i : Nat) 0
      else findOperatorLoop tokens start n (i + 1) p t 0 := by
  have hu : (i == 0 || (!IsDigit (firstChar (tokenAt tokens (start + i - 1))) &&
      !IsNameChar (firstChar (tokenAt tokens (start + i - 1))) &&
      firstChar (tokenAt tokens (start + i - 1)) != ')' &&
      firstChar (tokenAt tokens (start + i - 1)) != '.')) = true := by
    rcases hb with hb | hb
    · simp [hb]
    · simp only [isOperandEnd, Bool.or_eq_false_iff, beq_eq_false_iff_ne, ne_eq] at hb
      obtain ⟨⟨⟨h1, h2⟩, h3⟩, h4⟩ := hb
      simp [h1, h2, h3, h4]
  have e1 : ("-" == "(") = false := by decide
  have e2 : ("-" == ")") = false := by decide
  have e3 : firstChar "-" = '-' := by decide
  simp only [findOperatorLoop, ht, e1, e2, e3, Bool.false_eq_true, ↓reduceIte, beq_self_eq_true,
    hu, Bool.and_true]
  simp [IsNameChar, IsDigit]

/-- The scan of `wa op wb`: the operator. -/
theorem findOperator_one (tokens : List String) (start : Nat) (wa wb rest : List String)
    (op : String) (lvl : Int)
    (hop : (op, lvl) ∈ [("+", (4 : Int)), ("-", 4), ("*", 8), ("/", 8), ("%", 8), ("^", 12)])
    (hd : tokens.drop start = wa ++ op :: (wb ++ rest))
    (ha : isOperand wa = true) (hb : isOperand wb = true)
    (hea : isOperandEnd (tokenAt tokens (start + wa.length - 1)) = true) :
    findOperatorWithLowestPrecidence tokens start (wa.length + 1 + wb.length) =
      .ok ((start + wa.length : Nat) : Int) := by
  have hla := isOperand_length wa ha
  have d0 : tokens.drop (start + 0) = wa ++ op :: (wb ++ rest) := hd
  have d1 : tokens.drop (start + (0 + wa.length)) = op :: (wb ++ rest) := by
    rw [Nat.zero_add]; exact drop_after tokens start wa _ hd
  have t1 := tokenAt_of_drop tokens _ op _ d1
  have d2 : tokens.drop (start + (0 + wa.length + 1)) = wb ++ rest :=
    drop_succ_of_drop tokens _ op _ d1
  have hc : wa.length + 1 + wb.length = wa.length + ((wb.length + 0) + 1) := by omega
  have hlvl : lvl ≤ 100 := by
    simp only [List.mem_cons, Prod.mk.injEq, List.mem_singleton, List.not_mem_nil, or_false] at hop
    omega
  rw [findOperatorWithLowestPrecidence, hc, findOperatorLoop_isOperand tokens start wa _ 0 _ _ _ d0 ha,
    findOperatorLoop_binop tokens start _ _ _ _ op lvl hop t1 (by omega)
      (by rw [show start + (0 + wa.length) - 1 = start + wa.length - 1 by omega]; exact hea)]
  simp only [ge_iff_le, hlvl, ↓reduceIte]
  rw [findOperatorLoop_isOperand_end tokens start wb _ _ _ _ d2 hb]
  simp

/-- The scan of `wa op1 wb op2 wc`: the second operator when its level is at
most that of the first, else the first. -/
theorem findOperator_two (tokens : List String) (start : Nat)
    (wa wb wc rest : List String) (op1 op2 : String) (l1 l2 : Int)
    (hop1 : (op1, l1) ∈ [("+", (4 : Int)), ("-", 4), ("*", 8), ("/", 8), ("%", 8), ("^", 12)])
    (hop2 : (op2, l2) ∈ [("+", (4 : Int)), ("-", 4), ("*", 8), ("/", 8), ("%", 8), ("^", 12)])
    (hd : tokens.drop start = wa ++ op1 :: (wb ++ op2 :: (wc ++ rest)))
    (ha : isOperand wa = true) (hb : isOperand wb = true) (hc : isOperand wc = true)
    (hea : isOperandEnd (tokenAt tokens (start + wa.length - 1)) = true)
    (heb : isOperandEnd (tokenAt tokens (start + wa.length + 1 + wb.length - 1)) = true) :
    findOperatorWithLowestPrecidence tokens start
        (wa.length + 1 + wb.length + 1 + wc.length) =
      .ok (if l2 ≤ l1 then ((start + (wa.length + 1 + wb.length) : Nat) : Int)
        else ((start + wa.length : Nat) : Int)) := by
  have hla := isOperand_length wa ha
  have d0 : tokens.drop (start + 0) = wa ++ op1 :: (wb ++ op2 :: (wc ++ rest)) := hd
  have d1 : tokens.drop (start + (0 + wa.length)) = op1 :: (wb ++ op2 :: (wc ++ rest)) := by
    rw [Nat.zero_add]; exact drop_after tokens start wa _ hd
  have t1 := tokenAt_of_drop tokens _ op1 _ d1
  have d2 : tokens.drop (start + (0 + wa.length + 1)) = wb ++ op2 :: (wc ++ rest) :=
    drop_succ_of_drop tokens _ op1 _ d1
  have d3 : tokens.drop (start + (0 + wa.length + 1 + wb.length)) = op2 :: (wc ++ rest) := by
    have := drop_after tokens _ wb _ d2
    rw [Nat.add_assoc start] at this
    exact this
  have t3 := tokenAt_of_drop tokens _ op2 _ d3
  have d4 : tokens.drop (start + (0 + wa.length + 1 + wb.length + 1)) = wc ++ rest :=
    drop_succ_of_drop tokens _ op2 _ d3
  have hcount : wa.length + 1 + wb.length + 1 + wc.length =
      wa.length + ((wb.length + ((wc.length + 0) + 1)) + 1) := by omega
  have hl1 : l1 ≤ 100 := by
    simp only [List.mem_cons, Prod.mk.injEq, List.mem_singleton, List.not_mem_nil, or_false] at hop1
    omega
  rw [findOperatorWithLowestPrecidence, hcount,
    findOperatorLoop_isOperand tokens start wa _ 0 _ _ _ d0 ha,
    findOperatorLoop_binop tokens start _ _ _ _ op1 l1 hop1 t1 (by omega)
      (by rw [show start + (0 + wa.length) - 1 = start + wa.length - 1 by omega]; exact hea)]
  simp only [ge_iff_le, hl1, ↓reduceIte]
  rw [findOperatorLoop_isOperand tokens start wb _ _ _ _ _ d2 hb,
    findOperatorLoop_binop tokens start _ _ _ _ op2 l2 hop2 t3 (by omega)
      (by
        rw [show start + (0 + wa.length + 1 + wb.length) - 1 =
          start + wa.length + 1 + wb.length - 1 by omega]
        exact heb)]
  by_cases hle : l2 ≤ l1
  · simp only [ge_iff_le, hle, ↓reduceIte]
    rw [findOperatorLoop_isOperand_end tokens start wc _ _ _ _ d4 hc]
    simp
  · simp only [ge_iff_le, hle, ↓reduceIte]
    rw [findOperatorLoop_isOperand_end tokens start wc _ _ _ _ d4 hc]
    simp

end Assoc2

section Assoc3
variable {α : Type} (A : DoubleOps α)

theorem parseFunctionBody_binop (vars tokens : List String) (bound start depth ll m : Nat)
    (w0 rest0 : List String) (op : String) (f : MathFuncFunc) (l r : GFunctionNode α)
    (hd0 : tokens.drop start = w0 ++ rest0) (hw0 : isOperand w0 = true) (h0 : w0.length ≤ ll)
    (htok : tokenAt tokens (start + ll) = op) (hm : 1 ≤ m)
    (hidx : findOperatorWithLowestPrecidence tokens start (ll + 1 + m) =
      .ok ((start + ll : Nat) : Int))
    (hl : parseFunctionBody A vars tokens bound start ll (depth + 1) = .ok l)
    (hr : parseFunctionBody A vars tokens bound (start + ll + 1) m (depth + 1) = .ok r)
    (hop : (op, f) ∈ [("+", MathFuncFunc.plus), ("-", .minus), ("*", .times), ("/", .divide),
      ("%", .modulus), ("^", .exponent)]) :
    parseFunctionBody A vars tokens (bound + 1) start (ll + 1 + m) depth =
      .ok (operatorCall f [l, r]) := by
  have hdepth := (parseFunctionBody_depth A vars tokens bound start ll (depth + 1) l hl).1
  have hlen := isOperand_length w0 hw0
  have hne := not_enclosed tokens start (ll + 1 + m) w0 _ hd0 hw0 (by omega)
  rw [parseFunctionBody_operator A vars tokens bound start (ll + 1 + m) depth
    (start + ll) (by omega) (by omega) hne hidx]
  rw [parseMathOperator_binary (parseFunctionBody A vars tokens bound) tokens start
    (ll + 1 + m) (start + ll) (depth + 1) l r (by omega) (by omega)
    (by rw [Nat.add_sub_cancel_left]; exact hl)
    (by
      rw [show start + (ll + 1 + m) - (start + ll) - 1 = m by omega]
      exact hr), htok]
  simp only [List.mem_cons, Prod.mk.injEq, List.mem_singleton, List.not_mem_nil, or_false] at hop
  rcases hop with ⟨h1, h2⟩ | ⟨h1, h2⟩ | ⟨h1, h2⟩ | ⟨h1, h2⟩ | ⟨h1, h2⟩ | ⟨h1, h2⟩ <;>
    subst h1 <;> subst h2 <;> rfl

theorem operator_level {op : String} {f : MathFuncFunc} {lvl : Int}
    (h : (op, f, lvl) ∈ [("+", MathFuncFunc.plus, (4 : Int)), ("-", .minus, 4), ("*", .times, 8),
      ("/", .divide, 8), ("%", .modulus, 8), ("^", .exponent, 12)]) :
    (op, lvl) ∈ [("+", (4 : Int)), ("-", 4), ("*", 8), ("/", 8), ("%", 8), ("^", 12)] ∧
    (op, f) ∈ [("+", MathFuncFunc.plus), ("-", .minus), ("*", .times), ("/", .divide),
      ("%", .modulus), ("^", .exponent)] := by
  simp only [List.mem_cons, Prod.mk.injEq, List.mem_singleton, List.not_mem_nil, or_false] at h ⊢
  rcases h with ⟨h1, h2, h3⟩ | ⟨h1, h2, h3⟩ | ⟨h1, h2, h3⟩ | ⟨h1, h2, h3⟩ | ⟨h1, h2, h3⟩ |
    ⟨h1, h2, h3⟩ <;> subst h1 <;> subst h2 <;> subst h3 <;> simp

/-- The window `a op1 b op2 c` with `op2` at most at the level of `op1`. -/
theorem parseWindow_left (vars pre post a b c : List String) (depth : Nat)
    (ta tb tc : GFunctionNode α) (op1 op2 : String) (f1 f2 : MathFuncFunc) (l1 l2 : Int)
    (ha : isOperand a = true) (hb : isOperand b = true) (hc : isOperand c = true)
    (h1 : (op1, f1, l1) ∈ [("+", MathFuncFunc.plus, (4 : Int)), ("-", .minus, 4),
      ("*", .times, 8), ("/", .divide, 8), ("%", .modulus, 8), ("^", .exponent, 12)])
    (h2 : (op2, f2, l2) ∈ [("+", MathFuncFunc.plus, (4 : Int)), ("-", .minus, 4),
      ("*", .times, 8), ("/", .divide, 8), ("%", .modulus, 8), ("^", .exponent, 12)])
    (hle : l2 ≤ l1)
    (pa : parseWindow A vars (pre ++ (a ++ op1 :: (b ++ op2 :: (c ++ post))))
      pre.length a.length (depth + 2) = .ok ta)
    (pb : parseWindow A vars (pre ++ (a ++ op1 :: (b ++ op2 :: (c ++ post))))
      (pre.length + a.length + 1) b.length (depth + 2) = .ok tb)
    (pc : parseWindow A vars (pre ++ (a ++ op1 :: (b ++ op2 :: (c ++ post))))
      (pre.length + (a.length + 1 + b.length) + 1) c.length (depth + 1) = .ok tc) :
    parseWindow A vars (pre ++ (a ++ op1 :: (b ++ op2 :: (c ++ post))))
      pre.length (a.length + 1 + b.length + 1 + c.length) depth =
        .ok (operatorCall f2 [operatorCall f1 [ta, tb], tc]) := by
  have hlb := isOperand_length b hb
  have hlc := isOperand_length c hc
  have hla := isOperand_length a ha
  simp only [parseWindow, bodyBound] at pa pb pc ⊢
  have hdep := (parseFunctionBody_depth A _ _ _ _ _ _ _ pb).1
  have hea := parseFunctionBody_last A _ _ _ _ _ _ _ pa
  have heb := parseFunctionBody_last A _ _ _ _ _ _ _ pb
  have hd : (pre ++ (a ++ op1 :: (b ++ op2 :: (c ++ post)))).drop pre.length =
      a ++ op1 :: (b ++ op2 :: (c ++ post)) := List.drop_left _ _
  have hd1 : (pre ++ (a ++ op1 :: (b ++ op2 :: (c ++ post)))).drop (pre.length + a.length) =
      op1 :: (b ++ op2 :: (c ++ post)) := drop_after _ _ a _ hd
  have hd2 : (pre ++ (a ++ op1 :: (b ++ op2 :: (c ++ post)))).drop
      (pre.length + a.length + 1) = b ++ op2 :: (c ++ post) := drop_succ_of_drop _ _ op1 _ hd1
  have hd3 : (pre ++ (a ++ op1 :: (b ++ op2 :: (c ++ post)))).drop
      (pre.length + (a.length + 1 + b.length)) = op2 :: (c ++ post) := by
    have := drop_after _ _ b _ hd2
    rw [show pre.length + a.length + 1 + b.length = pre.length + (a.length + 1 + b.length)
      by omega] at this
    exact this
  have e1 : 10002 - depth = (10002 - (depth + 1)) + 1 := by omega
  have e2 : 10002 - (depth + 1) = (10002 - (depth + 2)) + 1 := by omega
  have hidx := findOperator_two _ _ a b c post op1 op2 l1 l2 (operator_level h1).1
    (operator_level h2).1 hd ha hb hc hea heb
  rw [if_pos hle] at hidx
  rw [e1]
  refine parseFunctionBody_binop A vars _ _ _ depth (a.length + 1 + b.length) _ a _ op2 f2
    _ tc hd ha (by omega) (tokenAt_of_drop _ _ _ _ hd3) hlc hidx ?_ pc (operator_level h2).2
  rw [e2]
  exact parseFunctionBody_binop A vars _ _ _ (depth + 1) _ _ a _ op1 f1 ta tb hd ha
    (le_refl _) (tokenAt_of_drop _ _ _ _ hd1) hlb
    (findOperator_one _ _ a b _ op1 l1 (operator_level h1).1 hd ha hb hea) pa pb
    (operator_level h1).2

theorem scenario_subtraction :
    (extended A [] 0).add A "f=2-3-4" =
      (.ok (), extended A
        [entry "f" (operatorCall .minus [operatorCall .minus [.GFunctionConstant (A.atof "2"),
          .GFunctionConstant (A.atof "3")], .GFunctionConstant (A.atof "4")]) 0 29] 1) := by
  rfl

theorem scenario_subtraction_call (params : List α) (d : Nat) :
    ((extended A
        [entry "f" (operatorCall .minus [operatorCall .minus [.GFunctionConstant (A.atof "2"),
          .GFunctionConstant (A.atof "3")], .GFunctionConstant (A.atof "4")]) 0 29] 1).call A
            (d + 3) "f" params).1 =
      .ok (A.sub (A.sub (A.atof "2") (A.atof "3")) (A.atof "4")) := by
  rfl

theorem scenario_power :
    (extended A [] 0).add A "f=2^3^2" =
      (.ok (), extended A
        [entry "f" (operatorCall .exponent [operatorCall .exponent
          [.GFunctionConstant (A.atof "2"), .GFunctionConstant (A.atof "3")],
          .GFunctionConstant (A.atof "2")]) 0 29] 1) := by
  rfl

end Assoc3

/-- C11. Left associativity at equal precedence.  Let `op1` and `op2` be
binary operators of one level (both of `+ -`, both of `* / %`, or both `^`),
`f1` and `f2` the operator nodes `parseMathOperator` builds for them, and let
`a`, `b`, `c` be operands that stand in the token vector as `a op1 b op2 c`
and parse, where the recursion of `parseFunctionBody` reaches them, to the
trees `ta`, `tb`, `tc`.  Then the window parses at `depth` to
`f2(f1(ta, tb), tc)`.  On a new parser, after `add("f=2-3-4")` the tree of `f`
is `minus(minus(2, 3), 4)` and the call of `f` returns -5 in exact arithmetic,
and after `add("f=2^3^2")` the tree of `f` is `exponent(exponent(2, 3), 2)`. -/
theorem C11_left_associativity :
    (∀ (α : Type) (A : DoubleOps α) (vars pre post a b c : List String) (depth : Nat)
      (ta tb tc : GFunctionNode α) (op1 op2 : String) (f1 f2 : MathFuncFunc) (level : Int),
      isOperand a = true → isOperand b = true → isOperand c = true →
      (op1, f1, level) ∈ [("+", MathFuncFunc.plus, (4 : Int)), ("-", .minus, 4),
        ("*", .times, 8), ("/", .divide, 8), ("%", .modulus, 8), ("^", .exponent, 12)] →
      (op2, f2, level) ∈ [("+", MathFuncFunc.plus, (4 : Int)), ("-", .minus, 4),
        ("*", .times, 8), ("/", .divide, 8), ("%", .modulus, 8), ("^", .exponent, 12)] →
      parseWindow A vars (pre ++ (a ++ op1 :: (b ++ op2 :: (c ++ post))))
        pre.length a.length (depth + 2) = .ok ta →
      parseWindow A vars (pre ++ (a ++ op1 :: (b ++ op2 :: (c ++ post))))
        (pre.length + a.length + 1) b.length (depth + 2) = .ok tb →
      parseWindow A vars (pre ++ (a ++ op1 :: (b ++ op2 :: (c ++ post))))
        (pre.length + (a.length + 1 + b.length) + 1) c.length (depth + 1) = .ok tc →
      parseWindow A vars (pre ++ (a ++ op1 :: (b ++ op2 :: (c ++ post))))
        pre.length (a.length + 1 + b.length + 1 + c.length) depth =
          .ok (operatorCall f2 [operatorCall f1 [ta, tb], tc])) ∧
    (∀ (α : Type) (A : DoubleOps α),
      (((GFunctionParser.ctor A false).add A "f=2-3-4").2.getFunctionNoThrow "f").map
          (fun f => f.m_pRoot) =
        some (operatorCall .minus [operatorCall .minus [.GFunctionConstant (A.atof "2"),
          .GFunctionConstant (A.atof "3")], .GFunctionConstant (A.atof "4")])) ∧
    (∀ (T : Inexact) (d : Nat) (params : List ℚ),
      (((GFunctionParser.ctor (exactOps T) false).add (exactOps T) "f=2-3-4").2.call
        (exactOps T) (d + 3) "f" params).1 = .ok (-5)) ∧
    (∀ (α : Type) (A : DoubleOps α),
      (((GFunctionParser.ctor A false).add A "f=2^3^2").2.getFunctionNoThrow "f").map
          (fun f => f.m_pRoot) =
        some (operatorCall .exponent [operatorCall .exponent
          [.GFunctionConstant (A.atof "2"), .GFunctionConstant (A.atof "3")],
          .GFunctionConstant (A.atof "2")])) := by
  refine ⟨?_, ?_, ?_, ?_⟩
  · intro α A vars pre post a b c depth ta tb tc op1 op2 f1 f2 level ha hb hc h1 h2 pa pb pc
    exact parseWindow_left A vars pre post a b c depth ta tb tc op1 op2 f1 f2 level level
      ha hb hc h1 h2 (le_refl _) pa pb pc
  · intro α A
    simp only [ctor_posix, scenario_subtraction]
    rfl
  · intro T d params
    simp only [ctor_posix, scenario_subtraction, scenario_subtraction_call]
    simp only [exactOps, atof_2, atof_3, atof_4]
    norm_num
  · intro α A
    simp only [ctor_posix, scenario_power]
    rfl

/-- C11, at an input: with the variable `x`, in the statements
`f(x)=x-sin(x)+(2)`, `f(x)=x/sin(x)%(2)` and `f(x)=x^sin(x)^(2)` the operands
`x`, `sin(x)` and `(2)` parse to the variable 0, a call node of `sin` and the
constant 2, and the bodies to `plus(minus(x, sin(x)), 2)`,
`modulus(divide(x, sin(x)), 2)` and `exponent(exponent(x, sin(x)), 2)`. -/
theorem C11_left_associativity_witness :
    let E := exactOps noInexact
    let pre := ["f", "(", "x", ")", "="]
    let a := ["x"]
    let b := ["sin", "(", "x", ")"]
    let c := ["(", "2", ")"]
    let ta : GFunctionNode ℚ := .GFunctionVariable 0
    let tb : GFunctionNode ℚ := .GFunctionCall "sin" none [.GFunctionVariable 0]
    let tc : GFunctionNode ℚ := .GFunctionConstant (E.atof "2")
    isOperand a = true ∧ isOperand b = true ∧ isOperand c = true ∧
      parseWindow E ["x"] (pre ++ (a ++ "-" :: (b ++ "+" :: (c ++ []))))
          pre.length (a.length + 1 + b.length + 1 + c.length) 0 =
        .ok (operatorCall .plus [operatorCall .minus [ta, tb], tc]) ∧
      parseWindow E ["x"] (pre ++ (a ++ "/" :: (b ++ "%" :: (c ++ []))))
          pre.length (a.length + 1 + b.length + 1 + c.length) 0 =
        .ok (operatorCall .modulus [operatorCall .divide [ta, tb], tc]) ∧
      parseWindow E ["x"] (pre ++ (a ++ "^" :: (b ++ "^" :: (c ++ []))))
          pre.length (a.length + 1 + b.length + 1 + c.length) 0 =
        .ok (operatorCall .exponent [operatorCall .exponent [ta, tb], tc]) := by
  intro E pre a b c ta tb tc
  have ha : isOperand a = true := by decide
  have hb : isOperand b = true := by decide
  have hc : isOperand c = true := by decide
  have a1 : parseWindow E ["x"] (pre ++ (a ++ "-" :: (b ++ "+" :: (c ++ []))))
      pre.length a.length (0 + 2) = .ok ta := rfl
  have b1 : parseWindow E ["x"] (pre ++ (a ++ "-" :: (b ++ "+" :: (c ++ []))))
      (pre.length + a.length + 1) b.length (0 + 2) = .ok tb := rfl
  have c1 : parseWindow E ["x"] (pre ++ (a ++ "-" :: (b ++ "+" :: (c ++ []))))
      (pre.length + (a.length + 1 + b.length) + 1) c.length (0 + 1) = .ok tc := rfl
  have a2 : parseWindow E ["x"] (pre ++ (a ++ "/" :: (b ++ "%" :: (c ++ []))))
      pre.length a.length (0 + 2) = .ok ta := rfl
  have b2 : parseWindow E ["x"] (pre ++ (a ++ "/" :: (b ++ "%" :: (c ++ []))))
      (pre.length + a.length + 1) b.length (0 + 2) = .ok tb := rfl
  have c2 : parseWindow E ["x"] (pre ++ (a ++ "/" :: (b ++ "%" :: (c ++ []))))
      (pre.length + (a.length + 1 + b.length) + 1) c.length (0 + 1) = .ok tc := rfl
  have a3 : parseWindow E ["x"] (pre ++ (a ++ "^" :: (b ++ "^" :: (c ++ []))))
      pre.length a.length (0 + 2) = .ok ta := rfl
  have b3 : parseWindow E ["x"] (pre ++ (a ++ "^" :: (b ++ "^" :: (c ++ []))))
      (pre.length + a.length + 1) b.length (0 + 2) = .ok tb := rfl
  have c3 : parseWindow E ["x"] (pre ++ (a ++ "^" :: (b ++ "^" :: (c ++ []))))
      (pre.length + (a.length + 1 + b.length) + 1) c.length (0 + 1) = .ok tc := rfl
  exact ⟨ha, hb, hc,
    C11_left_associativity.1 ℚ E ["x"] pre [] a b c 0 ta tb tc "-" "+" .minus .plus 4 ha hb hc
      (by simp) (by simp) a1 b1 c1,
    C11_left_associativity.1 ℚ E ["x"] pre [] a b c 0 ta tb tc "/" "%" .divide .modulus 8
      ha hb hc (by simp) (by simp) a2 b2 c2,
    C11_left_associativity.1 ℚ E ["x"] pre [] a b c 0 ta tb tc "^" "^" .exponent .exponent 12
      ha hb hc (by simp) (by simp) a3 b3 c3⟩

/-! ## C12: the two readings of `-` -/

section Minus
variable {α : Type} (A : DoubleOps α)

theorem isOperandEnd_operator {op : String} {lvl : Int}
    (h : (op, lvl) ∈ [("+", (4 : Int)), ("-", 4), ("*", 8), ("/", 8), ("%", 8), ("^", 12)]) :
    isOperandEnd op = false := by
  simp only [List.mem_cons, Prod.mk.injEq, List.mem_singleton, List.not_mem_nil, or_false] at h
  rcases h with ⟨h1, -⟩ | ⟨h1, -⟩ | ⟨h1, -⟩ | ⟨h1, -⟩ | ⟨h1, -⟩ | ⟨h1, -⟩ <;> subst h1 <;> decide

theorem level_le {op : String} {lvl : Int}
    (h : (op, lvl) ∈ [("+", (4 : Int)), ("-", 4), ("*", 8), ("/", 8), ("%", 8), ("^", 12)]) :
    lvl ≤ 12 := by
  simp only [List.mem_cons, Prod.mk.injEq, List.mem_singleton, List.not_mem_nil, or_false] at h
  omega

/-- A window whose first token is `-` is not a pair of enclosing parentheses. -/
theorem not_enclosed_minus (tokens : List String) (start count : Nat)
    (h : tokenAt tokens start = "-") :
    (tokenAt tokens start == "(" && tokenAt tokens (start + count - 1) == ")" &&
      decide (enclosingLoop tokens start (count - 2) 1 1 ≥ count - 1)) = false := by
  have : ("-" == "(") = false := by decide
  simp [h, this]

theorem parseMathOperator_unary
    (parse : Nat → Nat → Nat → Except Ex (GFunctionNode α)) (tokens : List String)
    (start count depth : Nat) (r : GFunctionNode α) (hc : 2 ≤ count)
    (ht : tokenAt tokens start = "-")
    (hr : parse (start + 1) (start + count - start - 1) depth = .ok r) :
    parseMathOperator parse tokens start count start depth =
      .ok (operatorCall .negate [r]) := by
  have h1 : ¬ (start > start) := by omega
  have h2 : start < start + count - 1 := by omega
  simp only [parseMathOperator, h1, ↓reduceIte, h2, hr, ht, Except.map, Bind.bind, Except.bind,
    pure, Except.pure, beq_self_eq_true]

/-- The scan of `- wa`: the `-`. -/
theorem findOperator_negate (tokens : List String) (start : Nat) (wa rest : List String)
    (hd : tokens.drop start = "-" :: (wa ++ rest)) (ha : isOperand wa = true) :
    findOperatorWithLowestPrecidence tokens start (1 + wa.length) = .ok ((start : Nat) : Int) := by
  have d0 : tokens.drop (start + 0) = "-" :: (wa ++ rest) := hd
  have t0 := tokenAt_of_drop tokens _ "-" _ d0
  have d1 : tokens.drop (start + (0 + 1)) = wa ++ rest := drop_succ_of_drop tokens _ "-" _ d0
  rw [findOperatorWithLowestPrecidence, Nat.add_comm 1,
    findOperatorLoop_negate tokens start _ 0 _ _ t0 (Or.inl rfl)]
  simp only [ge_iff_le, show (16 : Int) ≤ 100 by decide, ↓reduceIte]
  rw [findOperatorLoop_isOperand_end tokens start wa _ _ _ _ d1 ha]
  simp

/-- The window `- a` parses to `negate(a)`. -/
theorem parseFunctionBody_negate (vars tokens : List String) (bound start depth : Nat)
    (wa rest : List String) (ta : GFunctionNode α)
    (hd : tokens.drop start = "-" :: (wa ++ rest)) (ha : isOperand wa = true)
    (pa : parseFunctionBody A vars tokens bound (start + 1) wa.length (depth + 1) = .ok ta) :
    parseFunctionBody A vars tokens (bound + 1) start (1 + wa.length) depth =
      .ok (operatorCall .negate [ta]) := by
  have hdepth := (parseFunctionBody_depth A vars tokens bound _ _ (depth + 1) ta pa).1
  have hla := isOperand_length wa ha
  have t0 := tokenAt_of_drop tokens _ "-" _ hd
  rw [parseFunctionBody_operator A vars tokens bound start (1 + wa.length) depth start
    (by omega) (by omega) (not_enclosed_minus tokens start _ t0)
    (findOperator_negate tokens start wa rest hd ha)]
  exact parseMathOperator_unary _ tokens start _ _ ta (by omega) t0
    (by rw [show start + (1 + wa.length) - start - 1 = wa.length by omega]; exact pa)

/-- The scan of `wa op - wb`: the operator `op`. -/
theorem findOperator_op_negate (tokens : List String) (start : Nat)
    (wa wb rest : List String) (op : String) (lvl : Int)
    (hop : (op, lvl) ∈ [("+", (4 : Int)), ("-", 4), ("*", 8), ("/", 8), ("%", 8), ("^", 12)])
    (hd : tokens.drop start = wa ++ op :: "-" :: (wb ++ rest))
    (ha : isOperand wa = true) (hb : isOperand wb = true)
    (hea : isOperandEnd (tokenAt tokens (start + wa.length - 1)) = true) :
    findOperatorWithLowestPrecidence tokens start (wa.length + 1 + (1 + wb.length)) =
      .ok ((start + wa.length : Nat) : Int) := by
  have hla := isOperand_length wa ha
  have d0 : tokens.drop (start + 0) = wa ++ op :: "-" :: (wb ++ rest) := hd
  have d1 : tokens.drop (start + (0 + wa.length)) = op :: "-" :: (wb ++ rest) := by
    rw [Nat.zero_add]; exact drop_after tokens start wa _ hd
  have t1 := tokenAt_of_drop tokens _ op _ d1
  have d2 : tokens.drop (start + (0 + wa.length + 1)) = "-" :: (wb ++ rest) :=
    drop_succ_of_drop tokens _ op _ d1
  have t2 := tokenAt_of_drop tokens _ "-" _ d2
  have d3 : tokens.drop (start + (0 + wa.length + 1 + 1)) = wb ++ rest :=
    drop_succ_of_drop tokens _ "-" _ d2
  have hcount : wa.length + 1 + (1 + wb.length) = wa.length + ((wb.length + 1) + 1) := by omega
  have hl1 : lvl ≤ 100 := by have := level_le hop; omega
  have hl2 : ¬ (16 ≤ lvl) := by have := level_le hop; omega
  rw [findOperatorWithLowestPrecidence, hcount,
    findOperatorLoop_isOperand tokens start wa _ 0 _ _ _ d0 ha,
    findOperatorLoop_binop tokens start _ _ _ _ op lvl hop t1 (by omega)
      (by rw [show start + (0 + wa.length) - 1 = start + wa.length - 1 by omega]; exact hea)]
  simp only [ge_iff_le, hl1, ↓reduceIte]
  rw [findOperatorLoop_negate tokens start _ _ _ _ t2
    (Or.inr (by
      rw [show start + (0 + wa.length + 1) - 1 = start + (0 + wa.length) by omega, t1]
      exact isOperandEnd_operator hop))]
  simp only [ge_iff_le, hl2, ↓reduceIte]
  rw [findOperatorLoop_isOperand_end tokens start wb _ _ _ _ d3 hb]
  simp

/-- The scan of `- wa op wb`: the operator `op`. -/
theorem findOperator_negate_op (tokens : List String) (start : Nat)
    (wa wb rest : List String) (op : String) (lvl : Int)
    (hop : (op, lvl) ∈ [("+", (4 : Int)), ("-", 4), ("*", 8), ("/", 8), ("%", 8), ("^", 12)])
    (hd : tokens.drop start = "-" :: (wa ++ op :: (wb ++ rest)))
    (ha : isOperand wa = true) (hb : isOperand wb = true)
    (hea : isOperandEnd (tokenAt tokens (start + 1 + wa.length - 1)) = true) :
    findOperatorWithLowestPrecidence tokens start (1 + wa.length + 1 + wb.length) =
      .ok ((start + (1 + wa.length) : Nat) : Int) := by
  have hla := isOperand_length wa ha
  have d0 : tokens.drop (start + 0) = "-" :: (wa ++ op :: (wb ++ rest)) := hd
  have t0 := tokenAt_of_drop tokens _ "-" _ d0
  have d1 : tokens.drop (start + (0 + 1)) = wa ++ op :: (wb ++ rest) :=
    drop_succ_of_drop tokens _ "-" _ d0
  have d2 : tokens.drop (start + (0 + 1 + wa.length)) = op :: (wb ++ rest) := by
    have := drop_after tokens _ wa _ d1
    rw [Nat.add_assoc start] at this
    exact this
  have t2 := tokenAt_of_drop tokens _ op _ d2
  have d3 : tokens.drop (start + (0 + 1 + wa.length + 1)) = wb ++ rest :=
    drop_succ_of_drop tokens _ op _ d2
  have hcount : 1 + wa.length + 1 + wb.length = (wa.length + ((wb.length + 0) + 1)) + 1 := by
    omega
  have hl : lvl ≤ 16 := by have := level_le hop; omega
  rw [findOperatorWithLowestPrecidence, hcount,
    findOperatorLoop_negate tokens start _ 0 _ _ t0 (Or.inl rfl)]
  simp only [ge_iff_le, show (16 : Int) ≤ 100 by decide, ↓reduceIte]
  rw [findOperatorLoop_isOperand tokens start wa _ _ _ _ _ d1 ha,
    findOperatorLoop_binop tokens start _ _ _ _ op lvl hop t2 (by omega)
      (by
        rw [show start + (0 + 1 + wa.length) - 1 = start + 1 + wa.length - 1 by omega]
        exact hea)]
  simp only [ge_iff_le, hl, ↓reduceIte]
  rw [findOperatorLoop_isOperand_end tokens start wb _ _ _ _ d3 hb]

/-- A window split at a binary operator, given that it is not a pair of
enclosing parentheses. -/
theorem parseFunctionBody_split (vars tokens : List String) (bound start depth ll m : Nat)
    (op : String) (f : MathFuncFunc) (l r : GFunctionNode α)
    (hne : (tokenAt tokens start == "(" && tokenAt tokens (start + (ll + 1 + m) - 1) == ")" &&
      decide (enclosingLoop tokens start ((ll + 1 + m) - 2) 1 1 ≥ (ll + 1 + m) - 1)) = false)
    (hll : 1 ≤ ll) (htok : tokenAt tokens (start + ll) = op) (hm : 1 ≤ m)
    (hidx : findOperatorWithLowestPrecidence tokens start (ll + 1 + m) =
      .ok ((start + ll : Nat) : Int))
    (hl : parseFunctionBody A vars tokens bound start ll (depth + 1) = .ok l)
    (hr : parseFunctionBody A vars tokens bound (start + ll + 1) m (depth + 1) = .ok r)
    (hop : (op, f) ∈ [("+", MathFuncFunc.plus), ("-", .minus), ("*", .times), ("/", .divide),
      ("%", .modulus), ("^", .exponent)]) :
    parseFunctionBody A vars tokens (bound + 1) start (ll + 1 + m) depth =
      .ok (operatorCall f [l, r]) := by
  have hdepth := (parseFunctionBody_depth A vars tokens bound start ll (depth + 1) l hl).1
  rw [parseFunctionBody_operator A vars tokens bound start (ll + 1 + m) depth
    (start + ll) (by omega) (by omega) hne hidx]
  rw [parseMathOperator_binary (parseFunctionBody A vars tokens bound) tokens start
    (ll + 1 + m) (start + ll) (depth + 1) l r (by omega) (by omega)
    (by rw [Nat.add_sub_cancel_left]; exact hl)
    (by
      rw [show start + (ll + 1 + m) - (start + ll) - 1 = m by omega]
      exact hr), htok]
  simp only [List.mem_cons, Prod.mk.injEq, List.mem_singleton, List.not_mem_nil, or_false] at hop
  rcases hop with ⟨h1, h2⟩ | ⟨h1, h2⟩ | ⟨h1, h2⟩ | ⟨h1, h2⟩ | ⟨h1, h2⟩ | ⟨h1, h2⟩ <;>
    subst h1 <;> subst h2 <;> rfl

end Minus
section MinusScenarios
variable {α : Type} (A : DoubleOps α)

theorem scenario_times_negate :
    (extended A [] 0).add A "f=3*-2" =
      (.ok (), extended A
        [entry "f" (operatorCall .times [.GFunctionConstant (A.atof "3"),
          operatorCall .negate [.GFunctionConstant (A.atof "2")]]) 0 29] 1) := by
  rfl

theorem scenario_times_negate_call (params : List α) (d : Nat) :
    ((extended A
        [entry "f" (operatorCall .times [.GFunctionConstant (A.atof "3"),
          operatorCall .negate [.GFunctionConstant (A.atof "2")]]) 0 29] 1).call A
            (d + 4) "f" params).1 =
      .ok (A.mul (A.atof "3") (A.neg (A.atof "2"))) := by
  rfl

theorem scenario_negate_minus :
    (extended A [] 0).add A "f=-3-2" =
      (.ok (), extended A
        [entry "f" (operatorCall .minus [operatorCall .negate [.GFunctionConstant (A.atof "3")],
          .GFunctionConstant (A.atof "2")]) 0 29] 1) := by
  rfl

theorem scenario_parenthesised_negate :
    (extended A [] 0).add A "f=(-3)-2" =
      (.ok (), extended A
        [entry "f" (operatorCall .minus [operatorCall .negate [.GFunctionConstant (A.atof "3")],
          .GFunctionConstant (A.atof "2")]) 0 29] 1) := by
  rfl

theorem scenario_negate_minus_call (params : List α) (d : Nat) :
    ((extended A
        [entry "f" (operatorCall .minus [operatorCall .negate [.GFunctionConstant (A.atof "3")],
          .GFunctionConstant (A.atof "2")]) 0 29] 1).call A (d + 4) "f" params).1 =
      .ok (A.sub (A.neg (A.atof "3")) (A.atof "2")) := by
  rfl

end MinusScenarios

/-- C12. The two readings of `-`.  In the scan of
`findOperatorWithLowestPrecidence`, a `-` outside parentheses that opens the
window or follows a token that does not end an operand (an operator) is the
negation, of priority 16, and a `-` that follows a number, a name or `)` is
the subtraction, of priority 4.  For operands `a` and `b` that parse to `ta`
and `tb`, and every binary operator `op` with its node `f`: `- a` parses to
`negate(ta)`, `a op - b` to `f(ta, negate(tb))`, `- a op b` to
`f(negate(ta), tb)`, and `a - b` to `minus(ta, tb)`.  On a new parser,
`3*-2` parses to `times(3, negate(2))` and evaluates to -6, `-3-2` and
`(-3)-2` parse to `minus(negate(3), 2)` and evaluate to -5. -/
theorem C12_unary_minus :
    (∀ (tokens : List String) (start n i : Nat) (p t : Int),
      tokenAt tokens (start + i) = "-" →
      findOperatorLoop tokens start (n + 1) i p t 0 =
        if i = 0 ∨ isOperandEnd (tokenAt tokens (start + i - 1)) = false then
          (if p ≥ 16 then findOperatorLoop tokens start n (i + 1) 16 (start + i : Nat) 0
            else findOperatorLoop tokens start n (i + 1) p t 0)
        else
          (if p ≥ 4 then findOperatorLoop tokens start n (i + 1) 4 (start + i : Nat) 0
            else findOperatorLoop tokens start n (i + 1) p t 0)) ∧
    (∀ (α : Type) (A : DoubleOps α) (vars pre post a : List String) (depth : Nat)
      (ta : GFunctionNode α),
      isOperand a = true →
      parseWindow A vars (pre ++ ("-" :: (a ++ post))) (pre.length + 1) a.length (depth + 1) =
        .ok ta →
      parseWindow A vars (pre ++ ("-" :: (a ++ post))) pre.length (1 + a.length) depth =
        .ok (operatorCall .negate [ta])) ∧
    (∀ (α : Type) (A : DoubleOps α) (vars pre post a b : List String) (depth : Nat)
      (ta tb : GFunctionNode α) (op : String) (f : MathFuncFunc) (level : Int),
      isOperand a = true → isOperand b = true →
      (op, f, level) ∈ [("+", MathFuncFunc.plus, (4 : Int)), ("-", .minus, 4),
        ("*", .times, 8), ("/", .divide, 8), ("%", .modulus, 8), ("^", .exponent, 12)] →
      (parseWindow A vars (pre ++ (a ++ op :: "-" :: (b ++ post)))
          pre.length a.length (depth + 1) = .ok ta →
        parseWindow A vars (pre ++ (a ++ op :: "-" :: (b ++ post)))
          (pre.length + a.length + 1 + 1) b.length (depth + 2) = .ok tb →
        parseWindow A vars (pre ++ (a ++ op :: "-" :: (b ++ post)))
          pre.length (a.length + 1 + (1 + b.length)) depth =
            .ok (operatorCall f [ta, operatorCall .negate [tb]])) ∧
      (parseWindow A vars (pre ++ ("-" :: (a ++ op :: (b ++ post))))
          (pre.length + 1) a.length (depth + 2) = .ok ta →
        parseWindow A vars (pre ++ ("-" :: (a ++ op :: (b ++ post))))
          (pre.length + (1 + a.length) + 1) b.length (depth + 1) = .ok tb →
        parseWindow A vars (pre ++ ("-" :: (a ++ op :: (b ++ post))))
          pre.length (1 + a.length + 1 + b.length) depth =
            .ok (operatorCall f [operatorCall .negate [ta], tb])) ∧
      (parseWindow A vars (pre ++ (a ++ "-" :: (b ++ post)))
          pre.length a.length (depth + 1) = .ok ta →
        parseWindow A vars (pre ++ (a ++ "-" :: (b ++ post)))
          (pre.length + a.length + 1) b.length (depth + 1) = .ok tb →
        parseWindow A vars (pre ++ (a ++ "-" :: (b ++ post)))
          pre.length (a.length + 1 + b.length) depth =
            .ok (operatorCall .minus [ta, tb]))) ∧
    (∀ (α : Type) (A : DoubleOps α),
      (((GFunctionParser.ctor A false).add A "f=3*-2").2.getFunctionNoThrow "f").map
          (fun f => f.m_pRoot) =
        some (operatorCall .times [.GFunctionConstant (A.atof "3"),
          operatorCall .negate [.GFunctionConstant (A.atof "2")]]) ∧
      (((GFunctionParser.ctor A false).add A "f=-3-2").2.getFunctionNoThrow "f").map
          (fun f => f.m_pRoot) =
        some (operatorCall .minus [operatorCall .negate [.GFunctionConstant (A.atof "3")],
          .GFunctionConstant (A.atof "2")]) ∧
      (((GFunctionParser.ctor A false).add A "f=(-3)-2").2.getFunctionNoThrow "f").map
          (fun f => f.m_pRoot) =
        some (operatorCall .minus [operatorCall .negate [.GFunctionConstant (A.atof "3")],
          .GFunctionConstant (A.atof "2")])) ∧
    (∀ (T : Inexact) (d : Nat) (params : List ℚ),
      (((GFunctionParser.ctor (exactOps T) false).add (exactOps T) "f=3*-2").2.call
        (exactOps T) (d + 4) "f" params).1 = .ok (-6) ∧
      (((GFunctionParser.ctor (exactOps T) false).add (exactOps T) "f=-3-2").2.call
        (exactOps T) (d + 4) "f" params).1 = .ok (-5) ∧
      (((GFunctionParser.ctor (exactOps T) false).add (exactOps T) "f=(-3)-2").2.call
        (exactOps T) (d + 4) "f" params).1 = .ok (-5)) := by
  refine ⟨?_, ?_, ?_, ?_, ?_⟩
  · intro tokens start n i p t ht
    by_cases h : i = 0 ∨ isOperandEnd (tokenAt tokens (start + i - 1)) = false
    · rw [if_pos h]
      exact findOperatorLoop_negate tokens start n i p t ht h
    · rw [if_neg h]
      have h' : i ≠ 0 ∧ isOperandEnd (tokenAt tokens (start + i - 1)) = true := by
        simpa using h
      exact findOperatorLoop_binop tokens start n i p t "-" 4 (by simp) ht h'.1 h'.2
  · intro α A vars pre post a depth ta ha pa
    simp only [parseWindow, bodyBound] at pa ⊢
    have hdep := (parseFunctionBody_depth A _ _ _ _ _ _ _ pa).1
    have hd : (pre ++ ("-" :: (a ++ post))).drop pre.length = "-" :: (a ++ post) :=
      List.drop_left _ _
    rw [show 10002 - depth = (10002 - (depth + 1)) + 1 by omega]
    exact parseFunctionBody_negate A vars _ _ _ depth a post ta hd ha pa
  · intro α A vars pre post a b depth ta tb op f level ha hb hop
    have hla := isOperand_length a ha
    have hlb := isOperand_length b hb
    refine ⟨?_, ?_, ?_⟩
    · intro pa pb
      simp only [parseWindow, bodyBound] at pa pb ⊢
      have hdep := (parseFunctionBody_depth A _ _ _ _ _ _ _ pb).1
      have hea := parseFunctionBody_last A _ _ _ _ _ _ _ pa
      have hd : (pre ++ (a ++ op :: "-" :: (b ++ post))).drop pre.length =
          a ++ op :: "-" :: (b ++ post) := List.drop_left _ _
      have hd1 : (pre ++ (a ++ op :: "-" :: (b ++ post))).drop (pre.length + a.length) =
          op :: "-" :: (b ++ post) := drop_after _ _ a _ hd
      have hd2 : (pre ++ (a ++ op :: "-" :: (b ++ post))).drop (pre.length + a.length + 1) =
          "-" :: (b ++ post) := drop_succ_of_drop _ _ op _ hd1
      rw [show 10002 - depth = (10002 - (depth + 1)) + 1 by omega]
      refine parseFunctionBody_binop A vars _ _ _ depth _ _ a _ op f ta _ hd ha (le_refl _)
        (tokenAt_of_drop _ _ _ _ hd1) (by omega)
        (findOperator_op_negate _ _ a b post op level (operator_level hop).1 hd ha hb hea)
        pa ?_ (operator_level hop).2
      rw [show 10002 - (depth + 1) = (10002 - (depth + 2)) + 1 by omega]
      exact parseFunctionBody_negate A vars _ _ _ (depth + 1) b post tb hd2 hb pb
    · intro pa pb
      simp only [parseWindow, bodyBound] at pa pb ⊢
      have hdep := (parseFunctionBody_depth A _ _ _ _ _ _ _ pa).1
      have hea := parseFunctionBody_last A _ _ _ _ _ _ _ pa
      have hd : (pre ++ ("-" :: (a ++ op :: (b ++ post)))).drop pre.length =
          "-" :: (a ++ op :: (b ++ post)) := List.drop_left _ _
      have hd1 : (pre ++ ("-" :: (a ++ op :: (b ++ post)))).drop (pre.length + 1) =
          a ++ op :: (b ++ post) := drop_succ_of_drop _ _ "-" _ hd
      have hd2 : (pre ++ ("-" :: (a ++ op :: (b ++ post)))).drop (pre.length + (1 + a.length)) =
          op :: (b ++ post) := by
        have := drop_after _ _ a _ hd1
        rw [Nat.add_assoc] at this
        exact this
      rw [show 10002 - depth = (10002 - (depth + 1)) + 1 by omega]
      refine parseFunctionBody_split A vars _ _ _ depth (1 + a.length) b.length op f _ tb
        (not_enclosed_minus _ _ _ (tokenAt_of_drop _ _ _ _ hd)) (by omega)
        (tokenAt_of_drop _ _ _ _ hd2) hlb
        (findOperator_negate_op _ _ a b post op level (operator_level hop).1 hd ha hb hea)
        ?_ pb (operator_level hop).2
      rw [show 10002 - (depth + 1) = (10002 - (depth + 2)) + 1 by omega]
      exact parseFunctionBody_negate A vars _ _ _ (depth + 1) a _ ta hd ha pa
    · intro pa pb
      simp only [parseWindow, bodyBound] at pa pb ⊢
      have hdep := (parseFunctionBody_depth A _ _ _ _ _ _ _ pb).1
      have hea := parseFunctionBody_last A _ _ _ _ _ _ _ pa
      have hd : (pre ++ (a ++ "-" :: (b ++ post))).drop pre.length =
          a ++ "-" :: (b ++ post) := List.drop_left _ _
      have hd1 : (pre ++ (a ++ "-" :: (b ++ post))).drop (pre.length + a.length) =
          "-" :: (b ++ post) := drop_after _ _ a _ hd
      rw [show 10002 - depth = (10002 - (depth + 1)) + 1 by omega]
      exact parseFunctionBody_binop A vars _ _ _ depth _ _ a _ "-" .minus ta tb hd ha (le_refl _)
        (tokenAt_of_drop _ _ _ _ hd1) hlb
        (findOperator_one _ _ a b post "-" 4 (by simp) hd ha hb hea) pa pb (by simp)
  · intro α A
    refine ⟨?_, ?_, ?_⟩
    · simp only [ctor_posix, scenario_times_negate]
      rfl
    · simp only [ctor_posix, scenario_negate_minus]
      rfl
    · simp only [ctor_posix, scenario_parenthesised_negate]
      rfl
  · intro T d params
    refine ⟨?_, ?_, ?_⟩
    · simp only [ctor_posix, scenario_times_negate, scenario_times_negate_call]
      simp only [exactOps, atof_2, atof_3]
      norm_num
    · simp only [ctor_posix, scenario_negate_minus, scenario_negate_minus_call]
      simp only [exactOps, atof_2, atof_3]
      norm_num
    · simp only [ctor_posix, scenario_parenthesised_negate, scenario_negate_minus_call]
      simp only [exactOps, atof_2, atof_3]
      norm_num

/-- C12, at an input: with the variable `x`, the operands `x` and `sin(x)`
parse to the variable 0 and a call node of `sin`, and in `f(x)=x^-sin(x)`,
`f(x)=-x^sin(x)` and `f(x)=x-sin(x)` the bodies parse to
`exponent(x, negate(sin(x)))`, `exponent(negate(x), sin(x))` and
`minus(x, sin(x))`. -/
theorem C12_unary_minus_witness :
    let E := exactOps noInexact
    let pre := ["f", "(", "x", ")", "="]
    let a := ["x"]
    let b := ["sin", "(", "x", ")"]
    let ta : GFunctionNode ℚ := .GFunctionVariable 0
    let tb : GFunctionNode ℚ := .GFunctionCall "sin" none [.GFunctionVariable 0]
    isOperand a = true ∧ isOperand b = true ∧
      parseWindow E ["x"] (pre ++ (a ++ "^" :: "-" :: (b ++ [])))
          pre.length (a.length + 1 + (1 + b.length)) 0 =
        .ok (operatorCall .exponent [ta, operatorCall .negate [tb]]) ∧
      parseWindow E ["x"] (pre ++ ("-" :: (a ++ "^" :: (b ++ []))))
          pre.length (1 + a.length + 1 + b.length) 0 =
        .ok (operatorCall .exponent [operatorCall .negate [ta], tb]) ∧
      parseWindow E ["x"] (pre ++ (a ++ "-" :: (b ++ [])))
          pre.length (a.length + 1 + b.length) 0 =
        .ok (operatorCall .minus [ta, tb]) := by
  intro E pre a b ta tb
  have ha : isOperand a = true := by decide
  have hb : isOperand b = true := by decide
  have h := (C12_unary_minus.2.2.1) ℚ E ["x"] pre [] a b 0 ta tb "^" .exponent 12 ha hb
    (by simp)
  have h' := (C12_unary_minus.2.2.1) ℚ E ["x"] pre [] a b 0 ta tb "-" .minus 4 ha hb
    (by simp)
  have a1 : parseWindow E ["x"] (pre ++ (a ++ "^" :: "-" :: (b ++ [])))
      pre.length a.length (0 + 1) = .ok ta := rfl
  have b1 : parseWindow E ["x"] (pre ++ (a ++ "^" :: "-" :: (b ++ [])))
      (pre.length + a.length + 1 + 1) b.length (0 + 2) = .ok tb := rfl
  have a2 : parseWindow E ["x"] (pre ++ ("-" :: (a ++ "^" :: (b ++ []))))
      (pre.length + 1) a.length (0 + 2) = .ok ta := rfl
  have b2 : parseWindow E ["x"] (pre ++ ("-" :: (a ++ "^" :: (b ++ []))))
      (pre.length + (1 + a.length) + 1) b.length (0 + 1) = .ok tb := rfl
  have a3 : parseWindow E ["x"] (pre ++ (a ++ "-" :: (b ++ [])))
      pre.length a.length (0 + 1) = .ok ta := rfl
  have b3 : parseWindow E ["x"] (pre ++ (a ++ "-" :: (b ++ [])))
      (pre.length + a.length + 1) b.length (0 + 1) = .ok tb := rfl
  exact ⟨ha, hb, h.1 a1 b1, h.2.1 a2 b2, h'.2.2 a3 b3⟩

/-! ## C13: the depth guard -/

section Depth
variable {α : Type} (A : DoubleOps α)

theorem nested_length (w : List String) : ∀ n, (nested n w).length = 2 * n + w.length
  | 0 => by simp [nested]
  | n + 1 => by simp [nested, nested_length w n]; omega

theorem number_token (num : String)
    (hnum : (IsDigit (firstChar num) || firstChar num == '.') = true) :
    IsNameChar (firstChar num) = false ∧ num ≠ "(" ∧ num ≠ ")" ∧ num ≠ ";" ∧ num ≠ "=" := by
  refine ⟨?_, ?_, ?_, ?_, ?_⟩
  · simp only [Bool.or_eq_true, beq_iff_eq] at hnum
    rcases hnum with h | h
    · simp only [IsDigit, Bool.and_eq_true, decide_eq_true_eq] at h
      have h0 : '0'.toNat = 48 := by decide
      have h9 : '9'.toNat = 57 := by decide
      have ha : 'a'.toNat = 97 := by decide
      have hA : 'A'.toNat = 65 := by decide
      have hZ : 'Z'.toNat = 90 := by decide
      have hu : firstChar num ≠ '_' := by
        intro hc
        rw [hc] at h
        have : '_'.toNat = 95 := by decide
        omega
      simp only [IsNameChar, Bool.or_eq_false_iff, Bool.and_eq_false_iff, decide_eq_false_iff_not,
        beq_eq_false_iff_ne, ne_eq]
      exact ⟨⟨Or.inl (by omega), hu⟩, Or.inl (by omega)⟩
    · rw [h]; decide
  all_goals
    rintro rfl
    revert hnum
    decide

theorem enclosingLoop_open (tokens : List String) (start n i : Nat) (dep : Int)
    (ht : tokenAt tokens (start + i) = "(") :
    enclosingLoop tokens start (n + 1) i dep = enclosingLoop tokens start n (i + 1) (dep + 1) := by
  simp only [enclosingLoop, ht, beq_self_eq_true, ↓reduceIte]

theorem enclosingLoop_close (tokens : List String) (start n i : Nat) (dep : Int)
    (ht : tokenAt tokens (start + i) = ")") (hdep : dep - 1 ≠ 0) :
    enclosingLoop tokens start (n + 1) i dep = enclosingLoop tokens start n (i + 1) (dep - 1) := by
  have e3 : (")" == "(") = false := by decide
  simp only [enclosingLoop, ht, e3, Bool.false_eq_true, ↓reduceIte, beq_self_eq_true,
    beq_iff_eq, hdep]

theorem enclosingLoop_other (tokens : List String) (start n i : Nat) (dep : Int)
    (h1 : tokenAt tokens (start + i) ≠ "(") (h2 : tokenAt tokens (start + i) ≠ ")") :
    enclosingLoop tokens start (n + 1) i dep = enclosingLoop tokens start n (i + 1) dep := by
  have e1 : (tokenAt tokens (start + i) == "(") = false := by simpa using h1
  have e2 : (tokenAt tokens (start + i) == ")") = false := by simpa using h2
  simp only [enclosingLoop, e1, e2, Bool.false_eq_true, ↓reduceIte]

/-- The loop of `parseFunctionBody` that looks for the closing parenthesis
passes a number inside `k` pairs of parentheses. -/
theorem enclosingLoop_nested (tokens : List String) (start : Nat) (num : String)
    (h1 : num ≠ "(") (h2 : num ≠ ")") :
    ∀ (k i n : Nat) (dep : Int) (rest : List String),
      tokens.drop (start + i) = nested k [num] ++ rest → 1 ≤ dep →
      enclosingLoop tokens start ((2 * k + 1) + n) i dep =
        enclosingLoop tokens start n (i + (2 * k + 1)) dep
  | 0, i, n, dep, rest, hd, _ => by
    have ht := tokenAt_of_drop tokens (start + i) num _ hd
    rw [show 2 * 0 + 1 + n = n + 1 by omega,
      enclosingLoop_other tokens start n i dep (by rw [ht]; exact h1) (by rw [ht]; exact h2)]
  | k + 1, i, n, dep, rest, hd, hdep => by
    have hd0 : tokens.drop (start + i) = "(" :: (nested k [num] ++ (")" :: rest)) := by
      rw [hd]; simp [nested]
    have ht := tokenAt_of_drop tokens (start + i) "(" _ hd0
    have hd1 : tokens.drop (start + (i + 1)) = nested k [num] ++ (")" :: rest) :=
      drop_succ_of_drop tokens (start + i) "(" _ hd0
    have hd2 : tokens.drop (start + (i + 1 + (2 * k + 1))) = ")" :: rest := by
      have := drop_after tokens (start + (i + 1)) (nested k [num]) _ hd1
      rw [nested_length, List.length_singleton, Nat.add_assoc start] at this
      exact this
    have ht2 := tokenAt_of_drop tokens _ ")" _ hd2
    rw [show 2 * (k + 1) + 1 + n = ((2 * k + 1) + (n + 1)) + 1 by omega,
      enclosingLoop_open tokens start _ i dep ht,
      enclosingLoop_nested tokens start num h1 h2 k (i + 1) (n + 1) (dep + 1) _ hd1 (by omega),
      enclosingLoop_close tokens start n _ (dep + 1) ht2 (by omega),
      show dep + 1 - 1 = dep by omega,
      show i + 1 + (2 * k + 1) + 1 = i + (2 * (k + 1) + 1) by omega]

/-- A number inside `k` pairs of parentheses, entered at `depth`: the
constant when the innermost window is reached at a depth of at most 10000. -/
theorem parseFunctionBody_nested (vars tokens : List String) (num : String)
    (hnum : (IsDigit (firstChar num) || firstChar num == '.') = true) :
    ∀ (k bound start depth : Nat) (rest : List String),
      tokens.drop start = nested k [num] ++ rest → depth ≤ 10001 → 10002 ≤ bound + depth →
      parseFunctionBody A vars tokens bound start (2 * k + 1) depth =
        if depth + k > 10000 then .error .deepNesting
        else .ok (.GFunctionConstant (A.atof num))
  | 0, bound, start, depth, rest, hd, hdepth, hbound => by
    obtain ⟨hn, h1, h2, -, -⟩ := number_token num hnum
    have ht := tokenAt_of_drop tokens start num _ hd
    have e1 : (num == "(") = false := by simpa using h1
    obtain ⟨b, rfl⟩ : ∃ b, bound = b + 1 := ⟨bound - 1, by omega⟩
    by_cases hdp : depth > 10000
    · simp [parseFunctionBody, hdp]
    · have hnd : (!IsDigit (firstChar num) && firstChar num != '.') = false := by
        simp only [Bool.or_eq_true, beq_iff_eq] at hnum
        rcases hnum with h | h <;> simp [h]
      simp [parseFunctionBody, hdp, ht, e1, hn, hnd]
  | k + 1, bound, start, depth, rest, hd, hdepth, hbound => by
    obtain ⟨hn, h1, h2, -, -⟩ := number_token num hnum
    obtain ⟨b, rfl⟩ : ∃ b, bound = b + 1 := ⟨bound - 1, by omega⟩
    by_cases hdp : depth > 10000
    · have : depth + (k + 1) > 10000 := by omega
      simp [parseFunctionBody, hdp, this]
    · have hd0 : tokens.drop start = "(" :: (nested k [num] ++ (")" :: rest)) := by
        rw [hd]; simp [nested]
      have ht := tokenAt_of_drop tokens start "(" _ hd0
      have hd1 : tokens.drop (start + 1) = nested k [num] ++ (")" :: rest) :=
        drop_succ_of_drop tokens start "(" _ hd0
      have hd2 : tokens.drop (start + (2 * (k + 1) + 1) - 1) = ")" :: rest := by
        have := drop_after tokens (start + 1) (nested k [num]) _ hd1
        rw [nested_length, List.length_singleton] at this
        rw [show start + (2 * (k + 1) + 1) - 1 = start + 1 + (2 * k + 1) by omega]
        exact this
      have ht2 := tokenAt_of_drop tokens _ ")" _ hd2
      have hloop : enclosingLoop tokens start (2 * (k + 1) + 1 - 2) 1 1 = 2 * (k + 1) + 1 - 1 := by
        have := enclosingLoop_nested tokens start num h1 h2 k 1 0 1 _ hd1 (le_refl _)
        rw [show 2 * (k + 1) + 1 - 2 = 2 * k + 1 + 0 by omega, this]
        simp only [enclosingLoop]
        omega
      have hc : ¬ (2 * (k + 1) + 1 ≤ 0) := by omega
      have ih := parseFunctionBody_nested vars tokens num hnum k b (start + 1) (depth + 1)
        (")" :: rest) hd1 (by omega) (by omega)
      simp only [parseFunctionBody, hdp, ↓reduceIte, hc, ht, ht2, hloop, beq_self_eq_true,
        Bool.and_self, ge_iff_le, le_refl, decide_True]
      rw [show 2 * (k + 1) + 1 - 2 = 2 * k + 1 by omega, ih]
      have : depth + 1 + k = depth + (k + 1) := by omega
      rw [this]

end Depth
section DepthText
variable {α : Type} (A : DoubleOps α)

theorem mem_nested (w : List String) (tok : String) :
    ∀ n, tok ∈ nested n w → tok = "(" ∨ tok = ")" ∨ tok ∈ w
  | 0, h => Or.inr (Or.inr h)
  | n + 1, h => by
    simp only [nested, List.mem_cons, List.mem_append, List.mem_singleton, List.not_mem_nil,
      or_false] at h
    rcases h with h | h | h
    · exact Or.inl h
    · exact mem_nested w tok n h
    · exact Or.inr (Or.inl h)

theorem mem_nestedChars (w : List Char) (c : Char) :
    ∀ n, c ∈ nestedChars n w → c = '(' ∨ c = ')' ∨ c ∈ w
  | 0, h => Or.inr (Or.inr h)
  | n + 1, h => by
    simp only [nestedChars, List.mem_cons, List.mem_append, List.mem_singleton, List.not_mem_nil,
      or_false] at h
    rcases h with h | h | h
    · exact Or.inl h
    · exact mem_nestedChars w c n h
    · exact Or.inr (Or.inl h)

theorem nestedChars_length (w : List Char) : ∀ n, (nestedChars n w).length = 2 * n + w.length
  | 0 => by simp [nestedChars]
  | n + 1 => by simp [nestedChars, nestedChars_length w n]; omega

theorem tokenAt_mem (tokens : List String) (j : Nat) :
    tokenAt tokens j ∈ tokens ∨ tokenAt tokens j = "" := by
  by_cases h : j < tokens.length
  · left
    simp only [tokenAt]
    rw [List.getD_eq_getElem _ _ h]
    exact List.getElem_mem _
  · right
    simp only [tokenAt]
    rw [List.getD_eq_default _ _ (by omega)]

/-- A token vector without `;` is one statement: the loop of
`parseFunctionList` passes over it. -/
theorem functionListLoop_one (tokens : List String) (h : ";" ∉ tokens) :
    ∀ (n i start : Nat) (P : GFunctionParser α),
      functionListLoop A tokens n i start P = (.ok start, P)
  | 0, _, _, _ => rfl
  | n + 1, i, start, P => by
    have hne : (tokenAt tokens i == ";") = false := by
      simp only [beq_eq_false_iff_ne, ne_eq]
      intro heq
      rcases tokenAt_mem tokens i with hm | hm
      · rw [heq] at hm; exact h hm
      · rw [heq] at hm; exact absurd hm (by decide)
    simp only [functionListLoop, hne, Bool.false_eq_true, ↓reduceIte]
    exact functionListLoop_one tokens h n (i + 1) start P

theorem parseFunctionList_one (P : GFunctionParser α) (tokens : List String)
    (h : ";" ∉ tokens) :
    P.parseFunctionList A tokens =
      match P.parseFunction A tokens 0 tokens.length with
      | .error e => (.error e, P)
      | .ok P' => (.ok (), P') := by
  simp only [GFunctionParser.parseFunctionList, functionListLoop_one A tokens h, Nat.sub_zero]

/-- The statement `name=body`: the body is parsed without variables and
installed without parameters. -/
theorem parseFunction_constant_eq (P : GFunctionParser α) (pre post body : List String)
    (name : String) (hname : name ≠ "=") :
    P.parseFunction A (pre ++ (name :: "=" :: (body ++ post))) pre.length (2 + body.length) =
      match parseFunctionBody A [] (pre ++ (name :: "=" :: (body ++ post))) bodyBound
          (pre.length + 1 + 1) body.length 0 with
      | .error e => .error e
      | .ok pRoot => .ok (P.addFunction name pRoot 0) := by
  have heq : equalLoop (pre ++ (name :: "=" :: (body ++ post))) pre.length (2 + body.length) 0 =
      1 := by
    have := equalLoop_found (pre ++ (name :: "=" :: (body ++ post))) pre.length 1
      (2 + body.length) 0
      (by
        intro j hj
        have : j = 0 := by omega
        subst this
        have := tokenAt_append_right pre (name :: "=" :: (body ++ post)) 0
        simp only [Nat.add_zero] at this ⊢
        rw [this]
        simpa [tokenAt] using hname)
      (by rw [Nat.add_zero, tokenAt_append_right]; rfl)
      (by omega)
    simpa using this
  have hcount : (2 + body.length == 0) = false := by
    simp only [beq_eq_false_iff_ne, ne_eq]; omega
  have h0 : tokenAt (pre ++ (name :: "=" :: (body ++ post))) pre.length = name := by
    have := tokenAt_append_right pre (name :: "=" :: (body ++ post)) 0
    simpa [tokenAt] using this
  have e1 : ¬ (1 ≥ 2 + body.length) := by omega
  have e4 : 2 + body.length - (1 + 1) = body.length := by omega
  simp only [GFunctionParser.parseFunction, hcount, Bool.false_eq_true, ↓reduceIte, heq,
    h0, e1, e4, gt_iff_lt, Nat.lt_irrefl, Nat.one_ne_zero, beq_iff_eq,
    List.length_nil, Nat.cast_zero]

theorem Next_symbol (c : Char) (q : List Char) (h1 : ¬ c.toNat ≤ ' '.toNat)
    (h2 : IsNameChar c = false) (h3 : IsDigit c = false) (h4 : (c == '.') = false) :
    Next (c :: q) = some (String.mk [c], token_type.symbol, q) := by
  have h1' : ¬ c.toNat ≤ 32 := h1
  have h4' : c ≠ '.' := by simpa using h4
  simp [Next, skipSpace, h1', MeasureTokenLength, h2, h3, h4']

theorem tokenizeLoop_nested :
    ∀ (k fuel : Nat) (rest : List Char) (acc : List String),
      (rest = [] ∨ ∃ r, rest = ')' :: r) →
      tokenizeLoop ((2 * k + 1) + fuel) (nestedChars k ['1'] ++ rest) acc =
        tokenizeLoop fuel rest (acc ++ nested k ["1"])
  | 0, fuel, rest, acc, hrest => by
    have hm : measureNumber rest 0 0 = 0 := by
      rcases hrest with h | ⟨r, h⟩ <;> subst h
      · rfl
      · simp [measureNumber, IsDigit]
    have hN : Next ('1' :: rest) = some ("1", token_type.number, rest) := by
      have h1 : ¬ '1'.toNat ≤ ' '.toNat := by decide
      have h2 : IsNameChar '1' = false := by decide
      have h3 : IsDigit '1' = true := by decide
      simp [Next, skipSpace, h1, MeasureTokenLength, h2, h3, hm]
    rw [show 2 * 0 + 1 + fuel = fuel + 1 by omega]
    simp only [nestedChars, nested, List.singleton_append, tokenizeLoop, hN]
  | k + 1, fuel, rest, acc, hrest => by
    have hO : ∀ q, Next ('(' :: q) = some ("(", token_type.symbol, q) := fun q =>
      Next_symbol '(' q (by decide) (by decide) (by decide) (by decide)
    have hC : ∀ q, Next (')' :: q) = some (")", token_type.symbol, q) := fun q =>
      Next_symbol ')' q (by decide) (by decide) (by decide) (by decide)
    have hs : nestedChars (k + 1) ['1'] ++ rest = '(' :: (nestedChars k ['1'] ++ (')' :: rest)) := by
      simp [nestedChars]
    rw [show 2 * (k + 1) + 1 + fuel = ((2 * k + 1) + (fuel + 1)) + 1 by omega, hs, tokenizeLoop]
    simp only [hO]
    rw [tokenizeLoop_nested k (fuel + 1) (')' :: rest) _ (Or.inr ⟨rest, rfl⟩), tokenizeLoop]
    simp only [hC, nested, List.append_assoc, List.cons_append, List.singleton_append,
      List.nil_append]

theorem tokenize_nestedText (n : Nat) : tokenize (nestedText n) = "f" :: "=" :: nested n ["1"] := by
  have hall : ∀ c ∈ 'f' :: '=' :: nestedChars n ['1'], (c != Char.ofNat 0) = true := by
    intro c hc
    simp only [List.mem_cons] at hc
    rcases hc with h | h | h
    · subst h; decide
    · subst h; decide
    · rcases mem_nestedChars _ _ _ h with h | h | h
      · subst h; decide
      · subst h; decide
      · simp only [List.mem_singleton] at h; subst h; decide
  have htw : (nestedText n).data.takeWhile (fun c => c != Char.ofNat 0) =
      'f' :: '=' :: nestedChars n ['1'] := by
    rw [nestedText, List.takeWhile_eq_self_iff]
    exact hall
  have hF : ∀ q, Next ('f' :: '=' :: q) = some ("f", token_type.name, '=' :: q) := by
    intro q
    have h1 : ¬ 'f'.toNat ≤ ' '.toNat := by decide
    have h2 : IsNameChar 'f' = true := by decide
    have h3 : IsNameChar '=' = false := by decide
    have h4 : IsDigit '=' = false := by decide
    simp [Next, skipSpace, h1, MeasureTokenLength, h2, measureName, h3, h4]
  have hE : ∀ q, Next ('=' :: q) = some ("=", token_type.symbol, q) := fun q =>
    Next_symbol '=' q (by decide) (by decide) (by decide) (by decide)
  have hlen : ('f' :: '=' :: nestedChars n ['1']).length = ((2 * n + 1) + 0) + 1 + 1 := by
    simp [nestedChars_length]
  have hin := tokenizeLoop_nested n 0 [] ([] ++ ["f"] ++ ["="]) (Or.inl rfl)
  rw [List.append_nil] at hin
  simp only [tokenize, htw]
  rw [hlen, tokenizeLoop]
  simp only [hF]
  rw [tokenizeLoop]
  simp only [hE]
  rw [hin]
  rfl

end DepthText
/-- C13. The depth guard.  A statement `name=((...(num)...))` whose body is a
number inside `n` pairs of parentheses: `parseFunctionList` throws
"Pathologically deep nesting", and leaves the parser as it was, when
`n > 10000`, and for `n <= 10000` returns, having installed under `name` the
constant `atof(num)` with no parameters.  The same for `add` on the text
`f=((...(1)...))`. -/
theorem C13_depth_guard :
    (∀ (α : Type) (A : DoubleOps α) (P : GFunctionParser α) (n : Nat) (num name : String),
      (IsDigit (firstChar num) || firstChar num == '.') = true → name ≠ "=" → name ≠ ";" →
      P.parseFunctionList A (name :: "=" :: nested n [num]) =
        if n > 10000 then (.error .deepNesting, P)
        else (.ok (), P.addFunction name (.GFunctionConstant (A.atof num)) 0)) ∧
    (∀ (α : Type) (A : DoubleOps α) (P : GFunctionParser α) (n : Nat),
      P.add A (nestedText n) =
        if n > 10000 then (.error .deepNesting, P)
        else (.ok (), P.addFunction "f" (.GFunctionConstant (A.atof "1")) 0)) := by
  have main : ∀ (α : Type) (A : DoubleOps α) (P : GFunctionParser α) (n : Nat)
      (num name : String),
      (IsDigit (firstChar num) || firstChar num == '.') = true → name ≠ "=" → name ≠ ";" →
      P.parseFunctionList A (name :: "=" :: nested n [num]) =
        if n > 10000 then (.error .deepNesting, P)
        else (.ok (), P.addFunction name (.GFunctionConstant (A.atof num)) 0) := by
    intro α A P n num name hnum hname hsemi
    obtain ⟨-, h1, h2, h3, -⟩ := number_token num hnum
    have hno : ";" ∉ name :: "=" :: nested n [num] := by
      intro hm
      simp only [List.mem_cons] at hm
      rcases hm with h | h | h
      · exact hsemi h.symm
      · exact absurd h (by decide)
      · rcases mem_nested _ _ _ h with h | h | h
        · exact absurd h (by decide)
        · exact absurd h (by decide)
        · simp only [List.mem_singleton] at h
          exact h3 h.symm
    have hlen : (name :: "=" :: nested n [num]).length = 2 + (nested n [num]).length := by
      simp only [List.length_cons]; omega
    have hpf := parseFunction_constant_eq A P [] [] (nested n [num]) name hname
    simp only [List.nil_append, List.append_nil, List.length_nil, Nat.zero_add] at hpf
    have hbody := parseFunctionBody_nested A [] (name :: "=" :: nested n [num]) num hnum n
      bodyBound 2 0 [] (by simp) (by omega) (by simp [bodyBound])
    rw [nested_length, List.length_singleton] at hpf hlen
    rw [parseFunctionList_one A P _ hno, hlen, hpf, hbody, Nat.zero_add]
    by_cases hn : n > 10000
    · simp only [hn, ↓reduceIte]
    · simp only [hn, ↓reduceIte]
  refine ⟨main, ?_⟩
  intro α A P n
  rw [GFunctionParser.add, tokenize_nestedText]
  exact main α A P n "1" "f" (by decide) (by decide) (by decide)

/-- C13, at an input: on a new parser, `add` throws "Pathologically deep
nesting" on `f=((...(1)...))` with 10001 pairs of parentheses and installs the
constant on the text with 10000 pairs. -/
theorem C13_depth_guard_witness :
    ((GFunctionParser.ctor (exactOps noInexact) false).add (exactOps noInexact)
        (nestedText 10001)).1 = .error .deepNesting ∧
      ((GFunctionParser.ctor (exactOps noInexact) false).add (exactOps noInexact)
        (nestedText 10000)).1 = .ok () := by
  refine ⟨?_, ?_⟩
  · rw [C13_depth_guard.2 ℚ (exactOps noInexact) _ 10001, if_pos (by decide)]
  · rw [C13_depth_guard.2 ℚ (exactOps noInexact) _ 10000, if_neg (by decide)]

/-! ## C14: the registry of a new parser -/

section Bootstrap
variable {α : Type} (A : DoubleOps α)

theorem lookup_isSome_iff (name : String) :
    ∀ fs : List (String × GFunction α),
      (fs.lookup name).isSome = true ↔ name ∈ fs.map Prod.fst
  | [] => by simp
  | (k, v) :: rest => by
    by_cases hk : (name == k) = true
    · have : name = k := by simpa using hk
      simp [List.lookup, hk, this]
    · have hk' : (name == k) = false := by simpa using hk
      have hne : name ≠ k := by simpa using hk'
      simp only [List.lookup, hk', List.map_cons, List.mem_cons, hne, false_or]
      exact lookup_isSome_iff name rest

theorem checkParams_exact (name : String) (k n : Nat) :
    checkParams name k (n : Int) = .ok () ↔ k = n := by
  have h0 : (n : Int) ≥ 0 := Int.ofNat_nonneg n
  by_cases hk : k = n
  · subst hk; simp [checkParams]
  · have : (k : Int) ≠ (n : Int) := by omega
    simp [checkParams, h0, hk, this]

theorem checkParams_atLeast (name : String) (k m : Nat) :
    checkParams name k (-((m : Int) + 1)) = .ok () ↔ m ≤ k := by
  have h0 : ¬ (-((m : Int) + 1) ≥ 0) := by omega
  by_cases hk : m ≤ k
  · have : ¬ ((k : Int) < - -((m : Int) + 1) - 1) := by omega
    simp only [checkParams, h0, ↓reduceIte, this, hk]
  · have : (k : Int) < - -((m : Int) + 1) - 1 := by omega
    simp only [checkParams, h0, ↓reduceIte, this, hk, iff_false]
    intro h
    cases h

end Bootstrap

/-- C14. The registry of a new parser.  The constructor registers, with these
values of `m_expectedParams`, the names `e` and `pi` (0), `ifzero` and
`ifnegative` (3), `logexp` (2), `max` and `min` (-2, which is "at least 1"),
and with 1 the names `abs acos asin atan ceil cos cosh floor gamma lgamma log
normal sign sin sinh sqrt tan tanh` and, when `WINDOWS` is not defined,
`acosh asinh atanh erf`; no other name is registered, in particular none of
`+ - * / % ^`.  A call node passes the check of `GFunctionCall::eval` against
a value `n >= 0` exactly when it has `n` children, and against `-(m + 1)`
exactly when it has at least `m`. -/
theorem C14_registry_bootstrap :
    (∀ (α : Type) (A : DoubleOps α),
      (GFunctionParser.ctor A false).m_functions.map (fun e => (e.1, e.2.m_expectedParams)) =
        [("e", 0), ("pi", 0), ("abs", 1), ("acos", 1), ("acosh", 1), ("asin", 1), ("asinh", 1),
          ("atan", 1), ("atanh", 1), ("ceil", 1), ("cos", 1), ("cosh", 1), ("erf", 1),
          ("floor", 1), ("ifzero", 3), ("ifnegative", 3), ("gamma", 1), ("lgamma", 1),
          ("log", 1), ("logexp", 2), ("max", -2), ("min", -2), ("normal", 1), ("sign", 1),
          ("sin", 1), ("sinh", 1), ("sqrt", 1), ("tan", 1), ("tanh", 1)]) ∧
    (∀ (α : Type) (A : DoubleOps α),
      (GFunctionParser.ctor A true).m_functions.map (fun e => (e.1, e.2.m_expectedParams)) =
        [("e", 0), ("pi", 0), ("abs", 1), ("acos", 1), ("asin", 1), ("atan", 1), ("ceil", 1),
          ("cos", 1), ("cosh", 1), ("floor", 1), ("ifzero", 3), ("ifnegative", 3), ("gamma", 1),
          ("lgamma", 1), ("log", 1), ("logexp", 2), ("max", -2), ("min", -2), ("normal", 1),
          ("sign", 1), ("sin", 1), ("sinh", 1), ("sqrt", 1), ("tan", 1), ("tanh", 1)]) ∧
    (∀ (α : Type) (A : DoubleOps α) ( windows : Bool) (name : String),
      ((GFunctionParser.ctor A windows).getFunctionNoThrow name).isSome = true ↔
        name ∈ ["e", "pi", "abs", "acos", "asin", "atan", "ceil", "cos", "cosh", "floor",
          "gamma", "ifzero", "ifnegative", "lgamma", "log", "logexp", "max", "min", "normal",
          "sign", "sin", "sinh", "sqrt", "tan", "tanh"] ∨
        (windows = false ∧ name ∈ ["acosh", "asinh", "atanh", "erf"])) ∧
    (∀ (α : Type) (A : DoubleOps α) ( windows : Bool) (name : String),
      name ∈ ["+", "-", "*", "/", "%", "^"] →
      (GFunctionParser.ctor A windows).getFunctionNoThrow name = none) ∧
    (∀ (name : String) (k n : Nat), checkParams name k (n : Int) = .ok () ↔ k = n) ∧
    (∀ (name : String) (k m : Nat), checkParams name k (-((m : Int) + 1)) = .ok () ↔ m ≤ k) := by
  refine ⟨?_, ?_, ?_, ?_, checkParams_exact, checkParams_atLeast⟩
  · intro α A
    rw [ctor_posix]
    rfl
  · intro α A
    rw [ctor_windows]
    rfl
  · intro α A windows name
    rw [GFunctionParser.getFunctionNoThrow, lookup_isSome_iff]
    cases windows
    · have hperm : List.Perm ((GFunctionParser.ctor A false).m_functions.map Prod.fst)
          (["e", "pi", "abs", "acos", "asin", "atan", "ceil", "cos", "cosh", "floor",
            "gamma", "ifzero", "ifnegative", "lgamma", "log", "logexp", "max", "min", "normal",
            "sign", "sin", "sinh", "sqrt", "tan", "tanh"] ++
            ["acosh", "asinh", "atanh", "erf"]) := by
        rw [ctor_posix]
        simp only [extended, posixFunctions, entry, List.append_nil, List.map_cons, List.map_nil]
        decide
      rw [hperm.mem_iff, List.mem_append]
      simp only [true_and]
    · have hperm : List.Perm ((GFunctionParser.ctor A true).m_functions.map Prod.fst)
          ["e", "pi", "abs", "acos", "asin", "atan", "ceil", "cos", "cosh", "floor",
            "gamma", "ifzero", "ifnegative", "lgamma", "log", "logexp", "max", "min", "normal",
            "sign", "sin", "sinh", "sqrt", "tan", "tanh"] := by
        rw [ctor_windows]
        simp only [windowsFunctions, entry, List.map_cons, List.map_nil]
        decide
      rw [hperm.mem_iff]
      simp only [Bool.true_eq_false, false_and, or_false]
  · intro α A windows name hname
    simp only [List.mem_cons, List.mem_singleton, List.not_mem_nil, or_false] at hname
    cases windows
    · rw [ctor_posix]
      rcases hname with h | h | h | h | h | h <;> subst h <;> rfl
    · rw [ctor_windows]
      rcases hname with h | h | h | h | h | h <;> subst h <;> rfl

/-! ## C15: a batch is its statements one at a time -/

section Batch
variable {α : Type} (A : DoubleOps α)

theorem batch_cons_cons (s s' : List String) (rest : List (List String)) :
    batch (s :: s' :: rest) = s ++ ";" :: batch (s' :: rest) := rfl

/-- The loop of `parseFunctionList` passes over tokens other than `;`. -/
theorem functionListLoop_skip (tokens : List String) :
    ∀ (w rest : List String) (n i start : Nat) (P : GFunctionParser α),
      tokens.drop i = w ++ rest → ";" ∉ w →
      functionListLoop A tokens (w.length + n) i start P =
        functionListLoop A tokens n (i + w.length) start P
  | [], _, n, i, start, P, _, _ => by simp
  | tok :: w, rest, n, i, start, P, hd, hw => by
    have ht := tokenAt_of_drop tokens i tok _ hd
    have hd' : tokens.drop (i + 1) = w ++ rest := drop_succ_of_drop tokens i tok _ hd
    have hne : (tok == ";") = false := by
      simp only [beq_eq_false_iff_ne, ne_eq]
      intro h
      exact hw (by simp [h])
    have hw' : ";" ∉ w := fun h => hw (List.mem_cons_of_mem _ h)
    rw [show (tok :: w).length + n = (w.length + n) + 1 by simp; omega]
    simp only [functionListLoop, ht, hne, Bool.false_eq_true, ↓reduceIte]
    rw [functionListLoop_skip tokens w rest n (i + 1) start P hd' hw']
    congr 1
    simp only [List.length_cons]
    omega

theorem length_of_drop (tokens : List String) (i : Nat) (l : List String)
    (h : tokens.drop i = l) : tokens.length - i = l.length := by
  rw [← h, List.length_drop]

/-- From the beginning of a statement on, the loop of `parseFunctionList`
followed by its last call of `parseFunction` is the statements taken one at a
time. -/
theorem functionListLoop_batch (tokens : List String) :
    ∀ (stmts : List (List String)) (s : List String) (i : Nat) (P : GFunctionParser α),
      tokens.drop i = batch (s :: stmts) → (∀ t ∈ s :: stmts, ";" ∉ t) →
      (match functionListLoop A tokens (tokens.length - i) i i P with
        | (.error e, P') => (Except.error e, P')
        | (.ok start, P') =>
          match P'.parseFunction A tokens start (tokens.length - start) with
          | .error e => (.error e, P')
          | .ok P'' => (.ok (), P'')) =
        installEach A tokens (statementWindows (s :: stmts) i) P
  | [], s, i, P, hd, hs => by
    have hd' : tokens.drop i = s ++ [] := by rw [hd]; simp [batch]
    have hlen := length_of_drop tokens i _ hd
    simp only [batch] at hlen
    have := functionListLoop_skip A tokens s [] 0 i i P hd' (hs s (List.mem_cons_self _ _))
    rw [Nat.add_zero] at this
    rw [hlen, this]
    simp only [functionListLoop, statementWindows, installEach, hlen]
  | s' :: rest, s, i, P, hd, hs => by
    rw [batch_cons_cons] at hd
    have hlen := length_of_drop tokens i _ hd
    have hd1 : tokens.drop (i + s.length) = ";" :: batch (s' :: rest) := drop_after tokens i s _ hd
    have ht := tokenAt_of_drop tokens _ ";" _ hd1
    have hd2 : tokens.drop (i + s.length + 1) = batch (s' :: rest) :=
      drop_succ_of_drop tokens _ ";" _ hd1
    have hlen2 := length_of_drop tokens _ _ hd2
    have hskip := functionListLoop_skip A tokens s _ ((batch (s' :: rest)).length + 1) i i P hd
      (hs s (List.mem_cons_self _ _))
    rw [hlen, show (s ++ ";" :: batch (s' :: rest)).length =
      s.length + ((batch (s' :: rest)).length + 1) by simp, hskip]
    simp only [functionListLoop, ht, beq_self_eq_true, ↓reduceIte, Nat.add_sub_cancel_left,
      statementWindows, installEach]
    cases hp : P.parseFunction A tokens i s.length with
    | error e => rfl
    | ok P' =>
      have ih := functionListLoop_batch tokens rest s' (i + s.length + 1) P' hd2
        (fun t ht => hs t (List.mem_cons_of_mem _ ht))
      rw [hlen2] at ih
      exact ih

theorem parseFunctionList_batch (P : GFunctionParser α) (stmts : List (List String))
    (hs : ∀ t ∈ stmts, ";" ∉ t) :
    P.parseFunctionList A (batch stmts) =
      installEach A (batch stmts) (statementWindows stmts 0) P := by
  cases stmts with
  | nil => rfl
  | cons s rest =>
    have := functionListLoop_batch A (batch (s :: rest)) rest s 0 P rfl hs
    rw [Nat.sub_zero] at this
    rw [← this]
    rfl

theorem installEach_append (tokens : List String) :
    ∀ (ws1 ws2 : List (Nat × Nat)) (P Pk : GFunctionParser α),
      installEach A tokens ws1 P = (.ok (), Pk) →
      installEach A tokens (ws1 ++ ws2) P = installEach A tokens ws2 Pk
  | [], ws2, P, Pk, h => by
    simp only [installEach, Prod.mk.injEq, true_and] at h
    rw [h]; rfl
  | w :: ws1, ws2, P, Pk, h => by
    simp only [installEach, List.cons_append] at h ⊢
    cases hp : P.parseFunction A tokens w.1 w.2 with
    | error e => rw [hp] at h; cases h
    | ok P' =>
      rw [hp] at h
      exact installEach_append tokens ws1 ws2 P' Pk h

theorem statementWindows_append :
    ∀ (stmts1 stmts2 : List (List String)) (start : Nat),
      statementWindows (stmts1 ++ stmts2) start =
        statementWindows stmts1 start ++
          statementWindows stmts2 (start + (stmts1.map (fun s => s.length + 1)).sum)
  | [], stmts2, start => by simp [statementWindows]
  | s :: stmts1, stmts2, start => by
    rw [List.cons_append, statementWindows, statementWindows_append stmts1 stmts2, List.map_cons,
      List.sum_cons, statementWindows, List.cons_append,
      show start + s.length + 1 + (stmts1.map (fun s => s.length + 1)).sum =
        start + (s.length + 1 + (stmts1.map (fun s => s.length + 1)).sum) by omega]

/-- What `parseFunction` has done when it returns: nothing on an empty
statement, else it has parsed the body over the declared variables and called
`addFunction` with the result. -/
theorem parseFunction_ok (P P' : GFunctionParser α) (tokens : List String) (start count : Nat)
    (h : P.parseFunction A tokens start count = .ok P') :
    (count = 0 ∧ P' = P) ∨
      ∃ (vars : List String) (pRoot : GFunctionNode α),
        parseFunctionBody A vars tokens bodyBound (start + equalLoop tokens start count 0 + 1)
          (count - (equalLoop tokens start count 0 + 1)) 0 = .ok pRoot ∧
        P' = P.addFunction (tokenAt tokens start) pRoot vars.length := by
  by_cases hc : count = 0
  · left
    subst hc
    simp only [GFunctionParser.parseFunction, beq_self_eq_true, ↓reduceIte, Except.ok.injEq] at h
    exact ⟨rfl, h.symm⟩
  · right
    have hc' : (count == 0) = false := by simpa using hc
    simp only [GFunctionParser.parseFunction, hc', Bool.false_eq_true, ↓reduceIte] at h
    split_ifs at h with h1 h2 h3 h4 h5
    · cases hv : parseVariableNames tokens (start + 2) (equalLoop tokens start count 0 - 3) with
      | error e => rw [hv] at h; cases h
      | ok vars =>
        rw [hv] at h
        simp only at h
        cases hb : parseFunctionBody A vars tokens bodyBound
            (start + equalLoop tokens start count 0 + 1)
            (count - (equalLoop tokens start count 0 + 1)) 0 with
        | error e => rw [hb] at h; cases h
        | ok pRoot =>
          rw [hb] at h
          simp only [Except.ok.injEq] at h
          exact ⟨vars, pRoot, hb, h.symm⟩
    · dsimp only at h
      cases hb : parseFunctionBody A [] tokens bodyBound
          (start + equalLoop tokens start count 0 + 1)
          (count - (equalLoop tokens start count 0 + 1)) 0 with
      | error e => rw [hb] at h; cases h
      | ok pRoot =>
        rw [hb] at h
        simp only [Except.ok.injEq] at h
        exact ⟨[], pRoot, hb, by simpa using h.symm⟩

end Batch
section BatchScenario
variable {α : Type} (A : DoubleOps α)

/-- A batch that throws in its statement `bad` leaves the parser as the
statements before `bad` made it. -/
theorem parseFunctionList_fails (P Pk : GFunctionParser α) (stmts1 stmts2 : List (List String))
    (bad : List String) (e : Ex)
    (hs : ∀ t ∈ stmts1 ++ bad :: stmts2, ";" ∉ t)
    (h1 : installEach A (batch (stmts1 ++ bad :: stmts2)) (statementWindows stmts1 0) P =
      (.ok (), Pk))
    (h2 : Pk.parseFunction A (batch (stmts1 ++ bad :: stmts2))
      ((stmts1.map (fun s => s.length + 1)).sum) bad.length = .error e) :
    P.parseFunctionList A (batch (stmts1 ++ bad :: stmts2)) = (.error e, Pk) := by
  rw [parseFunctionList_batch A P _ hs, statementWindows_append,
    installEach_append A _ _ _ P Pk h1, Nat.zero_add, statementWindows, installEach]
  simp only [h2]

theorem scenario_batch :
    (extended A [] 0).add A "f=1;g(x)=x*2;h=;k=3" =
      (.error (.emptyExpression "f=1;g(x)=x*2;h="), extended A
        [entry "f" (.GFunctionConstant (A.atof "1")) 0 29,
          entry "g" (operatorCall .times [.GFunctionVariable 0,
            .GFunctionConstant (A.atof "2")]) 1 30] 2) := by
  rfl

theorem scenario_batch_prefix :
    (extended A [] 0).add A "f=1;g(x)=x*2" =
      (.ok (), extended A
        [entry "f" (.GFunctionConstant (A.atof "1")) 0 29,
          entry "g" (operatorCall .times [.GFunctionVariable 0,
            .GFunctionConstant (A.atof "2")]) 1 30] 2) := by
  rfl

end BatchScenario

/-- C15. No rollback across a batch.  On a token vector whose statements are
separated by `;`, `parseFunctionList` is `parseFunction` on the statements one
at a time: each statement that returns has parsed its body over its declared
variables and has called `addFunction` with its name, that tree and the
number of variables, after which the name is registered with them.  When the
statement `bad` throws, `add` throws the same exception and leaves the parser
exactly as the statements before `bad` made it; the statements from `bad` on
have installed nothing.  On a new parser, `add("f=1;g(x)=x*2;h=;k=3")` throws
at `h=`, and leaves `f` and `g` registered, as `add("f=1;g(x)=x*2")` does, and
`h` and `k` not registered. -/
theorem C15_no_rollback :
    (∀ (α : Type) (A : DoubleOps α) (P : GFunctionParser α) (stmts : List (List String)),
      (∀ t ∈ stmts, ";" ∉ t) →
      P.parseFunctionList A (batch stmts) =
        installEach A (batch stmts) (statementWindows stmts 0) P) ∧
    (∀ (α : Type) (A : DoubleOps α) (P Pk : GFunctionParser α) (text : String)
      (stmts1 stmts2 : List (List String)) (bad : List String) (e : Ex),
      tokenize text = batch (stmts1 ++ bad :: stmts2) →
      (∀ t ∈ stmts1 ++ bad :: stmts2, ";" ∉ t) →
      installEach A (tokenize text) (statementWindows stmts1 0) P = (.ok (), Pk) →
      Pk.parseFunction A (tokenize text) ((stmts1.map (fun s => s.length + 1)).sum) bad.length =
        .error e →
      P.add A text = (.error e, Pk)) ∧
    (∀ (α : Type) (A : DoubleOps α) (P P' : GFunctionParser α) (tokens : List String)
      (start count : Nat),
      P.parseFunction A tokens start count = .ok P' →
      (count = 0 ∧ P' = P) ∨
        ∃ (vars : List String) (pRoot : GFunctionNode α),
          parseFunctionBody A vars tokens bodyBound (start + equalLoop tokens start count 0 + 1)
            (count - (equalLoop tokens start count 0 + 1)) 0 = .ok pRoot ∧
          P' = P.addFunction (tokenAt tokens start) pRoot vars.length ∧
          P'.getFunctionNoThrow (tokenAt tokens start) =
            some { m_pRoot := pRoot, m_expectedParams := vars.length, addr := P.heapNext }) ∧
    (∀ (α : Type) (A : DoubleOps α),
      let S := (GFunctionParser.ctor A false).add A "f=1;g(x)=x*2;h=;k=3"
      S.1 = .error (.emptyExpression "f=1;g(x)=x*2;h=") ∧
        S.2 = ((GFunctionParser.ctor A false).add A "f=1;g(x)=x*2").2 ∧
        S.2.getFunctionNoThrow "f" =
          some { m_pRoot := .GFunctionConstant (A.atof "1"), m_expectedParams := 0, addr := 29 } ∧
        S.2.getFunctionNoThrow "g" =
          some { m_pRoot := operatorCall .times [.GFunctionVariable 0,
            .GFunctionConstant (A.atof "2")], m_expectedParams := 1, addr := 30 } ∧
        S.2.getFunctionNoThrow "h" = none ∧ S.2.getFunctionNoThrow "k" = none) := by
  refine ⟨?_, ?_, ?_, ?_⟩
  · intro α A P stmts hs
    exact parseFunctionList_batch A P stmts hs
  · intro α A P Pk text stmts1 stmts2 bad e ht hs h1 h2
    rw [GFunctionParser.add]
    rw [ht] at h1 h2 ⊢
    exact parseFunctionList_fails A P Pk stmts1 stmts2 bad e hs h1 h2
  · intro α A P P' tokens start count h
    rcases parseFunction_ok A P P' tokens start count h with h | ⟨vars, pRoot, hb, hP⟩
    · exact Or.inl h
    · exact Or.inr ⟨vars, pRoot, hb, hP,
        by rw [hP]; exact getFunctionNoThrow_addFunction P _ pRoot _⟩
  · intro α A
    simp only [ctor_posix, scenario_batch, scenario_batch_prefix]
    refine ⟨?_, ?_, ?_, ?_, ?_, ?_⟩ <;> first | rfl | trivial

/-- C15, at an input: on a new parser in exact arithmetic, the text
`f=1;g(x)=x*2;h=;k=3` is the batch of the statements `f=1`, `g(x)=x*2`, `h=`
and `k=3`; the first two install `f` and `g`, the third throws "Empty
expression", and `add` throws it and leaves the parser with `f` and `g`. -/
theorem C15_no_rollback_witness :
    let E := exactOps noInexact
    let Pk : GFunctionParser ℚ := extended E
      [entry "f" (.GFunctionConstant (E.atof "1")) 0 29,
        entry "g" (operatorCall .times [.GFunctionVariable 0,
          .GFunctionConstant (E.atof "2")]) 1 30] 2
    tokenize "f=1;g(x)=x*2;h=;k=3" =
        batch ([["f", "=", "1"], ["g", "(", "x", ")", "=", "x", "*", "2"]] ++
          ["h", "="] :: [["k", "=", "3"]]) ∧
      (extended E [] 0).add E "f=1;g(x)=x*2;h=;k=3" =
        (.error (.emptyExpression "f=1;g(x)=x*2;h="), Pk) := by
  intro E Pk
  have ht : tokenize "f=1;g(x)=x*2;h=;k=3" =
      batch ([["f", "=", "1"], ["g", "(", "x", ")", "=", "x", "*", "2"]] ++
        ["h", "="] :: [["k", "=", "3"]]) := by decide
  refine ⟨ht, ?_⟩
  exact C15_no_rollback.2.1 ℚ E (extended E [] 0) Pk "f=1;g(x)=x*2;h=;k=3"
    [["f", "=", "1"], ["g", "(", "x", ")", "=", "x", "*", "2"]] [["k", "=", "3"]] ["h", "="]
    (.emptyExpression "f=1;g(x)=x*2;h=") ht (by decide) rfl rfl

/-! ## C16: a statement that throws -/

section Failed
variable {α : Type} (A : DoubleOps α)

theorem parseFunctionList_one_error (P P' : GFunctionParser α) (tokens : List String) (e : Ex)
    (hs : ";" ∉ tokens) (h : P.parseFunctionList A tokens = (.error e, P')) :
    P' = P ∧ P.parseFunction A tokens 0 tokens.length = .error e := by
  rw [parseFunctionList_one A P tokens hs] at h
  cases hp : P.parseFunction A tokens 0 tokens.length with
  | error e' =>
    rw [hp] at h
    simp only [Prod.mk.injEq, Except.error.injEq] at h
    exact ⟨h.2.symm, by rw [h.1]⟩
  | ok Q =>
    rw [hp] at h
    simp only [Prod.mk.injEq] at h
    exact absurd h.1 (by intro h'; cases h')

/-- Statements taken one at a time: when one throws, the parser is the one
the statements before it returned, and it is the one on which the statement
threw. -/
theorem installEach_error (tokens : List String) :
    ∀ (ws : List (Nat × Nat)) (P P' : GFunctionParser α) (e : Ex),
      installEach A tokens ws P = (.error e, P') →
      ∃ ws1 w ws2, ws = ws1 ++ w :: ws2 ∧ installEach A tokens ws1 P = (.ok (), P') ∧
        P'.parseFunction A tokens w.1 w.2 = .error e
  | [], P, P', e, h => by
    simp only [installEach, Prod.mk.injEq] at h
    exact absurd h.1 (by intro h'; cases h')
  | w :: ws, P, P', e, h => by
    simp only [installEach] at h
    cases hp : P.parseFunction A tokens w.1 w.2 with
    | error e' =>
      rw [hp] at h
      simp only [Prod.mk.injEq, Except.error.injEq] at h
      refine ⟨[], w, ws, rfl, ?_, ?_⟩
      · rw [← h.2]; rfl
      · rw [← h.2, ← h.1]; exact hp
    | ok Q =>
      rw [hp] at h
      obtain ⟨ws1, w', ws2, hws, h1, h2⟩ := installEach_error tokens ws Q P' e h
      refine ⟨w :: ws1, w', ws2, by rw [hws]; rfl, ?_, h2⟩
      simp only [installEach, hp]
      exact h1

theorem scenario_failed_redefinition :
    (extended A
        [entry "f" (operatorCall .times [.GFunctionVariable 0, .GFunctionConstant (A.atof "2")]) 1 29,
         entry "g" (operatorCall .plus [.GFunctionCall "f" (some (.root 29)) [.GFunctionVariable 0],
           .GFunctionConstant (A.atof "1")]) 1 30] 2).add A "f(x)=x*" =
      (.error (.expectedAfter "*"), extended A
        [entry "f" (operatorCall .times [.GFunctionVariable 0, .GFunctionConstant (A.atof "2")]) 1 29,
         entry "g" (operatorCall .plus [.GFunctionCall "f" (some (.root 29)) [.GFunctionVariable 0],
           .GFunctionConstant (A.atof "1")]) 1 30] 2) := by
  rfl

end Failed

/-- C16. A statement that throws changes nothing.  When `parseFunctionList`,
or `add`, throws on a token vector that is one statement, the parser (the
name table, every registered tree and every pointer cached in one) is the
same as before the call.  In a batch, the parser that is left when a statement
throws is the parser the statements before it returned.  A statement that
returns has parsed its whole body before the call of `addFunction`, the only
place where a name is installed and trees are unlinked.  In the parser in
which `g` has cached the root of `f(x)=x*2`, `add("f(x)=x*")` throws
"Expected something after the operator" and leaves the two trees, and the
cached pointer, as they were. -/
theorem C16_failed_statement_changes_nothing :
    (∀ (α : Type) (A : DoubleOps α) (P P' : GFunctionParser α) (tokens : List String) (e : Ex),
      ";" ∉ tokens → P.parseFunctionList A tokens = (.error e, P') → P' = P) ∧
    (∀ (α : Type) (A : DoubleOps α) (P P' : GFunctionParser α) (text : String) (e : Ex),
      ";" ∉ tokenize text → P.add A text = (.error e, P') → P' = P) ∧
    (∀ (α : Type) (A : DoubleOps α) (P P' : GFunctionParser α) (stmts : List (List String))
      (e : Ex),
      (∀ t ∈ stmts, ";" ∉ t) → P.parseFunctionList A (batch stmts) = (.error e, P') →
      ∃ ws1 w ws2, statementWindows stmts 0 = ws1 ++ w :: ws2 ∧
        installEach A (batch stmts) ws1 P = (.ok (), P') ∧
        P'.parseFunction A (batch stmts) w.1 w.2 = .error e) ∧
    (∀ (α : Type) (A : DoubleOps α) (P P' : GFunctionParser α) (tokens : List String)
      (start count : Nat),
      P.parseFunction A tokens start count = .ok P' → P' ≠ P →
      ∃ (vars : List String) (pRoot : GFunctionNode α),
        parseFunctionBody A vars tokens bodyBound (start + equalLoop tokens start count 0 + 1)
          (count - (equalLoop tokens start count 0 + 1)) 0 = .ok pRoot ∧
        P' = P.addFunction (tokenAt tokens start) pRoot vars.length) ∧
    (∀ (α : Type) (A : DoubleOps α) (x : α) (d : Nat),
      let P2 := (((GFunctionParser.ctor A false).add A "f(x)=x*2").2.add A "g(x)=f(x)+1").2
      let P3 := (P2.call A (d + 4) "g" [x]).2
      (P3.getFunctionNoThrow "g").map (fun g => g.m_pRoot) =
          some (operatorCall .plus [.GFunctionCall "f" (some (.root 29)) [.GFunctionVariable 0],
            .GFunctionConstant (A.atof "1")]) ∧
        P3.add A "f(x)=x*" = (.error (.expectedAfter "*"), P3)) := by
  refine ⟨?_, ?_, ?_, ?_, ?_⟩
  · intro α A P P' tokens e hs h
    exact (parseFunctionList_one_error A P P' tokens e hs h).1
  · intro α A P P' text e hs h
    exact (parseFunctionList_one_error A P P' _ e hs h).1
  · intro α A P P' stmts e hs h
    rw [parseFunctionList_batch A P stmts hs] at h
    exact installEach_error A _ _ P P' e h
  · intro α A P P' tokens start count h hne
    rcases parseFunction_ok A P P' tokens start count h with h' | h'
    · exact absurd h'.2 hne
    · exact h'
  · intro α A x d
    simp only [ctor_posix, scenario_f2, scenario_f2_g, scenario_f2_g_call,
      scenario_failed_redefinition]
    exact ⟨rfl, trivial⟩

/-- C16, at an input: on a new parser in exact arithmetic, `add("f=2+")`
throws "Expected something after the operator" and leaves the new parser. -/
theorem C16_failed_statement_changes_nothing_witness :
    let E := exactOps noInexact
    let P : GFunctionParser ℚ := extended E [] 0
    ";" ∉ tokenize "f=2+" ∧ (P.add E "f=2+").1 = .error (.expectedAfter "+") ∧
      (P.add E "f=2+").2 = P := by
  intro E P
  have hs : ";" ∉ tokenize "f=2+" := by decide
  have h : P.add E "f=2+" = (.error (.expectedAfter "+"), (P.add E "f=2+").2) := rfl
  exact ⟨hs, rfl, C16_failed_statement_changes_nothing.2.1 ℚ E P _ "f=2+" _ hs h⟩

/-! ## C17: the header of a statement that throws -/

section HeaderErrors
variable {α : Type} (A : DoubleOps α)

theorem equalLoop_none (tokens : List String) (start : Nat) :
    ∀ (n equalPos : Nat),
      (∀ j, j < n → tokenAt tokens (start + equalPos + j) ≠ "=") →
      equalLoop tokens start n equalPos = equalPos + n
  | 0, _, _ => rfl
  | n + 1, e, hne => by
    have h0 : tokenAt tokens (start + e) ≠ "=" := by
      have := hne 0 (by omega)
      simpa using this
    have ih := equalLoop_none tokens start n (e + 1)
      (fun j hj => by
        have := hne (j + 1) (by omega)
        rw [show start + (e + 1) + j = start + e + (j + 1) by omega]; exact this)
    simp only [equalLoop, beq_iff_eq, h0, ↓reduceIte, ih]
    omega

theorem parseFunction_noEquals (P : GFunctionParser α) (tokens : List String) (start count : Nat)
    (hc : count ≠ 0) (hne : ∀ j, j < count → tokenAt tokens (start + j) ≠ "=") :
    P.parseFunction A tokens start count = .error .noEquals := by
  have hc' : (count == 0) = false := by simpa using hc
  have heq : equalLoop tokens start count 0 = count := by
    have := equalLoop_none tokens start count 0 (fun j hj => by simpa using hne j hj)
    simpa using this
  simp only [GFunctionParser.parseFunction, hc', Bool.false_eq_true, ↓reduceIte, heq, ge_iff_le,
    le_refl]

theorem parseFunction_noName (P : GFunctionParser α) (tokens : List String) (start count : Nat)
    (hc : count ≠ 0) (h0 : tokenAt tokens start = "=") :
    P.parseFunction A tokens start count = .error .noName := by
  have hc' : (count == 0) = false := by simpa using hc
  have heq : equalLoop tokens start count 0 = 0 := by
    have := equalLoop_found tokens start 0 count 0 (fun j hj => by omega) (by simpa using h0)
      (by omega)
    simpa using this
  have h1 : ¬ (0 ≥ count) := by omega
  simp only [GFunctionParser.parseFunction, hc', Bool.false_eq_true, ↓reduceIte, heq, h1,
    beq_self_eq_true]

theorem parseFunction_badHeader (P : GFunctionParser α) (tokens : List String)
    (start count k : Nat) (h1 : 1 < k) (hk : k < count)
    (hne : ∀ j, j < k → tokenAt tokens (start + j) ≠ "=")
    (heq : tokenAt tokens (start + k) = "=") :
    (tokenAt tokens (start + 1) ≠ "(" →
      P.parseFunction A tokens start count =
        .error (.expectedOpenParen (tokenAt tokens start))) ∧
    (tokenAt tokens (start + 1) = "(" → tokenAt tokens (start + k - 1) ≠ ")" →
      P.parseFunction A tokens start count = .error .expectedCloseParen) := by
  have hc' : (count == 0) = false := by simp only [beq_eq_false_iff_ne, ne_eq]; omega
  have hpos : equalLoop tokens start count 0 = k := by
    have := equalLoop_found tokens start k count 0 (fun j hj => by simpa using hne j hj)
      (by simpa using heq) hk
    simpa using this
  have e1 : ¬ (k ≥ count) := by omega
  have e2 : (k == 0) = false := by simp only [beq_eq_false_iff_ne, ne_eq]; omega
  have e3 : k > 1 := h1
  refine ⟨?_, ?_⟩
  · intro ho
    have ho' : (tokenAt tokens (start + 1) != "(") = true := by simpa using ho
    simp only [GFunctionParser.parseFunction, hc', Bool.false_eq_true, ↓reduceIte, hpos, e1, e2,
      e3, ho']
  · intro ho hcl
    have ho' : (tokenAt tokens (start + 1) != "(") = false := by simp [ho]
    have hcl' : (tokenAt tokens (start + k - 1) != ")") = true := by simpa using hcl
    simp only [GFunctionParser.parseFunction, hc', Bool.false_eq_true, ↓reduceIte, hpos, e1, e2,
      e3, ho', hcl']

/-- Statements taken one at a time throw when one of them throws on every
parser. -/
theorem installEach_fails (tokens : List String) (w : Nat × Nat)
    (hw : ∀ Q : GFunctionParser α, ∃ e, Q.parseFunction A tokens w.1 w.2 = .error e) :
    ∀ (ws : List (Nat × Nat)) (P : GFunctionParser α), w ∈ ws →
      ∃ e P', installEach A tokens ws P = (.error e, P')
  | [], _, h => by simp at h
  | w' :: ws, P, h => by
    simp only [installEach]
    cases hp : P.parseFunction A tokens w'.1 w'.2 with
    | error e => exact ⟨e, P, rfl⟩
    | ok Q =>
      simp only [List.mem_cons] at h
      rcases h with h | h
      · subst h
        obtain ⟨e, he⟩ := hw P
        rw [he] at hp
        cases hp
      · exact installEach_fails tokens w hw ws Q h

theorem batch_drop :
    ∀ (stmts1 stmts2 : List (List String)) (bad : List String),
      ∃ rest, (batch (stmts1 ++ bad :: stmts2)).drop ((stmts1.map (fun s => s.length + 1)).sum) =
        bad ++ rest
  | [], [], bad => ⟨[], by simp [batch]⟩
  | [], s :: stmts2, bad => ⟨";" :: batch (s :: stmts2), by simp [batch]⟩
  | s :: stmts1, stmts2, bad => by
    obtain ⟨rest, hr⟩ := batch_drop stmts1 stmts2 bad
    refine ⟨rest, ?_⟩
    have hb : batch (s :: stmts1 ++ bad :: stmts2) = s ++ ";" :: batch (stmts1 ++ bad :: stmts2) := by
      cases stmts1 <;> rfl
    rw [hb, List.map_cons, List.sum_cons, ← hr]
    rw [show s ++ ";" :: batch (stmts1 ++ bad :: stmts2) =
      (s ++ [";"]) ++ batch (stmts1 ++ bad :: stmts2) by simp]
    rw [show s.length + 1 + (stmts1.map (fun s => s.length + 1)).sum =
      (s ++ [";"]).length + (stmts1.map (fun s => s.length + 1)).sum by simp]
    rw [List.drop_append]

theorem tokenAt_window (tokens bad rest : List String) (off j : Nat)
    (hd : tokens.drop off = bad ++ rest) (hj : j < bad.length) :
    tokenAt tokens (off + j) = tokenAt bad j := by
  have h1 : tokenAt tokens (off + j) = (tokens.drop off).getD j "" := by
    simp only [tokenAt, List.getD_eq_getElem?_getD, List.getElem?_drop]
  rw [h1, hd]
  simp only [tokenAt]
  rw [List.getD_append _ _ _ _ hj]

theorem tokenAt_mem_of_lt (l : List String) (j : Nat) (hj : j < l.length) : tokenAt l j ∈ l := by
  simp only [tokenAt]
  rw [List.getD_eq_getElem _ _ hj]
  exact List.getElem_mem _

/-- The three malformed headers, as shapes of the statement: no `=`; `=` first;
tokens between the name and the first `=` that do not begin with `(` or do not
end with `)`. -/
theorem parseFunction_malformed (Q : GFunctionParser α) (tokens bad rest : List String)
    (off : Nat) (hd : tokens.drop off = bad ++ rest)
    (hbad : (bad ≠ [] ∧ "=" ∉ bad) ∨ bad.head? = some "=" ∨
      ∃ name mid tl, bad = name :: (mid ++ "=" :: tl) ∧ mid ≠ [] ∧ "=" ∉ name :: mid ∧
        (mid.head? ≠ some "(" ∨ mid.getLast? ≠ some ")")) :
    ∃ e, Q.parseFunction A tokens off bad.length = .error e := by
  rcases hbad with ⟨hne, hno⟩ | hhead | ⟨name, mid, tl, hshape, hmid, hno, hparen⟩
  · refine ⟨_, parseFunction_noEquals A Q tokens off bad.length ?_ ?_⟩
    · intro h; exact hne (List.length_eq_zero.mp h)
    · intro j hj heq
      rw [tokenAt_window tokens bad rest off j hd hj] at heq
      exact hno (heq ▸ tokenAt_mem_of_lt bad j hj)
  · cases bad with
    | nil => simp at hhead
    | cons b bs =>
      simp only [List.head?_cons, Option.some.injEq] at hhead
      subst hhead
      refine ⟨_, parseFunction_noName A Q tokens off _ (by simp) ?_⟩
      have := tokenAt_window tokens _ rest off 0 hd (by simp)
      simpa [tokenAt] using this
  · subst hshape
    have hml : 1 ≤ mid.length := by
      cases mid with
      | nil => exact absurd rfl hmid
      | cons _ _ => simp
    have hlen : (name :: (mid ++ "=" :: tl)).length = 1 + mid.length + 1 + tl.length := by
      simp; omega
    have hne : ∀ j, j < 1 + mid.length → tokenAt tokens (off + j) ≠ "=" := by
      intro j hj heq
      rw [tokenAt_window tokens _ rest off j hd (by rw [hlen]; omega)] at heq
      have : tokenAt (name :: (mid ++ "=" :: tl)) j = tokenAt (name :: mid) j := by
        simp only [tokenAt]
        rw [show name :: (mid ++ "=" :: tl) = (name :: mid) ++ "=" :: tl by simp,
          List.getD_append _ _ _ _ (by simp; omega)]
      rw [this] at heq
      exact hno (heq ▸ tokenAt_mem_of_lt _ j (by simp; omega))
    have heq : tokenAt tokens (off + (1 + mid.length)) = "=" := by
      rw [tokenAt_window tokens _ rest off _ hd (by rw [hlen]; omega)]
      simp only [tokenAt]
      rw [show name :: (mid ++ "=" :: tl) = (name :: mid) ++ "=" :: tl by simp,
        List.getD_append_right _ _ _ _ (by simp; omega)]
      simp [Nat.add_comm]
    have h1 : tokenAt tokens (off + 1) = tokenAt mid 0 := by
      rw [tokenAt_window tokens _ rest off 1 hd (by rw [hlen]; omega)]
      cases mid with
      | nil => exact absurd rfl hmid
      | cons m ms => simp [tokenAt]
    have h2 : tokenAt tokens (off + (1 + mid.length) - 1) = tokenAt mid (mid.length - 1) := by
      rw [show off + (1 + mid.length) - 1 = off + mid.length by omega,
        tokenAt_window tokens _ rest off _ hd (by rw [hlen]; omega)]
      simp only [tokenAt]
      rw [show mid.length = (mid.length - 1) + 1 by omega, List.getD_cons_succ,
        List.getD_append _ _ _ _ (by omega)]
      simp
    have hb := parseFunction_badHeader A Q tokens off (name :: (mid ++ "=" :: tl)).length
      (1 + mid.length) (by omega) (by rw [hlen]; omega) hne heq
    by_cases ho : tokenAt tokens (off + 1) = "("
    · rcases hparen with hp | hp
      · exfalso
        apply hp
        cases mid with
        | nil => exact absurd rfl hmid
        | cons m ms =>
          rw [h1] at ho
          simp only [tokenAt, List.getD_cons_zero] at ho
          simp [ho]
      · refine ⟨_, hb.2 ho ?_⟩
        rw [h2]
        intro hc
        apply hp
        rw [List.getLast?_eq_getElem?]
        have hl : mid.length - 1 < mid.length := by omega
        simp only [tokenAt] at hc
        rw [List.getD_eq_getElem _ _ hl] at hc
        rw [List.getElem?_eq_getElem hl, hc]
    · exact ⟨_, hb.1 ho⟩

end HeaderErrors
/-- C17. Header errors.  On a statement that is not empty, `parseFunction`
throws "All functions must contain an '='" when no token of the statement is
`=`, "All functions must have a name" when its first token is `=`, and, when
the first `=` is its token number `k > 1`, "Expected a '(' after name" when
the token after the name is not `(`, and "Expected a ')' before the '='" when
that one is `(` and the token before the `=` is not `)`.  So `add` throws on
every text that has such a statement among its statements. -/
theorem C17_header_errors :
    (∀ (α : Type) (A : DoubleOps α) (P : GFunctionParser α) (tokens : List String)
      (start count : Nat),
      count ≠ 0 → (∀ j, j < count → tokenAt tokens (start + j) ≠ "=") →
      P.parseFunction A tokens start count = .error .noEquals) ∧
    (∀ (α : Type) (A : DoubleOps α) (P : GFunctionParser α) (tokens : List String)
      (start count : Nat),
      count ≠ 0 → tokenAt tokens start = "=" →
      P.parseFunction A tokens start count = .error .noName) ∧
    (∀ (α : Type) (A : DoubleOps α) (P : GFunctionParser α) (tokens : List String)
      (start count k : Nat),
      1 < k → k < count → (∀ j, j < k → tokenAt tokens (start + j) ≠ "=") →
      tokenAt tokens (start + k) = "=" →
      (tokenAt tokens (start + 1) ≠ "(" →
        P.parseFunction A tokens start count =
          .error (.expectedOpenParen (tokenAt tokens start))) ∧
      (tokenAt tokens (start + 1) = "(" → tokenAt tokens (start + k - 1) ≠ ")" →
        P.parseFunction A tokens start count = .error .expectedCloseParen)) ∧
    (∀ (α : Type) (A : DoubleOps α) (P : GFunctionParser α) (text : String)
      (stmts1 stmts2 : List (List String)) (bad : List String),
      tokenize text = batch (stmts1 ++ bad :: stmts2) →
      (∀ t ∈ stmts1 ++ bad :: stmts2, ";" ∉ t) →
      ((bad ≠ [] ∧ "=" ∉ bad) ∨ bad.head? = some "=" ∨
        ∃ name mid tl, bad = name :: (mid ++ "=" :: tl) ∧ mid ≠ [] ∧ "=" ∉ name :: mid ∧
          (mid.head? ≠ some "(" ∨ mid.getLast? ≠ some ")")) →
      ∃ e, (P.add A text).1 = .error e) := by
  refine ⟨?_, ?_, ?_, ?_⟩
  · intro α A P tokens start count hc hne
    exact parseFunction_noEquals A P tokens start count hc hne
  · intro α A P tokens start count hc h0
    exact parseFunction_noName A P tokens start count hc h0
  · intro α A P tokens start count k h1 hk hne heq
    exact parseFunction_badHeader A P tokens start count k h1 hk hne heq
  · intro α A P text stmts1 stmts2 bad ht hs hbad
    obtain ⟨rest, hd⟩ := batch_drop stmts1 stmts2 bad
    have hw : ∀ Q : GFunctionParser α, ∃ e,
        Q.parseFunction A (batch (stmts1 ++ bad :: stmts2))
          ((stmts1.map (fun s => s.length + 1)).sum, bad.length).1
          ((stmts1.map (fun s => s.length + 1)).sum, bad.length).2 = .error e :=
      fun Q => parseFunction_malformed A Q _ bad rest _ hd hbad
    have hmem : ((stmts1.map (fun s => s.length + 1)).sum, bad.length) ∈
        statementWindows (stmts1 ++ bad :: stmts2) 0 := by
      rw [statementWindows_append, Nat.zero_add, statementWindows]
      simp
    obtain ⟨e, P', he⟩ := installEach_fails A _ _ hw _ P hmem
    refine ⟨e, ?_⟩
    rw [GFunctionParser.add, ht, parseFunctionList_batch A P _ hs, he]

/-- C17, at an input: on a new parser, `add` throws on `a=1;f x)=2`, whose
second statement has `x )` between the name and the `=`, on `a=1;=2;b=3` and
on `a=1;f(x)`. -/
theorem C17_header_errors_witness :
    let E := exactOps noInexact
    let P : GFunctionParser ℚ := GFunctionParser.ctor E false
    (∃ e, (P.add E "a=1;f x)=2").1 = .error e) ∧
      (∃ e, (P.add E "a=1;=2;b=3").1 = .error e) ∧
      (∃ e, (P.add E "a=1;f(x)").1 = .error e) := by
  intro E P
  refine ⟨?_, ?_, ?_⟩
  · exact C17_header_errors.2.2.2 ℚ E P "a=1;f x)=2" [["a", "=", "1"]] []
      ["f", "x", ")", "=", "2"] (by decide) (by decide)
      (Or.inr (Or.inr ⟨"f", ["x", ")"], ["2"], rfl, by decide, by decide, Or.inl (by decide)⟩))
  · exact C17_header_errors.2.2.2 ℚ E P "a=1;=2;b=3" [["a", "=", "1"]] [["b", "=", "3"]]
      ["=", "2"] (by decide) (by decide) (Or.inr (Or.inl rfl))
  · exact C17_header_errors.2.2.2 ℚ E P "a=1;f(x)" [["a", "=", "1"]] []
      ["f", "(", "x", ")"] (by decide) (by decide) (Or.inl ⟨by decide, by decide⟩)

/-! ## C18: a comma after the last parameter -/

section Dangling
variable {α : Type} (A : DoubleOps α)

/-- The loop of `parseVariableNames` on names each followed by a comma: the
test for a comma looks at the token after a name and nothing looks at what
follows a comma, so the list may end in one. -/
theorem variableLoop_commas (tokens : List String) (s count : Nat) :
    ∀ (vs acc : List String) (i n : Nat) (rest : List String),
      (∀ v ∈ vs, IsNameChar (firstChar v) = true) →
      tokens.drop (s + i) = vs.foldr (fun v l => v :: "," :: l) rest →
      count = i + 2 * vs.length → vs.length ≤ n →
      variableLoop tokens s count n i acc = .ok (acc ++ vs)
  | [], acc, i, n, rest, _, _, hc, _ => by
    simp only [List.length_nil, Nat.mul_zero, Nat.add_zero] at hc
    cases n with
    | zero => simp [variableLoop]
    | succ n => simp [variableLoop, hc]
  | v :: vs, acc, i, n, rest, hv, hd, hc, hn => by
    simp only [List.foldr_cons, List.length_cons] at hd hc hn
    cases n with
    | zero => omega
    | succ n =>
      have ht := tokenAt_of_drop tokens (s + i) v _ hd
      have hd1 := drop_succ_of_drop tokens (s + i) v _ hd
      have ht1 := tokenAt_of_drop tokens (s + i + 1) "," _ hd1
      have hd2 := drop_succ_of_drop tokens (s + i + 1) "," _ hd1
      have hi : i < count := by omega
      have hi1 : i + 1 < count := by omega
      have hname : IsNameChar (firstChar v) = true := hv v (List.mem_cons_self _ _)
      have ih := variableLoop_commas tokens s count vs (acc ++ [v]) (i + 2) n rest
        (fun u hu => hv u (List.mem_cons_of_mem _ hu)) (by rw [← hd2]; congr 1) (by omega)
        (by omega)
      simp only [variableLoop, hi, ↓reduceIte, ht, hi1, decide_True, Bool.true_and, ht1,
        bne_self_eq_false, Bool.false_eq_true, hname, Bool.not_true, ih, List.append_assoc,
        List.singleton_append]

theorem scenario_dangling_comma :
    (extended A [] 0).add A "f(x,)=x" =
      (.ok (), extended A [entry "f" (.GFunctionVariable 0) 1 29] 1) := by
  rfl

theorem scenario_dangling_comma_call (x : α) (d : Nat) :
    ((extended A [entry "f" (.GFunctionVariable 0) 1 29] 1).call A (d + 1) "f" [x]).1 = .ok x := by
  rfl

end Dangling

/-- C18, on the code as it is: a comma after the last parameter is accepted.
On a new parser `add("f(x,)=x")` returns, and installs `f` with one expected
parameter and the body `x`, as `add("f(x)=x")` does; the call of `f` on `[x]`
returns `x`.  In general `parseVariableNames` returns the names in order on
every window in which each name is followed by a comma, the last one
included. -/
theorem C18_dangling_comma_accepted :
    (∀ (α : Type) (A : DoubleOps α),
      (GFunctionParser.ctor A false).add A "f(x,)=x" =
          (.ok (), (GFunctionParser.ctor A false).addFunction "f" (.GFunctionVariable 0) 1) ∧
        (GFunctionParser.ctor A false).add A "f(x,)=x" =
          (GFunctionParser.ctor A false).add A "f(x)=x") ∧
    (∀ (α : Type) (A : DoubleOps α) (x : α) (d : Nat),
      (((GFunctionParser.ctor A false).add A "f(x,)=x").2.call A (d + 1) "f" [x]).1 = .ok x) ∧
    (∀ (tokens : List String) (s : Nat) (vs rest : List String),
      (∀ v ∈ vs, IsNameChar (firstChar v) = true) →
      tokens.drop s = vs.foldr (fun v l => v :: "," :: l) rest →
      parseVariableNames tokens s (2 * vs.length) = .ok vs) := by
  refine ⟨?_, ?_, ?_⟩
  · intro α A
    simp only [ctor_posix, scenario_dangling_comma]
    exact ⟨rfl, rfl⟩
  · intro α A x d
    simp only [ctor_posix, scenario_dangling_comma, scenario_dangling_comma_call]
  · intro tokens s vs rest hv hd
    have := variableLoop_commas tokens s (2 * vs.length) vs [] 0 (2 * vs.length) rest hv
      (by simpa using hd) (by omega) (by omega)
    simpa [parseVariableNames] using this

/-! ## C19: the parameters of a call -/

section Binding
variable {α : Type} (A : DoubleOps α)

theorem addrs_signature {P Q : GFunctionParser α} (h : Q.signature = P.signature) :
    Q.m_functions.map (fun e => e.2.addr) = P.m_functions.map (fun e => e.2.addr) := by
  have hq : Q.m_functions.map GFunction.signature = P.m_functions.map GFunction.signature :=
    congrArg Prod.fst h
  have := congrArg (List.map (fun s : String × Int × Nat × GFunctionNode α => s.2.2.1)) hq
  simpa [List.map_map, Function.comp, GFunction.signature] using this

theorem addrsDistinct_signature {P Q : GFunctionParser α} (h : Q.signature = P.signature)
    (hP : P.addrsDistinct) : Q.addrsDistinct := by
  unfold GFunctionParser.addrsDistinct at hP ⊢
  rw [addrs_signature h]
  exact hP

theorem lookup_mem (name : String) (pFunc : GFunction α) :
    ∀ fs : List (String × GFunction α), fs.lookup name = some pFunc → (name, pFunc) ∈ fs
  | [], h => by simp at h
  | (k, v) :: rest, h => by
    by_cases hk : (name == k) = true
    · simp only [List.lookup, hk, Option.some.injEq] at h
      have : name = k := by simpa using hk
      subst h; subst this
      exact List.mem_cons_self _ _
    · have hk' : (name == k) = false := by simpa using hk
      simp only [List.lookup, hk'] at h
      exact List.mem_cons_of_mem _ (lookup_mem name pFunc rest h)

/-- In a registry with distinct allocation numbers, the root pointer of a
registered `GFunction` leads to it. -/
theorem deref_registered (P : GFunctionParser α) (hP : P.addrsDistinct) (name : String)
    (pFunc : GFunction α) (hf : P.getFunctionNoThrow name = some pFunc) :
    P.deref pFunc.addr = some pFunc := by
  simp only [GFunctionParser.deref]
  apply deref_of_lookup name pFunc _ hf
  intro e he ha
  have hmem := lookup_mem name pFunc _ hf
  have := List.inj_on_of_nodup_map hP he hmem ha
  rw [this]

/-- The values `evalChildren` collects are the values of the children, each in
a parser that differs from the first one by cached pointers only. -/
theorem evalChildren_values (depth : Nat) (params : List α) :
    ∀ (cs : List (GFunctionNode α)) (P P1 : GFunctionParser α) (vals : List α)
      (cs' : List (GFunctionNode α)),
      evalChildren (fun P c => GFunctionNode.eval A depth P c params) P cs = (.ok vals, cs', P1) →
      List.Forall₂
        (fun c val => ∃ Q : GFunctionParser α, Q.signature = P.signature ∧
          (GFunctionNode.eval A depth Q c params).1 = .ok val) cs vals
  | [], P, P1, vals, cs', h => by
    simp only [evalChildren, Prod.mk.injEq, Except.ok.injEq] at h
    rw [← h.1]
    exact List.Forall₂.nil
  | c :: cs, P, P1, vals, cs', h => by
    simp only [evalChildren] at h
    have hsig := (eval_signature A depth P c params).1
    rcases hc : GFunctionNode.eval A depth P c params with ⟨r, c', P'⟩
    rw [hc] at h hsig
    cases r with
    | error e => simp at h
    | ok v =>
      simp only at h
      rcases hcs : evalChildren (fun P c => GFunctionNode.eval A depth P c params) P' cs with
        ⟨rs, cs'', P''⟩
      rw [hcs] at h
      cases rs with
      | error e => simp at h
      | ok vs =>
        simp only [Prod.mk.injEq, Except.ok.injEq] at h
        rw [← h.1]
        refine List.Forall₂.cons ⟨P, rfl, by rw [hc]⟩ ?_
        have ih := evalChildren_values depth params cs P' P'' vs cs'' hcs
        refine ih.imp ?_
        rintro a b ⟨Q, hQ, hv⟩
        exact ⟨Q, hQ.trans hsig, hv⟩

/-- A call node of a registered function with the expected number of
children, not yet bound or bound to that function: the body on the values of
the children. -/
theorem eval_call_binding (depth : Nat) (P P1 : GFunctionParser α) (hP : P.addrsDistinct)
    (name : String) (pf : Option NodePtr) (cs : List (GFunctionNode α)) (params vals : List α)
    (cs' : List (GFunctionNode α)) (pFunc : GFunction α)
    (hc : evalChildren (fun P c => GFunctionNode.eval A depth P c params) P cs =
      (.ok vals, cs', P1))
    (hf : P1.getFunctionNoThrow name = some pFunc)
    (hn : pFunc.m_expectedParams = cs.length)
    (hpf : pf = none ∨ pf = some (.root pFunc.addr)) :
    (GFunctionNode.eval A (depth + 1) P (.GFunctionCall name pf cs) params).1 =
      (GFunctionNode.eval A depth P1 pFunc.m_pRoot vals).1 := by
  have hsig : P1.signature = P.signature := by
    have := evalChildren_frame A depth P cs params
    rw [hc] at this
    exact this
  have hd := deref_registered P1 (addrsDistinct_signature hsig hP) name pFunc hf
  rcases hpf with h | h <;> subst h
  · have hb : bind P1 name cs.length = .ok (.root pFunc.addr) := by
      have hk : checkParams name cs.length pFunc.m_expectedParams = .ok () := by
        rw [hn]; exact (checkParams_exact name cs.length cs.length).mpr rfl
      simp only [bind, GFunctionParser.getFunction, hf, hk]
    rw [eval_unbound_call A depth P name cs params vals cs' P1 pFunc hc hb hd]
  · simp only [GFunctionNode.eval, hc, hd]

theorem scenario_swap :
    (extended A [] 0).add A "f(x,y)=x-y;g(y,x)=f(x,y)" =
      (.ok (), extended A
        [entry "f" (operatorCall .minus [.GFunctionVariable 0, .GFunctionVariable 1]) 2 29,
         entry "g" (.GFunctionCall "f" none [.GFunctionVariable 1, .GFunctionVariable 0]) 2 30]
        2) := by
  rfl

theorem scenario_swap_call (a b : α) (d : Nat) :
    ((extended A
        [entry "f" (operatorCall .minus [.GFunctionVariable 0, .GFunctionVariable 1]) 2 29,
         entry "g" (.GFunctionCall "f" none [.GFunctionVariable 1, .GFunctionVariable 0]) 2 30]
        2).call A (d + 4) "g" [a, b]).1 = .ok (A.sub b a) := by
  rfl

end Binding
/-- C19. Positional parameter binding.  Let the children `cs` of a call node
of `name` evaluate, under the caller's vector `v`, to the values `vals` (each
value is the value of its child under `v`), and let `name` be registered with
as many expected parameters as the node has children, in a registry whose
allocation numbers are distinct.  Then the node, not yet bound or bound to
that function, returns what the root of the function returns on `vals`: the
caller's vector is not passed on.  A variable node returns the element of the
vector it is evaluated on at its index.  After
`add("f(x,y)=x-y;g(y,x)=f(x,y)")`, in which caller and callee give the names
`x` and `y` to different positions, the call of `g` on `[a, b]` returns
`b - a`; on `[5, 3]`, -2. -/
theorem C19_positional_binding :
    (∀ (α : Type) (A : DoubleOps α) (depth : Nat) (P P1 : GFunctionParser α) (name : String)
      (pf : Option NodePtr) (cs : List (GFunctionNode α)) (v vals : List α)
      (cs' : List (GFunctionNode α)) (pFunc : GFunction α),
      P.addrsDistinct →
      evalChildren (fun P c => GFunctionNode.eval A depth P c v) P cs = (.ok vals, cs', P1) →
      P1.getFunctionNoThrow name = some pFunc →
      pFunc.m_expectedParams = cs.length →
      (pf = none ∨ pf = some (.root pFunc.addr)) →
      (GFunctionNode.eval A (depth + 1) P (.GFunctionCall name pf cs) v).1 =
          (GFunctionNode.eval A depth P1 pFunc.m_pRoot vals).1 ∧
        List.Forall₂
          (fun c val => ∃ Q : GFunctionParser α, Q.signature = P.signature ∧
            (GFunctionNode.eval A depth Q c v).1 = .ok val) cs vals) ∧
    (∀ (α : Type) (A : DoubleOps α) (depth : Nat) (P : GFunctionParser α) (vals : List α)
      (i : Nat) (h : i < vals.length),
      (GFunctionNode.eval A (depth + 1) P (.GFunctionVariable i) vals).1 =
        .ok (vals.get ⟨i, h⟩)) ∧
    (∀ (α : Type) (A : DoubleOps α) (a b : α) (d : Nat),
      (((GFunctionParser.ctor A false).add A "f(x,y)=x-y;g(y,x)=f(x,y)").2.call A (d + 4) "g"
        [a, b]).1 = .ok (A.sub b a)) ∧
    (∀ (T : Inexact) (d : Nat),
      (((GFunctionParser.ctor (exactOps T) false).add (exactOps T)
        "f(x,y)=x-y;g(y,x)=f(x,y)").2.call (exactOps T) (d + 4) "g" [5, 3]).1 = .ok (-2)) := by
  refine ⟨?_, ?_, ?_, ?_⟩
  · intro α A depth P P1 name pf cs v vals cs' pFunc hP hc hf hn hpf
    exact ⟨eval_call_binding A depth P P1 hP name pf cs v vals cs' pFunc hc hf hn hpf,
      evalChildren_values A depth v cs P P1 vals cs' hc⟩
  · intro α A depth P vals i h
    simp only [GFunctionNode.eval, param, List.get?_eq_getElem?, List.getElem?_eq_getElem h,
      List.get_eq_getElem]
  · intro α A a b d
    simp only [ctor_posix, scenario_swap, scenario_swap_call]
  · intro T d
    simp only [ctor_posix, scenario_swap, scenario_swap_call]
    simp only [exactOps]
    norm_num

/-- C19, at an input: in the parser with `f(x,y)=x-y`, the call node
`f(v[1], v[0])` under the vector `[5, 3]` has the children values `[3, 5]`
and returns what the body of `f` returns on `[3, 5]`, which is -2. -/
theorem C19_positional_binding_witness :
    let E := exactOps noInexact
    let body : GFunctionNode ℚ := operatorCall .minus [.GFunctionVariable 0, .GFunctionVariable 1]
    let P : GFunctionParser ℚ := extended E [entry "f" body 2 29] 1
    let cs : List (GFunctionNode ℚ) := [.GFunctionVariable 1, .GFunctionVariable 0]
    P.addrsDistinct ∧
      (GFunctionNode.eval E 3 P (.GFunctionCall "f" none cs) [5, 3]).1 =
        (GFunctionNode.eval E 2 P body [3, 5]).1 ∧
      (GFunctionNode.eval E 2 P body [3, 5]).1 = .ok (-2) := by
  intro E body P cs
  have hP : P.addrsDistinct := by
    unfold GFunctionParser.addrsDistinct
    decide
  have hc : evalChildren (fun P c => GFunctionNode.eval E 2 P c [5, 3]) P cs =
      (.ok [3, 5], cs, P) := rfl
  have hf : P.getFunctionNoThrow "f" =
      some { m_pRoot := body, m_expectedParams := 2, addr := 29 } := rfl
  have hv : (GFunctionNode.eval E 2 P body [3, 5]).1 = .ok (-2) := by
    have : (GFunctionNode.eval E 2 P body [3, 5]).1 = .ok (E.sub 3 5) := rfl
    rw [this]
    simp only [E, exactOps]
    norm_num
  exact ⟨hP,
    (C19_positional_binding.1 ℚ E 2 P P "f" none cs [5, 3] [3, 5] cs _ hP hc hf rfl
      (Or.inl rfl)).1, hv⟩

/-! ## C20: what a redefinition unlinks -/

section Unbind
variable {α : Type} (A : DoubleOps α)

theorem lookup_mapSet_ne (name k : String) (pFunc : GFunction α) (hne : k ≠ name) :
    ∀ fs : List (String × GFunction α),
      (GFunctionParser.mapSet fs name pFunc).lookup k = fs.lookup k
  | [] => by
    have : (k == name) = false := by simpa using hne
    simp [GFunctionParser.mapSet, List.lookup, this]
  | (k', v) :: rest => by
    by_cases hk : (k' == name) = true
    · have hk1 : k' = name := by simpa using hk
      have hk2 : (k == name) = false := by simpa using hne
      have hk3 : (k == k') = false := by rw [hk1]; exact hk2
      simp [GFunctionParser.mapSet, hk, List.lookup, hk2, hk3]
    · have hk' : (k' == name) = false := by simpa using hk
      simp only [GFunctionParser.mapSet, hk', Bool.false_eq_true, ↓reduceIte, List.lookup]
      rw [lookup_mapSet_ne name k pFunc hne rest]

theorem lookup_map_snd (g : GFunction α → GFunction α) (k : String) :
    ∀ fs : List (String × GFunction α),
      (fs.map (fun e => (e.1, g e.2))).lookup k = (fs.lookup k).map g
  | [] => rfl
  | (k', v) :: rest => by
    by_cases hk : (k == k') = true
    · simp [List.lookup, hk]
    · have hk' : (k == k') = false := by simpa using hk
      simp only [List.map_cons, List.lookup, hk']
      exact lookup_map_snd g k rest

theorem mapSet_keys (name : String) (pFunc : GFunction α) :
    ∀ fs : List (String × GFunction α), (fs.lookup name).isSome = true →
      (GFunctionParser.mapSet fs name pFunc).map Prod.fst = fs.map Prod.fst
  | [], h => by simp at h
  | (k, v) :: rest, h => by
    by_cases hk : (k == name) = true
    · have : k = name := by simpa using hk
      simp [GFunctionParser.mapSet, hk, this]
    · have hk' : (k == name) = false := by simpa using hk
      have hk2 : (name == k) = false := by
        simp only [beq_eq_false_iff_ne, ne_eq] at hk' ⊢
        exact fun h => hk' h.symm
      simp only [List.lookup, hk2] at h
      simp [GFunctionParser.mapSet, hk', mapSet_keys name pFunc rest h]

mutual

theorem calls_unlink (name : String) :
    ∀ t : GFunctionNode α,
      (t.unlink name).calls = t.calls.map (fun c => (c.1, if c.1 == name then none else c.2))
  | .GFunctionBuiltIn _ => rfl
  | .GFunctionVariable _ => rfl
  | .GFunctionConstant _ => rfl
  | .GFunctionCall m_name pf cs => by
    simp only [GFunctionNode.unlink, GFunctionNode.calls, List.map_cons,
      callsChildren_unlink name cs]

theorem callsChildren_unlink (name : String) :
    ∀ l : List (GFunctionNode α),
      GFunctionNode.calls.callsChildren (GFunctionNode.unlink.unlinkChildren name l) =
        (GFunctionNode.calls.callsChildren l).map
          (fun c => (c.1, if c.1 == name then none else c.2))
  | [] => rfl
  | c :: l => by
    simp only [GFunctionNode.unlink.unlinkChildren, GFunctionNode.calls.callsChildren,
      List.map_append, callsChildren_unlink name l, calls_unlink name c]

end

mutual

theorem shape_unlink (name : String) :
    ∀ t : GFunctionNode α, (t.unlink name).shape = t.shape
  | .GFunctionBuiltIn _ => rfl
  | .GFunctionVariable _ => rfl
  | .GFunctionConstant _ => rfl
  | .GFunctionCall m_name pf cs => by
    simp only [GFunctionNode.unlink, GFunctionNode.shape, shapeChildren_unlink name cs]

theorem shapeChildren_unlink (name : String) :
    ∀ l : List (GFunctionNode α),
      GFunctionNode.shape.shapeChildren (GFunctionNode.unlink.unlinkChildren name l) =
        GFunctionNode.shape.shapeChildren l
  | [] => rfl
  | c :: l => by
    simp only [GFunctionNode.unlink.unlinkChildren, GFunctionNode.shape.shapeChildren,
      shapeChildren_unlink name l, shape_unlink name c]

end

theorem addFunction_other (P : GFunctionParser α) (name : String) (old : GFunction α)
    (hf : P.getFunctionNoThrow name = some old) (pRoot : GFunctionNode α) (n : Int)
    (k : String) (hne : k ≠ name) :
    (P.addFunction name pRoot n).getFunctionNoThrow k =
      (P.getFunctionNoThrow k).map (fun e => { e with m_pRoot := e.m_pRoot.unlink name }) := by
  simp only [GFunctionParser.addFunction, GFunctionParser.getFunctionNoThrow] at hf ⊢
  simp only [hf]
  rw [lookup_mapSet_ne name k _ hne,
    lookup_map_snd (fun e => { e with m_pRoot := e.m_pRoot.unlink name }) k]

theorem addFunction_keys (P : GFunctionParser α) (name : String) (old : GFunction α)
    (hf : P.getFunctionNoThrow name = some old) (pRoot : GFunctionNode α) (n : Int) :
    (P.addFunction name pRoot n).m_functions.map Prod.fst = P.m_functions.map Prod.fst := by
  simp only [GFunctionParser.addFunction, GFunctionParser.getFunctionNoThrow] at hf ⊢
  simp only [hf]
  rw [mapSet_keys]
  · simp only [List.map_map]
    rfl
  · rw [lookup_map_snd (fun e => { e with m_pRoot := e.m_pRoot.unlink name }) name, hf]
    rfl

theorem scenario_three :
    (extended A [] 0).add A "f(x)=x*2;h(x)=x+1;g(x)=f(x)-h(x)" =
      (.ok (), extended A
        [entry "f" (operatorCall .times [.GFunctionVariable 0, .GFunctionConstant (A.atof "2")]) 1 29,
         entry "h" (operatorCall .plus [.GFunctionVariable 0, .GFunctionConstant (A.atof "1")]) 1 30,
         entry "g" (operatorCall .minus [.GFunctionCall "f" none [.GFunctionVariable 0],
           .GFunctionCall "h" none [.GFunctionVariable 0]]) 1 31] 3) := by
  rfl

theorem scenario_three_call (x : α) (d : Nat) :
    ((extended A
        [entry "f" (operatorCall .times [.GFunctionVariable 0, .GFunctionConstant (A.atof "2")]) 1 29,
         entry "h" (operatorCall .plus [.GFunctionVariable 0, .GFunctionConstant (A.atof "1")]) 1 30,
         entry "g" (operatorCall .minus [.GFunctionCall "f" none [.GFunctionVariable 0],
           .GFunctionCall "h" none [.GFunctionVariable 0]]) 1 31] 3).call A (d + 4) "g" [x]).2 =
      extended A
        [entry "f" (operatorCall .times [.GFunctionVariable 0, .GFunctionConstant (A.atof "2")]) 1 29,
         entry "h" (operatorCall .plus [.GFunctionVariable 0, .GFunctionConstant (A.atof "1")]) 1 30,
         entry "g" (operatorCall .minus [.GFunctionCall "f" (some (.root 29)) [.GFunctionVariable 0],
           .GFunctionCall "h" (some (.root 30)) [.GFunctionVariable 0]]) 1 31] 3 := by
  rfl

theorem scenario_three_redefine :
    (extended A
        [entry "f" (operatorCall .times [.GFunctionVariable 0, .GFunctionConstant (A.atof "2")]) 1 29,
         entry "h" (operatorCall .plus [.GFunctionVariable 0, .GFunctionConstant (A.atof "1")]) 1 30,
         entry "g" (operatorCall .minus [.GFunctionCall "f" (some (.root 29)) [.GFunctionVariable 0],
           .GFunctionCall "h" (some (.root 30)) [.GFunctionVariable 0]]) 1 31] 3).add A "f(x)=x*3" =
      (.ok (), extended A
        [entry "f" (operatorCall .times [.GFunctionVariable 0, .GFunctionConstant (A.atof "3")]) 1 32,
         entry "h" (operatorCall .plus [.GFunctionVariable 0, .GFunctionConstant (A.atof "1")]) 1 30,
         entry "g" (operatorCall .minus [.GFunctionCall "f" none [.GFunctionVariable 0],
           .GFunctionCall "h" (some (.root 30)) [.GFunctionVariable 0]]) 1 31] 4) := by
  rfl

end Unbind
/-- C20. Unbinding on redefinition.  When `addFunction(name, pRoot, n)` is
called for a registered name, then afterwards `name` is registered with
`pRoot` and `n` under a new allocation number; under every other name is
found what was found before, with the same `m_expectedParams` and allocation
number and with the tree `unlink(name)` returns, and the registered names are
the same.  In the tree `unlink(name)` returns, the call nodes are those of the
tree it was given, in the same places, with `m_pFunction` cleared in those
whose `m_name` is `name` and unchanged in the others; nothing but pointers
differs.  So no call node of `name` in a tree registered under another name
holds a pointer.  In the parser in which `g(x)=f(x)-h(x)` has cached the
roots of `f` and `h`, `add("f(x)=x*3")` clears the pointer to `f` in the tree
of `g` and keeps the pointer to `h`. -/
theorem C20_unbinding_on_redefinition :
    (∀ (α : Type) (P : GFunctionParser α) (name : String) (old : GFunction α)
      (pRoot : GFunctionNode α) (n : Int),
      P.getFunctionNoThrow name = some old →
      (P.addFunction name pRoot n).getFunctionNoThrow name =
          some { m_pRoot := pRoot, m_expectedParams := n, addr := P.heapNext } ∧
        (∀ k, k ≠ name →
          (P.addFunction name pRoot n).getFunctionNoThrow k =
            (P.getFunctionNoThrow k).map
              (fun e => { e with m_pRoot := e.m_pRoot.unlink name })) ∧
        (P.addFunction name pRoot n).m_functions.map Prod.fst = P.m_functions.map Prod.fst ∧
        (∀ k e, k ≠ name → (P.addFunction name pRoot n).getFunctionNoThrow k = some e →
          ∀ c ∈ e.m_pRoot.calls, c.1 = name → c.2 = none)) ∧
    (∀ (α : Type) (name : String) (t : GFunctionNode α),
      (t.unlink name).calls =
          t.calls.map (fun c => (c.1, if c.1 == name then none else c.2)) ∧
        (t.unlink name).shape = t.shape) ∧
    (∀ (α : Type) (A : DoubleOps α) (x : α) (d : Nat),
      let P3 := ((GFunctionParser.ctor A false).add A "f(x)=x*2;h(x)=x+1;g(x)=f(x)-h(x)").2
      let P4 := (P3.call A (d + 4) "g" [x]).2
      let P5 := (P4.add A "f(x)=x*3").2
      (P4.getFunctionNoThrow "g").map (fun g => g.m_pRoot.calls) =
          some [("", some (.operator .minus)), ("f", some (.root 29)), ("h", some (.root 30))] ∧
        (P5.getFunctionNoThrow "g").map (fun g => g.m_pRoot.calls) =
          some [("", some (.operator .minus)), ("f", none), ("h", some (.root 30))] ∧
        (P5.getFunctionNoThrow "h").map (fun h => (h.m_expectedParams, h.addr)) =
          (P4.getFunctionNoThrow "h").map (fun h => (h.m_expectedParams, h.addr))) := by
  refine ⟨?_, ?_, ?_⟩
  · intro α P name old pRoot n hf
    refine ⟨getFunctionNoThrow_addFunction P name pRoot n,
      fun k hne => addFunction_other P name old hf pRoot n k hne,
      addFunction_keys P name old hf pRoot n, ?_⟩
    intro k e hne he c hc hname
    rw [addFunction_other P name old hf pRoot n k hne] at he
    cases hk : P.getFunctionNoThrow k with
    | none => rw [hk] at he; cases he
    | some e0 =>
      rw [hk] at he
      simp only [Option.map_some', Option.some.injEq] at he
      rw [← he] at hc
      simp only [calls_unlink, List.mem_map] at hc
      obtain ⟨c0, -, hc0⟩ := hc
      rw [← hc0] at hname ⊢
      simp only at hname ⊢
      simp [hname]
  · intro α name t
    exact ⟨calls_unlink name t, shape_unlink name t⟩
  · intro α A x d
    simp only [ctor_posix, scenario_three, scenario_three_call, scenario_three_redefine]
    exact ⟨rfl, rfl, rfl⟩

/-- C20, at an input: in the parser with `f(x)=x*2` and `g(x)=f(x)+1`, in
which `g` has cached the root of `f`, `addFunction("f", x*3, 1)` leaves under
`g` the tree of `g` with the pointer to `f` cleared. -/
theorem C20_unbinding_on_redefinition_witness :
    let E := exactOps noInexact
    let f2 : GFunctionNode ℚ := operatorCall .times [.GFunctionVariable 0, .GFunctionConstant 2]
    let f3 : GFunctionNode ℚ := operatorCall .times [.GFunctionVariable 0, .GFunctionConstant 3]
    let g : GFunctionNode ℚ :=
      operatorCall .plus [.GFunctionCall "f" (some (.root 29)) [.GFunctionVariable 0],
        .GFunctionConstant 1]
    let P : GFunctionParser ℚ := extended E [entry "f" f2 1 29, entry "g" g 1 30] 2
    P.getFunctionNoThrow "f" = some { m_pRoot := f2, m_expectedParams := 1, addr := 29 } ∧
      (P.addFunction "f" f3 1).getFunctionNoThrow "g" =
        (P.getFunctionNoThrow "g").map (fun e => { e with m_pRoot := e.m_pRoot.unlink "f" }) ∧
      ((P.getFunctionNoThrow "g").map (fun e => (e.m_pRoot.unlink "f").calls)) =
        some [("", some (.operator .plus)), ("f", none)] := by
  intro E f2 f3 g P
  have hf : P.getFunctionNoThrow "f" = some { m_pRoot := f2, m_expectedParams := 1, addr := 29 } :=
    rfl
  exact ⟨hf, (C20_unbinding_on_redefinition.1 ℚ P "f" _ f3 1 hf).2.1 "g" (by decide), rfl⟩

/-! ## C21: number tokens -/

section NumberTokens

theorem measureNumber_exponent :
    ∀ (q : List Char) (dec exps : Nat), exps ≠ 0 →
      (q.take (measureNumber q dec exps)).all IsDigit = true
  | [], _, _, _ => by simp [measureNumber]
  | c :: p, dec, exps, he => by
    have he' : (exps == 0) = false := by simpa using he
    by_cases hd : IsDigit c = true
    · simp only [measureNumber, hd, ↓reduceIte, List.take_succ_cons, List.all_cons, Bool.true_and]
      exact measureNumber_exponent p dec exps he
    · simp [measureNumber, hd, he']

theorem digit_ne_dot (c : Char) (h : IsDigit c = true) : c ≠ '.' := by
  intro hc
  rw [hc] at h
  revert h
  decide

theorem measureNumber_shape :
    ∀ (q : List Char) (dec : Nat),
      ∃ m x, q.take (measureNumber q dec 0) = m ++ x ∧
        m.all (fun c => IsDigit c || c == '.') = true ∧
        (dec ≠ 0 → m.count '.' = 0) ∧ m.count '.' ≤ 1 ∧ isExponent x = true
  | [], dec => ⟨[], [], by simp [measureNumber], rfl, fun _ => rfl, by simp, rfl⟩
  | c :: p, dec => by
    by_cases hd : IsDigit c = true
    · obtain ⟨m, x, ht, hm, hdec, hcnt, hx⟩ := measureNumber_shape p dec
      have hne : c ≠ '.' := digit_ne_dot c hd
      refine ⟨c :: m, x, ?_, ?_, ?_, ?_, hx⟩
      · simp only [measureNumber, hd, ↓reduceIte, List.take_succ_cons, ht, List.cons_append]
      · simp only [List.all_cons, hd, Bool.true_or, Bool.true_and, hm]
      · intro h
        rw [List.count_cons_of_ne (Ne.symm hne)]
        exact hdec h
      · rw [List.count_cons_of_ne (Ne.symm hne)]
        exact hcnt
    · by_cases hdot : (c == '.' && dec == 0) = true
      · simp only [Bool.and_eq_true, beq_iff_eq] at hdot
        obtain ⟨hc, hz⟩ := hdot
        subst hc; subst hz
        obtain ⟨m, x, ht, hm, hdec, hcnt, hx⟩ := measureNumber_shape p (0 + 1)
        have h0 := hdec (by omega)
        refine ⟨'.' :: m, x, ?_, ?_, ?_, ?_, hx⟩
        · simp only [measureNumber, hd, Bool.false_eq_true, ↓reduceIte, beq_self_eq_true,
            Bool.and_self, List.take_succ_cons, ht, List.cons_append]
        · simp only [List.all_cons, beq_self_eq_true, Bool.or_true, Bool.true_and, hm]
        · intro h; exact absurd rfl h
        · rw [List.count_cons_self, h0]
      · by_cases he : (c == 'e' && IsDigit (peek p)) = true
        · simp only [Bool.and_eq_true, beq_iff_eq] at he
          obtain ⟨hc, hp⟩ := he
          subst hc
          refine ⟨[], 'e' :: p.take (measureNumber p dec (0 + 1)), ?_, rfl, fun _ => rfl,
            by simp, ?_⟩
          · have hd2 : IsDigit 'e' = false := by decide
            have hdot2 : ('e' == '.') = false := by decide
            simp only [measureNumber, hd2, Bool.false_eq_true, ↓reduceIte, hdot2, Bool.false_and,
              beq_self_eq_true, hp, Bool.and_self, List.take_succ_cons, List.nil_append]
          · have hall := measureNumber_exponent p dec (0 + 1) (by omega)
            cases p with
            | nil => simp [peek, IsDigit] at hp
            | cons d p' =>
              have hd' : IsDigit d = true := by simpa [peek] using hp
              simp only [measureNumber, hd', ↓reduceIte, List.take_succ_cons] at hall ⊢
              simp only [isExponent, beq_self_eq_true, List.isEmpty_cons, Bool.not_false,
                Bool.and_self, Bool.true_and]
              exact hall
        · refine ⟨[], [], ?_, rfl, fun _ => rfl, by simp, rfl⟩
          have he' : (c == 'e' && IsDigit (peek p) && (0 == 0)) = false := by simpa using he
          simp only [measureNumber, hd, Bool.false_eq_true, ↓reduceIte, hdot]
          simp [he]

theorem takeWhile_mantissa (m x : List Char)
    (hm : m.all (fun c => IsDigit c || c == '.') = true) (hx : isExponent x = true) :
    (m ++ x).takeWhile (fun c => IsDigit c || c == '.') = m ∧
      (m ++ x).dropWhile (fun c => IsDigit c || c == '.') = x := by
  induction m with
  | nil =>
    cases x with
    | nil => exact ⟨rfl, rfl⟩
    | cons c ds =>
      simp only [isExponent, Bool.and_eq_true, beq_iff_eq] at hx
      have hc : c = 'e' := hx.1.1
      subst hc
      have : (IsDigit 'e' || 'e' == '.') = false := by decide
      simp only [List.nil_append, List.takeWhile_cons, List.dropWhile_cons, this,
        Bool.false_eq_true, ↓reduceIte, and_self]
  | cons c m ih =>
    simp only [List.all_cons, Bool.and_eq_true] at hm
    obtain ⟨h1, h2⟩ := ih hm.2
    simp only [List.cons_append, List.takeWhile_cons, List.dropWhile_cons, hm.1, ↓reduceIte,
      h1, h2, and_self]

/-- A token that `Next` gives the type `number`. -/
theorem Next_number (p : List Char) (tok : String) (rest : List Char)
    (h : Next p = some (tok, token_type.number, rest)) :
    ∃ c m x, tok.data = (c :: m) ++ x ∧ (IsDigit c || c == '.') = true ∧
      (c :: m).all (fun c => IsDigit c || c == '.') = true ∧ (c :: m).count '.' ≤ 1 ∧
      isExponent x = true := by
  simp only [Next] at h
  cases hq : skipSpace p with
  | nil => rw [hq] at h; cases h
  | cons c r =>
    rw [hq] at h
    simp only [Option.some.injEq, Prod.mk.injEq] at h
    obtain ⟨htok, hty, -⟩ := h
    by_cases hn : IsNameChar c = true
    · simp [MeasureTokenLength, hn] at hty
    · by_cases hd : (IsDigit c || c == '.') = true
      · simp only [MeasureTokenLength, hn, Bool.false_eq_true, ↓reduceIte, hd,
          List.take_succ_cons] at htok
        obtain ⟨m, x, ht, hm, hdec, hcnt, hx⟩ :=
          measureNumber_shape r (if (c == '.') = true then 1 else 0)
        rw [ht] at htok
        have hm' : (c :: m).all (fun c => IsDigit c || c == '.') = true := by
          simp only [List.all_cons, hd, Bool.true_and, hm]
        have hcount : (c :: m).count '.' ≤ 1 := by
          by_cases hc : c = '.'
          · subst hc
            have := hdec (by simp)
            rw [List.count_cons_self, this]
          · rw [List.count_cons_of_ne (Ne.symm hc)]
            exact hcnt
        exact ⟨c, m, x, by rw [← htok]; rfl, hd, hm', hcount, hx⟩
      · simp [MeasureTokenLength, hn, hd] at hty

end NumberTokens

/-- C21, the claim on three inputs: `.5`, `1.` and `.` are tokens of the type
`number`; the first and the last do not start with a digit, and in `1.` and
`.` no digit follows the decimal point, so none has the shape
`digits ['.' digits] ['e' digits]`. -/
theorem C21_counterexample :
    Next ".5".data = some (".5", token_type.number, []) ∧
      IsDigit (firstChar ".5") = false ∧ specNumberShape ".5".data = false ∧
      Next "1.+2".data = some ("1.", token_type.number, "+2".data) ∧
      specNumberShape "1.".data = false ∧
      Next ".".data = some (".", token_type.number, []) ∧
      specNumberShape ".".data = false ∧
      tokenize "f=.5+1." = ["f", "=", ".5", "+", "1."] := by
  decide

/-- C21, as the code has it.  Every token to which `Next` gives the type
`number` is a run, not empty, of digits and at most one `.`, followed by
nothing or by `e` and at least one digit: it starts with a digit or `.`, has
at most one `.`, and after an `e` come digits only, at least one.  The `.`
may be the first or the last character of the run. -/
theorem C21_number_token_shape (p : List Char) (tok : String) (rest : List Char)
    (h : Next p = some (tok, token_type.number, rest)) :
    numberShape tok.data = true ∧
      (IsDigit (firstChar tok) || firstChar tok == '.') = true ∧
      tok.data.count '.' ≤ 1 ∧
      isExponent (tok.data.dropWhile (fun c => IsDigit c || c == '.')) = true := by
  obtain ⟨c, m, x, htok, hc, hm, hcount, hx⟩ := Next_number p tok rest h
  obtain ⟨h1, h2⟩ := takeWhile_mantissa (c :: m) x hm hx
  have hxc : x.count '.' = 0 := by
    cases x with
    | nil => rfl
    | cons e ds =>
      simp only [isExponent, Bool.and_eq_true, beq_iff_eq, List.all_eq_true] at hx
      obtain ⟨⟨he, -⟩, hds⟩ := hx
      subst he
      rw [List.count_cons_of_ne (by decide), List.count_eq_zero]
      intro hmem
      exact digit_ne_dot _ (hds _ hmem) rfl
  refine ⟨?_, ?_, ?_, ?_⟩
  · simp only [numberShape]
    rw [htok, h1, h2]
    simp [hcount, hx]
  · simp only [firstChar, htok, List.cons_append, peek, List.headD_cons, hc]
  · rw [htok, List.count_append, hxc]
    exact hcount
  · rw [htok, h2]
    exact hx

/-- C21, at an input: in `12.5e3+x` the first token is the number `12.5e3`,
and it has the shape. -/
theorem C21_number_token_shape_witness :
    Next "12.5e3+x".data = some ("12.5e3", token_type.number, "+x".data) ∧
      numberShape "12.5e3".data = true ∧ "12.5e3".data.count '.' ≤ 1 := by
  have h : Next "12.5e3+x".data = some ("12.5e3", token_type.number, "+x".data) := by decide
  have := C21_number_token_shape _ _ _ h
  exact ⟨h, this.1, this.2.2.1⟩

/-! ## C22: the tokens of a text -/

section Partition

theorem skipSpace_filter :
    ∀ p : List Char,
      p.filter (fun c => decide (' '.toNat < c.toNat)) =
        (skipSpace p).filter (fun c => decide (' '.toNat < c.toNat)) ∧
      (skipSpace p).length ≤ p.length ∧
      ∀ c q, skipSpace p = c :: q → ' '.toNat < c.toNat
  | [] => ⟨rfl, le_refl _, fun c q h => by simp [skipSpace] at h⟩
  | c :: p => by
    by_cases hc : c.toNat ≤ ' '.toNat
    · obtain ⟨h1, h2, h3⟩ := skipSpace_filter p
      have hn : ¬ (' '.toNat < c.toNat) := by omega
      refine ⟨?_, ?_, ?_⟩
      · simp only [skipSpace, hc, ↓reduceIte, List.filter_cons, hn, decide_False,
          Bool.false_eq_true]
        exact h1
      · simp only [skipSpace, hc, ↓reduceIte, List.length_cons]
        omega
      · intro c' q h
        simp only [skipSpace, hc, ↓reduceIte] at h
        exact h3 c' q h
    · refine ⟨?_, ?_, ?_⟩
      · simp only [skipSpace, hc, ↓reduceIte]
      · simp only [skipSpace, hc, ↓reduceIte, le_refl]
      · intro c' q h
        simp only [skipSpace, hc, ↓reduceIte, List.cons.injEq] at h
        rw [← h.1]
        omega

theorem visible_name (c : Char) (h : (IsNameChar c || IsDigit c) = true) :
    ' '.toNat < c.toNat := by
  have hs : ' '.toNat = 32 := by decide
  have h0 : '0'.toNat = 48 := by decide
  have ha : 'a'.toNat = 97 := by decide
  have hA : 'A'.toNat = 65 := by decide
  simp only [IsNameChar, IsDigit, Bool.or_eq_true, Bool.and_eq_true, decide_eq_true_eq,
    beq_iff_eq] at h
  rcases h with ((h | h) | h) | h
  · omega
  · rw [h]; decide
  · omega
  · omega

theorem visible_number (c : Char) (h : (IsDigit c || c == '.' || c == 'e') = true) :
    ' '.toNat < c.toNat := by
  simp only [Bool.or_eq_true, beq_iff_eq] at h
  rcases h with (h | h) | h
  · exact visible_name c (by simp [h])
  · rw [h]; decide
  · rw [h]; decide

theorem measureName_take :
    ∀ r : List Char, (r.take (measureName r)).all (fun c => IsNameChar c || IsDigit c) = true
  | [] => rfl
  | c :: r => by
    by_cases h : (IsNameChar c || IsDigit c) = true
    · simp only [measureName, h, ↓reduceIte, List.take_succ_cons, List.all_cons, Bool.true_and]
      exact measureName_take r
    · simp [measureName, h]

theorem measureNumber_take :
    ∀ (r : List Char) (dec exps : Nat),
      (r.take (measureNumber r dec exps)).all (fun c => IsDigit c || c == '.' || c == 'e') = true
  | [], _, _ => rfl
  | c :: r, dec, exps => by
    by_cases h1 : IsDigit c = true
    · simp only [measureNumber, h1, ↓reduceIte, List.take_succ_cons, List.all_cons, Bool.true_or,
        Bool.true_and]
      exact measureNumber_take r dec exps
    · by_cases h2 : (c == '.' && dec == 0 && exps == 0) = true
      · have hc : (c == '.') = true := by
          simp only [Bool.and_eq_true] at h2; exact h2.1.1
        have e : measureNumber (c :: r) dec exps = measureNumber r (dec + 1) exps + 1 := by
          simp only [measureNumber, h1, Bool.false_eq_true, ↓reduceIte, h2]
        rw [e, List.take_succ_cons, List.all_cons, hc, Bool.or_true, Bool.true_or, Bool.true_and]
        exact measureNumber_take r (dec + 1) exps
      · by_cases h3 : (c == 'e' && IsDigit (peek r) && exps == 0) = true
        · have hc : (c == 'e') = true := by
            simp only [Bool.and_eq_true] at h3; exact h3.1.1
          have e : measureNumber (c :: r) dec exps = measureNumber r dec (exps + 1) + 1 := by
            simp only [measureNumber, h1, Bool.false_eq_true, ↓reduceIte, h2, h3]
          rw [e, List.take_succ_cons, List.all_cons, hc, Bool.or_true, Bool.true_and]
          exact measureNumber_take r dec (exps + 1)
        · simp [measureNumber, h1, h2, h3]

/-- The token `MeasureTokenLength` measures at a character above the space:
at least that character, and characters above the space only. -/
theorem MeasureTokenLength_take (c : Char) (r : List Char) (hc : ' '.toNat < c.toNat) :
    1 ≤ (MeasureTokenLength (c :: r)).1 ∧
      ((c :: r).take (MeasureTokenLength (c :: r)).1).all
        (fun c => decide (' '.toNat < c.toNat)) = true := by
  by_cases hn : IsNameChar c = true
  · refine ⟨by simp [MeasureTokenLength, hn], ?_⟩
    simp only [MeasureTokenLength, hn, ↓reduceIte, List.take_succ_cons, List.all_cons, hc,
      decide_True, Bool.true_and, List.all_eq_true, decide_eq_true_eq]
    intro x hx
    have := measureName_take r
    simp only [List.all_eq_true] at this
    exact visible_name x (this x hx)
  · by_cases hd : (IsDigit c || c == '.') = true
    · refine ⟨by simp [MeasureTokenLength, hn, hd], ?_⟩
      simp only [MeasureTokenLength, hn, Bool.false_eq_true, ↓reduceIte, hd, List.take_succ_cons,
        List.all_cons, hc, decide_True, Bool.true_and, List.all_eq_true, decide_eq_true_eq]
      intro x hx
      have := measureNumber_take r (if (c == '.') = true then 1 else 0) 0
      simp only [List.all_eq_true] at this
      exact visible_number x (this x hx)
    · refine ⟨by simp [MeasureTokenLength, hn, hd], ?_⟩
      have hc' : 32 < c.toNat := hc
      simp [MeasureTokenLength, hn, hd, hc']

theorem filter_all (l : List Char) (f : Char → Bool) (h : l.all f = true) : l.filter f = l := by
  rw [List.filter_eq_self]
  simpa [List.all_eq_true] using h

/-- What one call of `Next` does: nothing is left but bytes up to the space,
or it gives a token, not empty and of bytes above the space, and what the
text holds above the space is that token and what the rest holds. -/
theorem Next_spec (p : List Char) :
    (Next p = none ∧ p.filter (fun c => decide (' '.toNat < c.toNat)) = []) ∨
      ∃ tok ty rest, Next p = some (tok, ty, rest) ∧ tok.data ≠ [] ∧
        tok.data.all (fun c => decide (' '.toNat < c.toNat)) = true ∧
        p.filter (fun c => decide (' '.toNat < c.toNat)) =
          tok.data ++ rest.filter (fun c => decide (' '.toNat < c.toNat)) ∧
        rest.length < p.length := by
  obtain ⟨h1, h2, h3⟩ := skipSpace_filter p
  cases hq : skipSpace p with
  | nil =>
    left
    rw [hq] at h1
    exact ⟨by simp [Next, hq], h1⟩
  | cons c r =>
    right
    have hc := h3 c r hq
    obtain ⟨hm1, hm2⟩ := MeasureTokenLength_take c r hc
    rw [hq] at h1 h2
    refine ⟨String.mk ((c :: r).take (MeasureTokenLength (c :: r)).1),
      (MeasureTokenLength (c :: r)).2, (c :: r).drop (MeasureTokenLength (c :: r)).1,
      by simp [Next, hq], ?_, hm2, ?_, ?_⟩
    · intro h
      have := congrArg List.length h
      simp only [List.length_take, List.length_cons, List.length_nil] at this
      omega
    · rw [h1]
      conv_lhs => rw [← List.take_append_drop (MeasureTokenLength (c :: r)).1 (c :: r)]
      rw [List.filter_append, filter_all _ _ hm2]
    · simp only [List.length_drop]
      simp only [List.length_cons] at h2 ⊢
      omega

/-- The loop of `add`, given at least one iteration for each character: the
tokens it appends. -/
theorem tokenizeLoop_spec :
    ∀ (fuel : Nat) (p : List Char) (acc : List String), p.length ≤ fuel →
      ∃ T : List String, tokenizeLoop fuel p acc = acc ++ T ∧
        (∀ t ∈ T, t.data ≠ [] ∧ t.data.all (fun c => decide (' '.toNat < c.toNat)) = true) ∧
        (T.map String.data).flatten = p.filter (fun c => decide (' '.toNat < c.toNat)) ∧
        ∀ extra, tokenizeLoop (fuel + extra) p acc = acc ++ T
  | 0, p, acc, h => by
    have hp : p = [] := List.length_eq_zero.mp (by omega)
    subst hp
    refine ⟨[], by simp [tokenizeLoop], by simp, rfl, ?_⟩
    intro extra
    cases extra with
    | zero => simp [tokenizeLoop]
    | succ n => simp [tokenizeLoop, Next, skipSpace]
  | fuel + 1, p, acc, h => by
    rcases Next_spec p with ⟨hn, hf⟩ | ⟨tok, ty, rest, hn, hne, hall, hf, hlen⟩
    · refine ⟨[], by simp [tokenizeLoop, hn], by simp, by rw [hf]; rfl, ?_⟩
      intro extra
      rw [show fuel + 1 + extra = (fuel + extra) + 1 by omega]
      simp [tokenizeLoop, hn]
    · obtain ⟨T, hT, hprop, hjoin, hextra⟩ :=
        tokenizeLoop_spec fuel rest (acc ++ [tok]) (by omega)
      refine ⟨tok :: T, ?_, ?_, ?_, ?_⟩
      · simp only [tokenizeLoop, hn, hT, List.append_assoc, List.singleton_append]
      · intro t ht
        simp only [List.mem_cons] at ht
        rcases ht with ht | ht
        · rw [ht]; exact ⟨hne, hall⟩
        · exact hprop t ht
      · simp only [List.map_cons, List.flatten_cons, hjoin, hf]
      · intro extra
        rw [show fuel + 1 + extra = (fuel + extra) + 1 by omega]
        simp only [tokenizeLoop, hn, hextra extra, List.append_assoc, List.singleton_append]

end Partition

/-- C22. Tokenization.  For every text, the loop of `add` over `Next` ends
(more iterations than the text has characters give no more tokens), every
token is not empty and has no byte up to the space, and the tokens in their
order, put together, are the text (a C string: up to its first NUL) without
its bytes up to the space. -/
theorem C22_tokenization_partition (text : String) :
    (∀ t ∈ tokenize text, t.data ≠ [] ∧
      t.data.all (fun c => decide (' '.toNat < c.toNat)) = true) ∧
    ((tokenize text).map String.data).flatten =
      (text.data.takeWhile (fun c => c != Char.ofNat 0)).filter
        (fun c => decide (' '.toNat < c.toNat)) ∧
    (∀ extra,
      tokenizeLoop ((text.data.takeWhile (fun c => c != Char.ofNat 0)).length + extra)
        (text.data.takeWhile (fun c => c != Char.ofNat 0)) [] = tokenize text) ∧
    (∀ p : List Char, Next p = none ↔ p.all (fun c => decide (c.toNat ≤ ' '.toNat)) = true) := by
  obtain ⟨T, hT, hprop, hjoin, hextra⟩ :=
    tokenizeLoop_spec (text.data.takeWhile (fun c => c != Char.ofNat 0)).length
      (text.data.takeWhile (fun c => c != Char.ofNat 0)) [] (le_refl _)
  have ht : tokenize text = T := by
    simp only [tokenize, hT, List.nil_append]
  refine ⟨by rw [ht]; exact hprop, by rw [ht]; exact hjoin, ?_, ?_⟩
  · intro extra
    rw [ht, hextra extra, List.nil_append]
  · intro p
    constructor
    · intro hn
      rcases Next_spec p with ⟨-, hf⟩ | ⟨tok, ty, rest, hs, -⟩
      · rw [List.filter_eq_nil_iff] at hf
        simp only [List.all_eq_true, decide_eq_true_eq]
        intro c hc
        have := hf c hc
        simp only [decide_eq_true_eq] at this
        omega
      · rw [hn] at hs; cases hs
    · intro hall
      rcases Next_spec p with ⟨hn, -⟩ | ⟨tok, ty, rest, -, hne, hvis, hf, -⟩
      · exact hn
      · exfalso
        have hnil : p.filter (fun c => decide (' '.toNat < c.toNat)) = [] := by
          rw [List.filter_eq_nil_iff]
          intro c hc
          simp only [List.all_eq_true, decide_eq_true_eq] at hall
          have := hall c hc
          simp only [decide_eq_true_eq]
          omega
        rw [hnil] at hf
        cases htd : tok.data with
        | nil => exact hne htd
        | cons a b => rw [htd] at hf; cases hf

/-! ## C23: `ifzero` and `ifnegative` -/

section Conditionals
variable {α : Type} (A : DoubleOps α)

theorem ifzero_eval (a b c : α) :
    GFunctionBuiltIn.eval A ._ifzero [a, b, c] =
      .ok (if A.lt (A.libm .abs a) (A.lit (1 / 2)) = true then b else c) := by
  have e : GFunctionBuiltIn.eval A ._ifzero [a, b, c] =
      if A.lt (A.libm .abs a) (A.lit (1 / 2)) = true then .ok b else .ok c := rfl
  rw [e]
  split <;> rfl

theorem ifnegative_eval (a b c : α) :
    GFunctionBuiltIn.eval A ._ifnegative [a, b, c] =
      .ok (if A.lt a (A.lit 0) = true then b else c) := by
  have e : GFunctionBuiltIn.eval A ._ifnegative [a, b, c] =
      if A.lt a (A.lit 0) = true then .ok b else .ok c := rfl
  rw [e]
  split <;> rfl

/-- A call node throws what the evaluation of its children throws, whatever
function it calls. -/
theorem eval_call_children_error (depth : Nat) (P P1 : GFunctionParser α) (name : String)
    (pf : Option NodePtr) (cs cs' : List (GFunctionNode α)) (v : List α) (e : Ex)
    (hc : evalChildren (fun P c => GFunctionNode.eval A depth P c v) P cs = (.error e, cs', P1)) :
    (GFunctionNode.eval A (depth + 1) P (.GFunctionCall name pf cs) v).1 = .error e := by
  simp only [GFunctionNode.eval, hc]

/-- The loop over three children of which the first two return and the third
throws. -/
theorem evalChildren_third (ev : GFunctionParser α → GFunctionNode α → Outcome α α (GFunctionNode α))
    (P Pa Pb Pc : GFunctionParser α) (ca cb cc ca' cb' cc' : GFunctionNode α) (a b : α) (e : Ex)
    (ha : ev P ca = (.ok a, ca', Pa)) (hb : ev Pa cb = (.ok b, cb', Pb))
    (hc : ev Pb cc = (.error e, cc', Pc)) :
    evalChildren ev P [ca, cb, cc] = (.error e, [ca', cb', cc'], Pc) := by
  simp only [evalChildren, ha, hb, hc]

theorem scenario_conditionals :
    (extended A [] 0).add A "f(x)=ifzero(x,1,nosuch);g(x)=ifzero(x,1,2);h(x)=ifnegative(x,1,2)" =
      (.ok (), extended A
        [entry "f" (.GFunctionCall "ifzero" none [.GFunctionVariable 0,
          .GFunctionConstant (A.atof "1"), .GFunctionCall "nosuch" none []]) 1 29,
         entry "g" (.GFunctionCall "ifzero" none [.GFunctionVariable 0,
          .GFunctionConstant (A.atof "1"), .GFunctionConstant (A.atof "2")]) 1 30,
         entry "h" (.GFunctionCall "ifnegative" none [.GFunctionVariable 0,
          .GFunctionConstant (A.atof "1"), .GFunctionConstant (A.atof "2")]) 1 31] 3) := by
  rfl

theorem scenario_conditionals_call (x : α) (d : Nat) :
    let P := extended A
        [entry "f" (.GFunctionCall "ifzero" none [.GFunctionVariable 0,
          .GFunctionConstant (A.atof "1"), .GFunctionCall "nosuch" none []]) 1 29,
         entry "g" (.GFunctionCall "ifzero" none [.GFunctionVariable 0,
          .GFunctionConstant (A.atof "1"), .GFunctionConstant (A.atof "2")]) 1 30,
         entry "h" (.GFunctionCall "ifnegative" none [.GFunctionVariable 0,
          .GFunctionConstant (A.atof "1"), .GFunctionConstant (A.atof "2")]) 1 31] 3
    (P.call A (d + 3) "f" [x]).1 = .error (.noIdentifier "nosuch") ∧
      (P.call A (d + 3) "g" [x]).1 =
        GFunctionBuiltIn.eval A ._ifzero [x, A.atof "1", A.atof "2"] ∧
      (P.call A (d + 3) "h" [x]).1 =
        GFunctionBuiltIn.eval A ._ifnegative [x, A.atof "1", A.atof "2"] := by
  exact ⟨rfl, rfl, rfl⟩

end Conditionals

/-- C23. `ifzero` and `ifnegative`.  On `[a, b, c]` the built-in `_ifzero`
returns `b` when `|a| < 0.5` and `c` otherwise, and `_ifnegative` returns `b`
when `a < 0` and `c` otherwise; in exact arithmetic `ifzero(0.4, b, c) = b`,
`ifzero(0.5, b, c) = c` and `ifnegative(0, b, c) = c`.  A call node evaluates
all its children before it calls: when the third child throws, the node
throws, also when the first child has chosen the second.  On a new parser,
after `add("f(x)=ifzero(x,1,nosuch);g(x)=ifzero(x,1,2);h(x)=ifnegative(x,1,2)")`
the call of `f` throws "No identifier named nosuch" for every `x`, `g`
returns 1 at 0.4 and 2 at 0.5, and `h` returns 2 at 0. -/
theorem C23_ifzero_ifnegative :
    (∀ (α : Type) (A : DoubleOps α) (a b c : α),
      GFunctionBuiltIn.eval A ._ifzero [a, b, c] =
          .ok (if A.lt (A.libm .abs a) (A.lit (1 / 2)) = true then b else c) ∧
        GFunctionBuiltIn.eval A ._ifnegative [a, b, c] =
          .ok (if A.lt a (A.lit 0) = true then b else c)) ∧
    (∀ (T : Inexact) (a b c : ℚ),
      GFunctionBuiltIn.eval (exactOps T) ._ifzero [a, b, c] = .ok (if |a| < 1 / 2 then b else c) ∧
        GFunctionBuiltIn.eval (exactOps T) ._ifnegative [a, b, c] =
          .ok (if a < 0 then b else c) ∧
        GFunctionBuiltIn.eval (exactOps T) ._ifzero [2 / 5, b, c] = .ok b ∧
        GFunctionBuiltIn.eval (exactOps T) ._ifzero [1 / 2, b, c] = .ok c ∧
        GFunctionBuiltIn.eval (exactOps T) ._ifnegative [0, b, c] = .ok c) ∧
    (∀ (α : Type) (A : DoubleOps α) (depth : Nat) (P Pa Pb Pc : GFunctionParser α)
      (name : String) (pf : Option NodePtr) (ca cb cc ca' cb' cc' : GFunctionNode α)
      (v : List α) (a b : α) (e : Ex),
      GFunctionNode.eval A depth P ca v = (.ok a, ca', Pa) →
      GFunctionNode.eval A depth Pa cb v = (.ok b, cb', Pb) →
      GFunctionNode.eval A depth Pb cc v = (.error e, cc', Pc) →
      (GFunctionNode.eval A (depth + 1) P (.GFunctionCall name pf [ca, cb, cc]) v).1 =
        .error e) ∧
    (∀ (α : Type) (A : DoubleOps α) (x : α) (d : Nat),
      (((GFunctionParser.ctor A false).add A
        "f(x)=ifzero(x,1,nosuch);g(x)=ifzero(x,1,2);h(x)=ifnegative(x,1,2)").2.call A (d + 3)
          "f" [x]).1 = .error (.noIdentifier "nosuch")) ∧
    (∀ (T : Inexact) (d : Nat),
      let S := ((GFunctionParser.ctor (exactOps T) false).add (exactOps T)
        "f(x)=ifzero(x,1,nosuch);g(x)=ifzero(x,1,2);h(x)=ifnegative(x,1,2)").2
      (S.call (exactOps T) (d + 3) "g" [atofExact "0.4"]).1 = .ok 1 ∧
        (S.call (exactOps T) (d + 3) "g" [atofExact "0.5"]).1 = .ok 2 ∧
        (S.call (exactOps T) (d + 3) "h" [0]).1 = .ok 2) := by
  have exact0 : ∀ (T : Inexact) (a b c : ℚ),
      GFunctionBuiltIn.eval (exactOps T) ._ifzero [a, b, c] = .ok (if |a| < 1 / 2 then b else c) ∧
        GFunctionBuiltIn.eval (exactOps T) ._ifnegative [a, b, c] =
          .ok (if a < 0 then b else c) := by
    intro T a b c
    rw [ifzero_eval, ifnegative_eval]
    simp only [exactOps, decide_eq_true_eq]
    exact ⟨trivial, trivial⟩
  refine ⟨?_, ?_, ?_, ?_, ?_⟩
  · intro α A a b c
    exact ⟨ifzero_eval A a b c, ifnegative_eval A a b c⟩
  · intro T a b c
    refine ⟨(exact0 T a b c).1, (exact0 T a b c).2, ?_, ?_, ?_⟩
    · rw [(exact0 T _ b c).1, if_pos (by norm_num [abs_of_nonneg])]
    · rw [(exact0 T _ b c).1, if_neg (by norm_num [abs_of_nonneg])]
    · rw [(exact0 T _ b c).2, if_neg (by norm_num)]
  · intro α A depth P Pa Pb Pc name pf ca cb cc ca' cb' cc' v a b e ha hb hc
    exact eval_call_children_error A depth P Pc name pf _ _ v e
      (evalChildren_third _ P Pa Pb Pc ca cb cc ca' cb' cc' a b e ha hb hc)
  · intro α A x d
    simp only [ctor_posix, scenario_conditionals]
    exact (scenario_conditionals_call A x d).1
  · intro T d
    simp only [ctor_posix, scenario_conditionals]
    have h04 : atofExact "0.4" = 2 / 5 := by decide!
    have h05 : atofExact "0.5" = 1 / 2 := by decide!
    have e1 : (exactOps T).atof "1" = 1 := atof_1
    have e2 : (exactOps T).atof "2" = 2 := atof_2
    refine ⟨?_, ?_, ?_⟩
    · rw [(scenario_conditionals_call (exactOps T) _ d).2.1, h04, e1, e2,
        (exact0 T _ _ _).1, if_pos (by norm_num [abs_of_nonneg])]
    · rw [(scenario_conditionals_call (exactOps T) _ d).2.1, h05, e1, e2,
        (exact0 T _ _ _).1, if_neg (by norm_num [abs_of_nonneg])]
    · rw [(scenario_conditionals_call (exactOps T) _ d).2.2, e1, e2,
        (exact0 T _ _ _).2, if_neg (by norm_num)]

/-- C23, at an input: in exact arithmetic on a new parser, the node
`ifzero(v[0], 1, nosuch)` under `[0]`: the first two children return 0 and 1,
the third throws, and the node throws the same. -/
theorem C23_ifzero_ifnegative_witness :
    let E := exactOps noInexact
    let P : GFunctionParser ℚ := extended E [] 0
    (GFunctionNode.eval E 2 P (.GFunctionCall "nosuch" none []) [0]).1 =
        .error (.noIdentifier "nosuch") ∧
      (GFunctionNode.eval E 3 P (.GFunctionCall "ifzero" none
        [.GFunctionVariable 0, .GFunctionConstant 1, .GFunctionCall "nosuch" none []]) [0]).1 =
        .error (.noIdentifier "nosuch") := by
  intro E P
  exact ⟨rfl, C23_ifzero_ifnegative.2.2.1 ℚ E 2 P P P P "ifzero" none _ _ _ _ _ _ [0] 0 1 _
    rfl rfl rfl⟩

/-! ## C24: `max` and `min` -/

theorem foldParams_eq_foldl {α : Type} (f : α → α → α) (d : α) (xs : List α) :
    foldParams f d xs = List.foldl f d xs := by
  induction xs generalizing d with
  | nil => rfl
  | cons x xs ih => simp only [foldParams, List.foldl_cons, ih]

theorem max_exact {α : Type} [LinearOrder α] (A : DoubleOps α)
    (hlt : ∀ a b, A.lt a b = decide (a < b)) (a b : α) : A.max a b = Max.max a b := by
  simp only [DoubleOps.max, hlt, decide_eq_true_eq]
  split
  · rename_i h
    exact (max_eq_right (le_of_lt h)).symm
  · rename_i h
    exact (max_eq_left (not_lt.mp h)).symm

theorem min_exact {α : Type} [LinearOrder α] (A : DoubleOps α)
    (hlt : ∀ a b, A.lt a b = decide (a < b)) (a b : α) : A.min a b = Min.min a b := by
  simp only [DoubleOps.min, hlt, decide_eq_true_eq]
  split
  · rename_i h
    exact (min_eq_right (le_of_lt h)).symm
  · rename_i h
    exact (min_eq_left (not_lt.mp h)).symm

theorem foldl_max_spec {α : Type} [LinearOrder α] (d : α) (xs : List α) :
    List.foldl Max.max d xs ∈ d :: xs ∧ ∀ x ∈ d :: xs, x ≤ List.foldl Max.max d xs := by
  induction xs generalizing d with
  | nil => simp
  | cons y ys ih =>
    rw [List.foldl_cons]
    obtain ⟨hm, hu⟩ := ih (Max.max d y)
    refine ⟨?_, ?_⟩
    · rcases List.mem_cons.mp hm with h | h
      · rw [h]
        rcases max_choice d y with h2 | h2
        · rw [h2]; exact List.mem_cons_self _ _
        · rw [h2]; exact List.mem_cons_of_mem _ (List.mem_cons_self _ _)
      · exact List.mem_cons_of_mem _ (List.mem_cons_of_mem _ h)
    · intro x hx
      rcases List.mem_cons.mp hx with h | h
      · rw [h]
        exact le_trans (le_max_left d y) (hu _ (List.mem_cons_self _ _))
      · rcases List.mem_cons.mp h with h3 | h3
        · rw [h3]
          exact le_trans (le_max_right d y) (hu _ (List.mem_cons_self _ _))
        · exact hu _ (List.mem_cons_of_mem _ h3)

theorem foldl_min_spec {α : Type} [LinearOrder α] (d : α) (xs : List α) :
    List.foldl Min.min d xs ∈ d :: xs ∧ ∀ x ∈ d :: xs, List.foldl Min.min d xs ≤ x := by
  induction xs generalizing d with
  | nil => simp
  | cons y ys ih =>
    rw [List.foldl_cons]
    obtain ⟨hm, hu⟩ := ih (Min.min d y)
    refine ⟨?_, ?_⟩
    · rcases List.mem_cons.mp hm with h | h
      · rw [h]
        rcases min_choice d y with h2 | h2
        · rw [h2]; exact List.mem_cons_self _ _
        · rw [h2]; exact List.mem_cons_of_mem _ (List.mem_cons_self _ _)
      · exact List.mem_cons_of_mem _ (List.mem_cons_of_mem _ h)
    · intro x hx
      rcases List.mem_cons.mp hx with h | h
      · rw [h]
        exact le_trans (hu _ (List.mem_cons_self _ _)) (min_le_left d y)
      · rcases List.mem_cons.mp h with h3 | h3
        · rw [h3]
          exact le_trans (hu _ (List.mem_cons_self _ _)) (min_le_right d y)
        · exact hu _ (List.mem_cons_of_mem _ h3)

/-- C24. `max` and `min`.  On every non-empty argument vector `d :: rest`,
whatever the values and whatever `<` does on them, the built-in `_max`
returns the left-to-right fold of `std::max` over `rest` starting from `d`,
and `_min` the same fold of `std::min`, where `std::max(a, b)` is
`a < b ? b : a` and `std::min(a, b)` is `b < a ? b : a`; on a one-element
vector both return that element, and on `[a, b, c]` they return
`max(max(a, b), c)` and `min(min(a, b), c)`.  The fold starts from the first
argument: of two values neither of which is `<` the other (a NaN and a
number) both return the first.  Where the values are totally ordered and
`<` of the doubles is the strict order, the result of `_max` is an element
of the vector that is `≥` every element, and the result of `_min` is an
element that is `≤` every element. -/
theorem C24_max_min_fold :
    (∀ (α : Type) (A : DoubleOps α) (d : α) (rest : List α),
      GFunctionBuiltIn.eval A ._max (d :: rest) = .ok (List.foldl A.max d rest) ∧
      GFunctionBuiltIn.eval A ._min (d :: rest) = .ok (List.foldl A.min d rest) ∧
      GFunctionBuiltIn.eval A ._max [d] = .ok d ∧
      GFunctionBuiltIn.eval A ._min [d] = .ok d) ∧
    (∀ (α : Type) (A : DoubleOps α) (a b : α),
      A.max a b = (if A.lt a b then b else a) ∧ A.min a b = (if A.lt b a then b else a)) ∧
    (∀ (α : Type) (A : DoubleOps α) (a b c : α),
      GFunctionBuiltIn.eval A ._max [a, b, c] = .ok (A.max (A.max a b) c) ∧
      GFunctionBuiltIn.eval A ._min [a, b, c] = .ok (A.min (A.min a b) c)) ∧
    (∀ (α : Type) (A : DoubleOps α) (a b : α), A.lt a b = false → A.lt b a = false →
      GFunctionBuiltIn.eval A ._max [a, b] = .ok a ∧
      GFunctionBuiltIn.eval A ._max [b, a] = .ok b ∧
      GFunctionBuiltIn.eval A ._min [a, b] = .ok a ∧
      GFunctionBuiltIn.eval A ._min [b, a] = .ok b) ∧
    (∀ (α : Type) [LinearOrder α] (A : DoubleOps α), (∀ a b, A.lt a b = decide (a < b)) →
      ∀ (d : α) (rest : List α),
      (∃ m, GFunctionBuiltIn.eval A ._max (d :: rest) = .ok m ∧ m ∈ d :: rest ∧
        ∀ x ∈ d :: rest, x ≤ m) ∧
      (∃ m, GFunctionBuiltIn.eval A ._min (d :: rest) = .ok m ∧ m ∈ d :: rest ∧
        ∀ x ∈ d :: rest, m ≤ x)) := by
  have emax : ∀ (α : Type) (A : DoubleOps α) (d : α) (rest : List α),
      GFunctionBuiltIn.eval A ._max (d :: rest) = .ok (List.foldl A.max d rest) := by
    intro α A d rest
    rw [← foldParams_eq_foldl]
    rfl
  have emin : ∀ (α : Type) (A : DoubleOps α) (d : α) (rest : List α),
      GFunctionBuiltIn.eval A ._min (d :: rest) = .ok (List.foldl A.min d rest) := by
    intro α A d rest
    rw [← foldParams_eq_foldl]
    rfl
  refine ⟨fun α A d rest => ⟨emax α A d rest, emin α A d rest, rfl, rfl⟩,
    fun α A a b => ⟨rfl, rfl⟩, fun α A a b c => ⟨rfl, rfl⟩, ?_, ?_⟩
  · intro α A a b hab hba
    rw [emax, emax, emin, emin]
    simp only [List.foldl_cons, List.foldl_nil, DoubleOps.max, DoubleOps.min, hab, hba,
      Bool.false_eq_true, ↓reduceIte, and_self]
  · intro α _ A hlt d rest
    have fmax : A.max = Max.max := by
      funext a b
      exact max_exact A hlt a b
    have fmin : A.min = Min.min := by
      funext a b
      exact min_exact A hlt a b
    refine ⟨⟨_, emax α A d rest, ?_⟩, ⟨_, emin α A d rest, ?_⟩⟩
    · rw [fmax]
      exact foldl_max_spec d rest
    · rw [fmin]
      exact foldl_min_spec d rest

/-- C24, at an input: in exact arithmetic `max(3, 1, 7, 2) = 7` and
`min(3, 1, 7, 2) = 1`, and 7 is an element of the vector that is `≥` every
element. -/
theorem C24_max_min_fold_witness :
    GFunctionBuiltIn.eval (exactOps noInexact) ._max [3, 1, 7, 2] = .ok 7 ∧
      GFunctionBuiltIn.eval (exactOps noInexact) ._min [3, 1, 7, 2] = .ok 1 ∧
      (∃ m, GFunctionBuiltIn.eval (exactOps noInexact) ._max [3, 1, 7, 2] = .ok m ∧
        m ∈ [(3 : ℚ), 1, 7, 2] ∧ ∀ x ∈ [(3 : ℚ), 1, 7, 2], x ≤ m) := by
  have h := C24_max_min_fold.1 ℚ (exactOps noInexact) 3 [1, 7, 2]
  have h5 := (C24_max_min_fold.2.2.2.2 ℚ (exactOps noInexact) (fun _ _ => rfl) 3 [1, 7, 2]).1
  refine ⟨?_, ?_, h5⟩
  · rw [h.1]
    decide!
  · rw [h.2.1]
    decide!

/-! ## C25: the operator search and its reference definition -/

theorem nestingBefore_succ (tokens : List String) (start i : Nat) :
    nestingBefore tokens start (i + 1) =
      nestingBefore tokens start i +
        (if tokenAt tokens (start + i) == "(" then 1
         else if tokenAt tokens (start + i) == ")" then -1 else 0) := by
  simp only [nestingBefore, List.range_succ, List.filter_append, List.length_append,
    List.filter_cons, List.filter_nil]
  by_cases h1 : tokenAt tokens (start + i) = "("
  · have h2 : ¬ tokenAt tokens (start + i) = ")" := by rw [h1]; decide
    simp only [h1, h2, beq_self_eq_true, ↓reduceIte, List.length_cons, List.length_nil,
      beq_iff_eq]
    push_cast
    have : ("(" = ")") = False := by decide
    simp only [this, ↓reduceIte, List.length_nil]
    push_cast
    omega
  · by_cases h2 : tokenAt tokens (start + i) = ")"
    · simp only [h1, h2, beq_self_eq_true, ↓reduceIte, List.length_cons, List.length_nil,
        beq_iff_eq]
      have : (")" = "(") = False := by decide
      simp only [this, ↓reduceIte, List.length_nil]
      push_cast
      omega
    · simp only [h1, h2, beq_iff_eq, ↓reduceIte, List.length_nil]
      push_cast
      omega

theorem depthZeroSymbols_succ (tokens : List String) (start i : Nat) :
    depthZeroSymbols tokens start (i + 1) =
      depthZeroSymbols tokens start i ++
        (if (nestingBefore tokens start i == 0 && isSymbolToken (tokenAt tokens (start + i))) = true
          then [i] else []) := by
  simp only [depthZeroSymbols, List.range_succ, List.filter_append, List.filter_cons,
    List.filter_nil]

theorem depthZeroSymbols_prefix (tokens : List String) (start i : Nat) :
    ∀ n, ∃ T, depthZeroSymbols tokens start (i + n) = depthZeroSymbols tokens start i ++ T
  | 0 => ⟨[], by simp⟩
  | n + 1 => by
    obtain ⟨T, hT⟩ := depthZeroSymbols_prefix tokens start i n
    refine ⟨T ++ (if (nestingBefore tokens start (i + n) == 0 &&
      isSymbolToken (tokenAt tokens (start + (i + n)))) = true then [i + n] else []), ?_⟩
    rw [← Nat.add_assoc, depthZeroSymbols_succ, hT, List.append_assoc]

theorem rightmostLowest_single (lv : Nat → Int) (k : Nat) :
    rightmostLowest lv [k] = some k := by
  simp [rightmostLowest]

theorem rightmostLowest_mem (lv : Nat → Int) (S : List Nat) (p : Nat)
    (h : rightmostLowest lv S = some p) : p ∈ S ∧ ∀ j ∈ S, lv p ≤ lv j := by
  have hm := List.mem_of_getLast?_eq_some h
  simp only [List.mem_filter, List.all_eq_true, decide_eq_true_eq] at hm
  exact hm

theorem rightmostLowest_snoc (lv : Nat → Int) (S : List Nat) (p k : Nat)
    (h : rightmostLowest lv S = some p) :
    rightmostLowest lv (S ++ [k]) = some (if lv k ≤ lv p then k else p) := by
  obtain ⟨hp, hmin⟩ := rightmostLowest_mem lv S p h
  by_cases hk : lv k ≤ lv p
  · have hq : (S ++ [k]).all (fun j => decide (lv k ≤ lv j)) = true := by
      simp only [List.all_eq_true, List.mem_append, List.mem_singleton, decide_eq_true_eq]
      rintro j (hj | hj)
      · exact le_trans hk (hmin j hj)
      · rw [hj]
    simp only [rightmostLowest, List.filter_append, List.filter_cons, List.filter_nil, hq,
      ↓reduceIte, hk]
    exact List.getLast?_concat _
  · have hq : (S ++ [k]).all (fun j => decide (lv k ≤ lv j)) = false := by
      rw [Bool.eq_false_iff]
      intro hall
      simp only [List.all_eq_true, List.mem_append, List.mem_singleton, decide_eq_true_eq] at hall
      exact hk (hall p (Or.inl hp))
    have hf : S.filter (fun i => (S ++ [k]).all (fun j => decide (lv i ≤ lv j))) =
        S.filter (fun i => S.all (fun j => decide (lv i ≤ lv j))) := by
      apply List.filter_congr
      intro i _
      by_cases hi : S.all (fun j => decide (lv i ≤ lv j)) = true
      · have hip : lv i ≤ lv p := by
          simp only [List.all_eq_true, decide_eq_true_eq] at hi
          exact hi p hp
        have hik : lv i ≤ lv k := by omega
        simp only [List.all_append, hi, List.all_cons, hik, decide_True, List.all_nil,
          Bool.and_self]
      · simp only [List.all_append, hi, Bool.false_and]
    simp only [rightmostLowest, List.filter_append, List.filter_cons, List.filter_nil, hq,
      Bool.false_eq_true, ↓reduceIte, hk, List.append_nil, hf]
    exact h

theorem rightmostLowest_isSome (lv : Nat → Int) (S : List Nat) (h : S ≠ []) :
    ∃ p, rightmostLowest lv S = some p := by
  induction S using List.reverseRecOn with
  | nil => exact absurd rfl h
  | append_singleton S k ih =>
    by_cases hS : S = []
    · subst hS
      exact ⟨k, rightmostLowest_single lv k⟩
    · obtain ⟨p, hp⟩ := ih hS
      exact ⟨_, rightmostLowest_snoc lv S p k hp⟩

/-- The reference definition on a window whose depth-0 symbols are all
operators. -/
theorem findOperatorReference_ok (tokens : List String) (start count : Nat)
    (hall : ∀ j ∈ depthZeroSymbols tokens start count,
      (operatorLevel tokens start j).isSome = true) :
    findOperatorReference tokens start count =
      match rightmostLowest (fun i => (operatorLevel tokens start i).getD 0)
          (depthZeroSymbols tokens start count) with
      | some i => .ok ((start + i : Nat) : Int)
      | none => .ok (-1) := by
  have hf : (depthZeroSymbols tokens start count).find?
      (fun i => (operatorLevel tokens start i).isNone) = none := by
    rw [List.find?_eq_none]
    intro j hj
    have := hall j hj
    cases h : operatorLevel tokens start j with
    | none => rw [h] at this; cases this
    | some l => simp
  simp only [findOperatorReference, hf]

/-- The reference definition on a window with a depth-0 symbol that is not an
operator: the first of them is the error. -/
theorem findOperatorReference_error (tokens : List String) (start count k : Nat)
    (S T : List Nat) (hS : depthZeroSymbols tokens start count = S ++ k :: T)
    (hall : ∀ j ∈ S, (operatorLevel tokens start j).isSome = true)
    (hk : operatorLevel tokens start k = none) :
    findOperatorReference tokens start count =
      .error (.unrecognizedOperator (firstChar (tokenAt tokens (start + k)))) := by
  have hf : (depthZeroSymbols tokens start count).find?
      (fun i => (operatorLevel tokens start i).isNone) = some k := by
    rw [hS, List.find?_append]
    have h1 : S.find? (fun i => (operatorLevel tokens start i).isNone) = none := by
      rw [List.find?_eq_none]
      intro j hj
      have := hall j hj
      cases h : operatorLevel tokens start j with
      | none => rw [h] at this; cases this
      | some l => simp
    rw [h1, List.find?_cons]
    simp [hk]
  simp only [findOperatorReference, hf]

/-- One more operator for what the scan has found. -/
theorem found_step (tokens : List String) (start i : Nat) (priority token l : Int)
    (hl : operatorLevel tokens start i = some l) (hl100 : l ≤ 100)
    (hinv : (depthZeroSymbols tokens start i = [] ∧ priority = 100 ∧ token = -1) ∨
      ∃ p, rightmostLowest (fun i => (operatorLevel tokens start i).getD 0)
          (depthZeroSymbols tokens start i) = some p ∧
        token = ((start + p : Nat) : Int) ∧ operatorLevel tokens start p = some priority) :
    ∃ p, rightmostLowest (fun i => (operatorLevel tokens start i).getD 0)
        (depthZeroSymbols tokens start i ++ [i]) = some p ∧
      (if priority ≥ l then ((start + i : Nat) : Int) else token) = ((start + p : Nat) : Int) ∧
      operatorLevel tokens start p = some (if priority ≥ l then l else priority) := by
  rcases hinv with ⟨hS, hp, -⟩ | ⟨p, hp, ht, hlp⟩
  · refine ⟨i, ?_, ?_, ?_⟩
    · rw [hS, List.nil_append]
      exact rightmostLowest_single _ i
    · rw [if_pos (by omega)]
    · rw [if_pos (by omega)]
      exact hl
  · have hsnoc := rightmostLowest_snoc (fun i => (operatorLevel tokens start i).getD 0)
      (depthZeroSymbols tokens start i) p i hp
    simp only [hl, hlp, Option.getD_some] at hsnoc
    by_cases hc : priority ≥ l
    · have hc' : l ≤ priority := hc
      rw [if_pos hc'] at hsnoc
      exact ⟨i, hsnoc, by rw [if_pos hc], by rw [if_pos hc]; exact hl⟩
    · have hc' : ¬ l ≤ priority := hc
      rw [if_neg hc'] at hsnoc
      exact ⟨p, hsnoc, by rw [if_neg hc]; exact ht, by rw [if_neg hc]; exact hlp⟩

/-- The loop of the operator search, entered after `i` tokens with what the
reference definition finds among them, ends in what the reference definition
finds in the whole window. -/
theorem findOperatorLoop_reference (tokens : List String) (start : Nat) :
    ∀ (n i : Nat) (priority token : Int),
      (∀ j ∈ depthZeroSymbols tokens start i, (operatorLevel tokens start j).isSome = true) →
      ((depthZeroSymbols tokens start i = [] ∧ priority = 100 ∧ token = -1) ∨
        ∃ p, rightmostLowest (fun i => (operatorLevel tokens start i).getD 0)
            (depthZeroSymbols tokens start i) = some p ∧
          token = ((start + p : Nat) : Int) ∧ operatorLevel tokens start p = some priority) →
      findOperatorLoop tokens start n i priority token (nestingBefore tokens start i) =
        findOperatorReference tokens start (i + n)
  | 0, i, priority, token, hall, hinv => by
    rw [Nat.add_zero, findOperatorReference_ok tokens start i hall]
    rcases hinv with ⟨hS, -, ht⟩ | ⟨p, hp, ht, -⟩
    · rw [hS, ht]
      rfl
    · rw [hp, ht]
      rfl
  | n + 1, i, priority, token, hall, hinv => by
    have hn := nestingBefore_succ tokens start i
    have hs := depthZeroSymbols_succ tokens start i
    have hadd : i + (n + 1) = (i + 1) + n := by omega
    rw [hadd]
    -- the iterations that find nothing
    have skip : isSymbolToken (tokenAt tokens (start + i)) = false ∨
        (nestingBefore tokens start i == 0) = false →
        ∀ nests, nests = nestingBefore tokens start (i + 1) →
        findOperatorLoop tokens start n (i + 1) priority token nests =
          findOperatorReference tokens start (i + 1 + n) := by
      intro hsym nests hnests
      have hs' : depthZeroSymbols tokens start (i + 1) = depthZeroSymbols tokens start i := by
        rw [hs]
        rcases hsym with h | h <;> simp [h]
      rw [hnests]
      exact findOperatorLoop_reference tokens start n (i + 1) priority token
        (by rw [hs']; exact hall) (by rw [hs']; exact hinv)
    simp only [findOperatorLoop]
    by_cases h1 : (tokenAt tokens (start + i) == "(") = true
    · simp only [h1, ↓reduceIte] at hn ⊢
      have h1e : tokenAt tokens (start + i) = "(" := by simpa using h1
      exact skip (Or.inl (by simp [isSymbolToken, h1e])) _ hn.symm
    simp only [h1, Bool.false_eq_true, ↓reduceIte] at hn ⊢
    by_cases h2 : (tokenAt tokens (start + i) == ")") = true
    · have hi : ¬ ((i : Int) < 0) := by omega
      simp only [h2, ↓reduceIte, hi] at hn ⊢
      have h2e : tokenAt tokens (start + i) = ")" := by simpa using h2
      exact skip (Or.inl (by simp [isSymbolToken, h2e])) _ (by rw [hn]; rfl)
    simp only [h2, Bool.false_eq_true, ↓reduceIte, Int.add_zero] at hn ⊢
    by_cases h3 : (nestingBefore tokens start i == 0) = true
    swap
    · simp only [h3, Bool.false_eq_true, ↓reduceIte]
      exact skip (Or.inr (by simpa using h3)) _ hn.symm
    simp only [h3, ↓reduceIte]
    by_cases h4 : IsNameChar (firstChar (tokenAt tokens (start + i))) = true
    · simp only [h4, ↓reduceIte]
      exact skip (Or.inl (by simp [isSymbolToken, h4])) _ hn.symm
    simp only [h4, Bool.false_eq_true, ↓reduceIte]
    by_cases h5 : (IsDigit (firstChar (tokenAt tokens (start + i))) ||
        firstChar (tokenAt tokens (start + i)) == '.') = true
    · simp only [h5, ↓reduceIte]
      refine skip (Or.inl ?_) _ hn.symm
      simp only [Bool.or_eq_true, beq_iff_eq] at h5
      rcases h5 with h5 | h5 <;> simp [isSymbolToken, h5]
    simp only [h5, Bool.false_eq_true, ↓reduceIte]
    -- a symbol token at depth 0
    have hsym : isSymbolToken (tokenAt tokens (start + i)) = true := by
      simp only [Bool.or_eq_true, beq_iff_eq, not_or] at h5
      simp only [beq_iff_eq] at h1 h2
      simp [isSymbolToken, h1, h2, h4, h5.1, h5.2]
    have hs' : depthZeroSymbols tokens start (i + 1) = depthZeroSymbols tokens start i ++ [i] := by
      rw [hs]
      simp [h3, hsym]
    have key : ∀ l : Int, operatorLevel tokens start i = some l → l ≤ 100 →
        (if priority ≥ l then
          findOperatorLoop tokens start n (i + 1) l ((start + i : Nat) : Int)
            (nestingBefore tokens start i)
        else findOperatorLoop tokens start n (i + 1) priority token
            (nestingBefore tokens start i)) =
          findOperatorReference tokens start (i + 1 + n) := by
      intro l hl hl100
      obtain ⟨p, hp1, hp2, hp3⟩ := found_step tokens start i priority token l hl hl100 hinv
      have hall' : ∀ j ∈ depthZeroSymbols tokens start (i + 1),
          (operatorLevel tokens start j).isSome = true := by
        rw [hs']
        intro j hj
        rcases List.mem_append.mp hj with hj | hj
        · exact hall j hj
        · rw [List.mem_singleton.mp hj, hl]
          rfl
      have := findOperatorLoop_reference tokens start n (i + 1)
        (if priority ≥ l then l else priority)
        (if priority ≥ l then ((start + i : Nat) : Int) else token) hall'
        (Or.inr ⟨p, by rw [hs']; exact hp1, hp2, hp3⟩)
      rw [← this, hn]
      split <;> rfl
    by_cases hu : isUnaryMinus tokens start i = true
    · have hl : operatorLevel tokens start i = some 16 := by
        simp only [operatorLevel, hu, ↓reduceIte]
      simp only [isUnaryMinus] at hu
      simp only [hu, ↓reduceIte]
      exact key 16 hl (by norm_num)
    have hu' := hu
    simp only [isUnaryMinus] at hu'
    simp only [hu', ↓reduceIte]
    by_cases h6 : (firstChar (tokenAt tokens (start + i)) == '^') = true
    · have hl : operatorLevel tokens start i = some 12 := by
        simp only [operatorLevel, hu, Bool.false_eq_true, ↓reduceIte, h6]
      simp only [h6, ↓reduceIte]
      exact key 12 hl (by norm_num)
    simp only [h6, Bool.false_eq_true, ↓reduceIte]
    by_cases h7 : (firstChar (tokenAt tokens (start + i)) == '*' ||
        firstChar (tokenAt tokens (start + i)) == '/' ||
        firstChar (tokenAt tokens (start + i)) == '%') = true
    · have hl : operatorLevel tokens start i = some 8 := by
        simp only [operatorLevel, hu, Bool.false_eq_true, ↓reduceIte, h6, h7]
      simp only [h7, ↓reduceIte]
      exact key 8 hl (by norm_num)
    simp only [h7, Bool.false_eq_true, ↓reduceIte]
    by_cases h8 : (firstChar (tokenAt tokens (start + i)) == '+' ||
        firstChar (tokenAt tokens (start + i)) == '-') = true
    · have hl : operatorLevel tokens start i = some 4 := by
        simp only [operatorLevel, hu, Bool.false_eq_true, ↓reduceIte, h6, h7, h8]
      simp only [h8, ↓reduceIte]
      exact key 4 hl (by norm_num)
    simp only [h8, Bool.false_eq_true, ↓reduceIte]
    have hl : operatorLevel tokens start i = none := by
      simp only [operatorLevel, hu, Bool.false_eq_true, ↓reduceIte, h6, h7, h8]
    obtain ⟨T, hT⟩ := depthZeroSymbols_prefix tokens start (i + 1) n
    rw [hs', List.append_assoc] at hT
    exact (findOperatorReference_error tokens start (i + 1 + n) i _ _ hT hall hl).symm

theorem findOperator_reference (tokens : List String) (start count : Nat) :
    findOperatorWithLowestPrecidence tokens start count =
      findOperatorReference tokens start count := by
  have := findOperatorLoop_reference tokens start count 0 100 (-1)
    (by intro j hj; simp [depthZeroSymbols] at hj)
    (Or.inl ⟨by simp [depthZeroSymbols], rfl, rfl⟩)
  rw [Nat.zero_add] at this
  rw [← this]
  simp [findOperatorWithLowestPrecidence, nestingBefore]

theorem depthZeroSymbols_pairwise (tokens : List String) (start count : Nat) :
    (depthZeroSymbols tokens start count).Pairwise (fun a b => a < b) :=
  List.Pairwise.filter _ (List.pairwise_lt_range count)

theorem getLast_of_pairwise (l : List Nat) (p : Nat) (hl : l.Pairwise (fun a b => a < b))
    (h : l.getLast? = some p) : ∀ x ∈ l, x ≤ p := by
  obtain ⟨ys, rfl⟩ := List.getLast?_eq_some_iff.mp h
  intro x hx
  rcases List.mem_append.mp hx with hx | hx
  · exact le_of_lt ((List.pairwise_append.mp hl).2.2 x hx p (List.mem_singleton_self p))
  · rw [List.mem_singleton.mp hx]

/-- The position `rightmostLowest` picks in an ascending list: no position to
its right has a level as low. -/
theorem rightmostLowest_right (lv : Nat → Int) (S : List Nat) (p : Nat)
    (hS : S.Pairwise (fun a b => a < b)) (h : rightmostLowest lv S = some p) :
    ∀ j ∈ S, p < j → lv p < lv j := by
  intro j hj hpj
  by_contra hlt
  obtain ⟨-, hmin⟩ := rightmostLowest_mem lv S p h
  have hjmin : j ∈ S.filter (fun i => S.all (fun j => decide (lv i ≤ lv j))) := by
    simp only [List.mem_filter, List.all_eq_true, decide_eq_true_eq]
    refine ⟨hj, fun x hx => ?_⟩
    have := hmin x hx
    omega
  have := getLast_of_pairwise _ p (List.Pairwise.filter _ hS) h j hjmin
  omega

theorem mem_split_of_pairwise (S : List Nat) (k : Nat) (hS : S.Pairwise (fun a b => a < b))
    (hk : k ∈ S) : ∃ S1 T, S = S1 ++ k :: T ∧ ∀ a ∈ S1, a < k := by
  obtain ⟨S1, T, rfl⟩ := List.append_of_mem hk
  exact ⟨S1, T, rfl, fun a ha => (List.pairwise_append.mp hS).2.2 a ha k (List.mem_cons_self _ _)⟩

/-- C25. The operator search and its reference definition.  For every token
vector and window, `findOperatorWithLowestPrecidence` returns what the
reference definition `findOperatorReference` returns.  In words, with the
depth-0 symbol tokens of the window (`depthZeroSymbols`) and the levels unary
minus 16, `^` 12, `* / %` 8, binary `+ -` 4 (`operatorLevel`): when all of
them are operators, the result is `-1` exactly when there is none, and
otherwise it is the index of one of them that has the lowest level of all
and a lower level than every one to its right; a `-` has level 16 exactly
when it is the first token of the window or the token before it starts with
none of a digit, a letter or underscore, `)` and `.`; and when some depth-0
symbol is not an operator, the search fails with the unrecognized-operator
error of the first such token. -/
theorem C25_operator_search_reference (tokens : List String) (start count : Nat) :
    findOperatorWithLowestPrecidence tokens start count =
        findOperatorReference tokens start count ∧
      ((∀ j ∈ depthZeroSymbols tokens start count, operatorLevel tokens start j ≠ none) →
        (findOperatorWithLowestPrecidence tokens start count = .ok (-1) ↔
          depthZeroSymbols tokens start count = []) ∧
        (depthZeroSymbols tokens start count ≠ [] →
          ∃ p ∈ depthZeroSymbols tokens start count,
            findOperatorWithLowestPrecidence tokens start count = .ok ((start + p : Nat) : Int) ∧
            (∀ j ∈ depthZeroSymbols tokens start count,
              (operatorLevel tokens start p).getD 0 ≤ (operatorLevel tokens start j).getD 0) ∧
            (∀ j ∈ depthZeroSymbols tokens start count, p < j →
              (operatorLevel tokens start p).getD 0 < (operatorLevel tokens start j).getD 0))) ∧
      (∀ i, operatorLevel tokens start i = some 16 ↔
        (firstChar (tokenAt tokens (start + i)) = '-' ∧
          (i = 0 ∨
            (IsDigit (firstChar (tokenAt tokens (start + i - 1))) = false ∧
              IsNameChar (firstChar (tokenAt tokens (start + i - 1))) = false ∧
              firstChar (tokenAt tokens (start + i - 1)) ≠ ')' ∧
              firstChar (tokenAt tokens (start + i - 1)) ≠ '.')))) ∧
      (∀ k ∈ depthZeroSymbols tokens start count, operatorLevel tokens start k = none →
        (∀ j ∈ depthZeroSymbols tokens start count, j < k →
          operatorLevel tokens start j ≠ none) →
        findOperatorWithLowestPrecidence tokens start count =
          .error (.unrecognizedOperator (firstChar (tokenAt tokens (start + k))))) := by
  have href := findOperator_reference tokens start count
  refine ⟨href, ?_, ?_, ?_⟩
  · intro hall
    have hall' : ∀ j ∈ depthZeroSymbols tokens start count,
        (operatorLevel tokens start j).isSome = true := by
      intro j hj
      have := hall j hj
      cases h : operatorLevel tokens start j with
      | none => exact absurd h this
      | some l => rfl
    have hok := findOperatorReference_ok tokens start count hall'
    have hsome : depthZeroSymbols tokens start count ≠ [] →
        ∃ p ∈ depthZeroSymbols tokens start count,
          findOperatorWithLowestPrecidence tokens start count = .ok ((start + p : Nat) : Int) ∧
          (∀ j ∈ depthZeroSymbols tokens start count,
            (operatorLevel tokens start p).getD 0 ≤ (operatorLevel tokens start j).getD 0) ∧
          (∀ j ∈ depthZeroSymbols tokens start count, p < j →
            (operatorLevel tokens start p).getD 0 < (operatorLevel tokens start j).getD 0) := by
      intro hne
      obtain ⟨p, hp⟩ := rightmostLowest_isSome
        (fun i => (operatorLevel tokens start i).getD 0) _ hne
      obtain ⟨hmem, hmin⟩ := rightmostLowest_mem _ _ p hp
      refine ⟨p, hmem, ?_, hmin, rightmostLowest_right _ _ p
        (depthZeroSymbols_pairwise tokens start count) hp⟩
      rw [href, hok, hp]
    refine ⟨⟨?_, ?_⟩, hsome⟩
    · intro h
      by_contra hne
      obtain ⟨p, -, hp, -⟩ := hsome hne
      rw [hp] at h
      have h' : ((start + p : Nat) : Int) = -1 := by
        injection h
      omega
    · intro h
      rw [href, hok, h]
      rfl
  · intro i
    simp only [operatorLevel, isUnaryMinus]
    constructor
    · intro h
      split at h
      · rename_i hu
        simpa [and_assoc] using hu
      · split at h
        · cases h
        · split at h
          · cases h
          · split at h
            · cases h
            · cases h
    · intro h
      rw [if_pos (by simpa [and_assoc] using h)]
  · intro k hk hnone hbefore
    obtain ⟨S, T, hST, hlt⟩ := mem_split_of_pairwise _ k
      (depthZeroSymbols_pairwise tokens start count) hk
    rw [href]
    refine findOperatorReference_error tokens start count k S T hST ?_ hnone
    intro j hj
    have hjm : j ∈ depthZeroSymbols tokens start count := by
      rw [hST]
      exact List.mem_append_left _ hj
    have := hbefore j hjm (hlt j hj)
    cases h : operatorLevel tokens start j with
    | none => exact absurd h this
    | some l => rfl

/-- C25, at inputs: in `a-b*c-d` the search returns the second `-`; in
`2^3^4` the second `^`; in `a*-b` the `*`; in `-a` the `-`; in `f(a+b)` it
returns `-1`; in `a,b` it fails on the comma; and in the window `a+b` of
`f=a+b` it returns the index 3 of the token vector. -/
theorem C25_operator_search_reference_witness :
    findOperatorWithLowestPrecidence ["a", "-", "b", "*", "c", "-", "d"] 0 7 = .ok 5 ∧
      findOperatorWithLowestPrecidence ["2", "^", "3", "^", "4"] 0 5 = .ok 3 ∧
      findOperatorWithLowestPrecidence ["a", "*", "-", "b"] 0 4 = .ok 1 ∧
      findOperatorWithLowestPrecidence ["-", "a"] 0 2 = .ok 0 ∧
      findOperatorWithLowestPrecidence ["f", "(", "a", "+", "b", ")"] 0 6 = .ok (-1) ∧
      findOperatorWithLowestPrecidence ["a", ",", "b"] 0 3 =
        .error (.unrecognizedOperator ',') ∧
      findOperatorWithLowestPrecidence ["f", "=", "a", "+", "b"] 2 3 = .ok 3 ∧
      findOperatorReference ["a", "-", "b", "*", "c", "-", "d"] 0 7 = .ok 5 ∧
      depthZeroSymbols ["a", "-", "b", "*", "c", "-", "d"] 0 7 = [1, 3, 5] := by
  refine ⟨by decide, by decide, by decide, by decide, by decide, by decide, by decide, ?_,
    by decide⟩
  rw [← (C25_operator_search_reference ["a", "-", "b", "*", "c", "-", "d"] 0 7).1]
  decide

/-! ## C26: enclosing parentheses -/

/-- The loop that looks for the closing parenthesis runs to the end of a
well-nested window. -/
theorem enclosingLoop_wellNested (tokens : List String) (start : Nat) :
    ∀ (w : List String) (i d : Nat) (rest : List String),
      tokens.drop (start + i) = w ++ rest → wellNestedFrom w d = true →
      enclosingLoop tokens start w.length i ((d : Int) + 1) = i + w.length
  | [], i, d, rest, _, _ => by simp [enclosingLoop]
  | tok :: w, i, d, rest, hd, hw => by
    have ht := tokenAt_of_drop tokens (start + i) tok _ hd
    have hd' : tokens.drop (start + (i + 1)) = w ++ rest :=
      drop_succ_of_drop tokens (start + i) tok _ hd
    simp only [wellNestedFrom] at hw
    rw [List.length_cons]
    by_cases h1 : tok = "("
    · simp only [h1, beq_self_eq_true, ↓reduceIte] at hw
      rw [enclosingLoop_open tokens start _ i _ (by rw [ht, h1])]
      have := enclosingLoop_wellNested tokens start w (i + 1) (d + 1) rest hd' hw
      push_cast at this
      rw [this]
      omega
    · have e1 : (tok == "(") = false := by simpa using h1
      simp only [e1, Bool.false_eq_true, ↓reduceIte] at hw
      by_cases h2 : tok = ")"
      · simp only [h2, beq_self_eq_true, ↓reduceIte, Bool.and_eq_true, decide_eq_true_eq] at hw
        obtain ⟨hpos, hw⟩ := hw
        rw [enclosingLoop_close tokens start _ i _ (by rw [ht, h2]) (by omega)]
        have := enclosingLoop_wellNested tokens start w (i + 1) (d - 1) rest hd' hw
        rw [show ((d : Int) + 1 - 1) = ((d - 1 : Nat) : Int) + 1 by omega, this]
        omega
      · have e2 : (tok == ")") = false := by simpa using h2
        simp only [e2, Bool.false_eq_true, ↓reduceIte] at hw
        rw [enclosingLoop_other tokens start _ i _ (by rw [ht]; exact h1) (by rw [ht]; exact h2)]
        rw [enclosingLoop_wellNested tokens start w (i + 1) d rest hd' hw]
        omega

/-- The scans pass a well-nested window inside parentheses without looking at
its tokens. -/
theorem operandFrom_wellNested :
    ∀ (w t : List String) (d : Nat) (k : Int), wellNestedFrom w d = true → 1 ≤ k →
      operandFrom (w ++ t) ((d : Int) + k) = operandFrom t k ∧
        nestsAfter (w ++ t) ((d : Int) + k) = nestsAfter t k
  | [], t, d, k, hw, _ => by
    simp only [wellNestedFrom, beq_iff_eq] at hw
    subst hw
    simp
  | tok :: w, t, d, k, hw, hk => by
    simp only [wellNestedFrom] at hw
    simp only [List.cons_append, operandFrom, nestsAfter]
    by_cases h1 : tok = "("
    · simp only [h1, beq_self_eq_true, ↓reduceIte] at hw ⊢
      have := operandFrom_wellNested w t (d + 1) k hw hk
      push_cast at this
      rw [show (d : Int) + k + 1 = (d : Int) + 1 + k by omega]
      exact this
    · have e1 : (tok == "(") = false := by simpa using h1
      simp only [e1, Bool.false_eq_true, ↓reduceIte] at hw ⊢
      by_cases h2 : tok = ")"
      · simp only [h2, beq_self_eq_true, ↓reduceIte, Bool.and_eq_true, decide_eq_true_eq] at hw ⊢
        obtain ⟨hpos, hw⟩ := hw
        have := operandFrom_wellNested w t (d - 1) k hw hk
        rw [show (d : Int) + k - 1 = ((d - 1 : Nat) : Int) + k by omega]
        exact this
      · have e2 : (tok == ")") = false := by simpa using h2
        have e3 : ((d : Int) + k == 0) = false := by
          simp only [beq_eq_false_iff_ne, ne_eq]
          omega
        simp only [e2, Bool.false_eq_true, ↓reduceIte, e3] at hw ⊢
        exact operandFrom_wellNested w t d k hw hk

/-- A well-nested window in parentheses is an operand. -/
theorem isOperand_parenthesised (w : List String) (hw : wellNested w = true) :
    isOperand ("(" :: (w ++ [")"])) = true := by
  have h := operandFrom_wellNested w [")"] 0 1 hw (le_refl _)
  have e1 : operandFrom ("(" :: (w ++ [")"])) 0 = operandFrom (w ++ [")"]) ((0 : Nat) + 1) := by
    simp [operandFrom]
  have e2 : nestsAfter ("(" :: (w ++ [")"])) 0 = nestsAfter (w ++ [")"]) ((0 : Nat) + 1) := by
    simp [nestsAfter]
  have e3 : operandFrom [")"] 1 = true := by decide
  have e4 : nestsAfter [")"] 1 = 0 := by decide
  simp only [isOperand, e1, e2, h.1, h.2, e3, e4]
  rfl

section Enclosing
variable {α : Type} (A : DoubleOps α)

/-- The window `( w )` of a well-nested `w` is parsed as `w`, one level
deeper. -/
theorem parseFunctionBody_strip (vars tokens : List String) (bound start depth : Nat)
    (w rest : List String) (hd : tokens.drop start = "(" :: (w ++ ")" :: rest))
    (hw : wellNested w = true) (hdepth : depth ≤ 10000) :
    parseFunctionBody A vars tokens (bound + 1) start (w.length + 2) depth =
      parseFunctionBody A vars tokens bound (start + 1) w.length (depth + 1) := by
  have t0 := tokenAt_of_drop tokens start "(" _ hd
  have d1 : tokens.drop (start + 1) = w ++ ")" :: rest := drop_succ_of_drop tokens start "(" _ hd
  have d2 : tokens.drop (start + 1 + w.length) = ")" :: rest := drop_after tokens (start + 1) w _ d1
  have t2 := tokenAt_of_drop tokens _ ")" _ d2
  have hl : start + (w.length + 2) - 1 = start + 1 + w.length := by omega
  have he := enclosingLoop_wellNested tokens start w 1 0 (")" :: rest) d1 hw
  have h1 : ¬ (depth > 10000) := by omega
  have h2 : ¬ (w.length + 2 ≤ 0) := by omega
  have he' : decide (enclosingLoop tokens start w.length 1 1 ≥ w.length + 2 - 1) = true := by
    have : ((0 : Nat) : Int) + 1 = 1 := by norm_num
    rw [this] at he
    rw [he, decide_eq_true_eq]
    omega
  simp only [parseFunctionBody, h1, ↓reduceIte, h2, hl, t0, t2, beq_self_eq_true, Bool.and_self,
    Nat.add_sub_cancel, he']

/-- The window `( a ) op ( b )` is not enclosed by its first and last token,
and it is split at `op`. -/
theorem parseFunctionBody_parenthesised_operands (vars tokens : List String)
    (bound start depth : Nat) (a b rest : List String) (op : String) (f : MathFuncFunc)
    (lvl : Int) (ta tb : GFunctionNode α)
    (hop : (op, f, lvl) ∈ [("+", MathFuncFunc.plus, (4 : Int)), ("-", .minus, 4),
      ("*", .times, 8), ("/", .divide, 8), ("%", .modulus, 8), ("^", .exponent, 12)])
    (hd : tokens.drop start = "(" :: (a ++ ")" :: op :: "(" :: (b ++ ")" :: rest)))
    (ha : wellNested a = true) (hb : wellNested b = true)
    (pa : parseFunctionBody A vars tokens bound (start + 1) a.length (depth + 2) = .ok ta)
    (pb : parseFunctionBody A vars tokens bound (start + a.length + 4) b.length (depth + 2) =
      .ok tb) :
    (tokenAt tokens start == "(" &&
        tokenAt tokens (start + (a.length + 2 + 1 + (b.length + 2)) - 1) == ")" &&
        decide (enclosingLoop tokens start ((a.length + 2 + 1 + (b.length + 2)) - 2) 1 1 ≥
          (a.length + 2 + 1 + (b.length + 2)) - 1)) = false ∧
      parseFunctionBody A vars tokens (bound + 2) start (a.length + 2 + 1 + (b.length + 2))
        depth = .ok (operatorCall f [ta, tb]) := by
  have hdepth := (parseFunctionBody_depth A vars tokens bound _ _ _ ta pa).1
  have hbound := (parseFunctionBody_depth A vars tokens bound _ _ _ ta pa).2
  have hoa := isOperand_parenthesised a ha
  have hob := isOperand_parenthesised b hb
  have hd0 : tokens.drop start = ("(" :: (a ++ [")"])) ++ op :: (("(" :: (b ++ [")"])) ++ rest) := by
    rw [hd]
    simp
  have hla : ("(" :: (a ++ [")"])).length = a.length + 2 := by simp
  have hlb : ("(" :: (b ++ [")"])).length = b.length + 2 := by simp
  have d1 : tokens.drop (start + (a.length + 2)) = op :: (("(" :: (b ++ [")"])) ++ rest) := by
    have := drop_after tokens start _ _ hd0
    rw [hla] at this
    exact this
  have top := tokenAt_of_drop tokens _ op _ d1
  have d2 : tokens.drop (start + (a.length + 2) + 1) = "(" :: (b ++ ")" :: rest) := by
    have := drop_succ_of_drop tokens _ op _ d1
    rw [this]
    simp
  have dlast : tokens.drop (start + 1 + a.length) = ")" :: op :: "(" :: (b ++ ")" :: rest) :=
    drop_after tokens (start + 1) a _ (drop_succ_of_drop tokens start "(" _ hd)
  have tlast := tokenAt_of_drop tokens _ ")" _ dlast
  have hea : isOperandEnd (tokenAt tokens (start + ("(" :: (a ++ [")"])).length - 1)) = true := by
    rw [hla, show start + (a.length + 2) - 1 = start + 1 + a.length by omega, tlast]
    decide
  have hidx := findOperator_one tokens start _ _ rest op lvl (operator_level hop).1 hd0 hoa hob hea
  rw [hla, hlb] at hidx
  have hne := not_enclosed tokens start (a.length + 2 + 1 + (b.length + 2)) _ _ hd0 hoa
    (by rw [hla]; omega)
  refine ⟨hne, ?_⟩
  obtain ⟨b0, rfl⟩ : ∃ b0, bound = b0 + 1 := ⟨bound - 1, by omega⟩
  have pl : parseFunctionBody A vars tokens (b0 + 1 + 1) start (a.length + 2) (depth + 1) =
      .ok ta := by
    rw [parseFunctionBody_strip A vars tokens (b0 + 1) start (depth + 1) a _ hd ha (by omega)]
    exact pa
  have pr : parseFunctionBody A vars tokens (b0 + 1 + 1) (start + (a.length + 2) + 1)
      (b.length + 2) (depth + 1) = .ok tb := by
    rw [parseFunctionBody_strip A vars tokens (b0 + 1) _ (depth + 1) b _ d2 hb (by omega)]
    rw [show start + (a.length + 2) + 1 + 1 = start + a.length + 4 by omega]
    exact pb
  exact parseFunctionBody_binop A vars tokens (b0 + 1 + 1) start depth (a.length + 2)
    (b.length + 2) _ _ op f ta tb hd0 hoa (by rw [hla]) top (by omega) hidx pl pr
    (operator_level hop).2

end Enclosing

section EnclosingScenarios
variable {α : Type} (A : DoubleOps α)

theorem scenario_redundant_parentheses :
    (extended A [] 0).add A "f=((1+2));g=(1)+(2);h=1+2" =
      (.ok (), extended A
        [entry "f" (operatorCall .plus [.GFunctionConstant (A.atof "1"),
          .GFunctionConstant (A.atof "2")]) 0 29,
         entry "g" (operatorCall .plus [.GFunctionConstant (A.atof "1"),
          .GFunctionConstant (A.atof "2")]) 0 30,
         entry "h" (operatorCall .plus [.GFunctionConstant (A.atof "1"),
          .GFunctionConstant (A.atof "2")]) 0 31] 3) := by
  rfl

end EnclosingScenarios

/-- C26. Enclosing parentheses.  For every window `w` with well-nested
parentheses and every depth `d` with `d + 1 ≤ 10000`, `parseFunctionBody` on
the window `( w )` at depth `d` returns what it returns on `w` at depth
`d + 1`: the same tree when `w` parses to a tree.  For well-nested `a` and
`b` that parse to `ta` and `tb` at depth `d + 2`, and every binary operator
`op` with its node `f`, the window `( a ) op ( b )` does not pass the test of
the enclosing parentheses (its first parenthesis is closed before the last
token), and it parses at depth `d` to `f(ta, tb)`; with `+` that is
`plus(ta, tb)`. -/
theorem C26_enclosing_parentheses {α : Type} (A : DoubleOps α) (vars pre w post : List String)
    (depth : Nat) (hw : wellNested w = true) (hdepth : depth + 1 ≤ 10000) :
    parseWindow A vars (pre ++ "(" :: (w ++ ")" :: post)) pre.length (w.length + 2) depth =
        parseWindow A vars (pre ++ "(" :: (w ++ ")" :: post)) (pre.length + 1) w.length
          (depth + 1) ∧
      (∀ t, parseWindow A vars (pre ++ "(" :: (w ++ ")" :: post)) (pre.length + 1) w.length
          (depth + 1) = .ok t →
        parseWindow A vars (pre ++ "(" :: (w ++ ")" :: post)) pre.length (w.length + 2) depth =
          .ok t) ∧
      (∀ (a b : List String) (op : String) (f : MathFuncFunc) (lvl : Int)
        (ta tb : GFunctionNode α),
        (op, f, lvl) ∈ [("+", MathFuncFunc.plus, (4 : Int)), ("-", .minus, 4),
          ("*", .times, 8), ("/", .divide, 8), ("%", .modulus, 8), ("^", .exponent, 12)] →
        wellNested a = true → wellNested b = true →
        parseWindow A vars (pre ++ "(" :: (a ++ ")" :: op :: "(" :: (b ++ ")" :: post)))
          (pre.length + 1) a.length (depth + 2) = .ok ta →
        parseWindow A vars (pre ++ "(" :: (a ++ ")" :: op :: "(" :: (b ++ ")" :: post)))
          (pre.length + a.length + 4) b.length (depth + 2) = .ok tb →
        (tokenAt (pre ++ "(" :: (a ++ ")" :: op :: "(" :: (b ++ ")" :: post))) pre.length == "(" &&
            tokenAt (pre ++ "(" :: (a ++ ")" :: op :: "(" :: (b ++ ")" :: post)))
              (pre.length + (a.length + 2 + 1 + (b.length + 2)) - 1) == ")" &&
            decide (enclosingLoop (pre ++ "(" :: (a ++ ")" :: op :: "(" :: (b ++ ")" :: post)))
              pre.length ((a.length + 2 + 1 + (b.length + 2)) - 2) 1 1 ≥
                (a.length + 2 + 1 + (b.length + 2)) - 1)) = false ∧
          parseWindow A vars (pre ++ "(" :: (a ++ ")" :: op :: "(" :: (b ++ ")" :: post)))
            pre.length (a.length + 2 + 1 + (b.length + 2)) depth =
              .ok (operatorCall f [ta, tb])) := by
  have hstrip : parseWindow A vars (pre ++ "(" :: (w ++ ")" :: post)) pre.length (w.length + 2)
      depth = parseWindow A vars (pre ++ "(" :: (w ++ ")" :: post)) (pre.length + 1) w.length
        (depth + 1) := by
    simp only [parseWindow, bodyBound]
    rw [show 10002 - depth = (10002 - (depth + 1)) + 1 by omega]
    exact parseFunctionBody_strip A vars _ _ pre.length depth w post
      (List.drop_left pre _) hw (by omega)
  refine ⟨hstrip, ?_, ?_⟩
  · intro t ht
    rw [hstrip, ht]
  · intro a b op f lvl ta tb hop ha hb pa pb
    simp only [parseWindow, bodyBound] at pa pb ⊢
    have hdep := (parseFunctionBody_depth A _ _ _ _ _ _ _ pa).1
    rw [show 10002 - depth = (10002 - (depth + 2)) + 2 by omega]
    exact parseFunctionBody_parenthesised_operands A vars _ _ pre.length depth a b post op f lvl
      ta tb hop (List.drop_left pre _) ha hb pa pb

/-- C26, at an input: in `f=(1+2)` the window `( 1 + 2 )` parses at depth 0
to what `1 + 2` parses to at depth 1, the tree `plus(1, 2)`; and `add` gives
`f=((1+2))`, `g=(1)+(2)` and `h=1+2` the same tree. -/
theorem C26_enclosing_parentheses_witness :
    wellNested ["1", "+", "2"] = true ∧
      parseWindow (exactOps noInexact) [] ["f", "=", "(", "1", "+", "2", ")"] 2 5 0 =
        parseWindow (exactOps noInexact) [] ["f", "=", "(", "1", "+", "2", ")"] 3 3 1 ∧
      parseWindow (exactOps noInexact) [] ["f", "=", "(", "1", "+", "2", ")"] 3 3 1 =
        .ok (operatorCall .plus [.GFunctionConstant ((exactOps noInexact).atof "1"),
          .GFunctionConstant ((exactOps noInexact).atof "2")]) ∧
      ((extended (exactOps noInexact) [] 0).add (exactOps noInexact)
        "f=((1+2));g=(1)+(2);h=1+2").1 = .ok () :=
  ⟨by decide,
    (C26_enclosing_parentheses (exactOps noInexact) [] ["f", "="] ["1", "+", "2"] [] 0
      (by decide) (by decide)).1,
    rfl,
    by rw [scenario_redundant_parentheses]⟩
/-! ## C27: windows of one token -/

section SingleToken
variable {α : Type} (A : DoubleOps α)

/-- `parseFunctionBody` on a window of one token. -/
theorem parseFunctionBody_single (vars tokens : List String) (bound start depth : Nat)
    (hdepth : depth ≤ 10000) :
    parseFunctionBody A vars tokens (bound + 1) start 1 depth =
      if IsNameChar (firstChar (tokenAt tokens start)) = true then
        match vars.indexOf? (tokenAt tokens start) with
        | some i => .ok (.GFunctionVariable i)
        | none => .ok (.GFunctionCall (tokenAt tokens start) none [])
      else if (IsDigit (firstChar (tokenAt tokens start)) ||
          firstChar (tokenAt tokens start) == '.') = true then
        .ok (.GFunctionConstant (A.atof (tokenAt tokens start)))
      else .error (.cannotParseSymbol (tokenAt tokens start)) := by
  have h1 : ¬ (depth > 10000) := by omega
  have h2 : ¬ (1 ≤ 0) := by omega
  have h3 : (tokenAt tokens start == "(" && tokenAt tokens (start + 1 - 1) == ")") = false := by
    rw [Nat.add_sub_cancel]
    by_cases h : tokenAt tokens start = "("
    · rw [h]; decide
    · simp [h]
  simp only [parseFunctionBody, h1, ↓reduceIte, h2, h3, Bool.false_and, Bool.false_eq_true,
    beq_self_eq_true, findVariable]
  by_cases hn : IsNameChar (firstChar (tokenAt tokens start)) = true
  · simp only [hn, ↓reduceIte]
    cases List.indexOf? (tokenAt tokens start) vars <;> rfl
  · simp only [hn, Bool.false_eq_true, ↓reduceIte]
    by_cases hd : (IsDigit (firstChar (tokenAt tokens start)) ||
        firstChar (tokenAt tokens start) == '.') = true
    · have : (!IsDigit (firstChar (tokenAt tokens start)) &&
          firstChar (tokenAt tokens start) != '.') = false := by
        simp only [Bool.or_eq_true, beq_iff_eq] at hd
        rcases hd with hd | hd <;> simp [hd]
      simp only [this, Bool.false_eq_true, ↓reduceIte, hd]
    · have : (!IsDigit (firstChar (tokenAt tokens start)) &&
          firstChar (tokenAt tokens start) != '.') = true := by
        simp only [Bool.or_eq_true, beq_iff_eq, not_or] at hd
        simp [hd.1, hd.2]
      simp only [this, ↓reduceIte, hd, Bool.false_eq_true]

theorem indexOf_first (vars : List String) (tok : String) (h : tok ∈ vars) :
    ∃ i, vars.indexOf? tok = some i ∧ vars[i]? = some tok ∧ ∀ j, j < i → vars[j]? ≠ some tok := by
  cases hi : vars.indexOf? tok with
  | none =>
    have := List.findIdx?_eq_none_iff.mp hi tok h
    simp at this
  | some i =>
    obtain ⟨hlt, heq, hfirst⟩ := List.findIdx?_eq_some_iff_getElem.mp hi
    refine ⟨i, rfl, ?_, ?_⟩
    · rw [List.getElem?_eq_getElem hlt]
      simpa using heq
    · intro j hj hjeq
      have hjl : j < vars.length := by omega
      rw [List.getElem?_eq_getElem hjl] at hjeq
      have := hfirst j hj
      simp only [beq_iff_eq] at this
      exact this (Option.some.inj hjeq)

theorem indexOf_none (vars : List String) (tok : String) (h : tok ∉ vars) :
    vars.indexOf? tok = none := by
  apply List.findIdx?_eq_none_iff.mpr
  intro x hx
  simp only [beq_eq_false_iff_ne, ne_eq]
  intro hxe
  exact h (hxe ▸ hx)

theorem scenario_shadowing :
    (extended A [] 0).add A "f(pi)=pi;g(x,x)=x;h(x)=y" =
      (.ok (), extended A
        [entry "f" (.GFunctionVariable 0) 1 29,
         entry "g" (.GFunctionVariable 0) 2 30,
         entry "h" (.GFunctionCall "y" none []) 1 31] 3) := by
  rfl

theorem scenario_shadowing_call (x y : α) (d : Nat) :
    let P := extended A
        [entry "f" (.GFunctionVariable 0) 1 29,
         entry "g" (.GFunctionVariable 0) 2 30,
         entry "h" (.GFunctionCall "y" none []) 1 31] 3
    (P.call A (d + 2) "f" [x]).1 = .ok x ∧ (P.call A (d + 2) "g" [x, y]).1 = .ok x ∧
      (P.call A (d + 2) "pi" []).1 = .ok A.M_PI := by
  exact ⟨rfl, rfl, rfl⟩

end SingleToken

/-- C27. Windows of one token.  With `tok` the token of the window and
`depth ≤ 10000`: when `tok` starts with a letter or `_` and is one of the
declared parameters `vars`, the window parses to the variable node whose
index is the first position of `tok` in `vars`, whatever the parser has
registered (`parseFunctionBody` does not read the registry); when it starts
with a letter or `_` and is no parameter, to a call node of that name with no
children and no bound target; when it starts with a digit or `.`, to the
constant `atof(tok)`; and any other token is the error "Cannot parse symbol".
On a new parser, where `pi` is registered, after
`add("f(pi)=pi;g(x,x)=x;h(x)=y")` the call of `f` on `[x]` returns `x`, the
call of `g` on `[x, y]` returns `x`, and the root of `h` is the call stub
`y`. -/
theorem C27_single_token_windows {α : Type} (A : DoubleOps α) (vars tokens : List String)
    (bound start depth : Nat) (hdepth : depth ≤ 10000) :
    (IsNameChar (firstChar (tokenAt tokens start)) = true → tokenAt tokens start ∈ vars →
      ∃ i, parseFunctionBody A vars tokens (bound + 1) start 1 depth = .ok (.GFunctionVariable i) ∧
        vars[i]? = some (tokenAt tokens start) ∧
        ∀ j, j < i → vars[j]? ≠ some (tokenAt tokens start)) ∧
    (IsNameChar (firstChar (tokenAt tokens start)) = true → tokenAt tokens start ∉ vars →
      parseFunctionBody A vars tokens (bound + 1) start 1 depth =
        .ok (.GFunctionCall (tokenAt tokens start) none [])) ∧
    ((IsDigit (firstChar (tokenAt tokens start)) || firstChar (tokenAt tokens start) == '.') = true →
      parseFunctionBody A vars tokens (bound + 1) start 1 depth =
        .ok (.GFunctionConstant (A.atof (tokenAt tokens start)))) ∧
    (IsNameChar (firstChar (tokenAt tokens start)) = false →
      (IsDigit (firstChar (tokenAt tokens start)) || firstChar (tokenAt tokens start) == '.') = false →
      parseFunctionBody A vars tokens (bound + 1) start 1 depth =
        .error (.cannotParseSymbol (tokenAt tokens start))) ∧
    ((GFunctionParser.ctor A false).getFunctionNoThrow "pi").isSome = true ∧
    (∀ (x y : α) (d : Nat),
      (((GFunctionParser.ctor A false).add A "f(pi)=pi;g(x,x)=x;h(x)=y").2.call A (d + 2)
          "f" [x]).1 = .ok x ∧
        (((GFunctionParser.ctor A false).add A "f(pi)=pi;g(x,x)=x;h(x)=y").2.call A (d + 2)
          "g" [x, y]).1 = .ok x ∧
        (((GFunctionParser.ctor A false).add A "f(pi)=pi;g(x,x)=x;h(x)=y").2.getFunctionNoThrow
          "h").map (fun fn => fn.m_pRoot) = some (.GFunctionCall "y" none [])) := by
  have hs := parseFunctionBody_single A vars tokens bound start depth hdepth
  have hpi : ((GFunctionParser.ctor A false).getFunctionNoThrow "pi").isSome = true := by
    rw [ctor_posix]
    rfl
  refine ⟨?_, ?_, ?_, ?_, hpi, ?_⟩
  · intro hn hmem
    obtain ⟨i, hi, hget, hfirst⟩ := indexOf_first vars _ hmem
    refine ⟨i, ?_, hget, hfirst⟩
    rw [hs, if_pos hn, hi]
  · intro hn hmem
    rw [hs, if_pos hn, indexOf_none vars _ hmem]
  · intro hd
    have hn := (number_token _ hd).1
    rw [hs, if_neg (by rw [hn]; exact Bool.false_ne_true), if_pos hd]
  · intro hn hd
    rw [hs, if_neg (by rw [hn]; exact Bool.false_ne_true),
      if_neg (by rw [hd]; exact Bool.false_ne_true)]
  · intro x y d
    simp only [ctor_posix, scenario_shadowing]
    exact ⟨(scenario_shadowing_call A x y d).1, (scenario_shadowing_call A x y d).2.1, rfl⟩

/-- C27, at an input: in `g(x,x)=x` the body window, one token `x` with the
parameters `[x, x]`, parses to the variable node of index 0; the token `2.5`
parses to a constant and the token `,` is rejected. -/
theorem C27_single_token_windows_witness :
    parseFunctionBody (exactOps noInexact) ["x", "x"] ["g", "(", "x", ",", "x", ")", "=", "x"]
        bodyBound 7 1 0 = .ok (.GFunctionVariable 0) ∧
      parseFunctionBody (exactOps noInexact) [] ["2.5"] bodyBound 0 1 0 =
        .ok (.GFunctionConstant ((exactOps noInexact).atof "2.5")) ∧
      parseFunctionBody (exactOps noInexact) [] [","] bodyBound 0 1 0 =
        .error (.cannotParseSymbol ",") := by
  have h1 := C27_single_token_windows (exactOps noInexact) ["x", "x"]
    ["g", "(", "x", ",", "x", ")", "=", "x"] 10001 7 0 (by decide)
  have h2 := C27_single_token_windows (exactOps noInexact) [] ["2.5"] 10001 0 0 (by decide)
  have h3 := C27_single_token_windows (exactOps noInexact) [] [","] 10001 0 0 (by decide)
  refine ⟨?_, h2.2.2.1 (by decide), h3.2.2.2.1 (by decide) (by decide)⟩
  obtain ⟨i, hi, hget, hfirst⟩ := h1.1 (by decide) (by decide)
  have h0 : i = 0 := by
    by_contra hne
    exact hfirst 0 (by omega) (by decide)
  rw [h0] at hi
  exact hi

/-! ## C28: empty windows -/

section EmptyWindows
variable {α : Type} (A : DoubleOps α)

/-- `parseFunctionBody` on a window without tokens. -/
theorem parseFunctionBody_empty (vars tokens : List String) (bound start depth : Nat)
    (hdepth : depth ≤ 10000) :
    parseFunctionBody A vars tokens (bound + 1) start 0 depth =
      .error (.emptyExpression (GFunctionParser_joinTokens tokens start)) := by
  have h1 : ¬ (depth > 10000) := by omega
  simp only [parseFunctionBody, h1, ↓reduceIte, le_refl]

/-- On a window without tokens `parseFunctionBody` returns no tree, whatever
the depth. -/
theorem parseFunctionBody_empty_error (vars tokens : List String) (bound start depth : Nat) :
    ∃ e, parseFunctionBody A vars tokens bound start 0 depth = .error e := by
  cases bound with
  | zero => exact ⟨_, rfl⟩
  | succ b =>
    by_cases h : depth > 10000
    · exact ⟨.deepNesting, by simp only [parseFunctionBody, h, ↓reduceIte]⟩
    · exact ⟨_, parseFunctionBody_empty A vars tokens b start depth (by omega)⟩

/-- The loop of `parseCommaSeparatedChildren` and the call after it throw
when one of the windows they delimit has no tokens. -/
theorem commaLoop_empty_slot
    (parse : Nat → Nat → Nat → Except Ex (GFunctionNode α)) (tokens : List String)
    (start depth : Nat) (hparse : ∀ b, ∃ e, parse b 0 depth = .error e) :
    ∀ (n i childBegin : Nat) (nests : Int) (children : List (GFunctionNode α)),
      (∃ b, (b, 0) ∈ slotLoop tokens start n i childBegin nests) →
      ∃ e, (do
        let (cb, ch) ← commaLoop parse tokens start depth n i childBegin nests children
        let last ← parse cb (start + (i + n) - cb) depth
        pure (ch ++ [last]) : Except Ex (List (GFunctionNode α))) = .error e
  | 0, i, childBegin, nests, children, ⟨b, hb⟩ => by
    simp only [slotLoop, List.mem_singleton, Prod.mk.injEq] at hb
    obtain ⟨e, he⟩ := hparse childBegin
    refine ⟨e, ?_⟩
    simp only [commaLoop, Nat.add_zero, ← hb.2, he, Bind.bind, Except.bind]
  | n + 1, i, childBegin, nests, children, ⟨b, hb⟩ => by
    have hadd : i + (n + 1) = (i + 1) + n := by omega
    simp only [slotLoop] at hb
    simp only [commaLoop]
    rw [hadd]
    by_cases h1 : (tokenAt tokens (start + i) == "(") = true
    · simp only [h1, ↓reduceIte] at hb ⊢
      exact commaLoop_empty_slot parse tokens start depth hparse n (i + 1) childBegin _ children
        ⟨b, hb⟩
    simp only [h1, Bool.false_eq_true, ↓reduceIte] at hb ⊢
    by_cases h2 : (tokenAt tokens (start + i) == ")") = true
    · have hi : ¬ ((i : Int) < 0) := by omega
      simp only [h2, ↓reduceIte, hi] at hb ⊢
      exact commaLoop_empty_slot parse tokens start depth hparse n (i + 1) childBegin _ children
        ⟨b, hb⟩
    simp only [h2, Bool.false_eq_true, ↓reduceIte] at hb ⊢
    by_cases h3 : (nests == 0 && tokenAt tokens (start + i) == ",") = true
    · simp only [h3, ↓reduceIte, List.mem_cons, Prod.mk.injEq] at hb ⊢
      cases hp : parse childBegin (start + i - childBegin) depth with
      | error e => exact ⟨e, rfl⟩
      | ok child =>
        rcases hb with hb | hb
        · obtain ⟨e, he⟩ := hparse childBegin
          rw [← hb.2, he] at hp
          cases hp
        · exact commaLoop_empty_slot parse tokens start depth hparse n (i + 1) (start + i + 1)
            nests (children ++ [child]) ⟨b, hb⟩
    · simp only [h3, Bool.false_eq_true, ↓reduceIte] at hb ⊢
      exact commaLoop_empty_slot parse tokens start depth hparse n (i + 1) childBegin _ children
        ⟨b, hb⟩

theorem parseCommaSeparatedChildren_empty_slot
    (parse : Nat → Nat → Nat → Except Ex (GFunctionNode α)) (tokens : List String)
    (start count depth : Nat) (hparse : ∀ b, ∃ e, parse b 0 depth = .error e)
    (hslot : ∃ b, (b, 0) ∈ argumentSlots tokens start count) :
    ∃ e, parseCommaSeparatedChildren parse tokens start count depth = .error e := by
  have := commaLoop_empty_slot parse tokens start depth hparse count 0 start 0 [] hslot
  rw [Nat.zero_add] at this
  exact this

/-- A token that starts with a letter or `_` is no parenthesis. -/
theorem isOperand_name_ne (name : String) (h : IsNameChar (firstChar name) = true) :
    (name == "(") = false ∧ (name == ")") = false := by
  constructor
  · simp only [beq_eq_false_iff_ne, ne_eq]
    intro he
    rw [he] at h
    revert h
    decide
  · simp only [beq_eq_false_iff_ne, ne_eq]
    intro he
    rw [he] at h
    revert h
    decide

/-- A name followed by a well-nested window in parentheses is an operand. -/
theorem isOperand_call (name : String) (w : List String)
    (hname : IsNameChar (firstChar name) = true) (hw : wellNested w = true) :
    isOperand (name :: "(" :: (w ++ [")"])) = true := by
  have h := isOperand_parenthesised w hw
  have hn := isOperand_name_ne name hname
  simp only [isOperand, Bool.and_eq_true, Bool.not_eq_true', beq_iff_eq] at h ⊢
  simp only [operandFrom, nestsAfter, hn.1, hn.2, Bool.false_eq_true, ↓reduceIte,
    beq_self_eq_true, hname, Bool.true_or, Bool.true_and]
  exact ⟨⟨rfl, h.1.2⟩, h.2⟩

/-- The window `name ( I )` with an empty argument window among those of `I`
parses to no tree. -/
theorem parseFunctionBody_empty_argument (vars tokens : List String)
    (bound start depth : Nat) (name : String) (I rest : List String)
    (hd : tokens.drop start = name :: "(" :: (I ++ ")" :: rest))
    (hname : IsNameChar (firstChar name) = true) (hI : wellNested I = true)
    (hslot : ∃ b, (b, 0) ∈ argumentSlots tokens (start + 2) I.length) :
    ∃ e, parseFunctionBody A vars tokens bound start (I.length + 3) depth = .error e := by
  cases bound with
  | zero => exact ⟨_, rfl⟩
  | succ bound =>
    by_cases h1 : depth > 10000
    · exact ⟨.deepNesting, by simp only [parseFunctionBody, h1, ↓reduceIte]⟩
    have hn := isOperand_name_ne name hname
    have t0 := tokenAt_of_drop tokens start name _ hd
    have d1 := drop_succ_of_drop tokens start name _ hd
    have t1 := tokenAt_of_drop tokens _ "(" _ d1
    have d2 : tokens.drop (start + 1 + 1) = I ++ ")" :: rest := drop_succ_of_drop tokens _ "(" _ d1
    have d3 : tokens.drop (start + 1 + 1 + I.length) = ")" :: rest := drop_after tokens _ I _ d2
    have t3 := tokenAt_of_drop tokens _ ")" _ d3
    have hop := isOperand_call name I hname hI
    have hd0 : tokens.drop (start + 0) = (name :: "(" :: (I ++ [")"])) ++ rest := by
      rw [Nat.add_zero, hd]
      simp
    have hlen : (name :: "(" :: (I ++ [")"])).length = I.length + 3 := by simp
    have hidx : findOperatorWithLowestPrecidence tokens start (I.length + 3) = .ok (-1) := by
      have := findOperatorLoop_isOperand_end tokens start _ rest 0 100 (-1) hd0 hop
      rw [hlen] at this
      exact this
    have h2 : ¬ (I.length + 3 ≤ 0) := by omega
    have h3 : (tokenAt tokens start == "(") = false := by
      rw [t0]
      simpa using hn.1
    have h4 : (I.length + 3 == 1) = false := by
      simp only [beq_eq_false_iff_ne, ne_eq]
      omega
    have h5 : ¬ ((-1 : Int) ≥ 0) := by omega
    have h6 : (decide (I.length + 3 < 3) || tokenAt tokens (start + 1) != "(" ||
        tokenAt tokens (start + (I.length + 3) - 1) != ")") = false := by
      rw [t1, show start + (I.length + 3) - 1 = start + 1 + 1 + I.length by omega, t3]
      simp
    obtain ⟨e, he⟩ := parseCommaSeparatedChildren_empty_slot
      (parseFunctionBody A vars tokens bound) tokens (start + 2) I.length (depth + 1)
      (fun b => parseFunctionBody_empty_error A vars tokens bound b (depth + 1)) hslot
    refine ⟨e, ?_⟩
    simp only [parseFunctionBody, h1, ↓reduceIte, h2, h3, Bool.false_and, Bool.false_eq_true, h4,
      hidx, h5, h6, Nat.add_sub_cancel, he]

theorem scenario_empty_body :
    (extended A [] 0).add A "f=" = (.error (.emptyExpression "f="), extended A [] 0) ∧
      (extended A [] 0).add A "f=()" = (.error (.emptyExpression "f=("), extended A [] 0) ∧
      (extended A [] 0).add A "f=g()" = (.error (.emptyExpression "f=g("), extended A [] 0) ∧
      (extended A [] 0).add A "f=g(1,)" =
        (.error (.emptyExpression "f=g(1,"), extended A [] 0) ∧
      (extended A [] 0).add A "f=g(,1)" = (.error (.emptyExpression "f=g("), extended A [] 0) ∧
      (extended A [] 0).add A "f=g(1,,2)" =
        (.error (.emptyExpression "f=g(1,"), extended A [] 0) :=
  ⟨rfl, rfl, rfl, rfl, rfl, rfl⟩

theorem scenario_bare_name :
    (extended A [] 0).add A "g=1;f=g" =
        (.ok (), extended A
          [entry "g" (.GFunctionConstant (A.atof "1")) 0 29,
           entry "f" (.GFunctionCall "g" none []) 0 30] 2) ∧
      (extended A [] 0).add A "g=1;f=g()" =
        (.error (.emptyExpression "g=1;f=g("), extended A
          [entry "g" (.GFunctionConstant (A.atof "1")) 0 29] 1) :=
  ⟨rfl, rfl⟩

theorem scenario_bare_name_call (params : List α) (d : Nat) :
    ((extended A
        [entry "g" (.GFunctionConstant (A.atof "1")) 0 29,
         entry "f" (.GFunctionCall "g" none []) 0 30] 2).call A (d + 3) "f" params).1 =
      .ok (A.atof "1") := by
  rfl

end EmptyWindows

/-- C28. Empty windows.  On a window without tokens, at a depth of at most
10000, `parseFunctionBody` throws "Empty expression following" the text
before the window.  Hence a call window `name ( I )`, `I` well nested, one of
whose argument windows (those between the commas of `I` outside parentheses,
`argumentSlots`) has no tokens, parses to no tree at any depth.  On a new
parser `add` rejects `f=`, `f=()`, `f=g()`, `f=g(1,)`, `f=g(,1)` and
`f=g(1,,2)` with that error and registers nothing; after `g=1` the statement
`f=g` is accepted and `f` evaluates to 1, and `f=g()` is rejected. -/
theorem C28_empty_windows {α : Type} (A : DoubleOps α) (vars tokens : List String)
    (bound start depth : Nat) (hdepth : depth ≤ 10000) :
    parseFunctionBody A vars tokens (bound + 1) start 0 depth =
        .error (.emptyExpression (GFunctionParser_joinTokens tokens start)) ∧
      (∀ (b d : Nat) (name : String) (I rest : List String),
        tokens.drop start = name :: "(" :: (I ++ ")" :: rest) →
        IsNameChar (firstChar name) = true → wellNested I = true →
        (∃ s, (s, 0) ∈ argumentSlots tokens (start + 2) I.length) →
        ∃ e, parseFunctionBody A vars tokens b start (I.length + 3) d = .error e) ∧
      ((GFunctionParser.ctor A false).add A "f=" =
          (.error (.emptyExpression "f="), GFunctionParser.ctor A false) ∧
        (GFunctionParser.ctor A false).add A "f=()" =
          (.error (.emptyExpression "f=("), GFunctionParser.ctor A false) ∧
        (GFunctionParser.ctor A false).add A "f=g()" =
          (.error (.emptyExpression "f=g("), GFunctionParser.ctor A false) ∧
        (GFunctionParser.ctor A false).add A "f=g(1,)" =
          (.error (.emptyExpression "f=g(1,"), GFunctionParser.ctor A false) ∧
        (GFunctionParser.ctor A false).add A "f=g(,1)" =
          (.error (.emptyExpression "f=g("), GFunctionParser.ctor A false) ∧
        (GFunctionParser.ctor A false).add A "f=g(1,,2)" =
          (.error (.emptyExpression "f=g(1,"), GFunctionParser.ctor A false)) ∧
      (((GFunctionParser.ctor A false).add A "g=1;f=g").1 = .ok () ∧
        (∀ (params : List α) (d : Nat),
          (((GFunctionParser.ctor A false).add A "g=1;f=g").2.call A (d + 3) "f" params).1 =
            .ok (A.atof "1")) ∧
        ((GFunctionParser.ctor A false).add A "g=1;f=g()").1 =
          .error (.emptyExpression "g=1;f=g(")) := by
  refine ⟨parseFunctionBody_empty A vars tokens bound start depth hdepth, ?_, ?_, ?_⟩
  · intro b d name I rest hd hname hI hslot
    exact parseFunctionBody_empty_argument A vars tokens b start d name I rest hd hname hI hslot
  · simp only [ctor_posix]
    exact scenario_empty_body A
  · simp only [ctor_posix, (scenario_bare_name A).1, (scenario_bare_name A).2]
    exact ⟨trivial, fun params d => scenario_bare_name_call A params d, trivial⟩

/-- C28, at an input: in `f=g(1,)` the argument windows of the call are `1`
and the empty window after the comma; `parseFunctionBody` on that window
throws "Empty expression following f=g(1,", and the window `g ( 1 , )`
parses to no tree. -/
theorem C28_empty_windows_witness :
    argumentSlots ["f", "=", "g", "(", "1", ",", ")"] 4 2 = [(4, 1), (6, 0)] ∧
      parseFunctionBody (exactOps noInexact) [] ["f", "=", "g", "(", "1", ",", ")"] bodyBound 6 0
        2 = .error (.emptyExpression "f=g(1,") ∧
      ∃ e, parseFunctionBody (exactOps noInexact) [] ["f", "=", "g", "(", "1", ",", ")"]
        bodyBound 2 5 0 = .error e := by
  have h1 := C28_empty_windows (exactOps noInexact) [] ["f", "=", "g", "(", "1", ",", ")"]
    10001 6 2 (by decide)
  have h2 := C28_empty_windows (exactOps noInexact) [] ["f", "=", "g", "(", "1", ",", ")"]
    10001 2 0 (by decide)
  refine ⟨by decide, ?_, ?_⟩
  · exact h1.1
  · exact h2.2.1 bodyBound 0 "g" ["1", ","] [] (by decide) (by decide) (by decide)
      ⟨6, by decide⟩
/-! ## C29: two minus signs in a row -/

/-- The scan of `- - wa`: the second `-`. -/
theorem findOperator_negate_negate (tokens : List String) (start : Nat) (wa rest : List String)
    (hd : tokens.drop start = "-" :: "-" :: (wa ++ rest)) (ha : isOperand wa = true) :
    findOperatorWithLowestPrecidence tokens start (2 + wa.length) =
      .ok ((start + 1 : Nat) : Int) := by
  have d0 : tokens.drop (start + 0) = "-" :: "-" :: (wa ++ rest) := hd
  have t0 := tokenAt_of_drop tokens _ "-" _ d0
  have d1 : tokens.drop (start + 1) = "-" :: (wa ++ rest) := drop_succ_of_drop tokens _ "-" _ d0
  have t1 := tokenAt_of_drop tokens _ "-" _ d1
  have d2 : tokens.drop (start + (1 + 1)) = wa ++ rest := drop_succ_of_drop tokens _ "-" _ d1
  have hb : isOperandEnd (tokenAt tokens (start + 1 - 1)) = false := by
    rw [Nat.add_sub_cancel]
    rw [Nat.add_zero] at t0
    rw [t0]
    decide
  rw [findOperatorWithLowestPrecidence, show 2 + wa.length = (wa.length + 1) + 1 by omega,
    findOperatorLoop_negate tokens start _ 0 _ _ t0 (Or.inl rfl)]
  simp only [ge_iff_le, show (16 : Int) ≤ 100 by decide, ↓reduceIte, Nat.zero_add]
  rw [findOperatorLoop_negate tokens start _ 1 _ _ t1 (Or.inr hb)]
  simp only [ge_iff_le, le_refl, ↓reduceIte]
  rw [findOperatorLoop_isOperand_end tokens start wa _ _ _ _ d2 ha]

section DoubleNegation
variable {α : Type} (A : DoubleOps α)

/-- `parseMathOperator` throws what the parse of the left window throws. -/
theorem parseMathOperator_left_error
    (parse : Nat → Nat → Nat → Except Ex (GFunctionNode α)) (tokens : List String)
    (start count index depth : Nat) (e : Ex) (h1 : index > start)
    (hl : parse start (index - start) depth = .error e) :
    parseMathOperator parse tokens start count index depth = .error e := by
  simp only [parseMathOperator, h1, ↓reduceIte, hl, Except.map, Bind.bind, Except.bind]

/-- The window `- - a` is split at the second `-`, and the first `-`, alone
in the left window, is the error. -/
theorem parseFunctionBody_negate_negate (vars tokens : List String) (bound start depth : Nat)
    (wa rest : List String) (hd : tokens.drop start = "-" :: "-" :: (wa ++ rest))
    (ha : isOperand wa = true) (hdepth : depth < 10000) :
    parseFunctionBody A vars tokens (bound + 2) start (2 + wa.length) depth =
      .error (.cannotParseSymbol "-") := by
  have t0 := tokenAt_of_drop tokens _ "-" _ hd
  have hs := parseFunctionBody_single A vars tokens bound start (depth + 1) (by omega)
  rw [t0] at hs
  have hs' : parseFunctionBody A vars tokens (bound + 1) start 1 (depth + 1) =
      .error (.cannotParseSymbol "-") := by
    rw [hs]
    rfl
  rw [parseFunctionBody_operator A vars tokens (bound + 1) start (2 + wa.length) depth
    (start + 1) (by omega) (by omega) (not_enclosed_minus tokens start _ t0)
    (findOperator_negate_negate tokens start wa rest hd ha)]
  exact parseMathOperator_left_error _ tokens start _ (start + 1) (depth + 1) _ (by omega)
    (by rw [Nat.add_sub_cancel_left]; exact hs')

theorem scenario_double_negation :
    (extended A [] 0).add A "f=--3" = (.error (.cannotParseSymbol "-"), extended A [] 0) ∧
      (extended A [] 0).add A "f(x)=--x" = (.error (.cannotParseSymbol "-"), extended A [] 0) ∧
      (extended A [] 0).add A "f=- -3" = (.error (.cannotParseSymbol "-"), extended A [] 0) ∧
      (extended A [] 0).add A "f=-(-3)" =
        (.ok (), extended A
          [entry "f" (operatorCall .negate
            [operatorCall .negate [.GFunctionConstant (A.atof "3")]]) 0 29] 1) :=
  ⟨rfl, rfl, rfl, rfl⟩

theorem scenario_double_negation_call (params : List α) (d : Nat) :
    ((extended A
        [entry "f" (operatorCall .negate
          [operatorCall .negate [.GFunctionConstant (A.atof "3")]]) 0 29] 1).call A (d + 4)
        "f" params).1 = .ok (A.neg (A.neg (A.atof "3"))) := by
  rfl

end DoubleNegation

/-- C29, as stated, fails: on a new parser `add("f=--3")` throws "Cannot
parse symbol: -" and registers no `f`; so do `add("f=- -3")` and
`add("f(x)=--x")`. -/
theorem C29_counterexample :
    ((GFunctionParser.ctor (exactOps noInexact) false).add (exactOps noInexact) "f=--3").1 =
        .error (.cannotParseSymbol "-") ∧
      (((GFunctionParser.ctor (exactOps noInexact) false).add (exactOps noInexact)
        "f=--3").2.getFunctionNoThrow "f").map (fun f => f.addr) = none ∧
      ((GFunctionParser.ctor (exactOps noInexact) false).add (exactOps noInexact) "f=- -3").1 =
        .error (.cannotParseSymbol "-") ∧
      ((GFunctionParser.ctor (exactOps noInexact) false).add (exactOps noInexact) "f(x)=--x").1 =
        .error (.cannotParseSymbol "-") := by
  rw [ctor_posix, (scenario_double_negation (exactOps noInexact)).1,
    (scenario_double_negation (exactOps noInexact)).2.1,
    (scenario_double_negation (exactOps noInexact)).2.2.1]
  exact ⟨rfl, rfl, rfl, rfl⟩

/-- C29, amended.  Two minus signs in a row.  For every operand `a` (a number,
a name, a call or a parenthesised expression) the window `- - a`, at a depth
below 10000, does not parse: the scan of `findOperatorWithLowestPrecidence`
returns the second `-` (among the negations the right-most wins, as among the
binary operators), `parseMathOperator` parses the window to the left of it,
the first `-` alone, and that throws "Cannot parse symbol: -".  On a new parser
`add("f=--3")`, `add("f=- -3")` and `add("f(x)=--x")` throw that error and
register nothing, while `add("f=-(-3)")` is accepted and `f` evaluates to 3 in
exact arithmetic. -/
theorem C29_double_negation_rejected {α : Type} (A : DoubleOps α) (vars tokens : List String)
    (bound start depth : Nat) (wa rest : List String)
    (hd : tokens.drop start = "-" :: "-" :: (wa ++ rest)) (ha : isOperand wa = true)
    (hdepth : depth < 10000) :
    findOperatorWithLowestPrecidence tokens start (2 + wa.length) =
        .ok ((start + 1 : Nat) : Int) ∧
      parseFunctionBody A vars tokens (bound + 2) start (2 + wa.length) depth =
        .error (.cannotParseSymbol "-") ∧
      (GFunctionParser.ctor A false).add A "f=--3" =
        (.error (.cannotParseSymbol "-"), GFunctionParser.ctor A false) ∧
      (GFunctionParser.ctor A false).add A "f=- -3" =
        (.error (.cannotParseSymbol "-"), GFunctionParser.ctor A false) ∧
      (GFunctionParser.ctor A false).add A "f(x)=--x" =
        (.error (.cannotParseSymbol "-"), GFunctionParser.ctor A false) ∧
      ((GFunctionParser.ctor A false).add A "f=-(-3)").1 = .ok () ∧
      (∀ (params : List α) (d : Nat),
        (((GFunctionParser.ctor A false).add A "f=-(-3)").2.call A (d + 4) "f" params).1 =
          .ok (A.neg (A.neg (A.atof "3")))) := by
  refine ⟨findOperator_negate_negate tokens start wa rest hd ha,
    parseFunctionBody_negate_negate A vars tokens bound start depth wa rest hd ha hdepth,
    ?_, ?_, ?_, ?_, ?_⟩
  · rw [ctor_posix]
    exact (scenario_double_negation A).1
  · rw [ctor_posix]
    exact (scenario_double_negation A).2.2.1
  · rw [ctor_posix]
    exact (scenario_double_negation A).2.1
  · rw [ctor_posix, (scenario_double_negation A).2.2.2]
  · intro params d
    rw [ctor_posix, (scenario_double_negation A).2.2.2]
    exact scenario_double_negation_call A params d

/-- C29, at the input `f=--3`: the body window `- - 3` is split at the second
`-` and throws "Cannot parse symbol: -"; and in exact arithmetic `f=-(-3)`
evaluates to 3. -/
theorem C29_double_negation_rejected_witness :
    findOperatorWithLowestPrecidence ["f", "=", "-", "-", "3"] 2 3 = .ok 3 ∧
      parseFunctionBody (exactOps noInexact) [] ["f", "=", "-", "-", "3"] bodyBound 2 3 0 =
        .error (.cannotParseSymbol "-") ∧
      (((GFunctionParser.ctor (exactOps noInexact) false).add (exactOps noInexact)
        "f=-(-3)").2.call (exactOps noInexact) 4 "f" []).1 = .ok 3 := by
  have h := C29_double_negation_rejected (exactOps noInexact) [] ["f", "=", "-", "-", "3"]
    10000 2 0 ["3"] [] (by decide) (by decide) (by decide)
  refine ⟨h.1, h.2.1, ?_⟩
  rw [h.2.2.2.2.2.2 [] 0]
  have e3 : (exactOps noInexact).atof "3" = 3 := by
    show atofExact "3" = 3
    decide!
  rw [e3]
  show Except.ok (- - (3 : ℚ)) = Except.ok 3
  norm_num
/-! ## C30: unbalanced parentheses -/

/-- The scan for the operator returns an index or the unrecognized-operator
error: its test `i < 0` never holds, and "Unbalanced parentheses" is not
thrown. -/
theorem findOperator_never_unbalanced (tokens : List String) (start count : Nat) :
    findOperatorWithLowestPrecidence tokens start count ≠ .error .unbalancedParentheses := by
  rw [findOperator_reference]
  simp only [findOperatorReference]
  split
  · intro h
    cases h
  · split <;> intro h <;> cases h

section Unbalanced
variable {α : Type} (A : DoubleOps α)

theorem scenario_unbalanced_accepted :
    (extended A [] 0).add A "f=)(1)" =
        (.ok (), extended A
          [entry "f" (.GFunctionCall ")" none [.GFunctionConstant (A.atof "1")]) 0 29] 1) ∧
      (extended A [] 0).add A "f=2+)(1)" =
        (.ok (), extended A
          [entry "f" (operatorCall .plus [.GFunctionConstant (A.atof "2"),
            .GFunctionCall ")" none [.GFunctionConstant (A.atof "1")]]) 0 29] 1) :=
  ⟨rfl, rfl⟩

theorem scenario_unbalanced_call (params : List α) (d : Nat) :
    ((extended A
        [entry "f" (.GFunctionCall ")" none [.GFunctionConstant (A.atof "1")]) 0 29] 1).call A
        (d + 3) "f" params).1 = .error (.noIdentifier ")") := by
  rfl

theorem scenario_unbalanced_rejected :
    (extended A [] 0).add A "f=(1+2" =
        (.error (.cannotParsePortion "(1+2"), extended A [] 0) ∧
      (extended A [] 0).add A "f=1+2)" =
        (.error (.cannotParsePortion "2)"), extended A [] 0) ∧
      (extended A [] 0).add A "f=g(1))" =
        (.error (.cannotParsePortion "1)"), extended A [] 0) :=
  ⟨rfl, rfl, rfl⟩

end Unbalanced

/-- C30. Unbalanced parentheses.  The body `)(1)` is not well nested: its
first token is a `)` with no `(` before it.  On a new parser `add("f=)(1)")`
returns without an error and registers `f` with the root `Call ")" [1]`, a
call of a function named `)`; evaluating `f` then throws "No identifier
named )".  So does `add("f=2+)(1)")`.  The statements `f=(1+2`, `f=1+2)` and
`f=g(1))` are rejected, with "Cannot parse this portion of the expression".
The scan `findOperatorWithLowestPrecidence` never throws "Unbalanced
parentheses": its test is `i < 0` on the loop variable. -/
theorem C30_unbalanced_parentheses_accepted {α : Type} (A : DoubleOps α) :
    wellNested [")", "(", "1", ")"] = false ∧
      tokenize "f=)(1)" = ["f", "=", ")", "(", "1", ")"] ∧
      (GFunctionParser.ctor A false).add A "f=)(1)" =
        (.ok (), extended A
          [entry "f" (.GFunctionCall ")" none [.GFunctionConstant (A.atof "1")]) 0 29] 1) ∧
      (∀ (params : List α) (d : Nat),
        (((GFunctionParser.ctor A false).add A "f=)(1)").2.call A (d + 3) "f" params).1 =
          .error (.noIdentifier ")")) ∧
      ((GFunctionParser.ctor A false).add A "f=2+)(1)").1 = .ok () ∧
      (GFunctionParser.ctor A false).add A "f=(1+2" =
        (.error (.cannotParsePortion "(1+2"), GFunctionParser.ctor A false) ∧
      (GFunctionParser.ctor A false).add A "f=1+2)" =
        (.error (.cannotParsePortion "2)"), GFunctionParser.ctor A false) ∧
      (GFunctionParser.ctor A false).add A "f=g(1))" =
        (.error (.cannotParsePortion "1)"), GFunctionParser.ctor A false) ∧
      (∀ (tokens : List String) (start count : Nat),
        findOperatorWithLowestPrecidence tokens start count ≠ .error .unbalancedParentheses) := by
  refine ⟨by decide, by decide, ?_, ?_, ?_, ?_, ?_, ?_, findOperator_never_unbalanced⟩
  · rw [ctor_posix]
    exact (scenario_unbalanced_accepted A).1
  · intro params d
    rw [ctor_posix, (scenario_unbalanced_accepted A).1]
    exact scenario_unbalanced_call A params d
  · rw [ctor_posix, (scenario_unbalanced_accepted A).2]
  · rw [ctor_posix]
    exact (scenario_unbalanced_rejected A).1
  · rw [ctor_posix]
    exact (scenario_unbalanced_rejected A).2.1
  · rw [ctor_posix]
    exact (scenario_unbalanced_rejected A).2.2

/-! ## C36: "Unbalanced parentheses" -/

section NeverUnbalanced
variable {α : Type} (A : DoubleOps α)

/-- The loop of `parseCommaSeparatedChildren` throws only what
`parseFunctionBody` throws: its own test `i < 0` never holds. -/
theorem commaLoop_error
    (parse : Nat → Nat → Nat → Except Ex (GFunctionNode α)) (tokens : List String)
    (start depth : Nat) :
    ∀ (n i childBegin : Nat) (nests : Int) (children : List (GFunctionNode α)) (e : Ex),
      commaLoop parse tokens start depth n i childBegin nests children = .error e →
      ∃ s c, parse s c depth = .error e
  | 0, i, childBegin, nests, children, e, h => by
    simp [commaLoop] at h
  | n + 1, i, childBegin, nests, children, e, h => by
    simp only [commaLoop] at h
    by_cases h1 : (tokenAt tokens (start + i) == "(") = true
    · simp only [h1, ↓reduceIte] at h
      exact commaLoop_error parse tokens start depth n (i + 1) childBegin _ children e h
    simp only [h1, Bool.false_eq_true, ↓reduceIte] at h
    by_cases h2 : (tokenAt tokens (start + i) == ")") = true
    · have hi : ¬ ((i : Int) < 0) := by omega
      simp only [h2, ↓reduceIte, hi] at h
      exact commaLoop_error parse tokens start depth n (i + 1) childBegin _ children e h
    simp only [h2, Bool.false_eq_true, ↓reduceIte] at h
    by_cases h3 : (nests == 0 && tokenAt tokens (start + i) == ",") = true
    · simp only [h3, ↓reduceIte] at h
      cases hp : parse childBegin (start + i - childBegin) depth with
      | error e0 =>
        rw [hp] at h
        simp only [Except.error.injEq] at h
        exact ⟨_, _, h ▸ hp⟩
      | ok child =>
        rw [hp] at h
        exact commaLoop_error parse tokens start depth n (i + 1) (start + i + 1) nests
          (children ++ [child]) e h
    · simp only [h3, Bool.false_eq_true, ↓reduceIte] at h
      exact commaLoop_error parse tokens start depth n (i + 1) childBegin _ children e h

theorem parseCommaSeparatedChildren_error
    (parse : Nat → Nat → Nat → Except Ex (GFunctionNode α)) (tokens : List String)
    (start count depth : Nat) (e : Ex)
    (h : parseCommaSeparatedChildren parse tokens start count depth = .error e) :
    ∃ s c, parse s c depth = .error e := by
  simp only [parseCommaSeparatedChildren, Bind.bind, Except.bind] at h
  cases hl : commaLoop parse tokens start depth count 0 start 0 [] with
  | error e0 =>
    rw [hl] at h
    simp only [Except.error.injEq] at h
    exact commaLoop_error parse tokens start depth count 0 start 0 [] e (h ▸ hl)
  | ok r =>
    rw [hl] at h
    obtain ⟨cb, ch⟩ := r
    simp only at h
    cases hp : parse cb (start + count - cb) depth with
    | error e0 =>
      rw [hp] at h
      simp only [Except.error.injEq] at h
      exact ⟨_, _, h ▸ hp⟩
    | ok last =>
      rw [hp] at h
      cases h

/-- `parseMathOperator` throws what `parseFunctionBody` throws on one of the two
windows, or one of its own three messages. -/
theorem parseMathOperator_error
    (parse : Nat → Nat → Nat → Except Ex (GFunctionNode α)) (tokens : List String)
    (start count index depth : Nat) (e : Ex)
    (h : parseMathOperator parse tokens start count index depth = .error e) :
    (∃ s c, parse s c depth = .error e) ∨ e = .expectedBefore (tokenAt tokens index) ∨
      e = .expectedAfter (tokenAt tokens index) ∨
      e = .unrecognizedOperator (firstChar (tokenAt tokens index)) := by
  simp only [parseMathOperator, Bind.bind, Except.bind, Except.map, pure, Except.pure,
    throw, throwThe, MonadExceptOf.throw] at h
  by_cases h1 : index > start
  · simp only [h1, ↓reduceIte] at h
    cases hl : parse start (index - start) depth with
    | error e0 =>
      rw [hl] at h
      simp only [Except.error.injEq] at h
      exact Or.inl ⟨_, _, h ▸ hl⟩
    | ok l =>
      rw [hl] at h
      simp only at h
      by_cases h2 : index < start + count - 1
      · simp only [h2, ↓reduceIte] at h
        cases hr : parse (index + 1) (start + count - index - 1) depth with
        | error e0 =>
          rw [hr] at h
          simp only [Except.error.injEq] at h
          exact Or.inl ⟨_, _, h ▸ hr⟩
        | ok r =>
          rw [hr] at h
          simp only at h
          right; right; right
          split_ifs at h
          simp only [Except.error.injEq] at h
          exact h.symm
      · simp only [h2, ↓reduceIte, Except.error.injEq] at h
        exact Or.inr (Or.inr (Or.inl h.symm))
  · simp only [h1, ↓reduceIte] at h
    by_cases h2 : index < start + count - 1
    · simp only [h2, ↓reduceIte] at h
      cases hr : parse (index + 1) (start + count - index - 1) depth with
      | error e0 =>
        rw [hr] at h
        simp only [Except.error.injEq] at h
        exact Or.inl ⟨_, _, h ▸ hr⟩
      | ok r =>
        rw [hr] at h
        simp only at h
        split_ifs at h
        simp only [Except.error.injEq] at h
        exact Or.inr (Or.inl h.symm)
    · simp only [h2, ↓reduceIte, Except.error.injEq] at h
      exact Or.inr (Or.inl h.symm)

/-- `parseFunctionBody` never throws "Unbalanced parentheses". -/
theorem parseFunctionBody_never_unbalanced (vars tokens : List String) :
    ∀ (bound start count depth : Nat),
      parseFunctionBody A vars tokens bound start count depth ≠ .error .unbalancedParentheses
  | 0, _, _, _ => by
    intro h
    simp [parseFunctionBody] at h
  | bound + 1, start, count, depth => by
    intro h
    have ih := parseFunctionBody_never_unbalanced vars tokens bound
    simp only [parseFunctionBody] at h
    by_cases h1 : depth > 10000
    · simp [h1] at h
    simp only [h1, ↓reduceIte] at h
    by_cases h2 : count ≤ 0
    · simp [h2] at h
    simp only [h2, ↓reduceIte] at h
    by_cases h3 : (tokenAt tokens start == "(" && tokenAt tokens (start + count - 1) == ")" &&
        decide (enclosingLoop tokens start (count - 2) 1 1 ≥ count - 1)) = true
    · simp only [h3, ↓reduceIte] at h
      exact ih _ _ _ h
    simp only [h3, Bool.false_eq_true, ↓reduceIte] at h
    by_cases h4 : (count == 1) = true
    · simp only [h4, ↓reduceIte] at h
      by_cases hn : IsNameChar (firstChar (tokenAt tokens start)) = true
      · simp only [hn, ↓reduceIte] at h
        cases hv : findVariable vars (tokenAt tokens start) with
        | none => rw [hv] at h; cases h
        | some i => rw [hv] at h; cases h
      · simp only [hn, Bool.false_eq_true, ↓reduceIte] at h
        split_ifs at h
        cases h
    simp only [h4, Bool.false_eq_true, ↓reduceIte] at h
    cases hf : findOperatorWithLowestPrecidence tokens start count with
    | error e0 =>
      rw [hf] at h
      simp only [Except.error.injEq] at h
      exact findOperator_never_unbalanced tokens start count (h ▸ hf)
    | ok index =>
      rw [hf] at h
      simp only at h
      by_cases h5 : index ≥ 0
      · simp only [h5, ↓reduceIte] at h
        rcases parseMathOperator_error _ tokens start count _ _ _ h with
          ⟨s, c, hp⟩ | hp | hp | hp
        · exact ih _ _ _ hp
        · cases hp
        · cases hp
        · cases hp
      · simp only [h5, ↓reduceIte] at h
        split_ifs at h
        · cases h
        · cases hc : parseCommaSeparatedChildren (parseFunctionBody A vars tokens bound) tokens
              (start + 2) (count - 3) (depth + 1) with
          | error e0 =>
            rw [hc] at h
            simp only [Except.error.injEq] at h
            obtain ⟨s, c, hp⟩ := parseCommaSeparatedChildren_error _ tokens _ _ _ _ (h ▸ hc)
            exact ih _ _ _ hp
          | ok children =>
            rw [hc] at h
            cases h

theorem variableLoop_never_unbalanced (tokens : List String) (start count : Nat) :
    ∀ (n i : Nat) (vars : List String),
      variableLoop tokens start count n i vars ≠ .error .unbalancedParentheses
  | 0, _, _ => by
    intro h
    simp [variableLoop] at h
  | n + 1, i, vars => by
    intro h
    simp only [variableLoop] at h
    split_ifs at h
    · cases h
    · cases h
    · exact variableLoop_never_unbalanced tokens start count n _ _ h

theorem parseFunction_never_unbalanced (P : GFunctionParser α) (tokens : List String)
    (start count : Nat) :
    P.parseFunction A tokens start count ≠ .error .unbalancedParentheses := by
  intro h
  simp only [GFunctionParser.parseFunction] at h
  by_cases hc : (count == 0) = true
  · simp [hc] at h
  simp only [hc, Bool.false_eq_true, ↓reduceIte] at h
  by_cases he : equalLoop tokens start count 0 ≥ count
  · simp [he] at h
  simp only [he, ↓reduceIte] at h
  by_cases h0 : (equalLoop tokens start count 0 == 0) = true
  · simp [h0] at h
  simp only [h0, Bool.false_eq_true, ↓reduceIte] at h
  split at h
  · rename_i e0 heq
    simp only [Except.error.injEq] at h
    subst h
    split_ifs at heq
    all_goals first | cases heq | exact variableLoop_never_unbalanced _ _ _ _ _ _ heq
  · rename_i vars heq
    split at h
    · rename_i e1 hb
      simp only [Except.error.injEq] at h
      subst h
      exact parseFunctionBody_never_unbalanced A vars tokens _ _ _ _ hb
    · cases h

theorem functionListLoop_never_unbalanced (tokens : List String) :
    ∀ (n i start : Nat) (P : GFunctionParser α),
      (functionListLoop A tokens n i start P).1 ≠ .error .unbalancedParentheses
  | 0, _, _, _ => by
    intro h
    simp [functionListLoop] at h
  | n + 1, i, start, P => by
    intro h
    simp only [functionListLoop] at h
    split_ifs at h
    · cases hp : P.parseFunction A tokens start (i - start) with
      | error e0 =>
        rw [hp] at h
        simp only [Except.error.injEq] at h
        exact parseFunction_never_unbalanced A P tokens _ _ (h ▸ hp)
      | ok P' =>
        rw [hp] at h
        exact functionListLoop_never_unbalanced tokens n _ _ _ h
    · exact functionListLoop_never_unbalanced tokens n _ _ _ h

theorem add_never_unbalanced (P : GFunctionParser α) (text : String) :
    (P.add A text).1 ≠ .error .unbalancedParentheses := by
  intro h
  simp only [GFunctionParser.add, GFunctionParser.parseFunctionList] at h
  have hl := functionListLoop_never_unbalanced A (tokenize text) (tokenize text).length 0 0 P
  rcases hloop : functionListLoop A (tokenize text) (tokenize text).length 0 0 P with ⟨r, P'⟩
  rw [hloop] at h hl
  cases r with
  | error e0 =>
    simp only [Except.error.injEq] at h
    exact hl (by rw [h])
  | ok s =>
    simp only at h
    cases hp : P'.parseFunction A (tokenize text) s ((tokenize text).length - s) with
    | error e0 =>
      rw [hp] at h
      simp only [Except.error.injEq] at h
      exact parseFunction_never_unbalanced A P' _ _ _ (h ▸ hp)
    | ok P'' =>
      rw [hp] at h
      cases h

end NeverUnbalanced

/-- Below or above nesting count 0 the scan for the operator passes every
token that is no parenthesis without looking at it. -/
theorem findOperatorLoop_hidden (tokens : List String) (start : Nat) :
    ∀ (w rest : List String) (i : Nat) (p t nests : Int),
      tokens.drop (start + i) = w ++ rest → nests ≠ 0 → "(" ∉ w → ")" ∉ w →
      findOperatorLoop tokens start w.length i p t nests = .ok t
  | [], rest, i, p, t, nests, _, _, _, _ => rfl
  | tok :: w, rest, i, p, t, nests, hd, hn, ho, hc => by
    have ht := tokenAt_of_drop tokens (start + i) tok _ hd
    have hd' : tokens.drop (start + (i + 1)) = w ++ rest :=
      drop_succ_of_drop tokens (start + i) tok _ hd
    have h1 : (tok == "(") = false := by
      simp only [beq_eq_false_iff_ne, ne_eq]
      intro h
      exact ho (h ▸ List.mem_cons_self _ _)
    have h2 : (tok == ")") = false := by
      simp only [beq_eq_false_iff_ne, ne_eq]
      intro h
      exact hc (h ▸ List.mem_cons_self _ _)
    have h3 : (nests == 0) = false := by simpa using hn
    simp only [List.length_cons, findOperatorLoop, ht, h1, h2, h3, Bool.false_eq_true,
      ↓reduceIte]
    exact findOperatorLoop_hidden tokens start w rest (i + 1) p t nests hd' hn
      (fun h => ho (List.mem_cons_of_mem _ h)) (fun h => hc (List.mem_cons_of_mem _ h))

/-- After a `)` that opens the window, the scan sees none of the tokens that
follow outside parentheses: on `) w`, `w` without parentheses, it returns -1. -/
theorem findOperator_stray_close (tokens : List String) (start : Nat) (w rest : List String)
    (hd : tokens.drop start = ")" :: (w ++ rest)) (ho : "(" ∉ w) (hc : ")" ∉ w) :
    findOperatorWithLowestPrecidence tokens start (w.length + 1) = .ok (-1) := by
  have t0 := tokenAt_of_drop tokens (start + 0) ")" _ hd
  have d1 : tokens.drop (start + (0 + 1)) = w ++ rest := drop_succ_of_drop tokens start ")" _ hd
  have e1 : (")" == "(") = false := by decide
  have hi : ¬ (((0 : Nat) : Int) < 0) := by omega
  simp only [findOperatorWithLowestPrecidence, findOperatorLoop, t0, e1, Bool.false_eq_true,
    ↓reduceIte, beq_self_eq_true, hi]
  exact findOperatorLoop_hidden tokens start w rest (0 + 1) 100 (-1) (0 - 1) d1 (by omega) ho hc

/-- C36. "Unbalanced parentheses" is never thrown.  For every token vector
and window `findOperatorWithLowestPrecidence` does not fail with it;
`parseCommaSeparatedChildren` fails only with what the calls of
`parseFunctionBody` it makes fail with, so not with it either;
`parseFunctionBody` and `add` never fail with it.  The test in both loops is
`i < 0` on the loop variable.  A `)` without a `(` takes the nesting count to
-1: on a window `) w`, `w` without parentheses, the scan for the operator
returns -1 whatever symbols `w` holds (in `1 ) + 2` the `+` is not found),
and in `1 ) , 2` the loop of `parseCommaSeparatedChildren` does not split at
the comma. -/
theorem C36_unbalanced_never_thrown {α : Type} (A : DoubleOps α) :
    (∀ (tokens : List String) (start count : Nat),
      findOperatorWithLowestPrecidence tokens start count ≠ .error .unbalancedParentheses) ∧
    (∀ (parse : Nat → Nat → Nat → Except Ex (GFunctionNode α)) (tokens : List String)
      (start count depth : Nat) (e : Ex),
      parseCommaSeparatedChildren parse tokens start count depth = .error e →
      ∃ s c, parse s c depth = .error e) ∧
    (∀ (vars tokens : List String) (bound start count depth : Nat),
      parseCommaSeparatedChildren (parseFunctionBody A vars tokens bound) tokens start count
        depth ≠ .error .unbalancedParentheses) ∧
    (∀ (vars tokens : List String) (bound start count depth : Nat),
      parseFunctionBody A vars tokens bound start count depth ≠
        .error .unbalancedParentheses) ∧
    (∀ (P : GFunctionParser α) (text : String),
      (P.add A text).1 ≠ .error .unbalancedParentheses) ∧
    (∀ (tokens : List String) (start : Nat) (w rest : List String),
      tokens.drop start = ")" :: (w ++ rest) → "(" ∉ w → ")" ∉ w →
      findOperatorWithLowestPrecidence tokens start (w.length + 1) = .ok (-1)) ∧
    findOperatorWithLowestPrecidence ["1", ")", "+", "2"] 0 4 = .ok (-1) ∧
    findOperatorWithLowestPrecidence ["1", "+", "2"] 0 3 = .ok 1 ∧
    (∀ (parse : Nat → Nat → Nat → Except Ex (GFunctionNode α)) (depth : Nat),
      parseCommaSeparatedChildren parse ["1", ")", ",", "2"] 0 4 depth =
          (match parse 0 4 depth with
            | .error e => .error e
            | .ok c => .ok [c]) ∧
        parseCommaSeparatedChildren parse ["1", ",", "2"] 0 3 depth =
          (match parse 0 1 depth with
            | .error e => .error e
            | .ok a =>
              match parse 2 1 depth with
              | .error e => .error e
              | .ok b => .ok [a, b])) := by
  refine ⟨findOperator_never_unbalanced, ?_, ?_, parseFunctionBody_never_unbalanced A, ?_,
    findOperator_stray_close, by decide, by decide, ?_⟩
  · intro parse tokens start count depth e h
    exact parseCommaSeparatedChildren_error parse tokens start count depth e h
  · intro vars tokens bound start count depth h
    obtain ⟨s, c, hp⟩ := parseCommaSeparatedChildren_error _ tokens start count depth _ h
    exact parseFunctionBody_never_unbalanced A vars tokens bound s c depth hp
  · intro P text
    exact add_never_unbalanced A P text
  · intro parse depth
    constructor
    · have e : parseCommaSeparatedChildren parse ["1", ")", ",", "2"] 0 4 depth =
          (parse 0 4 depth).bind (fun last => .ok ([] ++ [last])) := rfl
      rw [e]
      cases parse 0 4 depth <;> rfl
    · have e : parseCommaSeparatedChildren parse ["1", ",", "2"] 0 3 depth =
          (match parse 0 1 depth with
            | .error e => .error e
            | .ok child => (parse 2 1 depth).bind (fun last => .ok ([] ++ [child] ++ [last]))) := by
        simp only [parseCommaSeparatedChildren, commaLoop, Bind.bind, Except.bind]
        cases parse 0 1 depth <;> rfl
      rw [e]
      cases parse 0 1 depth with
      | error e0 => rfl
      | ok a => cases parse 2 1 depth <;> rfl
/-! ## C37: the name of a statement -/

section StatementName
variable {α : Type} (A : DoubleOps α)

theorem scenario_odd_names :
    (extended A [] 0).add A "3=5" =
        (.ok (), extended A [entry "3" (.GFunctionConstant (A.atof "5")) 0 29] 1) ∧
      (extended A [] 0).add A "+=5" =
        (.ok (), extended A [entry "+" (.GFunctionConstant (A.atof "5")) 0 29] 1) ∧
      (extended A [] 0).add A "(=5" =
        (.ok (), extended A [entry "(" (.GFunctionConstant (A.atof "5")) 0 29] 1) ∧
      (extended A [] 0).add A "2.5=x+1" =
        (.ok (), extended A [entry "2.5" (operatorCall .plus [.GFunctionCall "x" none [],
          .GFunctionConstant (A.atof "1")]) 0 29] 1) :=
  ⟨rfl, rfl, rfl, rfl⟩

theorem scenario_odd_names_lookup :
    ((extended A [entry "3" (.GFunctionConstant (A.atof "5")) 0 29] 1).getFunctionNoThrow "3").map
        (fun fn => (fn.m_pRoot, fn.m_expectedParams)) =
        some (.GFunctionConstant (A.atof "5"), 0) ∧
      ((extended A [entry "+" (.GFunctionConstant (A.atof "5")) 0 29] 1).getFunctionNoThrow
        "+").map (fun fn => (fn.m_pRoot, fn.m_expectedParams)) =
        some (.GFunctionConstant (A.atof "5"), 0) :=
  ⟨rfl, rfl⟩

end StatementName

/-- C37. The name of a statement is not validated.  For every token `name`
other than `=` and every window `name = body` of a token vector (a statement
has no `;`) whose body parses to a tree `pRoot`, `parseFunction` returns and
gives `addFunction(name, pRoot, 0)`; when the statement is the whole token
vector, so does `parseFunctionList`, and `name` is then registered with that
root and no parameters.  No test is made on `name`: on a new parser
`add("3=5")` registers the name `3` with no parameters, `add("+=5")` the name
`+`, `add("(=5")` the name `(`. -/
theorem C37_statement_name_not_validated {α : Type} (A : DoubleOps α) :
    (∀ (P : GFunctionParser α) (pre post body : List String) (name : String)
      (pRoot : GFunctionNode α), name ≠ "=" →
      parseFunctionBody A [] (pre ++ (name :: "=" :: (body ++ post))) bodyBound
        (pre.length + 1 + 1) body.length 0 = .ok pRoot →
      P.parseFunction A (pre ++ (name :: "=" :: (body ++ post))) pre.length (2 + body.length) =
        .ok (P.addFunction name pRoot 0)) ∧
    (∀ (P : GFunctionParser α) (body : List String) (name : String) (pRoot : GFunctionNode α),
      name ≠ "=" → ";" ∉ name :: "=" :: body →
      parseFunctionBody A [] (name :: "=" :: body) bodyBound 2 body.length 0 = .ok pRoot →
      P.parseFunctionList A (name :: "=" :: body) = (.ok (), P.addFunction name pRoot 0) ∧
        (P.addFunction name pRoot 0).getFunctionNoThrow name =
          some { m_pRoot := pRoot, m_expectedParams := 0, addr := P.heapNext }) ∧
    ((GFunctionParser.ctor A false).add A "3=5").1 = .ok () ∧
    (((GFunctionParser.ctor A false).add A "3=5").2.getFunctionNoThrow "3").map
      (fun fn => (fn.m_pRoot, fn.m_expectedParams)) = some (.GFunctionConstant (A.atof "5"), 0) ∧
    ((GFunctionParser.ctor A false).add A "+=5").1 = .ok () ∧
    (((GFunctionParser.ctor A false).add A "+=5").2.getFunctionNoThrow "+").map
      (fun fn => (fn.m_pRoot, fn.m_expectedParams)) = some (.GFunctionConstant (A.atof "5"), 0) ∧
    ((GFunctionParser.ctor A false).add A "(=5").1 = .ok () := by
  have hwin : ∀ (P : GFunctionParser α) (pre post body : List String) (name : String)
      (pRoot : GFunctionNode α), name ≠ "=" →
      parseFunctionBody A [] (pre ++ (name :: "=" :: (body ++ post))) bodyBound
        (pre.length + 1 + 1) body.length 0 = .ok pRoot →
      P.parseFunction A (pre ++ (name :: "=" :: (body ++ post))) pre.length (2 + body.length) =
        .ok (P.addFunction name pRoot 0) := by
    intro P pre post body name pRoot hname hbody
    rw [parseFunction_constant_eq A P pre post body name hname, hbody]
  refine ⟨hwin, ?_, ?_, ?_, ?_, ?_, ?_⟩
  · intro P body name pRoot hname hsemi hbody
    refine ⟨?_, getFunctionNoThrow_addFunction P name pRoot 0⟩
    have h := hwin P [] [] body name pRoot hname (by simpa using hbody)
    simp only [List.nil_append, List.append_nil, List.length_nil] at h
    rw [parseFunctionList_one A P _ hsemi,
      show (name :: "=" :: body).length = 2 + body.length by simp only [List.length_cons]; omega,
      h]
  · rw [ctor_posix, (scenario_odd_names A).1]
  · rw [ctor_posix, (scenario_odd_names A).1]
    exact (scenario_odd_names_lookup A).1
  · rw [ctor_posix, (scenario_odd_names A).2.1]
  · rw [ctor_posix, (scenario_odd_names A).2.1]
    exact (scenario_odd_names_lookup A).2
  · rw [ctor_posix, (scenario_odd_names A).2.2.1]

/-- C37, at an input: the statement `3 = 5` on a new parser in exact
arithmetic; the body parses to the constant 5, and `parseFunctionList`
registers the name `3` with it. -/
theorem C37_statement_name_not_validated_witness :
    parseFunctionBody (exactOps noInexact) [] ["3", "=", "5"] bodyBound 2 1 0 =
        .ok (.GFunctionConstant ((exactOps noInexact).atof "5")) ∧
      (GFunctionParser.ctor (exactOps noInexact) false).parseFunctionList (exactOps noInexact)
        ["3", "=", "5"] =
        (.ok (), (GFunctionParser.ctor (exactOps noInexact) false).addFunction "3"
          (.GFunctionConstant ((exactOps noInexact).atof "5")) 0) :=
  ⟨rfl, ((C37_statement_name_not_validated (exactOps noInexact)).2.1
    (GFunctionParser.ctor (exactOps noInexact) false) ["5"] "3" _ (by decide) (by decide) rfl).1⟩

/-! ## C35: long chains without parentheses -/

theorem chain_length (a0 : String) (links : List (String × String)) :
    (chain a0 links).length = 2 * links.length + 1 := by
  induction links with
  | nil => rfl
  | cons q qs ih =>
    simp only [chain, List.map_cons, List.flatten_cons, List.length_cons, List.length_append,
      List.length_nil] at ih ⊢
    omega

theorem chain_snoc (a0 : String) (links : List (String × String)) (q : String × String) :
    chain a0 (links ++ [q]) = chain a0 links ++ [q.1, q.2] := by
  simp [chain]

/-- A token that starts with a letter, `_`, a digit or `.`: an operand of one
token. -/
theorem atom_operand (a : String)
    (ha : (IsNameChar (firstChar a) || IsDigit (firstChar a) || firstChar a == '.') = true) :
    isOperand [a] = true ∧ isOperandEnd a = true ∧ a ≠ "(" ∧ a ≠ ")" ∧ a ≠ ";" ∧ a ≠ "=" := by
  have h1 : a ≠ "(" := by
    intro h
    rw [h] at ha
    revert ha
    decide
  have h2 : a ≠ ")" := by
    intro h
    rw [h] at ha
    revert ha
    decide
  have h3 : a ≠ ";" := by
    intro h
    rw [h] at ha
    revert ha
    decide
  have h4 : a ≠ "=" := by
    intro h
    rw [h] at ha
    revert ha
    decide
  have e1 : (a == "(") = false := by simpa using h1
  have e2 : (a == ")") = false := by simpa using h2
  refine ⟨?_, ?_, h1, h2, h3, h4⟩
  · simp only [isOperand, operandFrom, nestsAfter, e1, e2, Bool.false_eq_true, ↓reduceIte,
      beq_self_eq_true, ha, Bool.and_self, List.isEmpty_cons, Bool.not_false]
  · simp only [isOperandEnd]
    simp only [Bool.or_eq_true] at ha ⊢
    rcases ha with (ha | ha) | ha
    · exact Or.inl (Or.inl (Or.inr ha))
    · exact Or.inl (Or.inl (Or.inl ha))
    · exact Or.inr ha

/-- The scan over the links of a chain whose operators all have the level
`lvl`: every operator is taken, so the last one is left. -/
theorem findOperatorLoop_links (tokens : List String) (start : Nat) (lvl : Int) :
    ∀ (links : List (String × String)) (rest : List String) (i n : Nat) (p t : Int),
      (∀ q ∈ links, (q.1, lvl) ∈ [("+", (4 : Int)), ("-", 4), ("*", 8), ("/", 8), ("%", 8),
          ("^", 12)] ∧
        (IsNameChar (firstChar q.2) || IsDigit (firstChar q.2) || firstChar q.2 == '.') = true) →
      lvl ≤ p → i ≠ 0 → isOperandEnd (tokenAt tokens (start + i - 1)) = true →
      tokens.drop (start + i) = (links.map (fun q => [q.1, q.2])).flatten ++ rest →
      findOperatorLoop tokens start (2 * links.length + n) i p t 0 =
        findOperatorLoop tokens start n (i + 2 * links.length)
          (if links = [] then p else lvl)
          (if links = [] then t else ((start + i + 2 * links.length - 2 : Nat) : Int)) 0
  | [], rest, i, n, p, t, _, _, _, _, _ => by simp
  | q :: qs, rest, i, n, p, t, hq, hp, hi, hb, hd => by
    obtain ⟨hop, hopd⟩ := hq q (List.mem_cons_self _ _)
    obtain ⟨ho1, ho2, -, -, -, -⟩ := atom_operand q.2 hopd
    have hd0 : tokens.drop (start + i) =
        q.1 :: ([q.2] ++ ((qs.map (fun q => [q.1, q.2])).flatten ++ rest)) := by
      rw [hd]
      simp
    have t0 := tokenAt_of_drop tokens _ q.1 _ hd0
    have hd1 : tokens.drop (start + (i + 1)) =
        [q.2] ++ ((qs.map (fun q => [q.1, q.2])).flatten ++ rest) :=
      drop_succ_of_drop tokens _ q.1 _ hd0
    have t1 := tokenAt_of_drop tokens _ q.2 _ hd1
    have hd2 : tokens.drop (start + (i + 1 + 1)) =
        (qs.map (fun q => [q.1, q.2])).flatten ++ rest :=
      drop_succ_of_drop tokens _ q.2 _ hd1
    have hb2 : isOperandEnd (tokenAt tokens (start + (i + 1 + 1) - 1)) = true := by
      rw [show start + (i + 1 + 1) - 1 = start + (i + 1) by omega, t1]
      exact ho2
    have hlen : 2 * (q :: qs).length + n = ((2 * qs.length + n) + 1) + 1 := by
      simp only [List.length_cons]
      omega
    have hskip := findOperatorLoop_isOperand tokens start [q.2] _ (i + 1) (2 * qs.length + n)
      lvl ((start + i : Nat) : Int) hd1 ho1
    rw [List.length_singleton, Nat.add_comm 1 (2 * qs.length + n)] at hskip
    rw [hlen, findOperatorLoop_binop tokens start _ i p t q.1 lvl hop t0 hi hb,
      if_pos (show p ≥ lvl from hp), hskip,
      findOperatorLoop_links tokens start lvl qs rest (i + 1 + 1) n lvl _
        (fun q' hq' => hq q' (List.mem_cons_of_mem _ hq')) (le_refl _) (by omega) hb2 hd2]
    have hne : (q :: qs) ≠ [] := List.cons_ne_nil _ _
    have e1 : i + 1 + 1 + 2 * qs.length = i + 2 * (q :: qs).length := by
      simp only [List.length_cons]
      omega
    have e2 : (if qs = [] then lvl else lvl) = lvl := ite_self lvl
    have e3 : (if qs = [] then ((start + i : Nat) : Int)
        else ((start + (i + 1 + 1) + 2 * qs.length - 2 : Nat) : Int)) =
        ((start + i + 2 * (q :: qs).length - 2 : Nat) : Int) := by
      by_cases hqs : qs = []
      · subst hqs
        simp
      · rw [if_neg hqs]
        congr 1
        simp only [List.length_cons]
        omega
    rw [e1, e2, e3, if_neg hne, if_neg hne]

/-- The scan of a chain of operators of one level returns the last operator. -/
theorem findOperator_chain (tokens : List String) (start : Nat) (lvl : Int) (a0 : String)
    (links : List (String × String)) (q : String × String) (rest : List String)
    (ha0 : (IsNameChar (firstChar a0) || IsDigit (firstChar a0) || firstChar a0 == '.') = true)
    (hq : ∀ q' ∈ links ++ [q], (q'.1, lvl) ∈ [("+", (4 : Int)), ("-", 4), ("*", 8), ("/", 8),
        ("%", 8), ("^", 12)] ∧
      (IsNameChar (firstChar q'.2) || IsDigit (firstChar q'.2) || firstChar q'.2 == '.') = true)
    (hd : tokens.drop start = chain a0 (links ++ [q]) ++ rest) :
    findOperatorWithLowestPrecidence tokens start (2 * (links ++ [q]).length + 1) =
      .ok ((start + (2 * links.length + 1) : Nat) : Int) := by
  obtain ⟨ho1, ho2, -, -, -, -⟩ := atom_operand a0 ha0
  have hd0 : tokens.drop (start + 0) =
      [a0] ++ (((links ++ [q]).map (fun q => [q.1, q.2])).flatten ++ rest) := by
    rw [Nat.add_zero, hd]
    simp [chain]
  have t0 := tokenAt_of_drop tokens _ a0 _ hd0
  have hd1 : tokens.drop (start + (0 + 1)) =
      ((links ++ [q]).map (fun q => [q.1, q.2])).flatten ++ rest :=
    drop_succ_of_drop tokens _ a0 _ hd0
  have hskip := findOperatorLoop_isOperand tokens start [a0] _ 0
    (2 * (links ++ [q]).length + 0) 100 (-1) hd0 ho1
  rw [List.length_singleton, Nat.add_comm 1, Nat.add_zero] at hskip
  have hlvl : lvl ≤ 100 := by
    have := level_le (hq q (by simp)).1
    omega
  have hb : isOperandEnd (tokenAt tokens (start + (0 + 1) - 1)) = true := by
    rw [show start + (0 + 1) - 1 = start + 0 by omega, t0]
    exact ho2
  have hloop := findOperatorLoop_links tokens start lvl (links ++ [q]) rest (0 + 1) 0 100 (-1)
    hq hlvl (by omega) hb hd1
  rw [findOperatorWithLowestPrecidence, hskip, hloop]
  have hne : links ++ [q] ≠ [] := by simp
  simp only [hne, ↓reduceIte, findOperatorLoop, List.length_append, List.length_singleton]
  congr 2
  omega

theorem operatorOf_table {op : String} {lvl : Int}
    (h : (op, lvl) ∈ [("+", (4 : Int)), ("-", 4), ("*", 8), ("/", 8), ("%", 8), ("^", 12)]) :
    (op, operatorOf op) ∈ [("+", MathFuncFunc.plus), ("-", .minus), ("*", .times),
      ("/", .divide), ("%", .modulus), ("^", .exponent)] ∧ op ≠ ";" ∧ op ≠ "(" := by
  simp only [List.mem_cons, Prod.mk.injEq, List.mem_singleton, List.not_mem_nil, or_false] at h
  rcases h with ⟨h1, -⟩ | ⟨h1, -⟩ | ⟨h1, -⟩ | ⟨h1, -⟩ | ⟨h1, -⟩ | ⟨h1, -⟩ <;> subst h1 <;> decide

section Chains
variable {α : Type} (A : DoubleOps α)

/-- A window of one operand token parses to its node. -/
theorem parseFunctionBody_atom (vars tokens : List String) (bound start depth : Nat)
    (hdepth : depth ≤ 10000)
    (ha : (IsNameChar (firstChar (tokenAt tokens start)) ||
      IsDigit (firstChar (tokenAt tokens start)) ||
      firstChar (tokenAt tokens start) == '.') = true) :
    parseFunctionBody A vars tokens (bound + 1) start 1 depth =
      .ok (atomNode A vars (tokenAt tokens start)) := by
  rw [parseFunctionBody_single A vars tokens bound start depth hdepth]
  by_cases hn : IsNameChar (firstChar (tokenAt tokens start)) = true
  · simp only [hn, ↓reduceIte, atomNode]
    cases List.indexOf? (tokenAt tokens start) vars <;> rfl
  · have hd : (IsDigit (firstChar (tokenAt tokens start)) ||
        firstChar (tokenAt tokens start) == '.') = true := by
      simp only [Bool.not_eq_true] at hn
      rw [hn, Bool.false_or] at ha
      exact ha
    simp only [hn, Bool.false_eq_true, ↓reduceIte, hd, atomNode]

/-- A chain of `k` binary operators of one level, entered at `depth`: its
left operand is parsed one level deeper for every operator, so the first
operand is parsed at `depth + k`. -/
theorem parseFunctionBody_chain (vars tokens : List String) (lvl : Int) (a0 : String)
    (ha0 : (IsNameChar (firstChar a0) || IsDigit (firstChar a0) || firstChar a0 == '.') = true) :
    ∀ (k : Nat) (links : List (String × String)) (bound start depth : Nat) (rest : List String),
      links.length = k →
      (∀ q ∈ links, (q.1, lvl) ∈ [("+", (4 : Int)), ("-", 4), ("*", 8), ("/", 8), ("%", 8),
          ("^", 12)] ∧
        (IsNameChar (firstChar q.2) || IsDigit (firstChar q.2) || firstChar q.2 == '.') = true) →
      tokens.drop start = chain a0 links ++ rest → depth ≤ 10001 → 10002 ≤ bound + depth →
      parseFunctionBody A vars tokens bound start (2 * k + 1) depth =
        if depth + k > 10000 then .error .deepNesting
        else .ok (chainTree A vars a0 links)
  | 0, links, bound, start, depth, rest, hk, _, hd, hdepth, hbound => by
    have hl : links = [] := List.length_eq_zero.mp hk
    subst hl
    have t0 : tokenAt tokens start = a0 := tokenAt_of_drop tokens start a0 _ hd
    obtain ⟨b, rfl⟩ : ∃ b, bound = b + 1 := ⟨bound - 1, by omega⟩
    by_cases hdp : depth > 10000
    · simp [parseFunctionBody, hdp]
    · rw [parseFunctionBody_atom A vars tokens b start depth (by omega) (by rw [t0]; exact ha0),
        t0, if_neg (by omega)]
      rfl
  | k + 1, links, bound, start, depth, rest, hk, hq, hd, hdepth, hbound => by
    obtain ⟨b, rfl⟩ : ∃ b, bound = b + 1 := ⟨bound - 1, by omega⟩
    by_cases hdp : depth > 10000
    · have : depth + (k + 1) > 10000 := by omega
      simp [parseFunctionBody, hdp, this]
    rcases List.eq_nil_or_concat links with hnil | ⟨init, q, hlinks⟩
    · subst hnil
      exact absurd hk (by simp)
    rw [List.concat_eq_append] at hlinks
    subst hlinks
    have hinit : init.length = k := by
      simp only [List.length_append, List.length_singleton] at hk
      omega
    have hqi : ∀ q' ∈ init, (q'.1, lvl) ∈ [("+", (4 : Int)), ("-", 4), ("*", 8), ("/", 8),
        ("%", 8), ("^", 12)] ∧
        (IsNameChar (firstChar q'.2) || IsDigit (firstChar q'.2) || firstChar q'.2 == '.') = true :=
      fun q' hq' => hq q' (List.mem_append_left _ hq')
    obtain ⟨hqop, hqa⟩ := hq q (by simp)
    obtain ⟨-, -, h0p, -, -, -⟩ := atom_operand a0 ha0
    have t0 : tokenAt tokens start = a0 := by
      apply tokenAt_of_drop tokens start a0 (((init ++ [q]).map (fun q => [q.1, q.2])).flatten ++ rest)
      rw [hd]
      simp [chain]
    have hd' : tokens.drop start = chain a0 init ++ (q.1 :: q.2 :: rest) := by
      rw [hd, chain_snoc]
      simp
    have hcl := chain_length a0 init
    have d1 : tokens.drop (start + (2 * k + 1)) = q.1 :: q.2 :: rest := by
      have := drop_after tokens start _ _ hd'
      rw [hcl, hinit] at this
      exact this
    have top := tokenAt_of_drop tokens _ q.1 _ d1
    have d2 : tokens.drop (start + (2 * k + 1) + 1) = q.2 :: rest :=
      drop_succ_of_drop tokens _ q.1 _ d1
    have ta := tokenAt_of_drop tokens _ q.2 _ d2
    have hidx := findOperator_chain tokens start lvl a0 init q rest ha0 hq hd
    rw [hk, hinit] at hidx
    have hcount : 2 * (k + 1) + 1 = (2 * k + 1) + 1 + 1 := by omega
    have hne : (tokenAt tokens start == "(" &&
        tokenAt tokens (start + ((2 * k + 1) + 1 + 1) - 1) == ")" &&
        decide (enclosingLoop tokens start (((2 * k + 1) + 1 + 1) - 2) 1 1 ≥
          ((2 * k + 1) + 1 + 1) - 1)) = false := by
      have : (tokenAt tokens start == "(") = false := by
        rw [t0]
        simpa using h0p
      simp [this]
    have ih := parseFunctionBody_chain vars tokens lvl a0 ha0 k init b start (depth + 1)
      (q.1 :: q.2 :: rest) hinit hqi hd' (by omega) (by omega)
    rw [hcount]
    rw [hcount] at hidx
    by_cases hdeep : depth + (k + 1) > 10000
    · rw [if_pos (by omega)] at ih
      rw [if_pos hdeep, parseFunctionBody_operator A vars tokens b start _ depth
        (start + (2 * k + 1)) (by omega) (by omega) hne hidx]
      exact parseMathOperator_left_error _ tokens start _ _ (depth + 1) _ (by omega)
        (by rw [Nat.add_sub_cancel_left]; exact ih)
    · rw [if_neg (by omega)] at ih
      rw [if_neg hdeep]
      obtain ⟨b', rfl⟩ : ∃ b', b = b' + 1 := ⟨b - 1, by omega⟩
      have hr : parseFunctionBody A vars tokens (b' + 1) (start + (2 * k + 1) + 1) 1
          (depth + 1) = .ok (atomNode A vars q.2) := by
        rw [parseFunctionBody_atom A vars tokens b' _ (depth + 1) (by omega)
          (by rw [ta]; exact hqa), ta]
      rw [parseFunctionBody_split A vars tokens (b' + 1) start depth (2 * k + 1) 1 q.1
        (operatorOf q.1) _ _ hne (by omega) top (le_refl _) hidx ih hr (operatorOf_table hqop).1]
      simp only [chainTree, List.foldl_append, List.foldl_cons, List.foldl_nil]

end Chains

theorem chainChars_head (k : Nat) :
    (List.replicate k ['+', '1']).flatten = [] ∨
      ∃ r, (List.replicate k ['+', '1']).flatten = '+' :: r := by
  cases k with
  | zero => exact Or.inl rfl
  | succ k =>
    exact Or.inr ⟨'1' :: (List.replicate k ['+', '1']).flatten, by simp [List.replicate_succ]⟩

theorem Next_one (rest : List Char) (hrest : rest = [] ∨ ∃ r, rest = '+' :: r) :
    Next ('1' :: rest) = some ("1", token_type.number, rest) := by
  have hm : measureNumber rest 0 0 = 0 := by
    rcases hrest with h | ⟨r, h⟩ <;> subst h
    · rfl
    · simp [measureNumber, IsDigit]
  have h1 : ¬ '1'.toNat ≤ ' '.toNat := by decide
  have h2 : IsNameChar '1' = false := by decide
  have h3 : IsDigit '1' = true := by decide
  simp [Next, skipSpace, h1, MeasureTokenLength, h2, h3, hm]

theorem tokenizeLoop_links :
    ∀ (k fuel : Nat) (acc : List String),
      tokenizeLoop (2 * k + fuel) ((List.replicate k ['+', '1']).flatten) acc =
        tokenizeLoop fuel []
          (acc ++ ((List.replicate k ("+", "1")).map (fun q => [q.1, q.2])).flatten)
  | 0, fuel, acc => by simp
  | k + 1, fuel, acc => by
    have hP : ∀ q, Next ('+' :: q) = some ("+", token_type.symbol, q) := fun q =>
      Next_symbol '+' q (by decide) (by decide) (by decide) (by decide)
    have hs : (List.replicate (k + 1) ['+', '1']).flatten =
        '+' :: '1' :: (List.replicate k ['+', '1']).flatten := by
      simp [List.replicate_succ]
    have ht : ((List.replicate (k + 1) ("+", "1")).map (fun q => [q.1, q.2])).flatten =
        "+" :: "1" :: ((List.replicate k ("+", "1")).map (fun q => [q.1, q.2])).flatten := by
      simp [List.replicate_succ]
    rw [show 2 * (k + 1) + fuel = ((2 * k + fuel) + 1) + 1 by omega, hs, ht, tokenizeLoop]
    simp only [hP]
    rw [tokenizeLoop]
    simp only [Next_one _ (chainChars_head k)]
    rw [tokenizeLoop_links k fuel]
    simp only [List.append_assoc, List.cons_append, List.nil_append]

theorem tokenize_chainText (k : Nat) :
    tokenize (chainText k) = "f" :: "=" :: chain "1" (List.replicate k ("+", "1")) := by
  have hall : ∀ c ∈ 'f' :: '=' :: '1' :: (List.replicate k ['+', '1']).flatten,
      (c != Char.ofNat 0) = true := by
    intro c hc
    simp only [List.mem_cons, List.mem_flatten, List.mem_replicate] at hc
    rcases hc with h | h | h | ⟨l, ⟨-, hl⟩, hc⟩
    · subst h; decide
    · subst h; decide
    · subst h; decide
    · subst hl
      simp only [List.mem_cons, List.mem_singleton, List.not_mem_nil, or_false] at hc
      rcases hc with h | h <;> subst h <;> decide
  have htw : (chainText k).data.takeWhile (fun c => c != Char.ofNat 0) =
      'f' :: '=' :: '1' :: (List.replicate k ['+', '1']).flatten := by
    rw [chainText, List.takeWhile_eq_self_iff]
    exact hall
  have hF : ∀ q, Next ('f' :: '=' :: q) = some ("f", token_type.name, '=' :: q) := by
    intro q
    have h1 : ¬ 'f'.toNat ≤ ' '.toNat := by decide
    have h2 : IsNameChar 'f' = true := by decide
    have h3 : IsNameChar '=' = false := by decide
    have h4 : IsDigit '=' = false := by decide
    simp [Next, skipSpace, h1, MeasureTokenLength, h2, measureName, h3, h4]
  have hE : ∀ q, Next ('=' :: q) = some ("=", token_type.symbol, q) := fun q =>
    Next_symbol '=' q (by decide) (by decide) (by decide) (by decide)
  have hlen : ('f' :: '=' :: '1' :: (List.replicate k ['+', '1']).flatten).length =
      ((2 * k + 1) + 1) + 1 := by
    simp only [List.length_cons, List.length_flatten, List.map_replicate, List.length_nil,
      List.sum_replicate, smul_eq_mul]
    omega
  have hin := tokenizeLoop_links k 0 ([] ++ ["f"] ++ ["="] ++ ["1"])
  rw [Nat.add_zero] at hin
  simp only [tokenize, htw]
  rw [hlen, tokenizeLoop]
  simp only [hF]
  rw [tokenizeLoop]
  simp only [hE]
  rw [tokenizeLoop]
  simp only [Next_one _ (chainChars_head k)]
  rw [hin]
  simp [tokenizeLoop, chain]

/-- C35. Long chains without parentheses.  A statement `name = a0 op1 a1 ...
opk ak` whose operands are single tokens (names or numbers) and whose `k`
binary operators all have one precedence level: the window of the body is
split at its last operator and the part to the left of it is parsed one
level deeper, so the first operand is parsed at depth `k`.
`parseFunctionList` throws "Pathologically deep nesting", leaving the parser
as it was, when `k > 10000`, and for `k <= 10000` it returns, having
installed under `name` the tree `((a0 op1 a1) op2 a2) ...`.  The same for
`add` on the text `f=1+1+...+1` with `k` operators, which has no
parenthesis. -/
theorem C35_flat_chain_depth :
    (∀ (α : Type) (A : DoubleOps α) (vars tokens : List String) (lvl : Int) (a0 : String)
      (links : List (String × String)) (bound start depth : Nat) (rest : List String),
      (IsNameChar (firstChar a0) || IsDigit (firstChar a0) || firstChar a0 == '.') = true →
      (∀ q ∈ links, (q.1, lvl) ∈ [("+", (4 : Int)), ("-", 4), ("*", 8), ("/", 8), ("%", 8),
          ("^", 12)] ∧
        (IsNameChar (firstChar q.2) || IsDigit (firstChar q.2) || firstChar q.2 == '.') = true) →
      tokens.drop start = chain a0 links ++ rest → depth ≤ 10001 → 10002 ≤ bound + depth →
      parseFunctionBody A vars tokens bound start (2 * links.length + 1) depth =
        if depth + links.length > 10000 then .error .deepNesting
        else .ok (chainTree A vars a0 links)) ∧
    (∀ (α : Type) (A : DoubleOps α) (P : GFunctionParser α) (lvl : Int) (name a0 : String)
      (links : List (String × String)),
      name ≠ "=" → name ≠ ";" →
      (IsNameChar (firstChar a0) || IsDigit (firstChar a0) || firstChar a0 == '.') = true →
      (∀ q ∈ links, (q.1, lvl) ∈ [("+", (4 : Int)), ("-", 4), ("*", 8), ("/", 8), ("%", 8),
          ("^", 12)] ∧
        (IsNameChar (firstChar q.2) || IsDigit (firstChar q.2) || firstChar q.2 == '.') = true) →
      P.parseFunctionList A (name :: "=" :: chain a0 links) =
        if links.length > 10000 then (.error .deepNesting, P)
        else (.ok (), P.addFunction name (chainTree A [] a0 links) 0)) ∧
    (∀ (α : Type) (A : DoubleOps α) (P : GFunctionParser α) (k : Nat),
      ("(" ∉ tokenize (chainText k) ∧ ")" ∉ tokenize (chainText k)) ∧
      P.add A (chainText k) =
        if k > 10000 then (.error .deepNesting, P)
        else (.ok (), P.addFunction "f"
          (chainTree A [] "1" (List.replicate k ("+", "1"))) 0)) := by
  have hbody : ∀ (α : Type) (A : DoubleOps α) (vars tokens : List String) (lvl : Int)
      (a0 : String) (links : List (String × String)) (bound start depth : Nat)
      (rest : List String),
      (IsNameChar (firstChar a0) || IsDigit (firstChar a0) || firstChar a0 == '.') = true →
      (∀ q ∈ links, (q.1, lvl) ∈ [("+", (4 : Int)), ("-", 4), ("*", 8), ("/", 8), ("%", 8),
          ("^", 12)] ∧
        (IsNameChar (firstChar q.2) || IsDigit (firstChar q.2) || firstChar q.2 == '.') = true) →
      tokens.drop start = chain a0 links ++ rest → depth ≤ 10001 → 10002 ≤ bound + depth →
      parseFunctionBody A vars tokens bound start (2 * links.length + 1) depth =
        if depth + links.length > 10000 then .error .deepNesting
        else .ok (chainTree A vars a0 links) := by
    intro α A vars tokens lvl a0 links bound start depth rest ha0 hq hd hdepth hbound
    exact parseFunctionBody_chain A vars tokens lvl a0 ha0 links.length links bound start depth
      rest rfl hq hd hdepth hbound
  have hmem : ∀ (lvl : Int) (a0 : String) (links : List (String × String)) (x : String),
      (IsNameChar (firstChar a0) || IsDigit (firstChar a0) || firstChar a0 == '.') = true →
      (∀ q ∈ links, (q.1, lvl) ∈ [("+", (4 : Int)), ("-", 4), ("*", 8), ("/", 8), ("%", 8),
          ("^", 12)] ∧
        (IsNameChar (firstChar q.2) || IsDigit (firstChar q.2) || firstChar q.2 == '.') = true) →
      x ∈ chain a0 links → x ≠ ";" ∧ x ≠ "(" := by
    intro lvl a0 links x ha0 hq hx
    simp only [chain, List.mem_cons, List.mem_flatten, List.mem_map] at hx
    rcases hx with h | ⟨l, ⟨q, hql, hl⟩, hx⟩
    · subst h
      obtain ⟨-, -, h1, -, h3, -⟩ := atom_operand x ha0
      exact ⟨h3, h1⟩
    · subst hl
      obtain ⟨hop, hopd⟩ := hq q hql
      simp only [List.mem_cons, List.mem_singleton, List.not_mem_nil, or_false] at hx
      rcases hx with h | h
      · subst h
        exact (operatorOf_table hop).2
      · subst h
        obtain ⟨-, -, h1, -, h3, -⟩ := atom_operand q.2 hopd
        exact ⟨h3, h1⟩
  have hlist : ∀ (α : Type) (A : DoubleOps α) (P : GFunctionParser α) (lvl : Int)
      (name a0 : String) (links : List (String × String)),
      name ≠ "=" → name ≠ ";" →
      (IsNameChar (firstChar a0) || IsDigit (firstChar a0) || firstChar a0 == '.') = true →
      (∀ q ∈ links, (q.1, lvl) ∈ [("+", (4 : Int)), ("-", 4), ("*", 8), ("/", 8), ("%", 8),
          ("^", 12)] ∧
        (IsNameChar (firstChar q.2) || IsDigit (firstChar q.2) || firstChar q.2 == '.') = true) →
      P.parseFunctionList A (name :: "=" :: chain a0 links) =
        if links.length > 10000 then (.error .deepNesting, P)
        else (.ok (), P.addFunction name (chainTree A [] a0 links) 0) := by
    intro α A P lvl name a0 links hname hsemi ha0 hq
    have hno : ";" ∉ name :: "=" :: chain a0 links := by
      intro hm
      simp only [List.mem_cons] at hm
      rcases hm with h | h | h
      · exact hsemi h.symm
      · exact absurd h (by decide)
      · exact (hmem lvl a0 links ";" ha0 hq (by simpa [chain] using h)).1 rfl
    have hlen : (name :: "=" :: chain a0 links).length = 2 + (chain a0 links).length := by
      simp only [List.length_cons]
      omega
    have hpf := parseFunction_constant_eq A P [] [] (chain a0 links) name hname
    simp only [List.nil_append, List.append_nil, List.length_nil, Nat.zero_add] at hpf
    have hb := hbody α A [] (name :: "=" :: chain a0 links) lvl a0 links bodyBound 2 0 []
      ha0 hq (by simp) (by omega) (by simp [bodyBound])
    rw [chain_length] at hpf hlen
    rw [parseFunctionList_one A P _ hno, hlen, hpf, hb, Nat.zero_add]
    by_cases hn : links.length > 10000
    · simp only [hn, ↓reduceIte]
    · simp only [hn, ↓reduceIte]
  refine ⟨hbody, hlist, ?_⟩
  intro α A P k
  have hq : ∀ q ∈ List.replicate k ("+", "1"),
      (q.1, (4 : Int)) ∈ [("+", (4 : Int)), ("-", 4), ("*", 8), ("/", 8), ("%", 8), ("^", 12)] ∧
      (IsNameChar (firstChar q.2) || IsDigit (firstChar q.2) || firstChar q.2 == '.') = true := by
    intro q hq
    rw [List.mem_replicate] at hq
    rw [hq.2]
    decide
  have h1 : (IsNameChar (firstChar "1") || IsDigit (firstChar "1") || firstChar "1" == '.') =
      true := by decide
  refine ⟨?_, ?_⟩
  · rw [tokenize_chainText]
    constructor
    · intro hm
      simp only [List.mem_cons] at hm
      rcases hm with h | h | h
      · exact absurd h (by decide)
      · exact absurd h (by decide)
      · exact (hmem 4 "1" _ "(" h1 hq (by simpa [chain] using h)).2 rfl
    · intro hm
      simp only [List.mem_cons] at hm
      rcases hm with h | h | h
      · exact absurd h (by decide)
      · exact absurd h (by decide)
      · simp only [chain, List.mem_cons, List.mem_flatten, List.mem_map,
          List.mem_replicate] at h
        rcases h with h | ⟨l, ⟨q, ⟨-, hq2⟩, hl⟩, hx⟩
        · exact absurd h (by decide)
        · subst hl
          subst hq2
          simp only [List.mem_cons, List.mem_singleton, List.not_mem_nil, or_false] at hx
          rcases hx with h | h <;> exact absurd h (by decide)
  · have := hlist α A P 4 "f" "1" (List.replicate k ("+", "1")) (by decide) (by decide) h1 hq
    rw [List.length_replicate] at this
    rw [GFunctionParser.add, tokenize_chainText]
    exact this

/-- C35, at an input: on a new parser `add` throws "Pathologically deep
nesting" on `f=1+1+...+1` with 10001 operators and accepts the text with
10000. -/
theorem C35_flat_chain_depth_witness :
    ((GFunctionParser.ctor (exactOps noInexact) false).add (exactOps noInexact)
        (chainText 10001)).1 = .error .deepNesting ∧
      ((GFunctionParser.ctor (exactOps noInexact) false).add (exactOps noInexact)
        (chainText 10000)).1 = .ok () := by
  refine ⟨?_, ?_⟩
  · rw [(C35_flat_chain_depth.2.2 ℚ (exactOps noInexact) _ 10001).2, if_pos (by decide)]
  · rw [(C35_flat_chain_depth.2.2 ℚ (exactOps noInexact) _ 10000).2, if_neg (by decide)]

/-! ## Call nodes, parsed trees and skeletons -/

section Sites
variable {α : Type}

theorem callSites_call (name : String) (pf : Option NodePtr) (cs : List (GFunctionNode α)) :
    (GFunctionNode.GFunctionCall name pf cs).callSites =
      (name, pf, cs.length) :: GFunctionNode.callSites.callSitesChildren cs := by
  simp [GFunctionNode.callSites]

theorem mem_callSitesChildren (s : String × Option NodePtr × Nat) :
    ∀ cs : List (GFunctionNode α),
      s ∈ GFunctionNode.callSites.callSitesChildren cs ↔ ∃ c ∈ cs, s ∈ c.callSites
  | [] => by simp [GFunctionNode.callSites.callSitesChildren]
  | c :: cs => by
    simp only [GFunctionNode.callSites.callSitesChildren, List.mem_append,
      mem_callSitesChildren s cs, List.mem_cons, exists_eq_or_imp]

theorem parsed_call (k : Nat) (name : String) (pf : Option NodePtr)
    (cs : List (GFunctionNode α)) :
    (GFunctionNode.GFunctionCall name pf cs).parsed k =
      ((match pf with
        | none => true
        | some (.operator f) => name == "" && operatorArity f == some cs.length
        | some (.root _) => false) &&
        GFunctionNode.parsed.parsedChildren k cs) := by
  simp [GFunctionNode.parsed]

theorem parsedChildren_iff (k : Nat) :
    ∀ cs : List (GFunctionNode α),
      GFunctionNode.parsed.parsedChildren k cs = true ↔ ∀ c ∈ cs, c.parsed k = true
  | [] => by simp [GFunctionNode.parsed.parsedChildren]
  | c :: cs => by
    simp only [GFunctionNode.parsed.parsedChildren, Bool.and_eq_true, parsedChildren_iff k cs,
      List.mem_cons, forall_eq_or_imp]

mutual

theorem callSites_unlink (name : String) :
    ∀ t : GFunctionNode α,
      (t.unlink name).callSites =
        t.callSites.map (fun s => (s.1, if s.1 == name then none else s.2.1, s.2.2))
  | .GFunctionBuiltIn _ => rfl
  | .GFunctionVariable _ => rfl
  | .GFunctionConstant _ => rfl
  | .GFunctionCall m_name pf cs => by
    simp only [GFunctionNode.unlink, GFunctionNode.callSites, List.map_cons,
      callSitesChildren_unlink name cs, unlinkChildren_length]

theorem callSitesChildren_unlink (name : String) :
    ∀ l : List (GFunctionNode α),
      GFunctionNode.callSites.callSitesChildren (GFunctionNode.unlink.unlinkChildren name l) =
        (GFunctionNode.callSites.callSitesChildren l).map
          (fun s => (s.1, if s.1 == name then none else s.2.1, s.2.2))
  | [] => rfl
  | c :: l => by
    simp only [GFunctionNode.unlink.unlinkChildren, GFunctionNode.callSites.callSitesChildren,
      List.map_append, callSitesChildren_unlink name l, callSites_unlink name c]

end

mutual

/-- A tree of the parser holds no pointer to a root. -/
theorem parsed_noRoot (k : Nat) :
    ∀ t : GFunctionNode α, t.parsed k = true →
      ∀ s ∈ t.callSites, ∀ a, s.2.1 ≠ some (.root a)
  | .GFunctionBuiltIn _, _ => by simp [GFunctionNode.callSites]
  | .GFunctionVariable _, _ => by simp [GFunctionNode.callSites]
  | .GFunctionConstant _, _ => by simp [GFunctionNode.callSites]
  | .GFunctionCall m_name pf cs, h => by
    rw [parsed_call, Bool.and_eq_true] at h
    intro s hs a
    rw [callSites_call, List.mem_cons] at hs
    rcases hs with hs | hs
    · subst hs
      intro hp
      simp only at hp
      rw [hp] at h
      simp at h
    · exact parsedChildren_noRoot k cs h.2 s hs a

theorem parsedChildren_noRoot (k : Nat) :
    ∀ l : List (GFunctionNode α), GFunctionNode.parsed.parsedChildren k l = true →
      ∀ s ∈ GFunctionNode.callSites.callSitesChildren l, ∀ a, s.2.1 ≠ some (.root a)
  | [], _ => by simp [GFunctionNode.callSites.callSitesChildren]
  | c :: l, h => by
    simp only [GFunctionNode.parsed.parsedChildren, Bool.and_eq_true] at h
    intro s hs a
    simp only [GFunctionNode.callSites.callSitesChildren, List.mem_append] at hs
    rcases hs with hs | hs
    · exact parsed_noRoot k c h.1 s hs a
    · exact parsedChildren_noRoot k l h.2 s hs a

end

mutual

/-- A tree of the parser is its own skeleton. -/
theorem skeleton_parsed (k : Nat) :
    ∀ t : GFunctionNode α, t.parsed k = true → t.skeleton = t
  | .GFunctionBuiltIn _, _ => rfl
  | .GFunctionVariable _, _ => rfl
  | .GFunctionConstant _, _ => rfl
  | .GFunctionCall m_name pf cs, h => by
    rw [parsed_call, Bool.and_eq_true] at h
    rw [skeleton_call, skeletonChildren_parsed k cs h.2]
    cases pf with
    | none => rfl
    | some p =>
      cases p with
      | operator f => rfl
      | root a => simp at h

theorem skeletonChildren_parsed (k : Nat) :
    ∀ l : List (GFunctionNode α), GFunctionNode.parsed.parsedChildren k l = true →
      GFunctionNode.skeleton.skeletonChildren l = l
  | [], _ => rfl
  | c :: l, h => by
    simp only [GFunctionNode.parsed.parsedChildren, Bool.and_eq_true] at h
    simp only [GFunctionNode.skeleton.skeletonChildren, skeleton_parsed k c h.1,
      skeletonChildren_parsed k l h.2]

end

mutual

theorem skeleton_skeleton :
    ∀ t : GFunctionNode α, t.skeleton.skeleton = t.skeleton
  | .GFunctionBuiltIn _ => rfl
  | .GFunctionVariable _ => rfl
  | .GFunctionConstant _ => rfl
  | .GFunctionCall m_name pf cs => by
    rw [skeleton_call, skeleton_call, skeletonChildren_skeleton cs]
    cases pf with
    | none => rfl
    | some p => cases p <;> rfl

theorem skeletonChildren_skeleton :
    ∀ l : List (GFunctionNode α),
      GFunctionNode.skeleton.skeletonChildren (GFunctionNode.skeleton.skeletonChildren l) =
        GFunctionNode.skeleton.skeletonChildren l
  | [] => rfl
  | c :: l => by
    simp only [GFunctionNode.skeleton.skeletonChildren, skeleton_skeleton c,
      skeletonChildren_skeleton l]

end

mutual

/-- `unlink` of a name that is not empty leaves the skeleton of a tree whose
operator calls have no name. -/
theorem skeleton_unlink (k : Nat) (name : String) (hname : name ≠ "") :
    ∀ t : GFunctionNode α, t.skeleton.parsed k = true → (t.unlink name).skeleton = t.skeleton
  | .GFunctionBuiltIn _, _ => rfl
  | .GFunctionVariable _, _ => rfl
  | .GFunctionConstant _, _ => rfl
  | .GFunctionCall m_name pf cs, h => by
    rw [skeleton_call, parsed_call, Bool.and_eq_true] at h
    simp only [GFunctionNode.unlink]
    rw [skeleton_call, skeleton_call, skeletonChildren_unlink k name hname cs h.2]
    by_cases hm : (m_name == name) = true
    · simp only [hm, ↓reduceIte]
      cases pf with
      | none => rfl
      | some p =>
        cases p with
        | root a => rfl
        | operator f =>
          exfalso
          have h1 := h.1
          simp only [Bool.and_eq_true, beq_iff_eq] at h1 hm
          exact hname (hm ▸ h1.1)
    · simp only [hm, Bool.false_eq_true, ↓reduceIte]

theorem skeletonChildren_unlink (k : Nat) (name : String) (hname : name ≠ "") :
    ∀ l : List (GFunctionNode α),
      GFunctionNode.parsed.parsedChildren k (GFunctionNode.skeleton.skeletonChildren l) = true →
      GFunctionNode.skeleton.skeletonChildren (GFunctionNode.unlink.unlinkChildren name l) =
        GFunctionNode.skeleton.skeletonChildren l
  | [], _ => rfl
  | c :: l, h => by
    simp only [GFunctionNode.skeleton.skeletonChildren, GFunctionNode.parsed.parsedChildren,
      Bool.and_eq_true] at h
    simp only [GFunctionNode.unlink.unlinkChildren, GFunctionNode.skeleton.skeletonChildren,
      skeleton_unlink k name hname c h.1, skeletonChildren_unlink k name hname l h.2]

end

end Sites

/-! ## The invariant and the registry -/

section InvRegistry
variable {α : Type} (A : DoubleOps α)

theorem siteOk_signature {P Q : GFunctionParser α} (h : P.signature = Q.signature)
    (s : String × Option NodePtr × Nat) (hs : P.siteOk s) : Q.siteOk s := by
  intro a ha
  obtain ⟨pFunc, hf, haddr, hck⟩ := hs a ha
  obtain ⟨pFunc', hf', hn, ha', -⟩ := getFunction_signature h s.1 pFunc hf
  exact ⟨pFunc', hf', ha'.trans haddr, by rw [hn]; exact hck⟩

theorem treeOk_signature {P Q : GFunctionParser α} (h : P.signature = Q.signature)
    (t : GFunctionNode α) (ht : P.treeOk t) : Q.treeOk t :=
  fun s hs => siteOk_signature h s (ht s hs)

theorem treeOk_call (P : GFunctionParser α) (name : String) (pf : Option NodePtr)
    (cs : List (GFunctionNode α)) :
    P.treeOk (.GFunctionCall name pf cs) ↔
      P.siteOk (name, pf, cs.length) ∧ ∀ c ∈ cs, P.treeOk c := by
  simp only [GFunctionParser.treeOk, callSites_call, List.mem_cons, forall_eq_or_imp,
    mem_callSitesChildren]
  constructor
  · rintro ⟨h1, h2⟩
    exact ⟨h1, fun c hc s hs => h2 s ⟨c, hc, hs⟩⟩
  · rintro ⟨h1, h2⟩
    exact ⟨h1, fun s ⟨c, hc, hs⟩ => h2 c hc s hs⟩

theorem shapeOk_signature (e1 e2 : String × GFunction α)
    (h : GFunction.signature e1 = GFunction.signature e2) : e1.2.shapeOk = e2.2.shapeOk := by
  simp only [GFunction.signature, Prod.mk.injEq] at h
  obtain ⟨-, hn, -, hsk⟩ := h
  simp only [GFunction.shapeOk, hn, hsk]

theorem shape_signature {P Q : GFunctionParser α} (h : P.signature = Q.signature)
    (hP : ∀ e ∈ P.m_functions, e.2.shapeOk = true) :
    ∀ e ∈ Q.m_functions, e.2.shapeOk = true := by
  intro e he
  have hm : GFunction.signature e ∈ Q.m_functions.map GFunction.signature :=
    List.mem_map_of_mem _ he
  have hmaps : P.m_functions.map GFunction.signature = Q.m_functions.map GFunction.signature :=
    congrArg Prod.fst h
  rw [← hmaps] at hm
  obtain ⟨e0, he0, hs⟩ := List.mem_map.mp hm
  rw [← shapeOk_signature e0 e hs]
  exact hP e0 he0

theorem heapOk_signature {P Q : GFunctionParser α} (h : P.signature = Q.signature)
    (hP : P.heapOk) : Q.heapOk := by
  intro e he
  have hm : GFunction.signature e ∈ Q.m_functions.map GFunction.signature :=
    List.mem_map_of_mem _ he
  have hmaps : P.m_functions.map GFunction.signature = Q.m_functions.map GFunction.signature :=
    congrArg Prod.fst h
  rw [← hmaps] at hm
  obtain ⟨e0, he0, hs⟩ := List.mem_map.mp hm
  have h1 := hP e0 he0
  have h2 : e0.2.addr = e.2.addr := congrArg (fun s => s.2.2.1) hs
  have h3 : P.heapNext = Q.heapNext := congrArg Prod.snd h
  omega

/-- The skeleton of a root that fits is left alone by `unlink` of a name that
is not empty. -/
theorem shapeOk_unlink (name : String) (hname : name ≠ "") (pFunc : GFunction α)
    (h : pFunc.shapeOk = true) :
    (pFunc.m_pRoot.unlink name).skeleton = pFunc.m_pRoot.skeleton := by
  cases hr : pFunc.m_pRoot with
  | GFunctionBuiltIn f => rfl
  | GFunctionVariable i => rfl
  | GFunctionConstant v => rfl
  | GFunctionCall m_name pf cs =>
    simp only [GFunction.shapeOk, hr, skeleton_call, Bool.and_eq_true] at h
    rw [← skeleton_call] at h
    exact skeleton_unlink _ name hname _ h.2

theorem mapSet_nodup (name : String) (pFunc : GFunction α) :
    ∀ fs : List (String × GFunction α), (fs.map (fun e => e.2.addr)).Nodup →
      (∀ e ∈ fs, e.2.addr ≠ pFunc.addr) →
      ((GFunctionParser.mapSet fs name pFunc).map (fun e => e.2.addr)).Nodup
  | [], _, _ => by simp [GFunctionParser.mapSet]
  | (k, v) :: rest, hnd, hne => by
    simp only [List.map_cons, List.nodup_cons] at hnd
    by_cases hk : (k == name) = true
    · simp only [GFunctionParser.mapSet, hk, ↓reduceIte, List.map_cons, List.nodup_cons]
      refine ⟨?_, hnd.2⟩
      intro hmem
      obtain ⟨e, he, hea⟩ := List.mem_map.mp hmem
      exact hne e (List.mem_cons_of_mem _ he) hea
    · have hk' : (k == name) = false := by simpa using hk
      simp only [GFunctionParser.mapSet, hk', Bool.false_eq_true, ↓reduceIte, List.map_cons,
        List.nodup_cons]
      refine ⟨?_, mapSet_nodup name pFunc rest hnd.2
        (fun e he => hne e (List.mem_cons_of_mem _ he))⟩
      intro hmem
      obtain ⟨e, he, hea⟩ := List.mem_map.mp hmem
      rcases mem_mapSet name pFunc rest e he with h1 | h1
      · subst h1
        exact hne (k, v) (List.mem_cons_self _ _) hea.symm
      · exact hnd.1 (List.mem_map.mpr ⟨e, h1, hea⟩)

/-- The entries `addFunction` leaves under the other names: the `GFunction`s
that were there, their roots possibly unlinked. -/
theorem addFunction_mem (P : GFunctionParser α) (name : String) (pRoot : GFunctionNode α)
    (n : Int) (e : String × GFunction α) (he : e ∈ (P.addFunction name pRoot n).m_functions) :
    e = (name, { m_pRoot := pRoot, m_expectedParams := n, addr := P.heapNext }) ∨
      e ∈ P.m_functions ∨
      ∃ e0 ∈ P.m_functions, e = (e0.1, { e0.2 with m_pRoot := e0.2.m_pRoot.unlink name }) := by
  simp only [GFunctionParser.addFunction] at he
  rcases mem_mapSet _ _ _ e he with h | h
  · exact Or.inl h
  · right
    cases hf : P.getFunctionNoThrow name with
    | none =>
      rw [hf] at h
      exact Or.inl h
    | some old =>
      rw [hf] at h
      obtain ⟨e0, he0, rfl⟩ := List.mem_map.mp h
      exact Or.inr ⟨e0, he0, rfl⟩

theorem addFunction_addrs (P : GFunctionParser α) (name : String) (pRoot : GFunctionNode α)
    (n : Int) (hd : P.addrsDistinct) (hh : P.heapOk) :
    (P.addFunction name pRoot n).addrsDistinct := by
  simp only [GFunctionParser.addrsDistinct, GFunctionParser.addFunction]
  apply mapSet_nodup
  · cases hf : P.getFunctionNoThrow name with
    | none => exact hd
    | some old =>
      simp only [List.map_map]
      exact hd
  · intro e he
    have : e.2.addr < P.heapNext := by
      cases hf : P.getFunctionNoThrow name with
      | none =>
        rw [hf] at he
        exact hh e he
      | some old =>
        rw [hf] at he
        obtain ⟨e0, he0, rfl⟩ := List.mem_map.mp he
        exact hh e0 he0
    simp only [ne_eq]
    omega

/-- A name other than the one defined keeps its `GFunction`, with the same
allocation number and number of parameters. -/
theorem addFunction_lookup_ne (P : GFunctionParser α) (name : String)
    (pRoot : GFunctionNode α) (n : Int) (k : String) (hne : k ≠ name) (pFunc : GFunction α)
    (hf : P.getFunctionNoThrow k = some pFunc) :
    ∃ pFunc', (P.addFunction name pRoot n).getFunctionNoThrow k = some pFunc' ∧
      pFunc'.addr = pFunc.addr ∧ pFunc'.m_expectedParams = pFunc.m_expectedParams := by
  cases hold : P.getFunctionNoThrow name with
  | none =>
    refine ⟨pFunc, ?_, rfl, rfl⟩
    have hold' : P.m_functions.lookup name = none := hold
    simp only [GFunctionParser.addFunction, GFunctionParser.getFunctionNoThrow, hold']
    rw [lookup_mapSet_ne name k _ hne]
    exact hf
  | some old =>
    refine ⟨{ pFunc with m_pRoot := pFunc.m_pRoot.unlink name }, ?_, rfl, rfl⟩
    rw [addFunction_other P name old hold pRoot n k hne, hf]
    rfl

theorem Inv_empty : ({ m_functions := [], heapNext := 0 } : GFunctionParser α).Inv where
  heap := by intro e he; simp at he
  distinct := by simp [GFunctionParser.addrsDistinct]
  shape := by intro e he; simp at he
  cache := by intro e he; simp at he
  names := by intro e he; simp at he

/-- The invariant holds after `addFunction` of a name that is not empty with a
root that fits and holds no pointer to a root. -/
theorem Inv_addFunction (P : GFunctionParser α) (hP : P.Inv) (name : String) (hname : name ≠ "")
    (pRoot : GFunctionNode α) (n : Int)
    (hshape : GFunction.shapeOk
      { m_pRoot := pRoot, m_expectedParams := n, addr := P.heapNext } = true)
    (hfree : ∀ s ∈ pRoot.callSites, ∀ a, s.2.1 ≠ some (.root a)) :
    (P.addFunction name pRoot n).Inv where
  heap := addFunction_heapOk P hP.heap name pRoot n
  distinct := addFunction_addrs P name pRoot n hP.distinct hP.heap
  shape := by
    intro e he
    rcases addFunction_mem P name pRoot n e he with h | h | ⟨e0, he0, h⟩
    · subst h; exact hshape
    · exact hP.shape e h
    · subst h
      have h0 := hP.shape e0 he0
      have hsk := shapeOk_unlink name hname e0.2 h0
      simp only [GFunction.shapeOk] at h0 ⊢
      rw [hsk]
      exact h0
  names := by
    intro e he
    rcases addFunction_mem P name pRoot n e he with h | h | ⟨e0, he0, h⟩
    · subst h; exact hname
    · exact hP.names e h
    · subst h; exact hP.names e0 he0
  cache := by
    have key : ∀ s : String × Option NodePtr × Nat, s.1 ≠ name → P.siteOk s →
        (P.addFunction name pRoot n).siteOk s := by
      intro s hs hok a ha
      obtain ⟨pFunc, hf, haddr, hck⟩ := hok a ha
      obtain ⟨pFunc', hf', ha', hn'⟩ := addFunction_lookup_ne P name pRoot n s.1 hs pFunc hf
      exact ⟨pFunc', hf', ha'.trans haddr, by rw [hn']; exact hck⟩
    intro e he s hs
    rcases addFunction_mem P name pRoot n e he with h | h | ⟨e0, he0, h⟩
    · subst h
      intro a ha
      exact absurd ha (hfree s hs a)
    · by_cases hsn : s.1 = name
      · intro a ha
        obtain ⟨pFunc, hf, -, -⟩ := hP.cache e h s hs a ha
        -- the name is registered, so every root was unlinked: `e` is an unlinked entry
        exfalso
        simp only [GFunctionParser.addFunction] at he
        rw [hsn] at hf
        rw [hf] at he
        rcases mem_mapSet _ _ _ e he with h1 | h1
        · subst h1
          exact hfree s hs a ha
        · obtain ⟨e0, he0, rfl⟩ := List.mem_map.mp h1
          simp only [callSites_unlink, List.mem_map] at hs
          obtain ⟨s0, -, rfl⟩ := hs
          simp only at hsn ha
          simp [hsn] at ha
      · exact key s hsn (hP.cache e h s hs)
    · subst h
      simp only [callSites_unlink, List.mem_map] at hs
      obtain ⟨s0, hs0, rfl⟩ := hs
      by_cases hsn : s0.1 = name
      · intro a ha
        simp [hsn] at ha
      · have hb : (s0.1 == name) = false := by simpa using hsn
        simp only [hb, Bool.false_eq_true, ↓reduceIte]
        exact key _ hsn (hP.cache e0 he0 s0 hs0)

theorem Inv_ctor ( windows : Bool) : (GFunctionParser.ctor A windows).Inv := by
  cases windows
  all_goals
    simp only [GFunctionParser.ctor, Bool.false_eq_true, ↓reduceIte]
    repeat' apply Inv_addFunction
  all_goals
    first
    | exact Inv_empty
    | decide
    | rfl
    | (intro s hs; simp [GFunctionNode.callSites] at hs)

end InvRegistry

/-! ## The evaluator without the cache -/

section FreeEval
variable {α : Type} (A : DoubleOps α)

theorem evalFreeChildren_congr (f g : GFunctionNode α → Except Ex α) :
    ∀ cs cs' : List (GFunctionNode α),
      List.Forall₂ (fun c c' => f c = g c') cs cs' →
      evalFreeChildren f cs = evalFreeChildren g cs'
  | _, _, .nil => rfl
  | _, _, .cons h hs => by
    simp only [evalFreeChildren, h, evalFreeChildren_congr f g _ _ hs]

theorem skeletonChildren_forall₂ :
    ∀ cs cs' : List (GFunctionNode α),
      GFunctionNode.skeleton.skeletonChildren cs = GFunctionNode.skeleton.skeletonChildren cs' →
      List.Forall₂ (fun c c' => c.skeleton = c'.skeleton) cs cs'
  | [], [], _ => .nil
  | [], _ :: _, h => by simp [GFunctionNode.skeleton.skeletonChildren] at h
  | _ :: _, [], h => by simp [GFunctionNode.skeleton.skeletonChildren] at h
  | c :: cs, c' :: cs', h => by
    simp only [GFunctionNode.skeleton.skeletonChildren, List.cons.injEq] at h
    exact .cons h.1 (skeletonChildren_forall₂ cs cs' h.2)

theorem evalFree_call (depth : Nat) (P : GFunctionParser α) (name : String)
    (pf : Option NodePtr) (cs : List (GFunctionNode α)) (params : List α) :
    GFunctionNode.evalFree A (depth + 1) P (.GFunctionCall name pf cs) params =
      match evalFreeChildren (fun c => GFunctionNode.evalFree A depth P c params) cs with
      | .error e => .error e
      | .ok m_params =>
        match pf with
        | some (.operator f) => GFunctionBuiltIn.eval A f m_params
        | _ =>
          match P.getFunction name with
          | .error e => .error e
          | .ok pFunc =>
            match checkParams name cs.length pFunc.m_expectedParams with
            | .error e => .error e
            | .ok _ => GFunctionNode.evalFree A depth P pFunc.m_pRoot m_params := by
  simp only [GFunctionNode.evalFree]

/-- The evaluator without the cache at a call node whose pointer is not to an
operator node. -/
theorem evalFree_named (depth : Nat) (P : GFunctionParser α) (name : String)
    (pf : Option NodePtr) (hpf : ∀ f, pf ≠ some (.operator f))
    (cs : List (GFunctionNode α)) (params : List α) :
    GFunctionNode.evalFree A (depth + 1) P (.GFunctionCall name pf cs) params =
      match evalFreeChildren (fun c => GFunctionNode.evalFree A depth P c params) cs with
      | .error e => .error e
      | .ok m_params =>
        match P.getFunction name with
        | .error e => .error e
        | .ok pFunc =>
          match checkParams name cs.length pFunc.m_expectedParams with
          | .error e => .error e
          | .ok _ => GFunctionNode.evalFree A depth P pFunc.m_pRoot m_params := by
  rw [evalFree_call]
  cases pf with
  | none => rfl
  | some p =>
    cases p with
    | operator f => exact absurd rfl (hpf f)
    | root a => rfl

/-- The evaluator without the cache reads of the parser its signature and of
the node its skeleton. -/
theorem evalFree_signature : ∀ (depth : Nat) (P Q : GFunctionParser α) (n m : GFunctionNode α)
    (params : List α), P.signature = Q.signature → n.skeleton = m.skeleton →
    GFunctionNode.evalFree A depth P n params = GFunctionNode.evalFree A depth Q m params
  | 0, _, _, _, _, _, _, _ => rfl
  | depth + 1, P, Q, n, m, params, hsig, hsk => by
    cases n with
    | GFunctionBuiltIn f =>
      cases m with
      | GFunctionCall name pf cs => rw [skeleton_call] at hsk; cases hsk
      | _ => cases hsk <;> rfl
    | GFunctionVariable i =>
      cases m with
      | GFunctionCall name pf cs => rw [skeleton_call] at hsk; cases hsk
      | _ => cases hsk <;> rfl
    | GFunctionConstant v =>
      cases m with
      | GFunctionCall name pf cs => rw [skeleton_call] at hsk; cases hsk
      | _ => cases hsk <;> rfl
    | GFunctionCall name pf cs =>
      cases m with
      | GFunctionBuiltIn f => rw [skeleton_call] at hsk; cases hsk
      | GFunctionVariable i => rw [skeleton_call] at hsk; cases hsk
      | GFunctionConstant v => rw [skeleton_call] at hsk; cases hsk
      | GFunctionCall name' pf' cs' =>
        rw [skeleton_call, skeleton_call] at hsk
        simp only [GFunctionNode.GFunctionCall.injEq] at hsk
        obtain ⟨hname, hpf, hcs⟩ := hsk
        subst hname
        have hlen : cs.length = cs'.length := by
          rw [← skeletonChildren_length cs, hcs, skeletonChildren_length]
        have hch : evalFreeChildren (fun c => GFunctionNode.evalFree A depth P c params) cs =
            evalFreeChildren (fun c => GFunctionNode.evalFree A depth Q c params) cs' := by
          apply evalFreeChildren_congr
          exact (skeletonChildren_forall₂ cs cs' hcs).imp
            (fun {c c'} h => evalFree_signature depth P Q c c' params hsig h)
        have hnamed : ∀ m_params : List α,
            (match P.getFunction name with
              | .error e => (Except.error e : Except Ex α)
              | .ok pFunc =>
                match checkParams name cs.length pFunc.m_expectedParams with
                | .error e => (Except.error e : Except Ex α)
                | .ok _ => GFunctionNode.evalFree A depth P pFunc.m_pRoot m_params) =
            (match Q.getFunction name with
              | .error e => (Except.error e : Except Ex α)
              | .ok pFunc =>
                match checkParams name cs'.length pFunc.m_expectedParams with
                | .error e => (Except.error e : Except Ex α)
                | .ok _ => GFunctionNode.evalFree A depth Q pFunc.m_pRoot m_params) := by
          intro m_params
          rw [← hlen]
          cases hf : P.getFunctionNoThrow name with
          | none =>
            have hf' := getFunction_none_signature hsig name hf
            simp only [GFunctionParser.getFunction, hf, hf']
          | some pFunc =>
            obtain ⟨pFunc', hf', hn, -, hroot⟩ := getFunction_signature hsig name pFunc hf
            simp only [GFunctionParser.getFunction, hf, hf', hn]
            rw [evalFree_signature depth P Q pFunc.m_pRoot pFunc'.m_pRoot m_params hsig
              hroot.symm]
        cases pf with
        | none =>
          have hpf' : ∀ f, pf' ≠ some (.operator f) := by
            intro f hf; subst hf; simp at hpf
          rw [evalFree_named A depth P name none (by simp), evalFree_named A depth Q name pf' hpf',
            hch]
          cases evalFreeChildren (fun c => GFunctionNode.evalFree A depth Q c params) cs' with
          | error e => rfl
          | ok m_params => exact hnamed m_params
        | some p =>
          cases p with
          | root a =>
            have hpf' : ∀ f, pf' ≠ some (.operator f) := by
              intro f hf; subst hf; simp at hpf
            rw [evalFree_named A depth P name _ (by simp),
              evalFree_named A depth Q name pf' hpf', hch]
            cases evalFreeChildren (fun c => GFunctionNode.evalFree A depth Q c params) cs' with
            | error e => rfl
            | ok m_params => exact hnamed m_params
          | operator f =>
            have hpf' : pf' = some (.operator f) := by
              cases pf' with
              | none => simp at hpf
              | some q =>
                cases q with
                | root a => simp at hpf
                | operator g => simpa using hpf.symm
            subst hpf'
            rw [evalFree_call, evalFree_call, hch]

theorem mem_storeRootIn (addr : Nat) (r : GFunctionNode α) :
    ∀ (fs : List (String × GFunction α)) (e : String × GFunction α),
      e ∈ GFunctionParser.storeRootIn fs addr r → e ∈ fs ∨ e.2.m_pRoot = r
  | [], e, h => by simp [GFunctionParser.storeRootIn] at h
  | e0 :: es, e, h => by
    by_cases h0 : (e0.2.addr == addr) = true
    · simp only [GFunctionParser.storeRootIn, h0, ↓reduceIte, List.mem_cons] at h
      rcases h with h | h
      · exact Or.inr (by rw [h])
      · exact Or.inl (List.mem_cons_of_mem _ h)
    · have h0' : (e0.2.addr == addr) = false := by simpa using h0
      simp only [GFunctionParser.storeRootIn, h0', Bool.false_eq_true, ↓reduceIte,
        List.mem_cons] at h
      rcases h with h | h
      · exact Or.inl (h ▸ List.mem_cons_self _ _)
      · rcases mem_storeRootIn addr r es e h with h1 | h1
        · exact Or.inl (List.mem_cons_of_mem _ h1)
        · exact Or.inr h1

theorem bind_signature {P Q : GFunctionParser α} (h : P.signature = Q.signature)
    (name : String) (k : Nat) : bind P name k = bind Q name k := by
  cases hf : P.getFunctionNoThrow name with
  | none =>
    have hf' := getFunction_none_signature h name hf
    simp only [bind, GFunctionParser.getFunction, hf, hf']
  | some pFunc =>
    obtain ⟨pFunc', hf', hn, ha, -⟩ := getFunction_signature h name pFunc hf
    simp only [bind, GFunctionParser.getFunction, hf, hf', hn, ha]

end FreeEval

/-! ## Evaluation keeps the invariant and computes what the evaluator without the cache computes -/

section EvalSpec
variable {α : Type} (A : DoubleOps α)

theorem evalChildren_length
    (ev : GFunctionParser α → GFunctionNode α → Outcome α α (GFunctionNode α)) :
    ∀ (cs : List (GFunctionNode α)) (P : GFunctionParser α),
      (evalChildren ev P cs).2.1.length = cs.length
  | [], P => rfl
  | c :: cs, P => by
    simp only [evalChildren]
    rcases hev : ev P c with ⟨r, c', P'⟩
    cases r with
    | error e => simp
    | ok v =>
      simp only
      have ih := evalChildren_length ev cs P'
      rcases hev2 : evalChildren ev P' cs with ⟨r2, cs', P''⟩
      rw [hev2] at ih
      cases r2 with
      | error e => simpa using ih
      | ok vs => simpa using ih

theorem evalChildren_spec (depth : Nat) (params : List α)
    (ih : ∀ (P : GFunctionParser α) (n : GFunctionNode α), P.addrsDistinct → P.cacheOk →
      P.treeOk n →
      (GFunctionNode.eval A depth P n params).1 = GFunctionNode.evalFree A depth P n params ∧
        (GFunctionNode.eval A depth P n params).2.2.cacheOk ∧
        (GFunctionNode.eval A depth P n params).2.2.treeOk
          (GFunctionNode.eval A depth P n params).2.1) :
    ∀ (cs : List (GFunctionNode α)) (P : GFunctionParser α), P.addrsDistinct → P.cacheOk →
      (∀ c ∈ cs, P.treeOk c) →
      (evalChildren (fun P c => GFunctionNode.eval A depth P c params) P cs).1 =
          evalFreeChildren (fun c => GFunctionNode.evalFree A depth P c params) cs ∧
        (evalChildren (fun P c => GFunctionNode.eval A depth P c params) P cs).2.2.cacheOk ∧
        ∀ c ∈ (evalChildren (fun P c => GFunctionNode.eval A depth P c params) P cs).2.1,
          (evalChildren (fun P c => GFunctionNode.eval A depth P c params) P cs).2.2.treeOk c
  | [], P, _, hc, _ => ⟨rfl, hc, by intro c hc; simp [evalChildren] at hc⟩
  | c :: cs, P, hd, hc, ht => by
    have h1 := ih P c hd hc (ht c (List.mem_cons_self _ _))
    have hs1 := (eval_signature A depth P c params).1
    simp only [evalChildren, evalFreeChildren]
    rcases hev : GFunctionNode.eval A depth P c params with ⟨r, c', P'⟩
    rw [hev] at h1 hs1
    simp only at h1 hs1
    obtain ⟨hr, hc', ht'⟩ := h1
    rw [← hr]
    have hrest : ∀ x ∈ cs, P'.treeOk x := fun x hx =>
      treeOk_signature hs1.symm x (ht x (List.mem_cons_of_mem _ hx))
    cases r with
    | error e =>
      refine ⟨rfl, hc', ?_⟩
      intro x hx
      simp only [List.mem_cons] at hx
      rcases hx with hx | hx
      · subst hx; exact ht'
      · exact hrest x hx
    | ok v =>
      simp only
      have h2 := evalChildren_spec depth params ih cs P' (addrsDistinct_signature hs1 hd) hc'
        hrest
      have hs2 := evalChildren_frame A depth P' cs params
      have hfree : evalFreeChildren (fun c => GFunctionNode.evalFree A depth P' c params) cs =
          evalFreeChildren (fun c => GFunctionNode.evalFree A depth P c params) cs := by
        apply evalFreeChildren_congr
        exact List.forall₂_same.mpr
          (fun x _ => evalFree_signature A depth P' P x x params hs1 rfl)
      rcases hev2 : evalChildren (fun P c => GFunctionNode.eval A depth P c params) P' cs
        with ⟨r2, cs', P''⟩
      rw [hev2] at h2 hs2
      simp only at h2 hs2
      obtain ⟨hr2, hc2, ht2⟩ := h2
      rw [← hfree, ← hr2]
      have hmem : ∀ x ∈ c' :: cs', P''.treeOk x := by
        intro x hx
        simp only [List.mem_cons] at hx
        rcases hx with hx | hx
        · subst hx; exact treeOk_signature hs2.symm _ ht'
        · exact ht2 x hx
      cases r2 with
      | error e => exact ⟨rfl, hc2, hmem⟩
      | ok vs => exact ⟨rfl, hc2, hmem⟩

theorem cacheOk_storeRoot (P : GFunctionParser α) (hc : P.cacheOk) (addr : Nat)
    (r : GFunctionNode α) (hr : P.treeOk r)
    (hsig : (P.storeRoot addr r).signature = P.signature) : (P.storeRoot addr r).cacheOk := by
  intro e he
  rcases mem_storeRootIn addr r P.m_functions e he with h | h
  · exact treeOk_signature hsig.symm _ (hc e h)
  · rw [h]
    exact treeOk_signature hsig.symm _ hr

theorem eval_call_children_throw (depth : Nat) (P P1 : GFunctionParser α) (name : String)
    (pf : Option NodePtr) (cs cs' : List (GFunctionNode α)) (params : List α) (e : Ex)
    (hev : evalChildren (fun P c => GFunctionNode.eval A depth P c params) P cs =
      (.error e, cs', P1)) :
    GFunctionNode.eval A (depth + 1) P (.GFunctionCall name pf cs) params =
      (.error e, .GFunctionCall name pf cs', P1) := by
  simp only [GFunctionNode.eval, hev]

theorem eval_call_bind_error (depth : Nat) (P P1 : GFunctionParser α) (name : String)
    (cs cs' : List (GFunctionNode α)) (params m_params : List α) (e : Ex)
    (hev : evalChildren (fun P c => GFunctionNode.eval A depth P c params) P cs =
      (.ok m_params, cs', P1))
    (hb : bind P1 name cs.length = .error e) :
    GFunctionNode.eval A (depth + 1) P (.GFunctionCall name none cs) params =
      (.error e, .GFunctionCall name none cs', P1) := by
  simp only [GFunctionNode.eval, hev, hb]

theorem eval_call_operator (depth : Nat) (P P1 : GFunctionParser α) (name : String)
    (f : MathFuncFunc) (cs cs' : List (GFunctionNode α)) (params m_params : List α)
    (hev : evalChildren (fun P c => GFunctionNode.eval A depth P c params) P cs =
      (.ok m_params, cs', P1)) :
    GFunctionNode.eval A (depth + 1) P (.GFunctionCall name (some (.operator f)) cs) params =
      (GFunctionBuiltIn.eval A f m_params, .GFunctionCall name (some (.operator f)) cs', P1) := by
  simp only [GFunctionNode.eval, hev]

theorem eval_call_root (depth : Nat) (P P1 : GFunctionParser α) (name : String)
    (cs cs' : List (GFunctionNode α)) (params m_params : List α)
    (a : Nat) (pFunc : GFunction α)
    (hev : evalChildren (fun P c => GFunctionNode.eval A depth P c params) P cs =
      (.ok m_params, cs', P1))
    (hd : P1.deref a = some pFunc) :
    GFunctionNode.eval A (depth + 1) P (.GFunctionCall name (some (.root a)) cs) params =
      ((GFunctionNode.eval A depth P1 pFunc.m_pRoot m_params).1,
        .GFunctionCall name (some (.root a)) cs',
        (GFunctionNode.eval A depth P1 pFunc.m_pRoot m_params).2.2.storeRoot a
          (GFunctionNode.eval A depth P1 pFunc.m_pRoot m_params).2.1) := by
  simp only [GFunctionNode.eval, hev, hd]

theorem eval_call_bound (depth : Nat) (P P1 : GFunctionParser α) (name : String)
    (cs cs' : List (GFunctionNode α)) (params m_params : List α)
    (a : Nat) (pFunc : GFunction α)
    (hev : evalChildren (fun P c => GFunctionNode.eval A depth P c params) P cs =
      (.ok m_params, cs', P1))
    (hb : bind P1 name cs.length = .ok (.root a))
    (hd : P1.deref a = some pFunc) :
    GFunctionNode.eval A (depth + 1) P (.GFunctionCall name none cs) params =
      ((GFunctionNode.eval A depth P1 pFunc.m_pRoot m_params).1,
        .GFunctionCall name (some (.root a)) cs',
        (GFunctionNode.eval A depth P1 pFunc.m_pRoot m_params).2.2.storeRoot a
          (GFunctionNode.eval A depth P1 pFunc.m_pRoot m_params).2.1) := by
  simp only [GFunctionNode.eval, hev, hb, hd]

theorem evalFree_call_children_error (depth : Nat) (P : GFunctionParser α) (name : String)
    (pf : Option NodePtr) (cs : List (GFunctionNode α)) (params : List α) (e : Ex)
    (hev : evalFreeChildren (fun c => GFunctionNode.evalFree A depth P c params) cs = .error e) :
    GFunctionNode.evalFree A (depth + 1) P (.GFunctionCall name pf cs) params = .error e := by
  rw [evalFree_call, hev]

theorem evalFree_call_operator (depth : Nat) (P : GFunctionParser α) (name : String)
    (f : MathFuncFunc) (cs : List (GFunctionNode α)) (params m_params : List α)
    (hev : evalFreeChildren (fun c => GFunctionNode.evalFree A depth P c params) cs =
      .ok m_params) :
    GFunctionNode.evalFree A (depth + 1) P (.GFunctionCall name (some (.operator f)) cs) params =
      GFunctionBuiltIn.eval A f m_params := by
  rw [evalFree_call, hev]

theorem evalFree_call_named (depth : Nat) (P : GFunctionParser α) (name : String)
    (pf : Option NodePtr) (hpf : ∀ f, pf ≠ some (.operator f))
    (cs : List (GFunctionNode α)) (params m_params : List α)
    (hev : evalFreeChildren (fun c => GFunctionNode.evalFree A depth P c params) cs =
      .ok m_params) :
    GFunctionNode.evalFree A (depth + 1) P (.GFunctionCall name pf cs) params =
      match P.getFunction name with
      | .error e => .error e
      | .ok pFunc =>
        match checkParams name cs.length pFunc.m_expectedParams with
        | .error e => .error e
        | .ok _ => GFunctionNode.evalFree A depth P pFunc.m_pRoot m_params := by
  rw [evalFree_named A depth P name pf hpf, hev]

/-- With distinct allocation numbers and every cached pointer current,
`GFunctionCall::eval` and the other nodes compute what the evaluator without
the cache computes, and every cached pointer is current afterwards. -/
theorem eval_spec : ∀ (depth : Nat) (P : GFunctionParser α) (n : GFunctionNode α)
    (params : List α), P.addrsDistinct → P.cacheOk → P.treeOk n →
    (GFunctionNode.eval A depth P n params).1 = GFunctionNode.evalFree A depth P n params ∧
      (GFunctionNode.eval A depth P n params).2.2.cacheOk ∧
      (GFunctionNode.eval A depth P n params).2.2.treeOk
        (GFunctionNode.eval A depth P n params).2.1
  | 0, P, n, params, _, hc, ht => ⟨rfl, hc, ht⟩
  | depth + 1, P, n, params, hd, hc, ht => by
    cases n with
    | GFunctionBuiltIn f => exact ⟨rfl, hc, ht⟩
    | GFunctionVariable i => exact ⟨rfl, hc, ht⟩
    | GFunctionConstant v => exact ⟨rfl, hc, ht⟩
    | GFunctionCall name pf cs =>
      rw [treeOk_call] at ht
      obtain ⟨hsite, hkids⟩ := ht
      have hfull := (eval_signature A (depth + 1) P (.GFunctionCall name pf cs) params).1
      have hch := evalChildren_spec A depth params
        (fun P n => eval_spec depth P n params) cs P hd hc hkids
      have hsg := evalChildren_frame A depth P cs params
      have hlen := evalChildren_length (fun P c => GFunctionNode.eval A depth P c params) cs P
      rcases hev : evalChildren (fun P c => GFunctionNode.eval A depth P c params) P cs
        with ⟨r, cs', P1⟩
      rw [hev] at hch hsg hlen
      simp only at hch hsg hlen
      obtain ⟨hr, hc1, hk1⟩ := hch
      have hsite1 : P1.siteOk (name, pf, cs'.length) := by
        rw [hlen]; exact siteOk_signature hsg.symm _ hsite
      cases r with
      | error e =>
        rw [eval_call_children_throw A depth P P1 name pf cs cs' params e hev,
          evalFree_call_children_error A depth P name pf cs params e hr.symm]
        exact ⟨rfl, hc1, (treeOk_call P1 name pf cs').mpr ⟨hsite1, hk1⟩⟩
      | ok m_params =>
        -- the callee, once the pointer is known to be current
        have callee : ∀ pFunc : GFunction α, P.getFunctionNoThrow name = some pFunc →
            checkParams name cs.length pFunc.m_expectedParams = .ok () →
            (∀ f, pf ≠ some (.operator f)) →
            (∀ pFunc1 : GFunction α, P1.deref pFunc.addr = some pFunc1 →
              GFunctionNode.eval A (depth + 1) P (.GFunctionCall name pf cs) params =
                ((GFunctionNode.eval A depth P1 pFunc1.m_pRoot m_params).1,
                  .GFunctionCall name (some (.root pFunc.addr)) cs',
                  (GFunctionNode.eval A depth P1 pFunc1.m_pRoot m_params).2.2.storeRoot
                    pFunc.addr (GFunctionNode.eval A depth P1 pFunc1.m_pRoot m_params).2.1)) →
            (GFunctionNode.eval A (depth + 1) P (.GFunctionCall name pf cs) params).1 =
                GFunctionNode.evalFree A (depth + 1) P (.GFunctionCall name pf cs) params ∧
              (GFunctionNode.eval A (depth + 1) P (.GFunctionCall name pf cs) params).2.2.cacheOk ∧
              (GFunctionNode.eval A (depth + 1) P (.GFunctionCall name pf cs) params).2.2.treeOk
                (GFunctionNode.eval A (depth + 1) P (.GFunctionCall name pf cs) params).2.1 := by
          intro pFunc hf hck hnop hb
          obtain ⟨pFunc1, hf1, hn1, ha1, hroot1⟩ := getFunction_signature hsg.symm name pFunc hf
          have hd1 : P1.addrsDistinct := addrsDistinct_signature hsg hd
          have hderef : P1.deref pFunc.addr = some pFunc1 := by
            rw [← ha1]; exact deref_registered P1 hd1 name pFunc1 hf1
          have hmem : (name, pFunc1) ∈ P1.m_functions := lookup_mem name pFunc1 _ hf1
          have ih := eval_spec depth P1 pFunc1.m_pRoot m_params hd1 hc1 (hc1 _ hmem)
          have hs2 := (eval_signature A depth P1 pFunc1.m_pRoot m_params).1
          rw [hb pFunc1 hderef] at hfull ⊢
          rw [evalFree_call_named A depth P name pf hnop cs params m_params hr.symm]
          simp only [GFunctionParser.getFunction, hf, hck]
          simp only at hfull
          obtain ⟨hr2, hc2, ht2⟩ := ih
          have hfin2 : ((GFunctionNode.eval A depth P1 pFunc1.m_pRoot m_params).2.2.storeRoot
              pFunc.addr (GFunctionNode.eval A depth P1 pFunc1.m_pRoot m_params).2.1).signature =
              (GFunctionNode.eval A depth P1 pFunc1.m_pRoot m_params).2.2.signature := by
            rw [hfull, hs2, hsg]
          refine ⟨?_, cacheOk_storeRoot _ hc2 _ _ ht2 hfin2, ?_⟩
          · rw [hr2]
            exact evalFree_signature A depth P1 P _ _ m_params hsg hroot1
          · rw [treeOk_call]
            refine ⟨?_, fun c hc => treeOk_signature (hfull.trans hsg.symm).symm _ (hk1 c hc)⟩
            apply siteOk_signature hfull.symm
            intro a ha
            simp only [Option.some.injEq, NodePtr.root.injEq] at ha
            exact ⟨pFunc, hf, ha, by rw [hlen]; exact hck⟩
        cases pf with
        | some p =>
          cases p with
          | operator f =>
            rw [eval_call_operator A depth P P1 name f cs cs' params m_params hev,
              evalFree_call_operator A depth P name f cs params m_params hr.symm]
            exact ⟨rfl, hc1, (treeOk_call P1 name _ cs').mpr
              ⟨fun a ha => by simp at ha, hk1⟩⟩
          | root a =>
            obtain ⟨pFunc, hf, haddr, hck⟩ := hsite a rfl
            subst haddr
            exact callee pFunc hf hck (by simp) (fun pFunc1 hd1 =>
              eval_call_root A depth P P1 name cs cs' params m_params _ pFunc1 hev hd1)
        | none =>
          have hbs := bind_signature hsg name cs.length
          cases hf : P.getFunctionNoThrow name with
          | none =>
            have hb : bind P1 name cs.length = .error (.noIdentifier name) := by
              rw [hbs]; simp only [bind, GFunctionParser.getFunction, hf]
            rw [eval_call_bind_error A depth P P1 name cs cs' params m_params _ hev hb,
              evalFree_call_named A depth P name none (by simp) cs params m_params hr.symm]
            simp only [GFunctionParser.getFunction, hf]
            exact ⟨trivial, hc1, (treeOk_call P1 name _ cs').mpr ⟨hsite1, hk1⟩⟩
          | some pFunc =>
            cases hck : checkParams name cs.length pFunc.m_expectedParams with
            | error e =>
              have hb : bind P1 name cs.length = .error e := by
                rw [hbs]; simp only [bind, GFunctionParser.getFunction, hf, hck]
              rw [eval_call_bind_error A depth P P1 name cs cs' params m_params _ hev hb,
                evalFree_call_named A depth P name none (by simp) cs params m_params hr.symm]
              simp only [GFunctionParser.getFunction, hf, hck]
              exact ⟨trivial, hc1, (treeOk_call P1 name _ cs').mpr ⟨hsite1, hk1⟩⟩
            | ok u =>
              have hb : bind P1 name cs.length = .ok (.root pFunc.addr) := by
                rw [hbs]; simp only [bind, GFunctionParser.getFunction, hf, hck]
              exact callee pFunc hf hck (by simp) (fun pFunc1 hd1 =>
                eval_call_bound A depth P P1 name cs cs' params m_params _ pFunc1 hev hb hd1)

end EvalSpec

/-! ## The trees of the parser -/

section ParsedTrees
variable {α : Type} (A : DoubleOps α)

theorem operatorArity_operatorOf (tok : String) : operatorArity (operatorOf tok) = some 2 := by
  simp only [operatorOf]
  split_ifs <;> rfl

/-- What `parseMathOperator` returns: the call node of the negation on the
right operand, or the call node of the operator of the token on both. -/
theorem parseMathOperator_ok
    (parse : Nat → Nat → Nat → Except Ex (GFunctionNode α)) (tokens : List String)
    (start count index depth : Nat) (t : GFunctionNode α)
    (h : parseMathOperator parse tokens start count index depth = .ok t) :
    (∃ r, parse (index + 1) (start + count - index - 1) depth = .ok r ∧
        tokenAt tokens index = "-" ∧ t = operatorCall .negate [r]) ∨
      (∃ l r, parse start (index - start) depth = .ok l ∧
        parse (index + 1) (start + count - index - 1) depth = .ok r ∧
        t = operatorCall (operatorOf (tokenAt tokens index)) [l, r]) := by
  simp only [parseMathOperator, Bind.bind, Except.bind, Except.map, pure, Except.pure,
    throw, throwThe, MonadExceptOf.throw] at h
  by_cases h1 : index > start
  · simp only [h1, ↓reduceIte] at h
    cases hl : parse start (index - start) depth with
    | error e0 => rw [hl] at h; cases h
    | ok l =>
      rw [hl] at h
      simp only at h
      by_cases h2 : index < start + count - 1
      · simp only [h2, ↓reduceIte] at h
        cases hr : parse (index + 1) (start + count - index - 1) depth with
        | error e0 => rw [hr] at h; cases h
        | ok r =>
          rw [hr] at h
          simp only at h
          right
          refine ⟨l, r, rfl, rfl, ?_⟩
          simp only [operatorOf]
          split_ifs at h ⊢
          all_goals
            simp only [Except.ok.injEq] at h
            exact h.symm
      · simp only [h2, ↓reduceIte] at h
        cases h
  · simp only [h1, ↓reduceIte] at h
    by_cases h2 : index < start + count - 1
    · simp only [h2, ↓reduceIte] at h
      cases hr : parse (index + 1) (start + count - index - 1) depth with
      | error e0 => rw [hr] at h; cases h
      | ok r =>
        rw [hr] at h
        simp only at h
        left
        split_ifs at h with hm
        simp only [Except.ok.injEq] at h
        exact ⟨r, rfl, by simpa using hm, h.symm⟩
    · simp only [h2, ↓reduceIte] at h
      cases h

theorem commaLoop_parsed (k : Nat)
    (parse : Nat → Nat → Nat → Except Ex (GFunctionNode α))
    (hp : ∀ s c d t, parse s c d = .ok t → t.parsed k = true)
    (tokens : List String) (start depth : Nat) :
    ∀ (n i childBegin : Nat) (nests : Int) (children : List (GFunctionNode α))
      (r : Nat × List (GFunctionNode α)),
      (∀ c ∈ children, c.parsed k = true) →
      commaLoop parse tokens start depth n i childBegin nests children = .ok r →
      ∀ c ∈ r.2, c.parsed k = true
  | 0, i, childBegin, nests, children, r, hch, h => by
    simp only [commaLoop, Except.ok.injEq] at h
    subst h
    exact hch
  | n + 1, i, childBegin, nests, children, r, hch, h => by
    simp only [commaLoop] at h
    by_cases h1 : (tokenAt tokens (start + i) == "(") = true
    · simp only [h1, ↓reduceIte] at h
      exact commaLoop_parsed k parse hp tokens start depth n (i + 1) childBegin _ children r hch h
    simp only [h1, Bool.false_eq_true, ↓reduceIte] at h
    by_cases h2 : (tokenAt tokens (start + i) == ")") = true
    · have hi : ¬ ((i : Int) < 0) := by omega
      simp only [h2, ↓reduceIte, hi] at h
      exact commaLoop_parsed k parse hp tokens start depth n (i + 1) childBegin _ children r hch h
    simp only [h2, Bool.false_eq_true, ↓reduceIte] at h
    by_cases h3 : (nests == 0 && tokenAt tokens (start + i) == ",") = true
    · simp only [h3, ↓reduceIte] at h
      cases hc : parse childBegin (start + i - childBegin) depth with
      | error e0 => rw [hc] at h; cases h
      | ok child =>
        rw [hc] at h
        refine commaLoop_parsed k parse hp tokens start depth n (i + 1) (start + i + 1) nests
          (children ++ [child]) r ?_ h
        intro c hcm
        simp only [List.mem_append, List.mem_singleton] at hcm
        rcases hcm with hcm | hcm
        · exact hch c hcm
        · subst hcm; exact hp _ _ _ _ hc
    · simp only [h3, Bool.false_eq_true, ↓reduceIte] at h
      exact commaLoop_parsed k parse hp tokens start depth n (i + 1) childBegin _ children r hch h

theorem parseCommaSeparatedChildren_parsed (k : Nat)
    (parse : Nat → Nat → Nat → Except Ex (GFunctionNode α))
    (hp : ∀ s c d t, parse s c d = .ok t → t.parsed k = true)
    (tokens : List String) (start count depth : Nat) (children : List (GFunctionNode α))
    (h : parseCommaSeparatedChildren parse tokens start count depth = .ok children) :
    ∀ c ∈ children, c.parsed k = true := by
  simp only [parseCommaSeparatedChildren, Bind.bind, Except.bind] at h
  cases hl : commaLoop parse tokens start depth count 0 start 0 [] with
  | error e0 => rw [hl] at h; cases h
  | ok r =>
    rw [hl] at h
    have hr := commaLoop_parsed k parse hp tokens start depth count 0 start 0 [] r
      (by intro c hc; simp at hc) hl
    obtain ⟨cb, ch⟩ := r
    simp only at h hr
    cases hlast : parse cb (start + count - cb) depth with
    | error e0 => rw [hlast] at h; cases h
    | ok last =>
      rw [hlast] at h
      simp only [pure, Except.pure, Except.ok.injEq] at h
      subst h
      intro c hc
      simp only [List.mem_append, List.mem_singleton] at hc
      rcases hc with hc | hc
      · exact hr c hc
      · subst hc; exact hp _ _ _ _ hlast

theorem findVariable_lt (vars : List String) (tok : String) (i : Nat)
    (h : findVariable vars tok = some i) : i < vars.length := by
  simp only [findVariable] at h
  cases hi : vars.indexOf? tok with
  | none => rw [hi] at h; cases h
  | some j =>
    rw [hi] at h
    simp only [Option.some.injEq] at h
    subst h
    obtain ⟨hlt, -, -⟩ := List.findIdx?_eq_some_iff_getElem.mp hi
    exact hlt

/-- The trees of `parseFunctionBody`: every variable node has an index below
the number of variables, every call node of an operator points to its
operator node and has its number of children, and every other call node has
no pointer. -/
theorem parseFunctionBody_parsed (vars tokens : List String) :
    ∀ (bound start count depth : Nat) (t : GFunctionNode α),
      parseFunctionBody A vars tokens bound start count depth = .ok t →
      t.parsed vars.length = true
  | 0, _, _, _, t, h => by simp [parseFunctionBody] at h
  | bound + 1, start, count, depth, t, h => by
    have ih := parseFunctionBody_parsed vars tokens bound
    simp only [parseFunctionBody] at h
    by_cases h1 : depth > 10000
    · simp [h1] at h
    simp only [h1, ↓reduceIte] at h
    by_cases h2 : count ≤ 0
    · simp [h2] at h
    simp only [h2, ↓reduceIte] at h
    by_cases h3 : (tokenAt tokens start == "(" && tokenAt tokens (start + count - 1) == ")" &&
        decide (enclosingLoop tokens start (count - 2) 1 1 ≥ count - 1)) = true
    · simp only [h3, ↓reduceIte] at h
      exact ih _ _ _ t h
    simp only [h3, Bool.false_eq_true, ↓reduceIte] at h
    by_cases h4 : (count == 1) = true
    · simp only [h4, ↓reduceIte] at h
      by_cases hn : IsNameChar (firstChar (tokenAt tokens start)) = true
      · simp only [hn, ↓reduceIte] at h
        cases hv : findVariable vars (tokenAt tokens start) with
        | none =>
          rw [hv] at h
          simp only [Except.ok.injEq] at h
          subst h
          simp [parsed_call, GFunctionNode.parsed.parsedChildren]
        | some i =>
          rw [hv] at h
          simp only [Except.ok.injEq] at h
          subst h
          simpa [GFunctionNode.parsed] using findVariable_lt vars _ i hv
      · simp only [hn, Bool.false_eq_true, ↓reduceIte] at h
        split_ifs at h
        simp only [Except.ok.injEq] at h
        subst h
        simp [GFunctionNode.parsed]
    simp only [h4, Bool.false_eq_true, ↓reduceIte] at h
    cases hf : findOperatorWithLowestPrecidence tokens start count with
    | error e0 => rw [hf] at h; cases h
    | ok index =>
      rw [hf] at h
      simp only at h
      by_cases h5 : index ≥ 0
      · simp only [h5, ↓reduceIte] at h
        rcases parseMathOperator_ok _ tokens start count _ _ t h with
          ⟨r, hr, -, ht⟩ | ⟨l, r, hl, hr, ht⟩
        · subst ht
          simp [operatorCall, parsed_call, GFunctionNode.parsed.parsedChildren, operatorArity,
            ih _ _ _ r hr]
        · subst ht
          simp [operatorCall, parsed_call, GFunctionNode.parsed.parsedChildren,
            operatorArity_operatorOf, ih _ _ _ l hl, ih _ _ _ r hr]
      · simp only [h5, ↓reduceIte] at h
        split_ifs at h
        cases hc : parseCommaSeparatedChildren (parseFunctionBody A vars tokens bound) tokens
            (start + 2) (count - 3) (depth + 1) with
        | error e0 => rw [hc] at h; cases h
        | ok children =>
          rw [hc] at h
          simp only [Except.ok.injEq] at h
          subst h
          rw [parsed_call]
          simp only [Bool.true_and]
          exact (parsedChildren_iff _ _).mpr
            (parseCommaSeparatedChildren_parsed _ _ (fun s c d t => ih s c d t) tokens _ _ _ _ hc)

end ParsedTrees

/-! ## The invariant in every state of the parser -/

section Invariant
variable {α : Type} (A : DoubleOps α)

theorem equalLoop_stops (tokens : List String) (start : Nat) :
    ∀ (n equalPos : Nat), equalLoop tokens start n equalPos < equalPos + n →
      tokenAt tokens (start + equalLoop tokens start n equalPos) = "="
  | 0, e, h => by simp [equalLoop] at h
  | n + 1, e, h => by
    by_cases he : (tokenAt tokens (start + e) == "=") = true
    · simp only [equalLoop, he, ↓reduceIte]
      simpa using he
    · have he' : (tokenAt tokens (start + e) == "=") = false := by simpa using he
      simp only [equalLoop, he', Bool.false_eq_true, ↓reduceIte] at h ⊢
      exact equalLoop_stops tokens start n (e + 1) (by omega)

theorem tokenAt_lt (tokens : List String) (j : Nat) (h : tokenAt tokens j ≠ "") :
    j < tokens.length := by
  by_contra hj
  apply h
  simp only [tokenAt]
  exact List.getD_eq_default _ _ (by omega)

/-- A statement that `parseFunction` installs has its name in the vector. -/
theorem parseFunction_name (P P' : GFunctionParser α) (tokens : List String) (start count : Nat)
    (hc : count ≠ 0) (h : P.parseFunction A tokens start count = .ok P') :
    start < tokens.length := by
  have hc' : (count == 0) = false := by simpa using hc
  simp only [GFunctionParser.parseFunction, hc', Bool.false_eq_true, ↓reduceIte] at h
  by_cases h1 : equalLoop tokens start count 0 ≥ count
  · simp [h1] at h
  · have hs := equalLoop_stops tokens start count 0 (by omega)
    have := tokenAt_lt tokens _ (by rw [hs]; decide)
    omega

theorem Inv_parseFunction (P P' : GFunctionParser α) (hP : P.Inv) (tokens : List String)
    (htok : ∀ t ∈ tokens, t ≠ "") (start count : Nat)
    (h : P.parseFunction A tokens start count = .ok P') : P'.Inv := by
  rcases parseFunction_ok A P P' tokens start count h with ⟨-, rfl⟩ | ⟨vars, pRoot, hb, rfl⟩
  · exact hP
  · have hc : count ≠ 0 := by
      intro hc
      subst hc
      simp only [GFunctionParser.parseFunction, beq_self_eq_true, ↓reduceIte] at h
      simp [parseFunctionBody, bodyBound] at hb
    have hlt := parseFunction_name A P _ tokens start count hc h
    have hparsed := parseFunctionBody_parsed A vars tokens _ _ _ _ pRoot hb
    apply Inv_addFunction P hP _ (htok _ (tokenAt_mem_of_lt tokens start hlt))
    · simp only [GFunction.shapeOk, skeleton_parsed _ pRoot hparsed]
      cases pRoot with
      | GFunctionBuiltIn f => simp [GFunctionNode.parsed] at hparsed
      | GFunctionVariable i => simpa using hparsed
      | GFunctionConstant v => simpa using hparsed
      | GFunctionCall name pf cs => simpa using hparsed
    · exact parsed_noRoot _ pRoot hparsed

theorem Inv_functionListLoop (tokens : List String) (htok : ∀ t ∈ tokens, t ≠ "") :
    ∀ (n i start : Nat) (P : GFunctionParser α), P.Inv →
      (functionListLoop A tokens n i start P).2.Inv
  | 0, _, _, _, hP => hP
  | n + 1, i, start, P, hP => by
    simp only [functionListLoop]
    split_ifs
    · cases hp : P.parseFunction A tokens start (i - start) with
      | error e => exact hP
      | ok P' =>
        exact Inv_functionListLoop tokens htok n _ _ P'
          (Inv_parseFunction A P P' hP tokens htok _ _ hp)
    · exact Inv_functionListLoop tokens htok n _ _ P hP

theorem tokenize_nonempty (text : String) : ∀ t ∈ tokenize text, t ≠ "" := by
  intro t ht
  simp only [tokenize] at ht
  obtain ⟨T, hT, hne, -, -⟩ := tokenizeLoop_spec _
    (text.data.takeWhile (fun c => c != Char.ofNat 0)) [] (Nat.le_refl _)
  rw [hT, List.nil_append] at ht
  intro h
  exact (hne t ht).1 (by rw [h])

theorem Inv_parseFunctionList (P : GFunctionParser α) (hP : P.Inv) (tokens : List String)
    (htok : ∀ t ∈ tokens, t ≠ "") : (P.parseFunctionList A tokens).2.Inv := by
  have hl := Inv_functionListLoop A tokens htok tokens.length 0 0 P hP
  simp only [GFunctionParser.parseFunctionList]
  rcases hloop : functionListLoop A tokens tokens.length 0 0 P with ⟨r, P'⟩
  rw [hloop] at hl
  cases r with
  | error e => exact hl
  | ok start =>
    simp only
    cases hp : P'.parseFunction A tokens start (tokens.length - start) with
    | error e => exact hl
    | ok P'' => exact Inv_parseFunction A P' P'' hl tokens htok _ _ hp

theorem Inv_add (P : GFunctionParser α) (hP : P.Inv) (text : String) : (P.add A text).2.Inv :=
  Inv_parseFunctionList A P hP _ (tokenize_nonempty text)

theorem names_signature {P Q : GFunctionParser α} (h : P.signature = Q.signature)
    (hP : ∀ e ∈ P.m_functions, e.1 ≠ "") : ∀ e ∈ Q.m_functions, e.1 ≠ "" := by
  intro e he
  have hm : GFunction.signature e ∈ Q.m_functions.map GFunction.signature :=
    List.mem_map_of_mem _ he
  have hmaps : P.m_functions.map GFunction.signature = Q.m_functions.map GFunction.signature :=
    congrArg Prod.fst h
  rw [← hmaps] at hm
  obtain ⟨e0, he0, hs⟩ := List.mem_map.mp hm
  have h1 : e0.1 = e.1 := congrArg (fun s => s.1) hs
  rw [← h1]
  exact hP e0 he0

theorem storeRoot_signature (P : GFunctionParser α) (addr : Nat) (r : GFunctionNode α)
    (h : ∀ pFunc, P.deref addr = some pFunc → pFunc.m_pRoot.skeleton = r.skeleton) :
    (P.storeRoot addr r).signature = P.signature := by
  simp only [GFunctionParser.signature, GFunctionParser.storeRoot, Prod.mk.injEq, and_true]
  apply storeRootIn_signature
  intro e he
  exact h e.2 (by simp [GFunctionParser.deref, he])

/-- `GFunction::call` on a registered `GFunction` changes nothing but the
cache. -/
theorem call_signature (P : GFunctionParser α) (hd : P.addrsDistinct) (depth : Nat)
    (name : String) (params : List α) :
    (P.call A depth name params).2.signature = P.signature := by
  simp only [GFunctionParser.call, GFunctionParser.getFunction]
  cases hf : P.getFunctionNoThrow name with
  | none => rfl
  | some pFunc =>
    simp only [GFunction.call]
    have hs := eval_signature A depth P pFunc.m_pRoot params
    obtain ⟨pFunc', hf', -, ha', hroot'⟩ := getFunction_signature hs.1.symm name pFunc hf
    have hderef := deref_registered _ (addrsDistinct_signature hs.1 hd) name pFunc' hf'
    rw [ha'] at hderef
    rw [storeRoot_signature _ _ _ (fun g hg => by
      rw [hderef] at hg
      cases hg
      rw [hroot', hs.2])]
    exact hs.1

/-- The evaluation `getFunction(name)->call(params, parser)` keeps the
invariant and computes what the evaluator without the cache computes. -/
theorem call_spec (P : GFunctionParser α) (hP : P.Inv) (depth : Nat) (name : String)
    (params : List α) :
    (P.call A depth name params).2.Inv ∧
      (P.call A depth name params).1 = P.callFree A depth name params := by
  have hsig := call_signature A P hP.distinct depth name params
  refine ⟨⟨heapOk_signature hsig.symm hP.heap, addrsDistinct_signature hsig hP.distinct,
    shape_signature hsig.symm hP.shape, ?_, names_signature hsig.symm hP.names⟩, ?_⟩
  · simp only [GFunctionParser.call, GFunctionParser.getFunction] at hsig ⊢
    cases hf : P.getFunctionNoThrow name with
    | none => exact hP.cache
    | some pFunc =>
      rw [hf] at hsig
      simp only [GFunction.call] at hsig ⊢
      obtain ⟨-, hc, ht⟩ := eval_spec A depth P pFunc.m_pRoot params hP.distinct hP.cache
        (hP.cache _ (lookup_mem name pFunc _ hf))
      exact cacheOk_storeRoot _ hc _ _ ht
        (hsig.trans (eval_signature A depth P pFunc.m_pRoot params).1.symm)
  · simp only [GFunctionParser.call, GFunctionParser.callFree, GFunctionParser.getFunction]
    cases hf : P.getFunctionNoThrow name with
    | none => rfl
    | some pFunc =>
      simp only [GFunction.call]
      exact (eval_spec A depth P pFunc.m_pRoot params hP.distinct hP.cache
        (hP.cache _ (lookup_mem name pFunc _ hf))).1

/-- The invariant holds in every state of the parser. -/
theorem Reachable_Inv (P : GFunctionParser α) (h : Reachable A P) : P.Inv := by
  induction h with
  | ctor w => exact Inv_ctor A w
  | add text _ ih => exact Inv_add A _ ih text
  | call depth name params _ ih => exact (call_spec A _ ih depth name params).1

end Invariant

/-! ## What the registry keeps -/

section Keeps
variable {α : Type} (A : DoubleOps α)

theorem keeps_refl (P : GFunctionParser α) : P.keeps P :=
  ⟨Nat.le_refl _, fun e he _ => ⟨e, he, rfl, rfl, rfl⟩⟩

theorem keeps_trans {P Q R : GFunctionParser α} (h1 : P.keeps Q) (h2 : Q.keeps R) :
    P.keeps R := by
  refine ⟨Nat.le_trans h1.1 h2.1, ?_⟩
  intro e he hlt
  obtain ⟨e1, he1, ha1, hn1, hs1⟩ := h2.2 e he (Nat.lt_of_lt_of_le hlt h1.1)
  obtain ⟨e0, he0, ha0, hn0, hs0⟩ := h1.2 e1 he1 (by omega)
  exact ⟨e0, he0, ha0.trans ha1, hn0.trans hn1, hs1.trans hs0⟩

theorem keeps_signature {P Q : GFunctionParser α} (h : P.signature = Q.signature) :
    P.keeps Q := by
  have hnext : P.heapNext = Q.heapNext := congrArg Prod.snd h
  refine ⟨by omega, ?_⟩
  intro e he _
  have hm : GFunction.signature e ∈ Q.m_functions.map GFunction.signature :=
    List.mem_map_of_mem _ he
  have hmaps : P.m_functions.map GFunction.signature = Q.m_functions.map GFunction.signature :=
    congrArg Prod.fst h
  rw [← hmaps] at hm
  obtain ⟨e0, he0, hs⟩ := List.mem_map.mp hm
  exact ⟨e0, he0, congrArg (fun s => s.2.2.1) hs, congrArg (fun s => s.1) hs,
    (congrArg (fun s => s.2.2.2) hs).symm⟩

theorem keeps_addFunction (P : GFunctionParser α) (hP : P.Inv) (name : String)
    (hname : name ≠ "") (pRoot : GFunctionNode α) (n : Int) :
    P.keeps (P.addFunction name pRoot n) := by
  refine ⟨by simp [GFunctionParser.addFunction], ?_⟩
  intro e he hlt
  rcases addFunction_mem P name pRoot n e he with h | h | ⟨e0, he0, h⟩
  · subst h
    simp at hlt
  · exact ⟨e, h, rfl, rfl, rfl⟩
  · subst h
    exact ⟨e0, he0, rfl, rfl, shapeOk_unlink name hname e0.2 (hP.shape e0 he0)⟩

theorem keeps_parseFunction (P P' : GFunctionParser α) (hP : P.Inv) (tokens : List String)
    (htok : ∀ t ∈ tokens, t ≠ "") (start count : Nat)
    (h : P.parseFunction A tokens start count = .ok P') : P.keeps P' := by
  rcases parseFunction_ok A P P' tokens start count h with ⟨-, rfl⟩ | ⟨vars, pRoot, hb, rfl⟩
  · exact keeps_refl _
  · have hc : count ≠ 0 := by
      intro hc
      subst hc
      simp [parseFunctionBody, bodyBound] at hb
    have hlt := parseFunction_name A P _ tokens start count hc h
    exact keeps_addFunction P hP _ (htok _ (tokenAt_mem_of_lt tokens start hlt)) _ _

theorem keeps_functionListLoop (tokens : List String) (htok : ∀ t ∈ tokens, t ≠ "") :
    ∀ (n i start : Nat) (P : GFunctionParser α), P.Inv →
      P.keeps (functionListLoop A tokens n i start P).2
  | 0, _, _, P, _ => keeps_refl P
  | n + 1, i, start, P, hP => by
    simp only [functionListLoop]
    split_ifs
    · cases hp : P.parseFunction A tokens start (i - start) with
      | error e => exact keeps_refl P
      | ok P' =>
        exact keeps_trans (keeps_parseFunction A P P' hP tokens htok _ _ hp)
          (keeps_functionListLoop tokens htok n _ _ P'
            (Inv_parseFunction A P P' hP tokens htok _ _ hp))
    · exact keeps_functionListLoop tokens htok n _ _ P hP

theorem keeps_add (P : GFunctionParser α) (hP : P.Inv) (text : String) :
    P.keeps (P.add A text).2 := by
  have htok := tokenize_nonempty text
  have hl := keeps_functionListLoop A (tokenize text) htok (tokenize text).length 0 0 P hP
  have hi := Inv_functionListLoop A (tokenize text) htok (tokenize text).length 0 0 P hP
  simp only [GFunctionParser.add, GFunctionParser.parseFunctionList]
  rcases hloop : functionListLoop A (tokenize text) (tokenize text).length 0 0 P with ⟨r, P'⟩
  rw [hloop] at hl hi
  cases r with
  | error e => exact hl
  | ok start =>
    simp only
    cases hp : P'.parseFunction A (tokenize text) start ((tokenize text).length - start) with
    | error e => exact hl
    | ok P'' => exact keeps_trans hl (keeps_parseFunction A P' P'' hi _ htok _ _ hp)

/-- With distinct allocation numbers below the counter, `keeps` says of each
`GFunction` that is in both registries that its skeleton is the same. -/
theorem keeps_same (P P' : GFunctionParser α) (hP : P.Inv) (h : P.keeps P')
    (e : String × GFunction α) (he : e ∈ P.m_functions)
    (e' : String × GFunction α) (he' : e' ∈ P'.m_functions) (ha : e'.2.addr = e.2.addr) :
    e'.1 = e.1 ∧ e'.2.m_pRoot.skeleton = e.2.m_pRoot.skeleton := by
  obtain ⟨e0, he0, ha0, hn0, hs0⟩ := h.2 e' he' (by rw [ha]; exact hP.heap e he)
  have heq : e0 = e :=
    List.inj_on_of_nodup_map hP.distinct he0 he (ha0.trans ha)
  subst heq
  exact ⟨hn0.symm, hs0⟩

end Keeps

/-! ## Evaluation reads no vector out of range -/

section Safety
variable {α : Type} (A : DoubleOps α)

mutual

theorem paramRefs_skeleton :
    ∀ t : GFunctionNode α, t.skeleton.paramRefs = t.paramRefs
  | .GFunctionBuiltIn _ => rfl
  | .GFunctionVariable _ => rfl
  | .GFunctionConstant _ => rfl
  | .GFunctionCall m_name pf cs => by
    rw [skeleton_call]
    simp only [GFunctionNode.paramRefs, paramRefsChildren_skeleton cs]

theorem paramRefsChildren_skeleton :
    ∀ l : List (GFunctionNode α),
      GFunctionNode.paramRefs.paramRefsChildren (GFunctionNode.skeleton.skeletonChildren l) =
        GFunctionNode.paramRefs.paramRefsChildren l
  | [] => rfl
  | c :: l => by
    simp only [GFunctionNode.skeleton.skeletonChildren, GFunctionNode.paramRefs.paramRefsChildren,
      paramRefs_skeleton c, paramRefsChildren_skeleton l]

end

mutual

theorem parsed_paramRefs (k : Nat) :
    ∀ t : GFunctionNode α, t.parsed k = true → ∀ i ∈ t.paramRefs, i < k
  | .GFunctionBuiltIn _, h => by simp [GFunctionNode.parsed] at h
  | .GFunctionVariable j, h => by
    intro i hi
    simp only [GFunctionNode.paramRefs, List.mem_singleton] at hi
    subst hi
    simpa [GFunctionNode.parsed] using h
  | .GFunctionConstant _, _ => by simp [GFunctionNode.paramRefs]
  | .GFunctionCall m_name pf cs, h => by
    rw [parsed_call, Bool.and_eq_true] at h
    simp only [GFunctionNode.paramRefs]
    exact parsedChildren_paramRefs k cs h.2

theorem parsedChildren_paramRefs (k : Nat) :
    ∀ l : List (GFunctionNode α), GFunctionNode.parsed.parsedChildren k l = true →
      ∀ i ∈ GFunctionNode.paramRefs.paramRefsChildren l, i < k
  | [], _ => by simp [GFunctionNode.paramRefs.paramRefsChildren]
  | c :: l, h => by
    simp only [GFunctionNode.parsed.parsedChildren, Bool.and_eq_true] at h
    intro i hi
    simp only [GFunctionNode.paramRefs.paramRefsChildren, List.mem_append] at hi
    rcases hi with hi | hi
    · exact parsed_paramRefs k c h.1 i hi
    · exact parsedChildren_paramRefs k l h.2 i hi

end

/-- A root that fits holds variable nodes of indices below `m_expectedParams`
only. -/
theorem shapeOk_paramRefs (pFunc : GFunction α) (h : pFunc.shapeOk = true) :
    ∀ i ∈ pFunc.m_pRoot.paramRefs, (i : Int) < pFunc.m_expectedParams := by
  intro i hi
  rw [← paramRefs_skeleton] at hi
  simp only [GFunction.shapeOk] at h
  cases hsk : pFunc.m_pRoot.skeleton with
  | GFunctionBuiltIn f => rw [hsk] at hi; simp [GFunctionNode.paramRefs] at hi
  | GFunctionConstant v => rw [hsk] at hi; simp [GFunctionNode.paramRefs] at hi
  | GFunctionVariable j =>
    rw [hsk] at h hi
    simp only [Bool.and_eq_true, decide_eq_true_eq] at h
    have := parsed_paramRefs _ _ h.2 i hi
    omega
  | GFunctionCall name pf cs =>
    rw [hsk] at h hi
    simp only [Bool.and_eq_true, decide_eq_true_eq] at h
    have := parsed_paramRefs _ _ h.2 i hi
    omega

theorem param_ok (params : List α) (i : Nat) (h : i < params.length) (e : Ex) :
    param params i ≠ .error e := by
  simp only [param, List.get?_eq_getElem?, List.getElem?_eq_getElem h]
  intro h'
  cases h'

theorem unary_ok (g : α → α) (params : List α) (h : 1 ≤ params.length) (e : Ex) :
    unary g params ≠ .error e := by
  cases params with
  | nil => simp at h
  | cons a rest => simp [unary, param]

theorem binary_ok (g : α → α → α) (params : List α) (h : 2 ≤ params.length) (e : Ex) :
    binary g params ≠ .error e := by
  rcases params with _ | ⟨a, _ | ⟨b, rest⟩⟩
  · simp at h
  · simp at h
  · simp [binary, param]

theorem ternary_ok (c : α → Bool) (params : List α) (h : 3 ≤ params.length) (e : Ex) :
    ternary c params ≠ .error e := by
  rcases params with _ | ⟨a, _ | ⟨b, _ | ⟨d, rest⟩⟩⟩
  · simp at h
  · simp at h
  · simp at h
  · simp only [ternary, param, List.get?_cons_zero, List.get?_cons_succ]
    split_ifs <;> simp

/-- A static member of `GFunctionBuiltIn` throws nothing on a vector of at
least the elements it reads. -/
theorem builtIn_ok (f : MathFuncFunc) (params : List α) (h : paramsRead f ≤ params.length)
    (e : Ex) : GFunctionBuiltIn.eval A f params ≠ .error e := by
  cases f
  all_goals simp only [paramsRead] at h
  all_goals simp only [GFunctionBuiltIn.eval]
  all_goals
    first
    | exact unary_ok _ params h e
    | exact binary_ok _ params h e
    | exact ternary_ok _ params h e
    | (cases params with
        | nil => simp at h
        | cons a rest => simp)

theorem operatorArity_paramsRead (f : MathFuncFunc) (k : Nat) (h : operatorArity f = some k) :
    paramsRead f ≤ k := by
  cases f <;> simp [operatorArity] at h <;> simp [paramsRead, ← h]

theorem checkParams_minParams (name : String) (k : Nat) (n : Int)
    (h : checkParams name k n = .ok ()) : minParams n ≤ k ∧ (0 ≤ n → k = n.toNat) := by
  simp only [checkParams] at h
  simp only [minParams]
  split_ifs at h ⊢ <;> omega

theorem evalFreeChildren_error (f : GFunctionNode α → Except Ex α) (e : Ex) :
    ∀ cs : List (GFunctionNode α), evalFreeChildren f cs = .error e → ∃ c ∈ cs, f c = .error e
  | [], h => by simp [evalFreeChildren] at h
  | c :: cs, h => by
    simp only [evalFreeChildren] at h
    cases hc : f c with
    | error e0 =>
      rw [hc] at h
      simp only [Except.error.injEq] at h
      exact ⟨c, List.mem_cons_self _ _, h ▸ hc⟩
    | ok v =>
      rw [hc] at h
      simp only at h
      cases hcs : evalFreeChildren f cs with
      | error e1 =>
        rw [hcs] at h
        simp only [Except.error.injEq] at h
        obtain ⟨x, hx, hfx⟩ := evalFreeChildren_error f e cs (h ▸ hcs)
        exact ⟨x, List.mem_cons_of_mem _ hx, hfx⟩
      | ok vs => rw [hcs] at h; cases h

theorem evalFreeChildren_length (f : GFunctionNode α → Except Ex α) :
    ∀ (cs : List (GFunctionNode α)) (vs : List α), evalFreeChildren f cs = .ok vs →
      vs.length = cs.length
  | [], vs, h => by
    simp only [evalFreeChildren, Except.ok.injEq] at h
    subst h; rfl
  | c :: cs, vs, h => by
    simp only [evalFreeChildren] at h
    cases hc : f c with
    | error e0 => rw [hc] at h; cases h
    | ok v =>
      rw [hc] at h
      simp only at h
      cases hcs : evalFreeChildren f cs with
      | error e1 => rw [hcs] at h; cases h
      | ok ws =>
        rw [hcs] at h
        simp only [Except.ok.injEq] at h
        subst h
        simp [evalFreeChildren_length f cs ws hcs]

/-- The evaluation of a root that fits, on a vector that passes the test of
the number of parameters, given that the trees of the parser are safe at this
depth. -/
theorem root_safe (P : GFunctionParser α) (depth : Nat)
    (ih : ∀ (n : GFunctionNode α) (params : List α), n.parsed params.length = true →
      safeOutcome (GFunctionNode.evalFree A depth P n params))
    (name : String) (pFunc : GFunction α) (hs : pFunc.shapeOk = true) (params : List α)
    (hck : checkParams name params.length pFunc.m_expectedParams = .ok ()) :
    safeOutcome (GFunctionNode.evalFree A depth P pFunc.m_pRoot params) := by
  rw [evalFree_signature A depth P P pFunc.m_pRoot pFunc.m_pRoot.skeleton params rfl
    (skeleton_skeleton _).symm]
  obtain ⟨hmin, hexact⟩ := checkParams_minParams name _ _ hck
  simp only [GFunction.shapeOk] at hs
  have other : ∀ t : GFunctionNode α, pFunc.m_pRoot.skeleton = t →
      (decide (0 ≤ pFunc.m_expectedParams) && t.parsed pFunc.m_expectedParams.toNat) = true →
      safeOutcome (GFunctionNode.evalFree A depth P t params) := by
    intro t _ h
    simp only [Bool.and_eq_true, decide_eq_true_eq] at h
    apply ih
    rw [hexact h.1]
    exact h.2
  cases hsk : pFunc.m_pRoot.skeleton with
  | GFunctionBuiltIn f =>
    rw [hsk] at hs
    simp only [decide_eq_true_eq] at hs
    cases depth with
    | zero =>
      intro e he
      simp only [GFunctionNode.evalFree, Except.error.injEq] at he
      exact Or.inr (Or.inr he.symm)
    | succ d =>
      intro e he
      simp only [GFunctionNode.evalFree] at he
      exact absurd he (builtIn_ok A f params (by omega) e)
  | GFunctionVariable i => rw [hsk] at hs; exact other _ hsk hs
  | GFunctionConstant v => rw [hsk] at hs; exact other _ hsk hs
  | GFunctionCall nm pf cs => rw [hsk] at hs; exact other _ hsk hs

/-- The evaluator without the cache reads no vector out of range on a tree of
the parser for as many variables as the vector has elements, when every
registered root fits. -/
theorem evalFree_safe (P : GFunctionParser α)
    (hshape : ∀ e ∈ P.m_functions, e.2.shapeOk = true) :
    ∀ (depth : Nat) (n : GFunctionNode α) (params : List α), n.parsed params.length = true →
      safeOutcome (GFunctionNode.evalFree A depth P n params)
  | 0, n, params, _ => by
    intro e he
    simp only [GFunctionNode.evalFree, Except.error.injEq] at he
    exact Or.inr (Or.inr he.symm)
  | depth + 1, n, params, hn => by
    have ih := evalFree_safe P hshape depth
    cases n with
    | GFunctionBuiltIn f => simp [GFunctionNode.parsed] at hn
    | GFunctionVariable i =>
      intro e he
      simp only [GFunctionNode.evalFree] at he
      simp only [GFunctionNode.parsed, decide_eq_true_eq] at hn
      exact absurd he (param_ok params i hn e)
    | GFunctionConstant v =>
      intro e he
      simp [GFunctionNode.evalFree] at he
    | GFunctionCall name pf cs =>
      rw [parsed_call, Bool.and_eq_true] at hn
      obtain ⟨hpf, hcs⟩ := hn
      rw [parsedChildren_iff] at hcs
      cases hch : evalFreeChildren (fun c => GFunctionNode.evalFree A depth P c params) cs with
      | error e0 =>
        rw [evalFree_call_children_error A depth P name pf cs params e0 hch]
        obtain ⟨c, hc, hce⟩ := evalFreeChildren_error _ e0 cs hch
        intro e he
        simp only [Except.error.injEq] at he
        subst he
        exact ih c params (hcs c hc) _ hce
      | ok m_params =>
        have hlen := evalFreeChildren_length _ cs m_params hch
        cases pf with
        | some p =>
          cases p with
          | root a => simp at hpf
          | operator f =>
            rw [evalFree_call_operator A depth P name f cs params m_params hch]
            simp only [Bool.and_eq_true, beq_iff_eq] at hpf
            intro e he
            exact absurd he (builtIn_ok A f m_params
              (by rw [hlen]; exact operatorArity_paramsRead f _ hpf.2) e)
        | none =>
          rw [evalFree_call_named A depth P name none (by simp) cs params m_params hch]
          cases hf : P.getFunctionNoThrow name with
          | none =>
            simp only [GFunctionParser.getFunction, hf]
            intro e he
            simp only [Except.error.injEq] at he
            exact Or.inr (Or.inl ⟨name, he.symm⟩)
          | some pFunc =>
            simp only [GFunctionParser.getFunction, hf]
            cases hck : checkParams name cs.length pFunc.m_expectedParams with
            | error e0 =>
              simp only
              intro e he
              simp only [Except.error.injEq] at he
              subst he
              left
              rcases checkParams_error name _ _ _ hck with ⟨-, -, h⟩ | ⟨-, -, h⟩ <;>
                (rw [h]; rfl)
            | ok u =>
              simp only
              exact root_safe A P depth ih name pFunc
                (hshape _ (lookup_mem name pFunc _ hf)) m_params (by rw [hlen]; exact hck)

/-- Growing the depth bound changes no outcome but the end of the bound. -/
theorem evalFreeChildren_mono (f g : GFunctionNode α → Except Ex α)
    (h : ∀ c, f c ≠ .error .stackExhausted → g c = f c) :
    ∀ cs : List (GFunctionNode α), evalFreeChildren f cs ≠ .error .stackExhausted →
      evalFreeChildren g cs = evalFreeChildren f cs
  | [], _ => rfl
  | c :: cs, hne => by
    simp only [evalFreeChildren] at hne ⊢
    cases hc : f c with
    | error e0 =>
      rw [hc] at hne
      simp only [ne_eq, Except.error.injEq] at hne
      rw [h c (by rw [hc]; simpa using hne), hc]
    | ok v =>
      rw [hc] at hne
      simp only at hne
      rw [h c (by rw [hc]; intro h'; cases h'), hc]
      simp only
      have hrest : evalFreeChildren f cs ≠ .error .stackExhausted := by
        intro h'
        rw [h'] at hne
        exact hne rfl
      rw [evalFreeChildren_mono f g h cs hrest]

/-- An evaluation that ends within the bound `depth` ends the same way within
every larger bound. -/
theorem evalFree_mono (P : GFunctionParser α) :
    ∀ (depth : Nat) (n : GFunctionNode α) (params : List α),
      GFunctionNode.evalFree A depth P n params ≠ .error .stackExhausted →
      GFunctionNode.evalFree A (depth + 1) P n params = GFunctionNode.evalFree A depth P n params
  | 0, n, params, h => by simp [GFunctionNode.evalFree] at h
  | depth + 1, n, params, h => by
    cases n with
    | GFunctionBuiltIn f => rfl
    | GFunctionVariable i => rfl
    | GFunctionConstant v => rfl
    | GFunctionCall name pf cs =>
      rw [evalFree_call] at h
      rw [evalFree_call A (depth + 1), evalFree_call A depth]
      have hkids : evalFreeChildren (fun c => GFunctionNode.evalFree A depth P c params) cs ≠
          .error .stackExhausted := by
        intro h'
        rw [h'] at h
        exact h rfl
      rw [evalFreeChildren_mono _ (fun c => GFunctionNode.evalFree A (depth + 1) P c params)
        (fun c hc => evalFree_mono P depth c params hc) cs hkids]
      cases hch : evalFreeChildren (fun c => GFunctionNode.evalFree A depth P c params) cs with
      | error e0 => rfl
      | ok m_params =>
        rw [hch] at h
        simp only at h ⊢
        cases pf with
        | some p =>
          cases p with
          | operator f => rfl
          | root a =>
            simp only at h ⊢
            cases hf : P.getFunction name with
            | error e0 => rfl
            | ok pFunc =>
              rw [hf] at h
              simp only at h ⊢
              cases hck : checkParams name cs.length pFunc.m_expectedParams with
              | error e0 => rfl
              | ok u =>
                rw [hck] at h
                exact evalFree_mono P depth _ _ h
        | none =>
          simp only at h ⊢
          cases hf : P.getFunction name with
          | error e0 => rfl
          | ok pFunc =>
            rw [hf] at h
            simp only at h ⊢
            cases hck : checkParams name cs.length pFunc.m_expectedParams with
            | error e0 => rfl
            | ok u =>
              rw [hck] at h
              exact evalFree_mono P depth _ _ h

end Safety

/-! ## C31 to C34: the cache and the invariants of the registry -/

section CacheScenario
variable {α : Type} (A : DoubleOps α)

theorem scenario_self :
    (extended A [] 0).add A "f=f" =
      (.ok (), extended A [entry "f" (.GFunctionCall "f" none []) 0 29] 1) := by
  rfl

/-- The evaluation of `f` after `f=f` exhausts every depth bound: the call
node of `f` enters the root of `f`, which is that call node. -/
theorem scenario_self_eval : ∀ depth : Nat,
    (GFunctionNode.eval A depth (extended A [entry "f" (.GFunctionCall "f" none []) 0 29] 1)
      (.GFunctionCall "f" none []) []).1 = .error .stackExhausted
  | 0 => rfl
  | depth + 1 => by
    rw [eval_call_bound A depth (extended A [entry "f" (.GFunctionCall "f" none []) 0 29] 1)
      (extended A [entry "f" (.GFunctionCall "f" none []) 0 29] 1) "f" [] [] [] [] 29
      { m_pRoot := .GFunctionCall "f" none [], m_expectedParams := 0, addr := 29 } rfl rfl rfl]
    exact scenario_self_eval depth

theorem scenario_self_call (depth : Nat) :
    ((extended A [entry "f" (.GFunctionCall "f" none []) 0 29] 1).call A depth "f" []).1 =
      .error .stackExhausted := by
  have h := scenario_self_eval A depth
  have hf : (extended A [entry "f" (.GFunctionCall "f" none []) 0 29] 1).getFunction "f" =
      .ok { m_pRoot := .GFunctionCall "f" none [], m_expectedParams := 0, addr := 29 } := rfl
  simp only [GFunctionParser.call, hf, GFunction.call]
  exact h

theorem callFree_mono (P : GFunctionParser α) (name : String) (params : List α) (depth : Nat)
    (h : P.callFree A depth name params ≠ .error .stackExhausted) :
    ∀ k, P.callFree A (depth + k) name params = P.callFree A depth name params
  | 0 => rfl
  | k + 1 => by
    have ih := callFree_mono P name params depth h k
    rw [← ih] at h ⊢
    simp only [GFunctionParser.callFree] at h ⊢
    cases hf : P.getFunction name with
    | error e => rfl
    | ok pFunc =>
      rw [hf] at h
      simp only at h ⊢
      exact evalFree_mono A P (depth + k) _ _ h

/-- The call of a registered function on a vector that passes the test of
the number of parameters reads no vector out of range. -/
theorem callFree_safe (P : GFunctionParser α) (hP : P.Inv) (name : String)
    (pFunc : GFunction α) (hf : P.getFunctionNoThrow name = some pFunc) (params : List α)
    (hck : checkParams name params.length pFunc.m_expectedParams = .ok ()) (depth : Nat) :
    safeOutcome (P.callFree A depth name params) := by
  simp only [GFunctionParser.callFree, GFunctionParser.getFunction, hf]
  exact root_safe A P depth (evalFree_safe A P hP.shape depth) name pFunc
    (hP.shape _ (lookup_mem name pFunc _ hf)) params hck

/-- A sequence of calls of `add` keeps the invariant and the `GFunction`s that
stay. -/
theorem keeps_adds : ∀ (texts : List String) (P : GFunctionParser α), P.Inv →
    P.keeps (texts.foldl (fun Q text => (Q.add A text).2) P) ∧
      (texts.foldl (fun Q text => (Q.add A text).2) P).Inv
  | [], P, hP => ⟨keeps_refl P, hP⟩
  | text :: texts, P, hP => by
    have h1 := keeps_add A P hP text
    have h2 := keeps_adds texts (P.add A text).2 (Inv_add A P hP text)
    exact ⟨keeps_trans h1 h2.1, h2.2⟩

end CacheScenario

/-- C31. Cache coherence.  In every state of a parser, reached from its
constructor by calls of `add` and evaluations `getFunction(name)->call(...)`
that returned or threw, every call node of every registered tree whose
`m_pFunction` points to a root points to the root of the `GFunction` that is
registered now under the `m_name` of the node: that `GFunction` is in the
registry, the pointer finds it, and it is the only one with that allocation
number.  Allocation numbers are never used again, so the pointer is to no
`GFunction` that was replaced and deleted. -/
theorem C31_cache_coherence {α : Type} (A : DoubleOps α) (P : GFunctionParser α)
    (hP : Reachable A P) :
    ∀ e ∈ P.m_functions, ∀ s ∈ e.2.m_pRoot.callSites, ∀ a, s.2.1 = some (.root a) →
      ∃ pFunc, P.getFunctionNoThrow s.1 = some pFunc ∧ pFunc.addr = a ∧
        P.deref a = some pFunc ∧ (s.1, pFunc) ∈ P.m_functions ∧ a < P.heapNext ∧
        ∀ e' ∈ P.m_functions, e'.2.addr = a → e' = (s.1, pFunc) := by
  have hI := Reachable_Inv A P hP
  intro e he s hs a ha
  obtain ⟨pFunc, hf, haddr, -⟩ := hI.cache e he s hs a ha
  have hmem := lookup_mem s.1 pFunc _ hf
  refine ⟨pFunc, hf, haddr, ?_, hmem, ?_, ?_⟩
  · rw [← haddr]
    exact deref_registered P hI.distinct s.1 pFunc hf
  · rw [← haddr]
    exact hI.heap _ hmem
  · intro e' he' ha'
    exact List.inj_on_of_nodup_map hI.distinct he' hmem (ha'.trans haddr.symm)

/-- C31, at an input: the parser after `add("f(x)=x*2;h(x)=x+1;g(x)=f(x)-h(x)")`,
the call of `g`, which stores the roots of `f` and `h` in the tree of `g`, and
`add("f(x)=x*3")`.  The tree of `g` holds no pointer in the call node of `f`
and the pointer to the `GFunction` number 30 in the call node of `h`, and
number 30 is what is registered under `h`. -/
theorem C31_cache_coherence_witness :
    let E := exactOps noInexact
    let P := ((((GFunctionParser.ctor E false).add E "f(x)=x*2;h(x)=x+1;g(x)=f(x)-h(x)").2.call
      E 4 "g" [1]).2.add E "f(x)=x*3").2
    Reachable E P ∧
      (P.getFunctionNoThrow "g").map (fun g => g.m_pRoot.callSites) =
        some [("", some (.operator .minus), 2), ("f", none, 1), ("h", some (.root 30), 1)] ∧
      (P.getFunctionNoThrow "h").map (fun h => h.addr) = some 30 ∧
      ∀ e ∈ P.m_functions, ∀ s ∈ e.2.m_pRoot.callSites, ∀ a, s.2.1 = some (.root a) →
        ∃ pFunc, P.getFunctionNoThrow s.1 = some pFunc ∧ pFunc.addr = a ∧
          P.deref a = some pFunc ∧ (s.1, pFunc) ∈ P.m_functions ∧ a < P.heapNext ∧
          ∀ e' ∈ P.m_functions, e'.2.addr = a → e' = (s.1, pFunc) := by
  intro E P
  have hr : Reachable E P := .add _ (.call _ _ _ (.add _ (.ctor _)))
  refine ⟨hr, ?_, ?_, C31_cache_coherence E P hr⟩
  · simp only [P, ctor_posix, scenario_three, scenario_three_call E 1 0, scenario_three_redefine]
    rfl
  · simp only [P, ctor_posix, scenario_three, scenario_three_call E 1 0, scenario_three_redefine]
    rfl

/-- C32. Operator nodes stay bound.  `parseMathOperator` returns a call node
without a name whose `m_pFunction` is the operator node of its token: the node
of the negation with one child, or the node of `^ * / % + -` with two.  Every
tree `parseFunctionBody` returns is made of variable nodes, constants, call
nodes with no pointer, and such call nodes of operators with exactly the
children of their operator.  `unlink` of a name that is not empty leaves
every pointer to an operator node of such a tree in place (`unlink("")` would
clear them).  In every state of a parser every registered name is not
empty and every registered tree that is not a built-in is such a tree apart
from the pointers to roots; and every sequence of calls of `add`, and every
evaluation, leaves to every `GFunction` that stays in the registry its name
and its tree apart from the pointers to roots, so the pointers to the
operator nodes among them. -/
theorem C32_operator_nodes_stay_bound {α : Type} (A : DoubleOps α) :
    (∀ (parse : Nat → Nat → Nat → Except Ex (GFunctionNode α)) (tokens : List String)
      (start count index depth : Nat) (t : GFunctionNode α),
      parseMathOperator parse tokens start count index depth = .ok t →
      (∃ r, tokenAt tokens index = "-" ∧
          t = .GFunctionCall "" (some (.operator .negate)) [r]) ∨
        (∃ l r, t = .GFunctionCall "" (some (.operator (operatorOf (tokenAt tokens index))))
          [l, r])) ∧
    (operatorOf "+" = .plus ∧ operatorOf "-" = .minus ∧ operatorOf "*" = .times ∧
      operatorOf "/" = .divide ∧ operatorOf "%" = .modulus ∧ operatorOf "^" = .exponent) ∧
    (∀ (vars tokens : List String) (bound start count depth : Nat) (t : GFunctionNode α),
      parseFunctionBody A vars tokens bound start count depth = .ok t →
      t.parsed vars.length = true ∧ t.skeleton = t) ∧
    (∀ (k : Nat) (name : String) (t : GFunctionNode α), name ≠ "" →
      t.skeleton.parsed k = true → (t.unlink name).skeleton = t.skeleton) ∧
    (∀ (f : MathFuncFunc) (cs : List (GFunctionNode α)),
      (operatorCall f cs).unlink "" =
        .GFunctionCall "" none (GFunctionNode.unlink.unlinkChildren "" cs)) ∧
    (∀ P : GFunctionParser α, Reachable A P →
      (∀ e ∈ P.m_functions, e.1 ≠ "") ∧
      (∀ e ∈ P.m_functions, e.2.shapeOk = true) ∧
      (∀ (texts : List String), ∀ e ∈ P.m_functions,
        ∀ e' ∈ (texts.foldl (fun Q text => (Q.add A text).2) P).m_functions,
        e'.2.addr = e.2.addr →
        e'.1 = e.1 ∧ e'.2.m_pRoot.skeleton = e.2.m_pRoot.skeleton) ∧
      (∀ (depth : Nat) (name : String) (params : List α),
        (P.call A depth name params).2.signature = P.signature)) := by
  refine ⟨?_, ⟨rfl, rfl, rfl, rfl, rfl, rfl⟩, ?_, ?_, ?_, ?_⟩
  · intro parse tokens start count index depth t h
    rcases parseMathOperator_ok parse tokens start count index depth t h with
      ⟨r, -, hm, ht⟩ | ⟨l, r, -, -, ht⟩
    · exact Or.inl ⟨r, hm, ht⟩
    · exact Or.inr ⟨l, r, ht⟩
  · intro vars tokens bound start count depth t h
    have hp := parseFunctionBody_parsed A vars tokens bound start count depth t h
    exact ⟨hp, skeleton_parsed _ t hp⟩
  · intro k name t hname ht
    exact skeleton_unlink k name hname t ht
  · intro f cs
    exact unlink_call "" _ cs
  · intro P hP
    have hI := Reachable_Inv A P hP
    refine ⟨hI.names, hI.shape, ?_, ?_⟩
    · intro texts e he e' he' ha
      exact keeps_same P _ hI (keeps_adds A texts P hI).1 e he e' he' ha
    · intro depth name params
      exact call_signature A P hI.distinct depth name params

/-- C32, at an input: in the parser in which `g(x)=f(x)-h(x)` has cached the
roots of `f` and `h`, `add("f(x)=x*3")` leaves under `g` the call node of `-`
with its pointer to the operator node and its two children, and the `*` of
the body of the new `f` is bound to its operator node. -/
theorem C32_operator_nodes_stay_bound_witness :
    let E := exactOps noInexact
    let P := (((GFunctionParser.ctor E false).add E "f(x)=x*2;h(x)=x+1;g(x)=f(x)-h(x)").2.call
      E 4 "g" [1]).2
    Reachable E P ∧
      ((P.add E "f(x)=x*3").2.getFunctionNoThrow "g").map (fun g => g.m_pRoot.callSites) =
        some [("", some (.operator .minus), 2), ("f", none, 1), ("h", some (.root 30), 1)] ∧
      ((P.add E "f(x)=x*3").2.getFunctionNoThrow "f").map (fun g => g.m_pRoot.callSites) =
        some [("", some (.operator .times), 2)] ∧
      (∀ e ∈ P.m_functions, e.1 ≠ "") ∧
      (∀ e ∈ P.m_functions, e.2.shapeOk = true) ∧
      (∀ (texts : List String), ∀ e ∈ P.m_functions,
        ∀ e' ∈ (texts.foldl (fun Q text => (Q.add E text).2) P).m_functions,
        e'.2.addr = e.2.addr →
        e'.1 = e.1 ∧ e'.2.m_pRoot.skeleton = e.2.m_pRoot.skeleton) ∧
      (∀ (depth : Nat) (name : String) (params : List ℚ),
        (P.call E depth name params).2.signature = P.signature) := by
  intro E P
  have hr : Reachable E P := .call _ _ _ (.add _ (.ctor _))
  refine ⟨hr, ?_, ?_, (C32_operator_nodes_stay_bound E).2.2.2.2.2 P hr⟩
  · simp only [P, ctor_posix, scenario_three, scenario_three_call E 1 0, scenario_three_redefine]
    rfl
  · simp only [P, ctor_posix, scenario_three, scenario_three_call E 1 0, scenario_three_redefine]
    rfl

/-- C33, as stated, fails in its last part: on a new parser `add("f=f")`
returns and registers `f` with no parameters, and the call of `f` with the
empty vector, whose length is the declared number of parameters, ends
neither with a value nor with one of the two exceptions: the call node of `f`
enters the root of `f`, which is that same node, and the evaluation exhausts
every bound on the depth of the recursion. -/
theorem C33_counterexample :
    ((GFunctionParser.ctor (exactOps noInexact) false).add (exactOps noInexact) "f=f").1 =
        .ok () ∧
      (((GFunctionParser.ctor (exactOps noInexact) false).add (exactOps noInexact)
        "f=f").2.getFunctionNoThrow "f").map (fun f => (f.m_expectedParams, f.m_pRoot.callSites)) =
          some (0, [("f", none, 0)]) ∧
      (∀ depth : Nat,
        (((GFunctionParser.ctor (exactOps noInexact) false).add (exactOps noInexact)
          "f=f").2.call (exactOps noInexact) depth "f" []).1 = .error .stackExhausted) ∧
      Ex.stackExhausted.isArityMismatch = false ∧
      (∀ name, Ex.stackExhausted ≠ .noIdentifier name) := by
  refine ⟨?_, ?_, ?_, rfl, fun name h => by cases h⟩
  · rw [ctor_posix, scenario_self]
  · rw [ctor_posix, scenario_self]
    rfl
  · intro depth
    rw [ctor_posix, scenario_self]
    exact scenario_self_call (exactOps noInexact) depth

/-- C33, amended.  Index safety of evaluation.  In every state of a parser
every variable node of a registered tree has an index below the
`m_expectedParams` of its `GFunction`.  The evaluation of a registered
function on a vector whose length is its `m_expectedParams` (more generally:
whose length passes the test of `GFunctionCall::eval`, which covers `max` and
`min`) reads no vector out of range, neither in a variable node nor in a
built-in, and follows no pointer to a deleted root.  When it ends without a
value it ends with the exception of an unknown identifier or with one of the
two about the number of parameters.  An evaluation that ends within a depth
bound ends the same way within every larger one.  It need not end: after
`add("f=f")` the evaluation of `f` recurses without end, which is here the
outcome `stackExhausted` for every depth bound. -/
theorem C33_index_safety {α : Type} (A : DoubleOps α) :
    (∀ P : GFunctionParser α, Reachable A P →
      (∀ e ∈ P.m_functions, ∀ i ∈ e.2.m_pRoot.paramRefs, (i : Int) < e.2.m_expectedParams) ∧
      (∀ (name : String) (pFunc : GFunction α) (params : List α),
        P.getFunctionNoThrow name = some pFunc →
        ((params.length : Int) = pFunc.m_expectedParams ∨
          checkParams name params.length pFunc.m_expectedParams = .ok ()) →
        ∀ depth : Nat,
          (P.call A depth name params).1 ≠ .error .outOfRange ∧
          (P.call A depth name params).1 ≠ .error .dangling ∧
          ∀ e, (P.call A depth name params).1 = .error e →
            e.isArityMismatch = true ∨ (∃ n, e = .noIdentifier n) ∨ e = .stackExhausted) ∧
      (∀ (name : String) (params : List α) (depth : Nat),
        (P.call A depth name params).1 ≠ .error .stackExhausted →
        ∀ k, (P.call A (depth + k) name params).1 = (P.call A depth name params).1)) ∧
    (∀ depth : Nat,
      (((GFunctionParser.ctor A false).add A "f=f").2.call A depth "f" []).1 =
        .error .stackExhausted) := by
  refine ⟨?_, ?_⟩
  · intro P hP
    have hI := Reachable_Inv A P hP
    refine ⟨?_, ?_, ?_⟩
    · intro e he
      exact shapeOk_paramRefs e.2 (hI.shape e he)
    · intro name pFunc params hf hlen depth
      have hck : checkParams name params.length pFunc.m_expectedParams = .ok () := by
        rcases hlen with h | h
        · simp only [checkParams, ← h]
          simp
        · exact h
      have hsafe := callFree_safe A P hI name pFunc hf params hck depth
      rw [← (call_spec A P hI depth name params).2] at hsafe
      refine ⟨?_, ?_, hsafe⟩
      · intro h
        rcases hsafe _ h with h1 | ⟨n, h1⟩ | h1 <;> cases h1
      · intro h
        rcases hsafe _ h with h1 | ⟨n, h1⟩ | h1 <;> cases h1
    · intro name params depth h k
      rw [(call_spec A P hI depth name params).2] at h ⊢
      rw [(call_spec A P hI (depth + k) name params).2]
      exact callFree_mono A P name params depth h k
  · intro depth
    rw [ctor_posix, scenario_self]
    exact scenario_self_call A depth

/-- C33, amended, at an input: in the parser after
`add("f(x)=x*2;h(x)=x+1;g(x)=f(x)-h(x)")` and a call of `g`, the call of `g`
with one argument, the number `g` was declared with, returns `1*2 - (1+1)`
and reads no vector out of range. -/
theorem C33_index_safety_witness :
    let E := exactOps noInexact
    let P := (((GFunctionParser.ctor E false).add E "f(x)=x*2;h(x)=x+1;g(x)=f(x)-h(x)").2.call
      E 4 "g" [1]).2
    Reachable E P ∧
      (P.getFunctionNoThrow "g").map (fun g => (g.m_expectedParams, g.m_pRoot.paramRefs)) =
        some (1, [0, 0]) ∧
      (P.call E 4 "g" [1]).1 = .ok 0 ∧
      (P.call E 4 "g" [1]).1 ≠ .error .outOfRange ∧
      (∀ e ∈ P.m_functions, ∀ i ∈ e.2.m_pRoot.paramRefs, (i : Int) < e.2.m_expectedParams) := by
  intro E P
  have hr : Reachable E P := .call _ _ _ (.add _ (.ctor _))
  have hP : P = extended E
      [entry "f" (operatorCall .times [.GFunctionVariable 0, .GFunctionConstant (E.atof "2")]) 1 29,
       entry "h" (operatorCall .plus [.GFunctionVariable 0, .GFunctionConstant (E.atof "1")]) 1 30,
       entry "g" (operatorCall .minus [.GFunctionCall "f" (some (.root 29)) [.GFunctionVariable 0],
         .GFunctionCall "h" (some (.root 30)) [.GFunctionVariable 0]]) 1 31] 3 := by
    simp only [P, ctor_posix, scenario_three, scenario_three_call E 1 0]
  have hg : P.getFunctionNoThrow "g" = some
      { m_pRoot := operatorCall .minus [.GFunctionCall "f" (some (.root 29)) [.GFunctionVariable 0],
          .GFunctionCall "h" (some (.root 30)) [.GFunctionVariable 0]],
        m_expectedParams := 1, addr := 31 } := by
    rw [hP]; rfl
  have h := (C33_index_safety E).1 P hr
  refine ⟨hr, ?_, ?_, ((h.2.1 "g" _ [1] hg (Or.inl rfl)) 4).1, h.1⟩
  · rw [hg]; rfl
  · rw [hP]; decide!

/-- C34. The cache is invisible.  In every state of a parser, the evaluation
`getFunction(name)->call(params, parser)`, which follows the pointers the
call nodes hold and stores those it looks up, ends as the evaluator without
the cache ends, which looks the name up and tests the number of children at
every call node with a name: with the same value or the same exception, for
every name, vector and depth bound; so does `GFunction::call` on every
registered `GFunction`.  The evaluator without the cache depends on no
cached pointer: it gives the same on parsers and trees that differ in
pointers to roots only. -/
theorem C34_cache_invisible {α : Type} (A : DoubleOps α) (P : GFunctionParser α)
    (hP : Reachable A P) :
    (∀ (depth : Nat) (name : String) (params : List α),
      (P.call A depth name params).1 = P.callFree A depth name params) ∧
    (∀ (depth : Nat) (name : String) (pFunc : GFunction α) (params : List α),
      P.getFunctionNoThrow name = some pFunc →
      (GFunction.call A depth pFunc params P).1 =
        GFunctionNode.evalFree A depth P pFunc.m_pRoot params) ∧
    (∀ (depth : Nat) (Q : GFunctionParser α) (n m : GFunctionNode α) (params : List α),
      Q.signature = P.signature → n.skeleton = m.skeleton →
      GFunctionNode.evalFree A depth Q n params = GFunctionNode.evalFree A depth P m params) := by
  have hI := Reachable_Inv A P hP
  refine ⟨?_, ?_, ?_⟩
  · intro depth name params
    exact (call_spec A P hI depth name params).2
  · intro depth name pFunc params hf
    simp only [GFunction.call]
    exact (eval_spec A depth P pFunc.m_pRoot params hI.distinct hI.cache
      (hI.cache _ (lookup_mem name pFunc _ hf))).1
  · intro depth Q n m params hs hsk
    exact evalFree_signature A depth Q P n m params hs hsk

/-- C34, at an input: in the parser in which `g(x)=f(x)-h(x)` has cached the
root of `h` and lost the pointer to the replaced `f`, the call of `g` on 1
returns `1*3 - (1+1)`, as the evaluator without the cache does. -/
theorem C34_cache_invisible_witness :
    let E := exactOps noInexact
    let P := ((((GFunctionParser.ctor E false).add E "f(x)=x*2;h(x)=x+1;g(x)=f(x)-h(x)").2.call
      E 4 "g" [1]).2.add E "f(x)=x*3").2
    Reachable E P ∧
      (P.getFunctionNoThrow "g").map (fun g => g.m_pRoot.callSites) =
        some [("", some (.operator .minus), 2), ("f", none, 1), ("h", some (.root 30), 1)] ∧
      P.callFree E 4 "g" [1] = .ok 1 ∧
      (P.call E 4 "g" [1]).1 = P.callFree E 4 "g" [1] := by
  intro E P
  have hr : Reachable E P := .add _ (.call _ _ _ (.add _ (.ctor _)))
  have hP : P = extended E
      [entry "f" (operatorCall .times [.GFunctionVariable 0, .GFunctionConstant (E.atof "3")]) 1 32,
       entry "h" (operatorCall .plus [.GFunctionVariable 0, .GFunctionConstant (E.atof "1")]) 1 30,
       entry "g" (operatorCall .minus [.GFunctionCall "f" none [.GFunctionVariable 0],
         .GFunctionCall "h" (some (.root 30)) [.GFunctionVariable 0]]) 1 31] 4 := by
    simp only [P, ctor_posix, scenario_three, scenario_three_call E 1 0, scenario_three_redefine]
  refine ⟨hr, ?_, ?_, (C34_cache_invisible E P hr).1 4 "g" [1]⟩
  · rw [hP]; rfl
  · rw [hP]; decide!

/-! ## C6: the check of the number of parameters at a call node -/

section ArityCheck
variable {α : Type} (A : DoubleOps α)

/-- A call node whose check passes evaluates the root registered under its
name on the values of its children. -/
theorem eval_call_passes (depth : Nat) (P P1 : GFunctionParser α) (hd : P.addrsDistinct)
    (name : String) (cs cs' : List (GFunctionNode α)) (params vals : List α)
    (pFunc : GFunction α)
    (hev : evalChildren (fun P c => GFunctionNode.eval A depth P c params) P cs =
      (.ok vals, cs', P1))
    (hf : P.getFunctionNoThrow name = some pFunc)
    (hck : checkParams name cs.length pFunc.m_expectedParams = .ok ()) :
    ∃ pFunc1, P1.getFunctionNoThrow name = some pFunc1 ∧ pFunc1.addr = pFunc.addr ∧
      pFunc1.m_pRoot.skeleton = pFunc.m_pRoot.skeleton ∧
      (GFunctionNode.eval A (depth + 1) P (.GFunctionCall name none cs) params).1 =
        (GFunctionNode.eval A depth P1 pFunc1.m_pRoot vals).1 := by
  have hsg : P1.signature = P.signature := by
    have := evalChildren_frame A depth P cs params
    rw [hev] at this
    exact this
  obtain ⟨pFunc1, hf1, hn1, ha1, hroot1⟩ := getFunction_signature hsg.symm name pFunc hf
  have hb : bind P1 name cs.length = .ok (.root pFunc1.addr) := by
    simp only [bind, GFunctionParser.getFunction, hf1, hn1, hck]
  have hderef := deref_registered P1 (addrsDistinct_signature hsg hd) name pFunc1 hf1
  refine ⟨pFunc1, hf1, ha1, hroot1, ?_⟩
  rw [eval_call_bound A depth P P1 name cs cs' params vals pFunc1.addr pFunc1 hev hb hderef]

end ArityCheck

/-- C6, as stated, fails in both directions.  On a new parser, after
`add("g=sin(nosuch,1)")` the root of `g` is an unresolved call node of `sin`
with two children, `sin` is registered with exactly one parameter, and the
evaluation throws "No identifier named nosuch", which is no message about the
number of parameters: the first child throws before the check is reached.
After `add("f(x)=sin(x,x);h=f(1)")` the root of `h` is an unresolved call
node of `f` with one child, `f` is registered with exactly one parameter, and
the evaluation throws "sin expects 1 parameters (trying to call it with 2)":
the check of the node passes and the body of `f` throws. -/
theorem C6_counterexample :
    ((GFunctionParser.ctor (exactOps noInexact) false).add (exactOps noInexact)
        "g=sin(nosuch,1)").1 = .ok () ∧
      (((GFunctionParser.ctor (exactOps noInexact) false).add (exactOps noInexact)
        "g=sin(nosuch,1)").2.getFunctionNoThrow "g").map (fun g => g.m_pRoot.callSites) =
          some [("sin", none, 2), ("nosuch", none, 0)] ∧
      (((GFunctionParser.ctor (exactOps noInexact) false).add (exactOps noInexact)
        "g=sin(nosuch,1)").2.getFunctionNoThrow "sin").map (fun f => f.m_expectedParams) =
          some 1 ∧
      (((GFunctionParser.ctor (exactOps noInexact) false).add (exactOps noInexact)
        "g=sin(nosuch,1)").2.call (exactOps noInexact) 4 "g" []).1 =
          .error (.noIdentifier "nosuch") ∧
      (Ex.noIdentifier "nosuch").isArityMismatch = false ∧
      ((GFunctionParser.ctor (exactOps noInexact) false).add (exactOps noInexact)
        "f(x)=sin(x,x);h=f(1)").1 = .ok () ∧
      (((GFunctionParser.ctor (exactOps noInexact) false).add (exactOps noInexact)
        "f(x)=sin(x,x);h=f(1)").2.getFunctionNoThrow "h").map (fun g => g.m_pRoot.callSites) =
          some [("f", none, 1)] ∧
      (((GFunctionParser.ctor (exactOps noInexact) false).add (exactOps noInexact)
        "f(x)=sin(x,x);h=f(1)").2.getFunctionNoThrow "f").map (fun f => f.m_expectedParams) =
          some 1 ∧
      (((GFunctionParser.ctor (exactOps noInexact) false).add (exactOps noInexact)
        "f(x)=sin(x,x);h=f(1)").2.call (exactOps noInexact) 5 "h" []).1 =
          .error (.expectsExactly "sin" 1 2) ∧
      (Ex.expectsExactly "sin" 1 2).isArityMismatch = true := by
  decide!

/-- C6, amended.  The check of the number of parameters at a call node.  Let
a call node of `name` with `m_pFunction == NULL` have `k` children that
evaluate without an exception.  Its evaluation throws "`name` expects `n`
parameters (trying to call it with `k`)" exactly when `name` is registered
with `m_expectedParams = n >= 0` and `k != n`, and throws "`name` expects at
least `m` parameters (trying to call it with `k`)" exactly when `name` is
registered with `m_expectedParams < 0`, `m = -m_expectedParams - 1` and
`k < m`.  In particular, in a new parser the node for a bare `max` or `min`,
which has no children, throws "expects at least 1 parameters (trying to call
it with 0)", and so does the call of `f` or `g` after `add("f=max;g=min")`.
When a child throws, the node throws what the child throws, and the check
is not reached; when the check passes, the node returns or throws what the
root registered under `name` returns or throws on the values of the
children, which can be a message about the number of parameters of a call
inside that root. -/
theorem C6_parameter_count_check :
    (∀ (α : Type) (A : DoubleOps α) (depth : Nat) (P : GFunctionParser α) (name : String)
      (cs : List (GFunctionNode α)) (params vals : List α) (cs' : List (GFunctionNode α))
      (P1 : GFunctionParser α),
      evalChildren (fun P c => GFunctionNode.eval A depth P c params) P cs = (.ok vals, cs', P1) →
      (∀ n : Int,
        (GFunctionNode.eval A (depth + 1) P (.GFunctionCall name none cs) params).1 =
            .error (.expectsExactly name n cs.length) ↔
          ∃ pFunc, P.getFunctionNoThrow name = some pFunc ∧ pFunc.m_expectedParams = n ∧
            0 ≤ n ∧ (cs.length : Int) ≠ n) ∧
      (∀ m : Int,
        (GFunctionNode.eval A (depth + 1) P (.GFunctionCall name none cs) params).1 =
            .error (.expectsAtLeast name m cs.length) ↔
          ∃ pFunc, P.getFunctionNoThrow name = some pFunc ∧ pFunc.m_expectedParams < 0 ∧
            m = -pFunc.m_expectedParams - 1 ∧ (cs.length : Int) < m)) ∧
    (∀ (α : Type) (A : DoubleOps α) ( windows : Bool) (d : Nat) (params : List α),
      (GFunctionNode.eval A (d + 1) (GFunctionParser.ctor A windows)
          (.GFunctionCall "max" none []) params).1 = .error (.expectsAtLeast "max" 1 0) ∧
      (GFunctionNode.eval A (d + 1) (GFunctionParser.ctor A windows)
          (.GFunctionCall "min" none []) params).1 = .error (.expectsAtLeast "min" 1 0)) ∧
    (∀ (α : Type) (A : DoubleOps α) (d : Nat) (params : List α),
      let S := (GFunctionParser.ctor A false).add A "f=max;g=min"
      S.1 = .ok () ∧
        (S.2.call A (d + 1) "f" params).1 = .error (.expectsAtLeast "max" 1 0) ∧
        (S.2.call A (d + 1) "g" params).1 = .error (.expectsAtLeast "min" 1 0)) ∧
    (∀ (α : Type) (A : DoubleOps α) (depth : Nat) (P : GFunctionParser α) (name : String)
      (pf : Option NodePtr) (cs : List (GFunctionNode α)) (params : List α) (e : Ex)
      (cs' : List (GFunctionNode α)) (P1 : GFunctionParser α),
      evalChildren (fun P c => GFunctionNode.eval A depth P c params) P cs = (.error e, cs', P1) →
      (GFunctionNode.eval A (depth + 1) P (.GFunctionCall name pf cs) params).1 = .error e) ∧
    (∀ (α : Type) (A : DoubleOps α) (depth : Nat) (P : GFunctionParser α) (name : String)
      (cs : List (GFunctionNode α)) (params vals : List α) (cs' : List (GFunctionNode α))
      (P1 : GFunctionParser α) (pFunc : GFunction α),
      P.addrsDistinct →
      evalChildren (fun P c => GFunctionNode.eval A depth P c params) P cs = (.ok vals, cs', P1) →
      P.getFunctionNoThrow name = some pFunc →
      checkParams name cs.length pFunc.m_expectedParams = .ok () →
      ∃ pFunc1, P1.getFunctionNoThrow name = some pFunc1 ∧ pFunc1.addr = pFunc.addr ∧
        pFunc1.m_pRoot.skeleton = pFunc.m_pRoot.skeleton ∧
        (GFunctionNode.eval A (depth + 1) P (.GFunctionCall name none cs) params).1 =
          (GFunctionNode.eval A depth P1 pFunc1.m_pRoot vals).1) := by
  have general : ∀ (α : Type) (A : DoubleOps α) (depth : Nat) (P : GFunctionParser α)
      (name : String) (cs : List (GFunctionNode α)) (params vals : List α)
      (cs' : List (GFunctionNode α)) (P1 : GFunctionParser α),
      evalChildren (fun P c => GFunctionNode.eval A depth P c params) P cs = (.ok vals, cs', P1) →
      (∀ n : Int,
        (GFunctionNode.eval A (depth + 1) P (.GFunctionCall name none cs) params).1 =
            .error (.expectsExactly name n cs.length) ↔
          ∃ pFunc, P.getFunctionNoThrow name = some pFunc ∧ pFunc.m_expectedParams = n ∧
            0 ≤ n ∧ (cs.length : Int) ≠ n) ∧
      (∀ m : Int,
        (GFunctionNode.eval A (depth + 1) P (.GFunctionCall name none cs) params).1 =
            .error (.expectsAtLeast name m cs.length) ↔
          ∃ pFunc, P.getFunctionNoThrow name = some pFunc ∧ pFunc.m_expectedParams < 0 ∧
            m = -pFunc.m_expectedParams - 1 ∧ (cs.length : Int) < m) := by
    intro α A depth P name cs params vals cs' P1 hc
    have hP1 : P.signature = P1.signature := by
      have := evalChildren_frame A depth P cs params
      rw [hc] at this
      exact this.symm
    refine ⟨fun n => ⟨fun h => eval_justified A _ P _ params _ h, ?_⟩,
      fun m => ⟨fun h => eval_justified A _ P _ params _ h, ?_⟩⟩
    · rintro ⟨pFunc, hf, hn, h0, hk⟩
      obtain ⟨pFunc', hf', ha, -, -⟩ := getFunction_signature hP1 name pFunc hf
      rw [eval_unbound_call_error A depth P name cs params vals cs' P1 _ hc
        (bind_exact P1 name cs.length pFunc' hf' (by rw [ha, hn]; exact h0)
          (by rw [ha, hn]; exact hk)), ha, hn]
    · rintro ⟨pFunc, hf, h0, hm, hk⟩
      obtain ⟨pFunc', hf', ha, -, -⟩ := getFunction_signature hP1 name pFunc hf
      rw [eval_unbound_call_error A depth P name cs params vals cs' P1 _ hc
        (bind_atLeast P1 name cs.length pFunc' hf' (by rw [ha]; exact h0)
          (by rw [ha, ← hm]; exact hk)), ha, hm]
  refine ⟨general, ?_, ?_, ?_, ?_⟩
  · intro α A windows d params
    constructor
    · obtain ⟨pFunc, hf, ha⟩ := max_registered A windows
      exact ((general α A d (GFunctionParser.ctor A windows) "max" [] params [] [] _ rfl).2 1).2
        ⟨pFunc, hf, by rw [ha]; decide, by rw [ha]; decide, by simp⟩
    · obtain ⟨pFunc, hf, ha⟩ := min_registered A windows
      exact ((general α A d (GFunctionParser.ctor A windows) "min" [] params [] [] _ rfl).2 1).2
        ⟨pFunc, hf, by rw [ha]; decide, by rw [ha]; decide, by simp⟩
  · intro α A d params
    simp only [ctor_posix, scenario_bare_max, scenario_bare_max_call, scenario_bare_min_call]
    refine ⟨?_, ?_, ?_⟩ <;> first | rfl | trivial
  · intro α A depth P name pf cs params e cs' P1 hc
    exact eval_call_children_error A depth P P1 name pf cs cs' params e hc
  · intro α A depth P name cs params vals cs' P1 pFunc hd hc hf hck
    exact eval_call_passes A depth P P1 hd name cs cs' params vals pFunc hc hf hck

/-- C6, at an input: in a new parser the node `sin(x, x)` has two children,
which evaluate on `[1]`, and `sin` is registered with one expected parameter;
its evaluation throws "sin expects 1 parameters (trying to call it with 2)". -/
theorem C6_parameter_count_check_witness :
    let E := exactOps noInexact
    let P : GFunctionParser ℚ := GFunctionParser.ctor E false
    evalChildren (fun P c => GFunctionNode.eval E 1 P c [1]) P
        [.GFunctionVariable 0, .GFunctionVariable 0] =
          (.ok [1, 1], [.GFunctionVariable 0, .GFunctionVariable 0], P) ∧
      (GFunctionNode.eval E 2 P
          (.GFunctionCall "sin" none [.GFunctionVariable 0, .GFunctionVariable 0]) [1]).1 =
        .error (.expectsExactly "sin" 1 2) := by
  intro E P
  have hc : evalChildren (fun P c => GFunctionNode.eval E 1 P c [1]) P
      [.GFunctionVariable 0, .GFunctionVariable 0] =
        (.ok [1, 1], [.GFunctionVariable 0, .GFunctionVariable 0], P) := rfl
  refine ⟨hc, ?_⟩
  have hf : ∃ pFunc, P.getFunctionNoThrow "sin" = some pFunc ∧ pFunc.m_expectedParams = 1 ∧
      (0 : Int) ≤ 1 ∧ (([GFunctionNode.GFunctionVariable 0, .GFunctionVariable 0] :
        List (GFunctionNode ℚ)).length : Int) ≠ 1 := by
    simp only [P, ctor_posix]
    exact ⟨_, rfl, rfl, by decide, by decide⟩
  exact (((C6_parameter_count_check.1 ℚ E 1 P "sin"
    [.GFunctionVariable 0, .GFunctionVariable 0] [1] [1, 1]
    [.GFunctionVariable 0, .GFunctionVariable 0] P hc).1 1).2 hf)


/-! ## C9: a name that is not registered, in a tree -/

section UndefinedTree
variable {α : Type} (A : DoubleOps α)

end UndefinedTree

end GClasses
